import Mathlib

/-!
# ScummVM: Parallaction walk planner and HE CUP player

A shallow embedding of `engines/parallaction/walk.cpp` and of
`engines/scumm/he/cup_player_he.cpp` (the codecs, the chunk handlers, `open`
and `play`), with the properties of the specification stated over it.

Conventions of the embedding.

* Bytes are natural numbers below 256, held in lists (input streams) or in
  functions from an index to a byte (buffers addressed through a pointer).
* A C integer variable is an `Int` (or `Nat`) converted to its declared
  width at every assignment whose C type is visible in the sources.
* A read past the end of an input stream, and a loop that runs out of the
  fuel it was given, yield `none`.
-/

set_option autoImplicit false

namespace CUP

/-! ## LZSS decompressor (`CUP_Player::decodeLzssData`) -/

/-- Decoder registers: the bytes written through `dst1` so far, the ring
buffer `dst2`, the ring write position `index`, and the unread parts of the
literal stream `src2` and of the back-reference stream `src3`. -/
structure LzssState where
  out : List Nat
  dst2 : Nat → Nat
  index : Nat
  src2 : List Nat
  src3 : List Nat

/-- The statement `*dst1++ = dst2[index] = v; ++index; index &= 0xFFF;`. -/
def LzssState.emit (s : LzssState) (v : Nat) : LzssState :=
  { s with
    out := s.out ++ [v]
    dst2 := fun i => if i = s.index then v else s.dst2 i
    index := (s.index + 1) &&& 0xFFF }

/-- The loop `while (count--)` of a back-reference: each round emits
`dst2[offs]` and advances `offs` in the ring. -/
def copyRun : Nat → Nat → LzssState → LzssState
  | 0, _, s => s
  | count + 1, offs, s => copyRun count ((offs + 1) &&& 0xFFF) (s.emit (s.dst2 offs))

/-- The loop `for (b = ...; b < 8; ++b)` over one control byte `code`, with
`n` bits left to handle starting at bit `b`.  The boolean of the result is
true when the `return` of the end-of-stream sentinel was taken.
`READ_LE_UINT16` reads the low byte first. -/
def decodeBits (code : Nat) : Nat → Nat → LzssState → Option (Bool × LzssState)
  | 0, _, s => some (false, s)
  | n + 1, b, s =>
    if code &&& (1 <<< b) ≠ 0 then
      match s.src2 with
      | [] => none
      | v :: rest => decodeBits code n (b + 1) ({ s with src2 := rest }.emit v)
    else
      match s.src3 with
      | lo :: hi :: rest =>
        let cmd := lo + 256 * hi
        let count := (cmd >>> 0xC) + 2
        let offs := cmd &&& 0xFFF
        if offs = 0 then some (true, { s with src3 := rest })
        else decodeBits code n (b + 1) (copyRun count offs { s with src3 := rest })
      | _ => none

/-- The loop `while (1)` over the control bytes `src1`. -/
def decodeLoop : List Nat → LzssState → Option LzssState
  | [], _ => none
  | code :: src1, s =>
    match decodeBits code 8 0 s with
    | none => none
    | some (true, s') => some s'
    | some (false, s') => decodeLoop src1 s'

/-- The call `decodeLzssData(dst1, src1, src2, src3, dst2)`: the bytes written
to `dst1`, or `none` when a stream ends before the sentinel is read. -/
def decodeLzssData (src1 src2 src3 : List Nat) (dst2 : Nat → Nat) : Option (List Nat) :=
  (decodeLoop src1 { out := [], dst2 := dst2, index := 1, src2 := src2, src3 := src3 }).map
    LzssState.out

/-- Control bytes of the literal-only reference encoding of `n` bytes, as the
specification words it: one set bit per byte, least significant bit first,
followed by one clear bit. -/
def literalControl : Nat → List Nat
  | n + 8 => 0xFF :: literalControl n
  | n => [2 ^ n - 1]

/-- State after `lits` have been emitted as literals taken from `src2`. -/
def emitAll (s : LzssState) : List Nat → LzssState
  | [] => s
  | v :: lits => emitAll (s.emit v) lits

/-- The bytes emitted by the loop `while (count--)` of a back-reference. -/
def copyBytes : Nat → Nat → LzssState → List Nat
  | 0, _, _ => []
  | count + 1, offs, s =>
    s.dst2 offs :: copyBytes count ((offs + 1) &&& 0xFFF) (s.emit (s.dst2 offs))

/-! ## Delta raster decoder (`CUP_Player::decodeFRAM`)

`Common::Rect` is declared outside the sources at hand: its four fields are
integers here.  The offscreen buffer is a function from the offset of a byte
from its start to the byte; `dst` is such an offset, `data` is the offset of
the read pointer in the bytes of the chunk. -/

structure Rect where
  left : Int
  top : Int
  right : Int
  bottom : Int
deriving DecidableEq

/-- The pointers `dst` and `data` and the contents of the offscreen buffer. -/
structure FramState where
  dst : Int
  data : Nat
  buf : Int → Nat

/-- The call `memset(dst, v, sz)`. -/
def memset (buf : Int → Nat) (dst : Int) (v : Nat) (sz : Int) : Int → Nat :=
  fun i => if dst ≤ i ∧ i < dst + sz then v else buf i

/-- The call `memcpy(dst, data, sz)`, `data` pointing into `bytes`. -/
def memcpy (buf : Int → Nat) (dst : Int) (bytes : List Nat) (data : Nat) (sz : Int) :
    Int → Nat :=
  fun i => if dst ≤ i ∧ i < dst + sz then bytes.getD (data + (i - dst).toNat) 0 else buf i

/-- One round of the loop `while (dst < dstEnd)` of `decodeFRAM` (lines
285-300): one opcode. -/
def framOp (bytes : List Nat) (dstEnd : Int) (s : FramState) : Option FramState :=
  match bytes[s.data]? with
  | none => none
  | some code =>
    if code &&& 1 ≠ 0 then
      some { s with dst := s.dst + ((code >>> 1 : Nat) : Int), data := s.data + 1 }
    else if code &&& 2 ≠ 0 then
      let code := (code >>> 2) + 1
      let sz := min (code : Int) (dstEnd - s.dst)
      match bytes[s.data + 1]? with
      | none => none
      | some v => some { dst := s.dst + sz, data := s.data + 2, buf := memset s.buf s.dst v sz }
    else
      let code := (code >>> 2) + 1
      let sz := min (code : Int) (dstEnd - s.dst)
      if s.data + 1 + sz.toNat ≤ bytes.length then
        some { dst := s.dst + sz, data := s.data + 1 + sz.toNat
               buf := memcpy s.buf s.dst bytes (s.data + 1) sz }
      else none

/-- The loop `while (dst < dstEnd)` of `decodeFRAM`.  Every round reads a
byte, so the loop takes no more rounds than there are bytes. -/
def framRow (bytes : List Nat) (dstEnd : Int) : Nat → FramState → Option FramState
  | 0, _ => none
  | fuel + 1, s =>
    if s.dst < dstEnd then
      match framOp bytes dstEnd s with
      | none => none
      | some s' => framRow bytes dstEnd fuel s'
    else some s

/-- The loop `while (h--)` of `decodeFRAM` for `h` lines of `w` pixels. -/
def framLines (bytes : List Nat) (_width w : Int) : Nat → FramState → Option FramState
  | 0, s => some s
  | h + 1, s =>
    match bytes[s.data]?, bytes[s.data + 1]? with
    | some lo, some hi =>
      let lineSize := lo + 256 * hi
      let data := s.data + 2
      let dstNextLine := s.dst + _width
      let dataNextLine := data + lineSize
      if lineSize ≠ 0 then
        let dstEnd := s.dst + w
        match framRow bytes dstEnd (bytes.length + 1) { s with data := data } with
        | none => none
        | some s' => framLines bytes _width w h { s' with dst := dstNextLine, data := dataNextLine }
      else framLines bytes _width w h { s with dst := dstNextLine, data := dataNextLine }
    | _, _ => none

/-- `decodeFRAM(dst, dstRect, data, type)` on an offscreen buffer `_width`
bytes wide: the buffer after the call.  A negative line count is a loop that
does not end. -/
def decodeFRAM (_width : Int) (dst : Int → Nat) (dstRect : Rect) (bytes : List Nat)
    (data : Nat) (type : Int) : Option (Int → Nat) :=
  if type = 256 then
    let dst0 := dstRect.top * _width + dstRect.left
    let h := dstRect.bottom - dstRect.top + 1
    let w := dstRect.right - dstRect.left + 1
    if h < 0 then none
    else (framLines bytes _width w h.toNat ⟨dst0, data, dst⟩).map FramState.buf
  else some dst

/-! ## Run-length decoder (`CUP_Player::decodeSRLE`) -/

/-- The pointers `dst` and `data`, the count `unpackedSize` of pixels still
to account for, and the contents of the offscreen buffer. -/
structure SrleState where
  dst : Int
  data : Nat
  unpackedSize : Int
  buf : Int → Nat

/-- The statement `*dst = v`. -/
def poke (buf : Int → Nat) (dst : Int) (v : Nat) : Int → Nat :=
  fun i => if i = dst then v else buf i

/-- One round of the loop `while (unpackedSize > 0)` of `decodeSRLE` (lines
323-352): one opcode.  `colorMap i` is the byte `colorMap[i]`. -/
def srleOp (bytes : List Nat) (colorMap : Nat → Nat) (s : SrleState) : Option SrleState :=
  match bytes[s.data]? with
  | none => none
  | some code =>
    if code &&& 1 = 0 then
      if code &&& 2 = 0 then
        let size : Int := (((code >>> 2) + 1 : Nat) : Int)
        some { s with dst := s.dst + size, data := s.data + 1
                      unpackedSize := s.unpackedSize - size }
      else
        if code &&& 4 = 0 then
          some { dst := s.dst + 1, data := s.data + 1, unpackedSize := s.unpackedSize - 1
                 buf := poke s.buf s.dst (colorMap (code >>> 3)) }
        else
          let code := code >>> 3
          if code = 0 then
            match bytes[s.data + 1]?, bytes[s.data + 2]? with
            | some n, some v =>
              let size : Int := ((1 + n : Nat) : Int)
              some { dst := s.dst + size, data := s.data + 3
                     unpackedSize := s.unpackedSize - size
                     buf := memset s.buf s.dst v (min s.unpackedSize size) }
            | _, _ => none
          else
            match bytes[s.data + 1]? with
            | some v =>
              let size : Int := (code : Int)
              some { dst := s.dst + size, data := s.data + 2
                     unpackedSize := s.unpackedSize - size
                     buf := memset s.buf s.dst v (min s.unpackedSize size) }
            | none => none
    else
      let code := code >>> 1
      if code = 0 then
        match bytes[s.data + 1]?, bytes[s.data + 2]? with
        | some lo, some hi =>
          let code : Int := ((1 + (lo + 256 * hi) : Nat) : Int)
          some { s with dst := s.dst + code, data := s.data + 3
                        unpackedSize := s.unpackedSize - code }
        | _, _ => none
      else
        some { s with dst := s.dst + (code : Int), data := s.data + 1
                      unpackedSize := s.unpackedSize - (code : Int) }

/-- The loop `while (unpackedSize > 0)` of `decodeSRLE`. -/
def srleLoop (bytes : List Nat) (colorMap : Nat → Nat) : Nat → SrleState → Option SrleState
  | 0, _ => none
  | fuel + 1, s =>
    if s.unpackedSize > 0 then
      match srleOp bytes colorMap s with
      | none => none
      | some s' => srleLoop bytes colorMap fuel s'
    else some s

/-- `decodeSRLE(dst, colorMap, data, unpackedSize)`: the buffer after the
call, `dst` being the offset 0 of the buffer and `data` an offset in `bytes`.
Every opcode takes at least one pixel off `unpackedSize`, which bounds the
number of rounds. -/
def decodeSRLE (dst : Int → Nat) (colorMap : Nat → Nat) (bytes : List Nat) (data : Nat)
    (unpackedSize : Int) : Option (Int → Nat) :=
  (srleLoop bytes colorMap (unpackedSize.toNat + 1) ⟨0, data, unpackedSize, dst⟩).map
    SrleState.buf

/-! ## Lines of a `FRAM` payload -/

/-- Where the 2-byte size prefix of line `r` stands in `bytes`, the prefix of
line 0 standing at `data`: `decodeFRAM` moves from a prefix to the next one
by 2 plus the line size (`dataNextLine`). -/
def lineData (bytes : List Nat) : Nat → Nat → Option Nat
  | 0, data => some data
  | r + 1, data =>
    match bytes[data]?, bytes[data + 1]? with
    | some lo, some hi => lineData bytes r (data + 2 + (lo + 256 * hi))
    | _, _ => none

/-- The line size `READ_LE_UINT16` reads for line `r`. -/
def lineSize (bytes : List Nat) (data r : Nat) : Option Nat :=
  match lineData bytes r data with
  | none => none
  | some d =>
    match bytes[d]?, bytes[d + 1]? with
    | some lo, some hi => some (lo + 256 * hi)
    | _, _ => none

/-! ## Rounds of `decodeSRLE` -/

/-- The number of opcodes the loop `while (unpackedSize > 0)` of `decodeSRLE`
processes: the rounds run until the loop ends or an opcode reads behind the
end of `bytes`. -/
def srleRounds (bytes : List Nat) (colorMap : Nat → Nat) : Nat → SrleState → Option Nat
  | 0, _ => none
  | fuel + 1, s =>
    if s.unpackedSize > 0 then
      match srleOp bytes colorMap s with
      | none => some 0
      | some s' => (srleRounds bytes colorMap fuel s').map (fun n => n + 1)
    else some 0

/-! ## Ring invariant of `decodeLzssData` -/

/-- The ring invariant: with `n` bytes emitted the write index is
`(1 + n) mod 4096`, and the ring holds the last 4096 of them, the output
byte `k` at the position `(1 + k) mod 4096`. -/
def RingInv (s : LzssState) : Prop :=
  s.index = (1 + s.out.length) % 4096 ∧
    ∀ k, s.out.length ≤ k + 4096 → k < s.out.length →
      s.dst2 ((1 + k) % 4096) = s.out.getD k 0

/-- The ring position `offs` has been written since the start of the call:
it is the position `(1 + k) mod 4096` of an output byte `k`. -/
def written (s : LzssState) (offs : Nat) : Bool :=
  (List.range s.out.length).any (fun k => (1 + k) % 4096 == offs)

/-- Every read `dst2[offs]` of the loop `while (count--)` is of a position
written earlier in the call. -/
def copyRunFresh : Nat → Nat → LzssState → Bool
  | 0, _, _ => true
  | count + 1, offs, s =>
    written s offs && copyRunFresh count ((offs + 1) &&& 0xFFF) (s.emit (s.dst2 offs))

/-- Every back-reference of the bits of one control byte reads only positions
written earlier in the call; the traversal is the one of `decodeBits`. -/
def decodeBitsFresh (code : Nat) : Nat → Nat → LzssState → Bool
  | 0, _, _ => true
  | n + 1, b, s =>
    if code &&& (1 <<< b) ≠ 0 then
      match s.src2 with
      | [] => true
      | v :: rest => decodeBitsFresh code n (b + 1) ({ s with src2 := rest }.emit v)
    else
      match s.src3 with
      | lo :: hi :: rest =>
        let cmd := lo + 256 * hi
        let count := (cmd >>> 0xC) + 2
        let offs := cmd &&& 0xFFF
        if offs = 0 then true
        else copyRunFresh count offs { s with src3 := rest } &&
          decodeBitsFresh code n (b + 1) (copyRun count offs { s with src3 := rest })
      | _ => true

/-- Every back-reference of a call reads only positions written earlier in
the call; the traversal is the one of `decodeLoop`. -/
def decodeLoopFresh : List Nat → LzssState → Bool
  | [], _ => true
  | code :: src1, s =>
    decodeBitsFresh code 8 0 s &&
      match decodeBits code 8 0 s with
      | some (false, s') => decodeLoopFresh src1 s'
      | _ => true

/-- Two runs on the same streams whose rings agree on the positions written
since the start of the call. -/
def RingRel (s1 s2 : LzssState) : Prop :=
  s1.out = s2.out ∧ s1.index = s2.index ∧ s1.src2 = s2.src2 ∧ s1.src3 = s2.src3 ∧
    s1.index = (1 + s1.out.length) % 4096 ∧
    ∀ offs, written s1 offs = true → s1.dst2 offs = s2.dst2 offs

/-! ## Reference encoding of the LZSS format -/

/-- A token of a reference encoding: a literal byte, or a back-reference
`count` bytes long to the byte that stands `dist` places before the end of
the output. -/
inductive Token where
  | lit (v : Nat)
  | ref (dist count : Nat)
deriving DecidableEq

/-- The output after `count` bytes have been copied one by one from `dist`
places before its end; with `dist < count` bytes just copied are copied
again. -/
def copyBack (dist : Nat) : Nat → List Nat → List Nat
  | 0, out => out
  | count + 1, out => copyBack dist count (out ++ [out.getD (out.length - dist) 0])

/-- The bytes that the tokens stand for, written behind the bytes `out`. -/
def expandTokens : List Token → List Nat → List Nat
  | [], out => out
  | Token.lit v :: ts, out => expandTokens ts (out ++ [v])
  | Token.ref dist count :: ts, out => expandTokens ts (copyBack dist count out)

/-- The tokens can be written in the format behind `n` bytes of output: a
back-reference reaches between 1 and 4096 bytes back and not before the start
of the output, its length is between 2 and 17, and the ring position it
starts from, `(1 + n - dist) mod 4096`, is not 0, which the format reads as
the end of the stream. -/
def validTokens : List Token → Nat → Bool
  | [], _ => true
  | Token.lit _ :: ts, n => validTokens ts (n + 1)
  | Token.ref dist count :: ts, n =>
    decide (1 ≤ dist ∧ dist ≤ n ∧ dist ≤ 4096 ∧ 2 ≤ count ∧ count ≤ 17 ∧
      (1 + n - dist) % 4096 ≠ 0) && validTokens ts (n + count)

/-- The control bits of the tokens: set for a literal, clear for a
back-reference, and a last clear bit for the end of the stream. -/
def tokenBits : List Token → List Bool
  | [] => [false]
  | Token.lit _ :: ts => true :: tokenBits ts
  | Token.ref _ _ :: ts => false :: tokenBits ts

/-- The literal stream of the tokens. -/
def tokenLiterals : List Token → List Nat
  | [] => []
  | Token.lit v :: ts => v :: tokenLiterals ts
  | Token.ref _ _ :: ts => tokenLiterals ts

/-- The back-reference stream of the tokens written behind `n` bytes of
output: per back-reference the 16-bit code `(count - 2) << 12 | offs`, low
byte first, `offs` being the ring position `(1 + n - dist) mod 4096`, and the
code 0 for the end of the stream. -/
def tokenCodes : List Token → Nat → List Nat
  | [], _ => [0, 0]
  | Token.lit _ :: ts, n => tokenCodes ts (n + 1)
  | Token.ref dist count :: ts, n =>
    ((count - 2) * 4096 + (1 + n - dist) % 4096) % 256 ::
      ((count - 2) * 4096 + (1 + n - dist) % 4096) / 256 :: tokenCodes ts (n + count)

/-- The control byte of up to 8 control bits, the first bit being bit 0. -/
def packByte (bits : List Bool) : Nat :=
  (if bits.getD 0 false then 1 else 0) + (if bits.getD 1 false then 2 else 0) +
    (if bits.getD 2 false then 4 else 0) + (if bits.getD 3 false then 8 else 0) +
    (if bits.getD 4 false then 16 else 0) + (if bits.getD 5 false then 32 else 0) +
    (if bits.getD 6 false then 64 else 0) + (if bits.getD 7 false then 128 else 0)

/-- The control bytes of a list of control bits, 8 bits to a byte; `fuel`
bounds the number of bytes. -/
def packBits : Nat → List Bool → List Nat
  | 0, _ => []
  | fuel + 1, bits =>
    match bits with
    | [] => []
    | b :: rest => packByte ((b :: rest).take 8) :: packBits fuel ((b :: rest).drop 8)

/-- The control stream of a reference encoding. -/
def encodeControl (ts : List Token) : List Nat :=
  packBits (tokenBits ts).length (tokenBits ts)

/-- The `n` control bits of the byte `code` from bit `b` on, as the decoder
tests them. -/
def bitsFrom (code : Nat) : Nat → Nat → List Bool
  | _, 0 => []
  | b, n + 1 => decide (code &&& (1 <<< b) ≠ 0) :: bitsFrom code (b + 1) n

/-- The control bits of a control stream. -/
def bitsOf : List Nat → List Bool
  | [] => []
  | code :: src1 => bitsFrom code 0 8 ++ bitsOf src1

/-- The rest of a call of `decodeLzssData` from bit `b` of the control byte
`code` on, `n` bits of the byte being left and `src1` standing behind it. -/
def decodeRest (code n b : Nat) (src1 : List Nat) (s : LzssState) : Option LzssState :=
  match decodeBits code n b s with
  | none => none
  | some (true, s') => some s'
  | some (false, s') => decodeLoop src1 s'

end CUP

namespace Parallaction

/-! ## Walk planner (`engines/parallaction/walk.cpp`)

`Point`, `WalkNode`, the zone and the sprite of the character are declared in
headers that are not part of the sources at hand: their coordinate fields are
integers here and the sprite measures are natural numbers.  The locals,
parameters and results of `walk.cpp` are converted to the types written
there (`int16`, `uint16`, `int32`).  `SCREEN_WIDTH` and `SCREEN_HEIGHT` are
constants of such a header too and are fields of `Engine`. -/

/-- Conversion to `int16`. -/
def toInt16 (v : Int) : Int := (v + 32768) % 65536 - 32768

/-- Conversion to `uint16`. -/
def toUint16 (v : Int) : Int := v % 65536

/-- Conversion to `int32`. -/
def toInt32 (v : Int) : Int := (v + 2147483648) % 4294967296 - 2147483648

structure Point where
  _x : Int
  _y : Int
deriving DecidableEq

/-- A waypoint; the `_next` link is the position in a list. -/
structure WalkNode where
  _x : Int
  _y : Int
deriving DecidableEq

/-- What the walk code reads of the engine: the screen constants, the mask
`_buffer` (the byte at `_buffer + i` for every `i`), the character's zone
(`_vm->_char._ani._zone._left`, `_top`) and sprite (`_vm->_char._ani._cnv`),
and the nodes of `_vm->_location._walkNodes`. -/
structure Engine where
  SCREEN_WIDTH : Int
  SCREEN_HEIGHT : Int
  _buffer : Nat → Nat
  _left : Int
  _top : Int
  _width : Nat
  _height : Nat
  _count : Nat
  _walkNodes : List WalkNode

/-- `dotProduct`, with its `int32` result. -/
def dotProduct (p1 p2 : Point) : Int :=
  toInt32 (p1._x * p2._x + p1._y * p2._y)

/-- `queryPath(uint16 x, uint16 y)`. -/
def queryPath (_buffer : Nat → Nat) (x y : Int) : Nat :=
  let x := (toUint16 x).toNat
  let y := (toUint16 y).toNat
  let _al := _buffer (y * 40 + x / 8) % 256
  let _dl := (1 <<< (x % 8)) % 256
  _al &&& _dl

/-- `do { right++; } while ((queryPath(right, to_y) == 0) && (right < SCREEN_WIDTH));` -/
def scanRight (e : Engine) (to_y : Int) : Nat → Int → Option Int
  | 0, _ => none
  | fuel + 1, right =>
    let right := toInt16 (right + 1)
    if queryPath e._buffer right to_y = 0 ∧ right < e.SCREEN_WIDTH then scanRight e to_y fuel right
    else some right

/-- `do { left--; } while ((queryPath(left, to_y) == 0) && (left > 0));` -/
def scanLeft (e : Engine) (to_y : Int) : Nat → Int → Option Int
  | 0, _ => none
  | fuel + 1, left =>
    let left := toInt16 (left - 1)
    if queryPath e._buffer left to_y = 0 ∧ left > 0 then scanLeft e to_y fuel left
    else some left

/-- `do { top--; } while ((queryPath(to_x, top) == 0) && (top > 0));` -/
def scanTop (e : Engine) (to_x : Int) : Nat → Int → Option Int
  | 0, _ => none
  | fuel + 1, top =>
    let top := toInt16 (top - 1)
    if queryPath e._buffer to_x top = 0 ∧ top > 0 then scanTop e to_x fuel top
    else some top

/-- `do { bottom++; } while ((queryPath(to_x, bottom) == 0) && (bottom < SCREEN_HEIGHT));` -/
def scanBottom (e : Engine) (to_x : Int) : Nat → Int → Option Int
  | 0, _ => none
  | fuel + 1, bottom =>
    let bottom := toInt16 (bottom + 1)
    if queryPath e._buffer to_x bottom = 0 ∧ bottom < e.SCREEN_HEIGHT then
      scanBottom e to_x fuel bottom
    else some bottom

/-- The four distances `right`, `left`, `top`, `bottom` of `buildWalkPath`
after lines 65-89. -/
structure Distances where
  right : Int
  left : Int
  top : Int
  bottom : Int
deriving DecidableEq

/-- Lines 65-89: the four scans from the target `(to_x, to_y)` and the
distances taken from them.  An `int16` counter takes at most 65536 values,
which is the fuel of each scan. -/
def scanDistances (e : Engine) (to_x to_y : Int) : Option Distances :=
  match scanRight e to_y 65536 to_x, scanLeft e to_y 65536 to_x,
      scanTop e to_x 65536 to_y, scanBottom e to_x 65536 to_y with
  | some right, some left, some top, some bottom =>
    some
      { right := if right = e.SCREEN_WIDTH then 1000 else toInt16 (right - to_x)
        left := if left = 0 then 1000 else toInt16 (to_x - left)
        top := if top = 0 then 1000 else toInt16 (to_y - top)
        bottom := if bottom = e.SCREEN_HEIGHT then 1000 else toInt16 (bottom - to_y) }
  | _, _, _, _ => none

/-- The working target and `walkData3` after line 112. -/
structure Target where
  to_x : Int
  to_y : Int
  walkData3 : Int
deriving DecidableEq

/-- Lines 91-110: the choice of the direction from the four distances. -/
def moveTarget (e : Engine) (walkData3 to_x to_y : Int) (d : Distances) : Target :=
  let closeX := if d.right ≥ d.left then d.left else d.right
  let closeY := if d.top ≥ d.bottom then d.bottom else d.top
  let close := if closeX ≥ closeY then closeY else closeX
  if close = d.right then
    ⟨toInt16 (to_x + d.right), to_y, if e._count = 20 then 7 else 9⟩
  else if close = d.left then
    ⟨toInt16 (to_x - d.left), to_y, 0⟩
  else if close = d.top then
    ⟨to_x, toInt16 (to_y - d.top), walkData3⟩
  else if close = d.bottom then
    ⟨to_x, toInt16 (to_y + d.bottom), if e._count = 20 then 17 else 21⟩
  else
    ⟨to_x, to_y, walkData3⟩

/-- Lines 57-112 of `buildWalkPath`: the nearest-walkable snap of the click
`(x, y)`; `walkData3` is the value of that static before the call. -/
def snapTarget (e : Engine) (walkData3 x y : Int) : Option Target :=
  let to_x := toInt16 x
  let to_y := toInt16 y
  if queryPath e._buffer to_x to_y = 0 then
    (scanDistances e to_x to_y).map (moveTarget e walkData3 to_x to_y)
  else
    some ⟨to_x, to_y, walkData3⟩

/-- The wording of the specification for one of the four distances: `d` is
the step count to the first walkable cell in a direction, `walk k` telling
whether the cell `k` steps away is walkable and `limit` being the number of
steps to the screen edge; or `d` is 1000 when no cell before the edge is
walkable. -/
def IsDistance (walk : Int → Prop) (limit d : Int) : Prop :=
  (d = 1000 ∧ ∀ k, 0 < k → k < limit → ¬ walk k) ∨
    (0 < d ∧ d < limit ∧ walk d ∧ ∀ k, 0 < k → k < d → ¬ walk k)

/-- The four tests of lines 259-270 (steps into walkable cells). -/
def stepForward (e : Engine) (x y : Int) (foot : Point) : Point :=
  let fx := if foot._x < x ∧ queryPath e._buffer (foot._x + 1) foot._y ≠ 0 then foot._x + 1
    else foot._x
  let fx := if fx > x ∧ queryPath e._buffer (fx - 1) foot._y ≠ 0 then fx - 1 else fx
  let fy := if foot._y < y ∧ queryPath e._buffer fx (foot._y + 1) ≠ 0 then foot._y + 1
    else foot._y
  let fy := if fy > y ∧ queryPath e._buffer fx (fy - 1) ≠ 0 then fy - 1 else fy
  ⟨fx, fy⟩

/-- The four tests of lines 280-291 (steps into unwalkable cells). -/
def stepProbe (e : Engine) (x y : Int) (foot : Point) : Point :=
  let fx := if foot._x < x ∧ queryPath e._buffer (foot._x + 1) foot._y = 0 then foot._x + 1
    else foot._x
  let fx := if fx > x ∧ queryPath e._buffer (fx - 1) foot._y = 0 then fx - 1 else fx
  let fy := if foot._y < y ∧ queryPath e._buffer fx (foot._y + 1) = 0 then foot._y + 1
    else foot._y
  let fy := if fy > y ∧ queryPath e._buffer fx (fy - 1) = 0 then fy - 1 else fy
  ⟨fx, fy⟩

/-- The inner loop of `walkFunc1` (lines 278-298) from `foot` with last
position `v8`: `some false` for `return 0`, `some true` when the loop is left
with the foot on the target. -/
def probeLoop (e : Engine) (x y : Int) : Nat → Point → Point → Option Bool
  | 0, _, _ => none
  | fuel + 1, foot, v8 =>
    if foot._x ≠ x ∨ foot._y ≠ y then
      let foot := stepProbe e x y foot
      if foot._x = v8._x ∧ foot._y = v8._y ∧ (foot._x ≠ x ∨ foot._y ≠ y) then some false
      else probeLoop e x y fuel foot foot
    else some true

/-- Distance in steps between a foot point and the target: no loop of
`walkFunc1` takes more rounds than this plus one. -/
def stepsTo (x y : Int) (foot : Point) : Nat :=
  (x - foot._x).natAbs + (y - foot._y).natAbs

/-- The outer loop of `walkFunc1` (lines 257-309): the `uint16` result and the
contents of `*Node` on return. -/
def walkLoop (e : Engine) (x y : Int) (Node : WalkNode) :
    Nat → Point → Point → Option (Int × WalkNode)
  | 0, _, _ => none
  | fuel + 1, foot, v8 =>
    if foot._x ≠ x ∨ foot._y ≠ y then
      let foot := stepForward e x y foot
      if foot._x = v8._x ∧ foot._y = v8._y ∧ (foot._x ≠ x ∨ foot._y ≠ y) then
        let v4 := foot
        match probeLoop e x y (stepsTo x y foot + 1) foot v8 with
        | none => none
        | some false => some (0, Node)
        | some true =>
          some (toUint16 ((x - v4._x) * (x - v4._x) + (y - v4._y) * (y - v4._y)),
            ⟨v4._x - (e._width : Int) / 2, v4._y - (e._height : Int)⟩)
      else walkLoop e x y Node fuel foot foot
    else some (1, Node)

/-- `walkFunc1(x, y, Node)`: the result and the node left in `*Node`. -/
def walkFunc1 (e : Engine) (x y : Int) (Node : WalkNode) : Option (Int × WalkNode) :=
  let foot : Point := ⟨e._left + (e._width : Int) / 2, e._top + (e._height : Int)⟩
  let v8 : Point := ⟨foot._x, foot._y⟩
  walkLoop e (toInt16 x) (toInt16 y) Node (stepsTo (toInt16 x) (toInt16 y) foot + 1) foot v8

/-- The scan `while (location_node != NULL)` of lines 170-186 over the rest
of the location nodes, from the current `v30` and the node selected so far
(`none` while `_closest_node_found` is 0). -/
def scanNodes (_si _di : Int) (v20 : Point) (v34 : Int) :
    List WalkNode → Int × Option WalkNode → Int × Option WalkNode
  | [], acc => acc
  | location_node :: rest, (v30, _closest_node) =>
    let v2C := dotProduct ⟨location_node._x - _si, location_node._y - _di⟩
      ⟨location_node._x - _si, location_node._y - _di⟩
    let v28 := dotProduct ⟨location_node._x - v20._x, location_node._y - v20._y⟩
      ⟨location_node._x - v20._x, location_node._y - v20._y⟩
    if v2C < v34 ∧ v28 < v30 then scanNodes _si _di v20 v34 rest (v28, some location_node)
    else scanNodes _si _di v20 v34 rest (v30, _closest_node)

/-- Modelled from the spec: `addNode`, which is defined outside the sources
at hand.  `addNode(a, n)` links the node `n` right behind the node `a` of a
list ("Append the chosen node", the list staying "terminated by the final
(target) node").  The list hanging from the head `v58` is a Lean list, and a
node of it is named by its position, 0 naming the head `v58` itself. -/
def addNode (list : List WalkNode) (a : Nat) (n : WalkNode) : List WalkNode :=
  list.take a ++ n :: list.drop a

/-- The loop `while (_closest_node_found != 0)` of lines 162-202: the list
hanging from `v58` and the final `v34`.  `v48` is the position of the node
behind which the next one is added. -/
def stitch (nodes : List WalkNode) (_si _di : Int) :
    Nat → Point → Int → Int → List WalkNode → Nat → Option (List WalkNode × Int)
  | 0, _, _, _, _, _ => none
  | fuel + 1, v20, v30, v34, v58, v48 =>
    match (scanNodes _si _di v20 v34 nodes (v30, none)).2 with
    | none => some (v58, v34)
    | some _closest_node =>
      let _newnode := _closest_node
      let v20 : Point := ⟨_newnode._x, _newnode._y⟩
      let v34 := toInt32 ((_si - v20._x) * (_si - v20._x) + (_di - v20._y) * (_di - v20._y))
      stitch nodes _si _di fuel v20 v34 v34 (addNode v58 v48 _newnode) (v48 + 1)

/-- One round of the loop `do { ... } while (true)` up to line 202, for the
scan target `(_si, _di)` and the list `v58`: `v48 = &v58`, then the loop of
lines 162-202.  No node is selected twice in a round, so the loop takes at
most one round per location node and one more. -/
def stitchFrom (e : Engine) (_si _di : Int) (v58 : List WalkNode) :
    Option (List WalkNode × Int) :=
  let v20 : Point := ⟨e._left, e._top⟩
  let v8 : Point := ⟨_si - e._left, _di - e._top⟩
  let v30 := dotProduct v8 v8
  stitch e._walkNodes _si _di (e._walkNodes.length + 1) v20 v30 v30 v58 0

/-- `buildWalkPath(x, y)`: the list returned. -/
def buildWalkPath (e : Engine) (walkData3 x y : Int) : Option (List WalkNode) :=
  match snapTarget e walkData3 (toUint16 x) (toUint16 y) with
  | none => none
  | some t =>
    let v48 : WalkNode := ⟨t.to_x - (e._width : Int) / 2, t.to_y - (e._height : Int)⟩
    match walkFunc1 e t.to_x t.to_y v48 with
    | none => none
    | some (v38, v44) =>
      if v38 = 1 then some [v48]
      else
        let _si := toInt16 v48._x
        let _di := toInt16 v48._y
        let v58 := addNode [] 0 v48
        match stitchFrom e _si _di v58 with
        | none => none
        | some (v58, v34) =>
          if v38 ≠ 0 ∧ v34 > v38 then some [v44]
          else
            match v58 with
            | [] => none
            | first :: _ =>
              let _si := toInt16 first._x
              let _di := toInt16 first._y
              match stitchFrom e _si _di v58 with
              | none => none
              | some (v58, _) => some v58

/-- What one call of `jobWalk` leaves behind: the zone of the character, the
statics `walkData1` and `walkData2`, the value line 426 gives to `_frame`
when it is reached, `j->_finished`, whether `checkDoor()` was called, and the
nodes of the path that have not been freed.  What `checkDoor` does itself is
not part of it. -/
structure WalkTick where
  _left : Int
  _top : Int
  _oldLeft : Int
  _oldTop : Int
  walkData1 : Int
  walkData2 : Int
  _frame : Option Int
  _finished : Bool
  checkDoor : Bool
  path : List WalkNode
deriving DecidableEq

/-- Lines 394-402 of `jobWalk`: the new `_si`. -/
def stepX (e : Engine) (node : WalkNode) (_si _di : Int) : Int :=
  let _si :=
    if _si < node._x ∧ _si < e.SCREEN_WIDTH ∧
        queryPath e._buffer ((e._width : Int) / 2 + _si + 2) ((e._height : Int) + _di) ≠ 0 then
      toInt16 (if _si + 2 < node._x then _si + 2 else node._x)
    else _si
  if _si > node._x ∧ _si > -20 ∧
      queryPath e._buffer ((e._width : Int) / 2 + _si - 2) ((e._height : Int) + _di) ≠ 0 then
    toInt16 (if _si - 2 > node._x then _si - 2 else node._x)
  else _si

/-- Lines 404-412 of `jobWalk`: the new `_di`, `_si` being the new one. -/
def stepY (e : Engine) (node : WalkNode) (_si _di : Int) : Int :=
  let _di :=
    if _di < node._y ∧ _di < e.SCREEN_HEIGHT - (e._height : Int) ∧
        queryPath e._buffer ((e._width : Int) / 2 + _si) ((e._height : Int) + _di + 2) ≠ 0 then
      toInt16 (if _di + 2 ≤ node._y then _di + 2 else node._y)
    else _di
  if _di > node._y ∧ _di > -20 ∧
      queryPath e._buffer ((e._width : Int) / 2 + _si) ((e._height : Int) + _di - 2) ≠ 0 then
    toInt16 (if _di - 2 ≥ node._y then _di - 2 else node._y)
  else _di

/-- Lines 348-386 of `jobWalk`: the new `walkData1`, the new `walkData2` and
the sub-frame `v16`, for the head node `node`. -/
def walkFrame (e : Engine) (walkData1 : Int) (node : WalkNode) (_si _di : Int) :
    Int × Int × Int :=
  let dist_x := if node._x - e._left < 0 then -(node._x - e._left) else node._x - e._left
  let dist_y := if node._y - e._top < 0 then -(node._y - e._top) else node._y - e._top
  let walkData1 := toUint16 (walkData1 + 1)
  if e._count = 20 then
    if dist_x > dist_y then
      (walkData1 % 12, if node._x > _si then 0 else 7, toInt16 (walkData1 % 12 / 2))
    else
      (walkData1 % 8, if node._y > _di then 14 else 17, toInt16 (walkData1 % 8 / 4))
  else
    if dist_x > dist_y then
      (walkData1 % 16, if node._x > _si then 0 else 9, toInt16 (walkData1 % 16 / 2))
    else
      (walkData1 % 8, if node._y > _di then 18 else 21, toInt16 (walkData1 % 8 / 4))

/-- Lines 348-430 of `jobWalk`, for the head node `node` followed by `next`. -/
def walkStep (e : Engine) (walkData1 : Int) (node : WalkNode) (next : List WalkNode) :
    WalkTick :=
  let _si := toInt16 e._left
  let _di := toInt16 e._top
  let f := walkFrame e walkData1 node _si _di
  let _si' := stepX e node _si _di
  let _di' := stepY e node _si' _di
  if _si' = _si ∧ _di' = _di then
    { _left := _si', _top := _di', _oldLeft := _si, _oldTop := _di
      walkData1 := f.1, walkData2 := f.2.1, _frame := none
      _finished := true, checkDoor := true, path := [] }
  else
    { _left := _si', _top := _di', _oldLeft := _si, _oldTop := _di
      walkData1 := f.1, walkData2 := f.2.1, _frame := some (f.2.2 + f.2.1 + 1)
      _finished := false, checkDoor := false, path := node :: next }

/-- `jobWalk(parm, j)` for the path `node :: next` that `parm` points to. -/
def jobWalk (e : Engine) (walkData1 walkData2 : Int) (node : WalkNode)
    (next : List WalkNode) : WalkTick :=
  let _si := toInt16 e._left
  let _di := toInt16 e._top
  if node._x = _si ∧ node._y = _di then
    match next with
    | [] =>
      { _left := e._left, _top := e._top, _oldLeft := _si, _oldTop := _di
        walkData1 := walkData1, walkData2 := walkData2, _frame := none
        _finished := true, checkDoor := true, path := [] }
    | tmp :: rest => walkStep e walkData1 tmp rest
  else walkStep e walkData1 node next

/-- The node `jobWalk` moves the character toward: the head of the path, or
the one behind it when the head has been reached and is popped. -/
def headNode (e : Engine) (node : WalkNode) (next : List WalkNode) : WalkNode :=
  if node._x = toInt16 e._left ∧ node._y = toInt16 e._top then
    match next with
    | [] => node
    | tmp :: _ => tmp
  else node

/-- `b` lies between `a` and `c`. -/
def Between (a b c : Int) : Prop := (a ≤ b ∧ b ≤ c) ∨ (c ≤ b ∧ b ≤ a)

/-- Squared Euclidean distance between two points of the plane. -/
def sqDist (x1 y1 x2 y2 : Int) : Int :=
  (x1 - x2) * (x1 - x2) + (y1 - y2) * (y1 - y2)

/-- The squared distance from the node `n` to the point `p` as lines 171-177
compute it: the difference stored in `v8`, then `dotProduct(&v8, &v8)`. -/
def sqTo (p : Point) (n : WalkNode) : Int :=
  dotProduct ⟨n._x - p._x, n._y - p._y⟩ ⟨n._x - p._x, n._y - p._y⟩

/-- The top-left anchor of the character standing with its foot on
`(fx, fy)` (lines 118-119 and 300-301). -/
def anchorOf (e : Engine) (fx fy : Int) : WalkNode :=
  ⟨fx - (e._width : Int) / 2, fy - (e._height : Int)⟩

/-- The coordinates of a node are inside the grid bounds. -/
def InGrid (e : Engine) (n : WalkNode) : Prop :=
  0 ≤ n._x ∧ n._x < e.SCREEN_WIDTH ∧ 0 ≤ n._y ∧ n._y < e.SCREEN_HEIGHT

instance (e : Engine) (n : WalkNode) : Decidable (InGrid e n) := by
  unfold InGrid
  infer_instance

/-- A coordinate small enough for the squared distances of lines 160-195 to
fit an `int32` and for the target anchor to fit an `int16`. -/
def Small (v : Int) : Prop := -16384 < v ∧ v < 16384

instance (v : Int) : Decidable (Small v) := by
  unfold Small
  infer_instance

/-! ## Concrete engines used as inputs -/

/-- A 320 x 200 screen whose only walkable cells are `(5, 3)`, `(6, 3)` and
`(5, 4)`; the character stands with its foot on `(5, 4)`. -/
def engineThreeCells : Engine :=
  { SCREEN_WIDTH := 320, SCREEN_HEIGHT := 200
    _buffer := fun i => if i = 120 then 0x60 else if i = 160 then 0x20 else 0
    _left := 3, _top := 0, _width := 4, _height := 4, _count := 20
    _walkNodes := [] }

/-- A 320 x 200 screen whose only walkable cell is `(0, 1)`. -/
def engineColumnZero : Engine :=
  { SCREEN_WIDTH := 320, SCREEN_HEIGHT := 200
    _buffer := fun i => if i = 40 then 1 else 0
    _left := 0, _top := 0, _width := 4, _height := 4, _count := 20
    _walkNodes := [] }

/-- A 320 x 200 screen whose only walkable cells are `(2, 1)`, `(3, 1)` and
`(0, 2)`; the character, 2 wide and 1 high, stands with its foot on
`(3, 1)`, and the location has no path node. -/
def engineLeftEdge : Engine :=
  { SCREEN_WIDTH := 320, SCREEN_HEIGHT := 200
    _buffer := fun i => if i = 40 then 0x0C else if i = 80 then 0x01 else 0
    _left := 2, _top := 0, _width := 2, _height := 1, _count := 20
    _walkNodes := [] }

/-- A 320 x 200 screen whose only walkable cells are `(10, 3)` and `(11, 3)`;
the character, 2 wide and 1 high, stands at `(9, 2)` with its foot on
`(10, 3)`, and the location has no path node. -/
def engineIsland : Engine :=
  { SCREEN_WIDTH := 320, SCREEN_HEIGHT := 200
    _buffer := fun i => if i = 121 then 0x0C else 0
    _left := 9, _top := 2, _width := 2, _height := 1, _count := 20
    _walkNodes := [] }

/-- A 320 x 200 screen whose only walkable cells are `(1, 1)` and `(11, 1)`;
the character, 2 wide and 1 high, stands at `(10, 0)` with its foot on
`(11, 1)`, and the location has the path nodes `(12, 5)` and `(5, 8)`. -/
def engineDetour : Engine :=
  { SCREEN_WIDTH := 320, SCREEN_HEIGHT := 200
    _buffer := fun i => if i = 40 then 0x02 else if i = 41 then 0x08 else 0
    _left := 10, _top := 0, _width := 2, _height := 1, _count := 20
    _walkNodes := [⟨12, 5⟩, ⟨5, 8⟩] }

/-- A 320 x 200 screen where every cell is walkable; the character, 4 wide
and 4 high, stands at `(10, 10)`, and the location has the path node
`(20, 20)`. -/
def engineOpen : Engine :=
  { SCREEN_WIDTH := 320, SCREEN_HEIGHT := 200
    _buffer := fun _ => 0xFF
    _left := 10, _top := 10, _width := 4, _height := 4, _count := 20
    _walkNodes := [⟨20, 20⟩] }

/-- A 320 x 200 screen whose only walkable cells are `(10, 5)` and `(12, 5)`;
the character, 2 wide and 1 high, stands at `(9, 4)` with its foot on
`(10, 5)`. -/
def engineStride : Engine :=
  { SCREEN_WIDTH := 320, SCREEN_HEIGHT := 200
    _buffer := fun i => if i = 201 then 0x14 else 0
    _left := 9, _top := 4, _width := 2, _height := 1, _count := 20
    _walkNodes := [] }

/-! ## Successive ticks of `jobWalk` -/

/-- The length of the polyline from `(x, y)` through the nodes of a path, in
Manhattan distance, plus one per node. -/
def pathSteps : Int → Int → List WalkNode → Nat
  | _, _, [] => 0
  | x, y, n :: r => (n._x - x).natAbs + (n._y - y).natAbs + 1 + pathSteps n._x n._y r

/-- The ticks of one walk job: `jobWalk` runs on the position, the counters
and the path the tick before left, until a tick marks the job finished.  The
result is the number of ticks run. -/
def walkTicks : Nat → Engine → Int → Int → WalkNode → List WalkNode → Option Nat
  | 0, _, _, _, _, _ => none
  | fuel + 1, e, walkData1, walkData2, node, next =>
    if (jobWalk e walkData1 walkData2 node next)._finished then some 1
    else
      match (jobWalk e walkData1 walkData2 node next).path with
      | [] => none
      | n :: r =>
        (walkTicks fuel
          { e with _left := (jobWalk e walkData1 walkData2 node next)._left
                   _top := (jobWalk e walkData1 walkData2 node next)._top }
          (jobWalk e walkData1 walkData2 node next).walkData1
          (jobWalk e walkData1 walkData2 node next).walkData2 n r).map (fun k => k + 1)

/-! ## Rounds of the loops of `walkFunc1` -/

/-- The number of times the body of the inner loop of `walkFunc1` (lines
278-298) runs from `foot` with last position `v8`. -/
def probeRounds (e : Engine) (x y : Int) : Nat → Point → Point → Option Nat
  | 0, _, _ => none
  | fuel + 1, foot, v8 =>
    if foot._x ≠ x ∨ foot._y ≠ y then
      let foot := stepProbe e x y foot
      if foot._x = v8._x ∧ foot._y = v8._y ∧ (foot._x ≠ x ∨ foot._y ≠ y) then some 1
      else (probeRounds e x y fuel foot foot).map (fun n => n + 1)
    else some 0

/-- The number of times the bodies of the two loops of `walkFunc1` (lines
257-309) run from `foot` with last position `v8`. -/
def walkRounds (e : Engine) (x y : Int) : Nat → Point → Point → Option Nat
  | 0, _, _ => none
  | fuel + 1, foot, v8 =>
    if foot._x ≠ x ∨ foot._y ≠ y then
      let foot := stepForward e x y foot
      if foot._x = v8._x ∧ foot._y = v8._y ∧ (foot._x ≠ x ∨ foot._y ≠ y) then
        (probeRounds e x y (stepsTo x y foot + 1) foot v8).map (fun n => n + 1)
      else (walkRounds e x y fuel foot foot).map (fun n => n + 1)
    else some 0

/-- The number of loop rounds of `walkFunc1(x, y, Node)`. -/
def walkFunc1Rounds (e : Engine) (x y : Int) : Option Nat :=
  let foot : Point := ⟨e._left + (e._width : Int) / 2, e._top + (e._height : Int)⟩
  let v8 : Point := ⟨foot._x, foot._y⟩
  walkRounds e (toInt16 x) (toInt16 y) (stepsTo (toInt16 x) (toInt16 y) foot + 1) foot v8

/-! ## Doors and traps (`checkDoor`) -/

/-- A zone as far as `checkDoor` reads it: `_flags`, the command list
`_commands`, and `u.door` with its start position, start frame and
location. -/
structure Zone where
  _flags : Nat
  _commands : Nat
  _startPos : Point
  _startFrame : Int
  _location : Nat
deriving DecidableEq

/-- The calls `checkDoor` makes: `hitZone(kind, x, y)` and
`runCommands(commands, z)`, the latter with the word
`_localFlags[_currentLocationIndex]` as it stands at the call. -/
inductive DoorCall where
  | hitZone (kind : Nat) (x y : Int)
  | runCommands (commands : Nat) (z : Zone) (_localFlags : Nat)
deriving DecidableEq

/-- The constants and the functions declared outside `walk.cpp` that
`checkDoor` uses.  `hitZone` answers for a kind and a point; `runCommands`
may change `_engineFlags` and `_localFlags`. -/
structure Doors where
  kZoneDoor : Nat
  kZoneTrap : Nat
  kFlagsClosed : Nat
  kFlagsEnter : Nat
  kFlagsExit : Nat
  kEngineWalking : Nat
  kEngineChangeLocation : Nat
  hitZone : Nat → Int → Int → Option Zone
  runCommands : Nat → Zone → Nat × (Int → Nat) → Nat × (Int → Nat)

/-- The statics `_doorData1` and `_zoneTrap`, the globals `checkDoor`
writes, and the calls made so far. -/
structure DoorState where
  _doorData1 : Int
  _zoneTrap : Option Zone
  _engineFlags : Nat
  _localFlags : Int → Nat
  _startPosition : Point
  _startFrame : Int
  _name : Nat
  _frame : Int
  trace : List DoorCall

/-- The statement `x &= ~k` on a 32-bit word. -/
def clearBits (x k : Nat) : Nat := x &&& (0xFFFFFFFF ^^^ k)

/-- The call `runCommands(z->_commands, z)`. -/
def DoorState.run (d : Doors) (_currentLocationIndex : Int) (z : Zone) (s : DoorState) :
    DoorState :=
  { s with
    _engineFlags := (d.runCommands z._commands z (s._engineFlags, s._localFlags)).1
    _localFlags := (d.runCommands z._commands z (s._engineFlags, s._localFlags)).2
    trace := s.trace ++ [DoorCall.runCommands z._commands z (s._localFlags _currentLocationIndex)] }

/-- Lines 437-442 of `checkDoor`: the trap is forgotten when the location
changed, and `kEngineWalking` is cleared. -/
def doorReset (d : Doors) (_currentLocationIndex : Int) (s : DoorState) : DoorState :=
  let s :=
    if _currentLocationIndex ≠ s._doorData1 then
      { s with _doorData1 := toUint16 _currentLocationIndex, _zoneTrap := none }
    else s
  { s with _engineFlags := clearBits s._engineFlags d.kEngineWalking }

/-- Lines 443-460 of `checkDoor`: the door under the foot. -/
def doorHit (d : Doors) (e : Engine) (_currentLocationIndex : Int) (s : DoorState) : DoorState :=
  let x := e._left + (e._width : Int) / 2
  let y := e._top + (e._height : Int)
  let s := { s with trace := s.trace ++ [DoorCall.hitZone d.kZoneDoor x y] }
  match d.hitZone d.kZoneDoor x y with
  | some z =>
    if z._flags &&& d.kFlagsClosed = 0 then
      { s with
        _startPosition := ⟨z._startPos._x, z._startPos._y⟩
        _startFrame := z._startFrame
        _name := z._location
        _engineFlags := s._engineFlags ||| d.kEngineChangeLocation
        _zoneTrap := none }
    else s.run d _currentLocationIndex z
  | none => s

/-- Lines 462-474 of `checkDoor`: the trap under the foot, or the trap
left. -/
def trapHit (d : Doors) (e : Engine) (_currentLocationIndex : Int) (s : DoorState) : DoorState :=
  let x := e._left + (e._width : Int) / 2
  let y := e._top + (e._height : Int)
  let s := { s with trace := s.trace ++ [DoorCall.hitZone d.kZoneTrap x y] }
  match d.hitZone d.kZoneTrap x y with
  | some z =>
    let s := { s with _localFlags := fun i =>
      if i = _currentLocationIndex then s._localFlags i ||| d.kFlagsEnter else s._localFlags i }
    let s := s.run d _currentLocationIndex z
    { s with
      _localFlags := fun i =>
        if i = _currentLocationIndex then clearBits (s._localFlags i) d.kFlagsEnter
        else s._localFlags i
      _zoneTrap := some z }
  | none =>
    match s._zoneTrap with
    | some t =>
      let s := { s with _localFlags := fun i =>
        if i = _currentLocationIndex then s._localFlags i ||| d.kFlagsExit else s._localFlags i }
      let s := s.run d _currentLocationIndex t
      { s with
        _localFlags := fun i =>
          if i = _currentLocationIndex then clearBits (s._localFlags i) d.kFlagsExit
          else s._localFlags i
        _zoneTrap := none }
    | none => s

/-- `checkDoor()` at the location `_currentLocationIndex`, `walkData2` being
the static of that name: the `uint16` returned and the state after the
call. -/
def checkDoor (d : Doors) (e : Engine) (_currentLocationIndex walkData2 : Int)
    (s : DoorState) : Int × DoorState :=
  let s := trapHit d e _currentLocationIndex
    (doorHit d e _currentLocationIndex (doorReset d _currentLocationIndex s))
  (toUint16 walkData2, { s with _frame := walkData2 })

/-- Collaborators for examples: the door 1 is open and leads to the location
7, no trap is under the foot, and the commands change nothing. -/
def exampleDoors : Doors :=
  { kZoneDoor := 1, kZoneTrap := 2, kFlagsClosed := 1, kFlagsEnter := 0x10000000
    kFlagsExit := 0x20000000, kEngineWalking := 4, kEngineChangeLocation := 8
    hitZone := fun kind _ _ => if kind = 1 then some ⟨0, 3, ⟨50, 60⟩, 2, 7⟩ else none
    runCommands := fun _ _ g => g }

/-- Collaborators for examples: no door and no trap is under the foot. -/
def exampleNoZone : Doors :=
  { exampleDoors with hitZone := fun _ _ _ => none }

/-- A state in which the trap with the commands 5 is remembered, at the
location 3. -/
def exampleTrapped : DoorState :=
  { _doorData1 := 3, _zoneTrap := some ⟨0, 5, ⟨0, 0⟩, 0, 0⟩, _engineFlags := 4
    _localFlags := fun _ => 0, _startPosition := ⟨0, 0⟩, _startFrame := 0, _name := 0
    _frame := 0, trace := [] }

end Parallaction

namespace CUP

open Parallaction (toInt32)

/-! ## The player (`CUP_Player`)

The class is declared in a header that is not among the sources at hand: its
fields are those the functions use, with the types their uses show.  The
collaborators `_system`, `_mixer` and `_vm` are outside the program: the calls
made to them are recorded in `trace`, in order, and what they answer is given
by a `World`, whose answers are indexed by `calls`, the number of questions
asked so far. A pointer into a block of bytes is the block and an offset. -/

/-- Modelled from the spec: the macro `MKID_BE` is not among the sources; the
specification has tags as 4-byte ASCII fourCCs read big-endian. -/
def MKID_BE (a b c d : Char) : Nat :=
  ((a.toNat * 256 + b.toNat) * 256 + c.toNat) * 256 + d.toNat

/-- Modelled from the spec: the macro `READ_BE_UINT32` is not among the
sources; the integers of chunk headers are big-endian. -/
def READ_BE_UINT32 (bytes : List Nat) (p : Nat) : Option Nat :=
  match bytes[p]?, bytes[p + 1]?, bytes[p + 2]?, bytes[p + 3]? with
  | some a, some b, some c, some d => some (((a * 256 + b) * 256 + c) * 256 + d)
  | _, _, _, _ => none

/-- Modelled from the spec: the macro `READ_LE_UINT16` is not among the
sources; the integers of payload bodies are little-endian. -/
def READ_LE_UINT16 (bytes : List Nat) (p : Nat) : Option Nat :=
  match bytes[p]?, bytes[p + 1]? with
  | some lo, some hi => some (lo + 256 * hi)
  | _, _ => none

/-- Modelled from the spec: the macro `READ_LE_UINT32` is not among the
sources; the integers of payload bodies are little-endian. -/
def READ_LE_UINT32 (bytes : List Nat) (p : Nat) : Option Nat :=
  match bytes[p]?, bytes[p + 1]?, bytes[p + 2]?, bytes[p + 3]? with
  | some a, some b, some c, some d => some (a + 256 * (b + 256 * (c + 256 * d)))
  | _, _, _, _ => none

/-- The conversion `(int16)` of a 16-bit value read from a stream. -/
def int16 (v : Nat) : Int :=
  if v % 65536 < 32768 then ((v % 65536 : Nat) : Int) else ((v % 65536 : Nat) : Int) - 65536

/-- The conversion to `int` of a 32-bit value read from a stream. -/
def int32 (v : Nat) : Int :=
  if v % 4294967296 < 2147483648 then ((v % 4294967296 : Nat) : Int)
  else ((v % 4294967296 : Nat) : Int) - 4294967296

/-- The difference `a - b` of two `uint32` values, in `uint32`. -/
def sub32 (a b : Nat) : Nat :=
  if b ≤ a then a - b else a + 4294967296 - b

/-- Modelled from the spec: the template `CLIP` is not among the sources; the
specification has the value of `RATE` clamped to the interval given. -/
def CLIP (v amin amax : Int) : Int :=
  if v < amin then amin else if v > amax then amax else v

/-- A call made to a collaborator. -/
inductive Event where
  | delayMillis (msecs : Int)
  | setPalette
  | updateScreen
  | parseEvents
  | copyRectToScreen (src pitch x y w h : Int)
  | playRaw (index : Int) (sound size : Nat)
  | malloc (size : Int)
  | warning
deriving DecidableEq

/-- What the collaborators answer to the question number `k`: the clock of
`_system->getMillis()`, a `uint32`, whether `_vm->parseEvents()` sees a request to quit,
and which handles `_mixer->isSoundHandleActive` reports active. -/
structure World where
  getMillis : Nat → Int
  parseEvents : Nat → Bool
  isSoundHandleActive : Nat → Int → Bool

/-- A cue of the sound queue (`CUP_Sfx`). -/
structure CUP_Sfx where
  mode : Nat
  num : Int
  flags : Nat
deriving DecidableEq

/-- The stream `_fd`: its bytes, the read position and the failure flag.
Modelled from the spec: `Common::File` is not among the sources; a read that
passes the end of the file gives zero bytes and raises the flag. -/
structure File where
  bytes : List Nat
  pos : Nat
  ioFailed : Bool
deriving DecidableEq

structure Player where
  _fd : Option File
  _playbackRate : Int
  _width : Int
  _height : Int
  _offscreenBuffer : Int → Nat
  _paletteData : Nat → Nat
  _paletteChanged : Bool
  _sfxCount : Int
  _sfxBuffer : Option (List Nat)
  _sfxHandleTable : Option Int
  _sfxQueue : Nat → CUP_Sfx
  _sfxQueuePos : Nat
  _dataSize : Nat
  /-- The block `_currentChunkData` points into (`none`: a null pointer). -/
  chunk : Option (List Nat)
  /-- The offset of `_currentChunkData` in its block. -/
  _currentChunkData : Nat
  _currentChunkSize : Nat
  _bufferLzssData : List Nat
  _bufferLzssSize : Nat
  _tempLzssBuffer : Nat → Nat
  /-- The flag `_vm->_quit`. -/
  _quit : Bool
  calls : Nat
  trace : List Event

/-- A call to a collaborator that answers nothing. -/
def Player.emit (p : Player) (e : Event) : Player :=
  { p with trace := p.trace ++ [e] }

/-! ### Chunk handlers -/

/-- Lines 416-419. -/
def handleRATE (bytes : List Nat) (data : Nat) (p : Player) : Option Player :=
  match READ_LE_UINT16 bytes data with
  | none => none
  | some v =>
    let rate := int16 v
    some { p with _playbackRate := CLIP rate 1 4000 }

/-- Lines 241-252: 256 entries of three bytes, each followed by a 0. -/
def handleRGBS (bytes : List Nat) (data : Nat) (p : Player) : Option Player :=
  if data + 768 ≤ bytes.length then
    some { p with
      _paletteData := fun j =>
        if j < 1024 then
          if j % 4 = 3 then 0 else bytes.getD (data + 3 * (j / 4) + j % 4) 0
        else p._paletteData j
      _paletteChanged := true }
  else none

/-- Lines 421-430, `ARRAYSIZE(_sfxQueue)` being a constant of the header. -/
def handleSNDE (ARRAYSIZE_sfxQueue : Nat) (bytes : List Nat) (data : Nat) (p : Player) :
    Option Player :=
  if p._sfxQueuePos < ARRAYSIZE_sfxQueue then
    match READ_LE_UINT32 bytes data, READ_LE_UINT16 bytes (data + 4),
      READ_LE_UINT16 bytes (data + 8) with
    | some mode, some num, some flags =>
      some { p with
        _sfxQueue := fun i =>
          if i = p._sfxQueuePos then ⟨mode, int16 num, flags⟩ else p._sfxQueue i
        _sfxQueuePos := p._sfxQueuePos + 1 }
    | _, _, _ => none
  else some p

/-- Lines 132-135, `r.width()` and `r.height()` being `right - left` and
`bottom - top`. -/
def setDirtyScreenRect (r : Rect) (p : Player) : Player :=
  p.emit (Event.copyRectToScreen (r.top * p._width + r.left) p._width r.left r.top
    (r.right - r.left + 1) (r.bottom - r.top + 1))

/-- Four `READ_LE_UINT16` into the fields of a rectangle (lines 262-265 and
311-314). -/
def readRect (bytes : List Nat) (data : Nat) : Option Rect :=
  match READ_LE_UINT16 bytes data, READ_LE_UINT16 bytes (data + 2),
    READ_LE_UINT16 bytes (data + 4), READ_LE_UINT16 bytes (data + 6) with
  | some l, some t, some r, some b => some ⟨l, t, r, b⟩
  | _, _, _, _ => none

/-- Lines 254-271.  A rectangle that is not read is the rectangle of the
default constructor, all zero. -/
def handleFRAM (bytes : List Nat) (data : Nat) (p : Player) : Option Player :=
  match bytes[data]? with
  | none => none
  | some flags =>
    let data := data + 1
    match (if flags &&& 1 ≠ 0 then (bytes[data]?).map (fun (t : Nat) => ((t : Int), data + 1))
      else some (256, data)) with
    | none => none
    | some (type, data) =>
      match (if flags &&& 2 ≠ 0 then (readRect bytes data).map (fun r => (r, data + 8))
        else some (⟨0, 0, 0, 0⟩, data)) with
      | none => none
      | some (r, data) =>
        if flags &&& 0x80 ≠ 0 then
          match decodeFRAM p._width p._offscreenBuffer r bytes data type with
          | none => none
          | some buf => some (setDirtyScreenRect r { p with _offscreenBuffer := buf })
        else some p

/-- Lines 309-319. -/
def handleSRLE (bytes : List Nat) (data : Nat) (p : Player) : Option Player :=
  match readRect bytes data, READ_LE_UINT32 bytes (data + 8 + 32) with
  | some r, some u =>
    let colorMap := fun i => bytes.getD (data + 8 + i) 0
    let unpackedSize := int32 u
    match decodeSRLE p._offscreenBuffer colorMap bytes (data + 8 + 36) unpackedSize with
    | none => none
    | some buf => some (setDirtyScreenRect r { p with _offscreenBuffer := buf })
  | _, _ => none

/-- A field of one byte, or a zero byte followed by a 16-bit value (lines
436-439 and 440-443): the value and the pointer behind it. -/
def readField (bytes : List Nat) (data : Nat) : Option (Nat × Nat) :=
  match bytes[data]? with
  | none => none
  | some b =>
    if b = 0 then (READ_LE_UINT16 bytes (data + 1)).map (fun v => (v, data + 3))
    else some (b, data + 1)

/-- The loop `while (codesCount != 0)` of `handleTOIL`. -/
def toilLoop (bytes : List Nat) : Nat → Nat → Player → Option Player
  | 0, _, p => some p
  | codesCount + 1, data, p =>
    match readField bytes data with
    | none => none
    | some (codeSize, data) =>
      match readField bytes data with
      | none => none
      | some (code, data) =>
        match (if code = 1 then some { p with _quit := true }
          else if code = 7 then (READ_LE_UINT32 bytes data).map (fun _ => p.emit Event.warning)
          else some (p.emit Event.warning)) with
        | none => none
        | some p => toilLoop bytes codesCount (data + codeSize) p

/-- Lines 432-468. -/
def handleTOIL (bytes : List Nat) (data : Nat) (dataSize : Nat) (p : Player) : Option Player :=
  match READ_LE_UINT16 bytes data with
  | none => none
  | some codesCount =>
    if dataSize > 0 then toilLoop bytes codesCount (data + 2) p else some p

/-- Lines 356-386: the bytes decoded into `_bufferLzssData` when that pointer
is returned, `none` for the return of 0. -/
def handleLZSS (bytes : List Nat) (data : Nat) (p : Player) :
    Option (Option (List Nat) × Player) :=
  match READ_BE_UINT32 bytes data, READ_BE_UINT32 bytes (data + 4) with
  | some tag, some size =>
    match (if tag = MKID_BE 'L' 'Z' 'H' 'D' then
        match READ_LE_UINT32 bytes (data + 8), READ_LE_UINT32 bytes (data + 12) with
        | some t, some s => some (t, s)
        | _, _ => none
      else some (0, 0)) with
    | none => none
    | some (compressionType, compressionSize) =>
      let data := data + size
      match READ_BE_UINT32 bytes data, READ_BE_UINT32 bytes (data + 4) with
      | some tag, some _ =>
        if tag = MKID_BE 'D' 'A' 'T' 'A' ∧ compressionType = 0x2000 then
          let p := if p._bufferLzssSize < compressionSize then
              { p with _bufferLzssSize := compressionSize }.emit
                (Event.malloc compressionSize)
            else p
          let data := data + 8
          match READ_LE_UINT32 bytes data, READ_LE_UINT32 bytes (data + 4) with
          | some offset1, some offset2 =>
            match decodeLoop (bytes.drop (data + 8))
              { out := [], dst2 := p._tempLzssBuffer, index := 1
                src2 := bytes.drop (data + offset1), src3 := bytes.drop (data + offset2) } with
            | none => none
            | some s =>
              some (some s.out, { p with _bufferLzssData := s.out, _tempLzssBuffer := s.dst2 })
          | _, _ => none
        else some (none, p)
      | _, _ => none
  | _, _ => none

/-- The `switch` of `parseNextTag` (lines 182-216) for every tag but `LZSS`;
`data` is behind the 8 bytes of the chunk header. -/
def handleTag (ARRAYSIZE_sfxQueue : Nat) (bytes : List Nat) (data tag size : Nat)
    (p : Player) : Option Player :=
  if tag = MKID_BE 'F' 'R' 'A' 'M' then handleFRAM bytes data p
  else if tag = MKID_BE 'R' 'A' 'T' 'E' then handleRATE bytes data p
  else if tag = MKID_BE 'R' 'G' 'B' 'S' then handleRGBS bytes data p
  else if tag = MKID_BE 'S' 'N' 'D' 'E' then handleSNDE ARRAYSIZE_sfxQueue bytes data p
  else if tag = MKID_BE 'T' 'O' 'I' 'L' then handleTOIL bytes data size p
  else if tag = MKID_BE 'B' 'L' 'O' 'K' then some p
  else if tag = MKID_BE 'S' 'R' 'L' 'E' then handleSRLE bytes data p
  else some (p.emit Event.warning)

/-- `parseNextTag(data, tag, size)` (lines 178-217): the tag, the size and the
player after the call.  The chunk wrapped in a `LZSS` chunk is read from the
bytes just decoded; when it is a `LZSS` chunk again the scratch buffer would
be decoded onto itself, which has no result here. -/
def parseNextTag (ARRAYSIZE_sfxQueue : Nat) (bytes : List Nat) (data : Nat) (p : Player) :
    Option (Nat × Nat × Player) :=
  match READ_BE_UINT32 bytes data, READ_BE_UINT32 bytes (data + 4) with
  | some tag, some size =>
    if tag = MKID_BE 'L' 'Z' 'S' 'S' then
      match handleLZSS bytes (data + 8) p with
      | none => none
      | some (none, p) => some (tag, size, p)
      | some (some out, p) =>
        match READ_BE_UINT32 out 0, READ_BE_UINT32 out 4 with
        | some t, some s =>
          if t = MKID_BE 'L' 'Z' 'S' 'S' then none
          else (handleTag ARRAYSIZE_sfxQueue out 8 t s p).map (fun p => (tag, size, p))
        | _, _ => none
    else (handleTag ARRAYSIZE_sfxQueue bytes (data + 8) tag size p).map (fun p => (tag, size, p))
  | _, _ => none

/-! ### The sound queue -/

/-- The scan of lines 150-154 from `index` on: the loop is left at the first
handle that `isSoundHandleActive` reports active, or with `index` at
`_sfxCount`. -/
def scanVoices (isActive : Int → Bool) (_sfxCount : Int) : Nat → Int → Int
  | 0, index => index
  | fuel + 1, index =>
    if index < _sfxCount then
      if isActive index then index else scanVoices isActive _sfxCount fuel (index + 1)
    else index

/-- Lines 149-160: the index of the voice of a cue, `none` for the
`continue` of line 156. -/
def resolveVoice (isActive : Int → Bool) (_sfxCount : Int) (sfx : CUP_Sfx) : Option Int :=
  if sfx.num = -1 then
    let index := scanVoices isActive _sfxCount _sfxCount.toNat 0
    if index = _sfxCount then none else some index
  else some (sfx.num - 1)

/-- One round of the loop of `updateSfx` (lines 147-173) for the cue `sfx`,
`isActive` telling which handles play: the handles that play after the round
and the calls made.  A failed `assert` has no result; a handle passed to
`playRaw` plays from then on. -/
def playCue (_sfxCount : Int) (_sfxBuffer : Option (List Nat)) (isActive : Int → Bool)
    (sfx : CUP_Sfx) : Option ((Int → Bool) × List Event) :=
  match resolveVoice isActive _sfxCount sfx with
  | none => some (isActive, [])
  | some index =>
    if index ≥ 0 ∧ index < _sfxCount then
      if isActive index = false ∨ sfx.mode &&& 2 ≠ 0 then
        if sfx.flags &&& 0x8000 = 0 then some (isActive, [Event.warning])
        else
          match _sfxBuffer with
          | none => none
          | some buf =>
            match READ_LE_UINT32 buf (index.toNat * 4) with
            | none => none
            | some o =>
              let offset := sub32 o 8
              match READ_BE_UINT32 buf offset with
              | none => none
              | some t =>
                if t = MKID_BE 'D' 'A' 'T' 'A' then
                  match READ_BE_UINT32 buf (offset + 4) with
                  | none => none
                  | some soundSize =>
                    some (fun i => decide (i = index) || isActive i,
                      [Event.playRaw index (offset + 8) (sub32 soundSize 8)])
                else some (isActive, [])
      else some (isActive, [])
    else none

/-- The loop `for (i = 0; i < _sfxQueuePos; ++i)` of `updateSfx`, `n` rounds
from the cue `i` on: the calls made. -/
def sfxLoop (_sfxQueue : Nat → CUP_Sfx) (_sfxCount : Int) (_sfxBuffer : Option (List Nat)) :
    Nat → Nat → (Int → Bool) → Option (List Event)
  | 0, _, _ => some []
  | n + 1, i, isActive =>
    match playCue _sfxCount _sfxBuffer isActive (_sfxQueue i) with
    | none => none
    | some (isActive, evs) =>
      (sfxLoop _sfxQueue _sfxCount _sfxBuffer n (i + 1) isActive).map (fun rest => evs ++ rest)

/-- Lines 145-176. -/
def updateSfx (isActive : Int → Bool) (p : Player) : Option Player :=
  (sfxLoop p._sfxQueue p._sfxCount p._sfxBuffer p._sfxQueuePos 0 isActive).map
    (fun evs => { p with trace := p.trace ++ evs, _sfxQueuePos := 0 })

/-! ### Playback -/

/-- Lines 137-143. -/
def updateScreen (p : Player) : Player :=
  (if p._paletteChanged then { p.emit Event.setPalette with _paletteChanged := false }
    else p).emit Event.updateScreen

/-- The delay requested at a `BLOK` chunk (lines 113-119), `fastMode` being
false. -/
def blokDelay (_playbackRate diff : Int) : Int :=
  if diff ≥ 0 ∧ diff ≤ _playbackRate then _playbackRate - diff else 1

/-- The statements `_currentChunkData += size; _currentChunkSize -= size;`,
the second in `uint32`. -/
def advance (size : Nat) (p : Player) : Player :=
  { p with
    _currentChunkData := p._currentChunkData + size
    _currentChunkSize := sub32 p._currentChunkSize size }

/-- Lines 112-126: the body of `if (tag == MKID_BE('BLOK'))`, up to the
assignment of `size`; the result holds the new value of `ticks`. -/
def playBlok (w : World) (ticks : Int) (p : Player) : Option (Int × Player) :=
  let diff := toInt32 (w.getMillis p.calls - ticks)
  let p := { p with calls := p.calls + 1 }.emit
    (Event.delayMillis (blokDelay p._playbackRate diff))
  match updateSfx (w.isSoundHandleActive p.calls) { p with calls := p.calls + 1 } with
  | none => none
  | some p =>
    let p := updateScreen p
    let p := { p.emit Event.parseEvents with
      _quit := p._quit || w.parseEvents p.calls, calls := p.calls + 1 }
    some (toInt32 (w.getMillis p.calls), { p with calls := p.calls + 1 })

/-- One round of the loop of `play` (lines 110-128); a null
`_currentChunkData` has no result. -/
def playBody (w : World) (ARRAYSIZE_sfxQueue : Nat) (ticks : Int) (p : Player) :
    Option (Int × Player) :=
  match p.chunk with
  | none => none
  | some bytes =>
    match parseNextTag ARRAYSIZE_sfxQueue bytes p._currentChunkData p with
    | none => none
    | some (tag, size, p) =>
      if tag = MKID_BE 'B' 'L' 'O' 'K' then
        match playBlok w ticks p with
        | none => none
        | some (ticks, p) => some (ticks, advance 8 p)
      else some (ticks, advance size p)

/-- The loop `while (_currentChunkSize != 0 && !_vm->_quit)` of `play`. -/
def playLoop (w : World) (ARRAYSIZE_sfxQueue : Nat) : Nat → Int → Player → Option Player
  | 0, _, _ => none
  | fuel + 1, ticks, p =>
    if p._currentChunkSize ≠ 0 ∧ p._quit = false then
      match playBody w ARRAYSIZE_sfxQueue ticks p with
      | none => none
      | some (ticks, p) => playLoop w ARRAYSIZE_sfxQueue fuel ticks p
    else some p

/-- Lines 107-130, the loop being given `fuel` rounds. -/
def play (w : World) (ARRAYSIZE_sfxQueue : Nat) (fuel : Nat) (p : Player) : Option Player :=
  playLoop w ARRAYSIZE_sfxQueue fuel (toInt32 (w.getMillis p.calls))
    { p with calls := p.calls + 1 }

/-! ### Opening -/

/-- `_fd.readUint32BE()`: the value read and the stream after the read. -/
def File.readUint32BE (f : File) : Nat × File :=
  (((f.bytes.getD f.pos 0 * 256 + f.bytes.getD (f.pos + 1) 0) * 256 +
      f.bytes.getD (f.pos + 2) 0) * 256 + f.bytes.getD (f.pos + 3) 0,
    { f with pos := min (f.pos + 4) f.bytes.length
             ioFailed := f.ioFailed || decide (f.bytes.length < f.pos + 4) })

/-- `_fd.read(ptr, size)`: the bytes read and the stream after the read. -/
def File.read (f : File) (size : Nat) : List Nat × File :=
  ((f.bytes.drop f.pos).take size,
    { f with pos := min (f.pos + size) f.bytes.length
             ioFailed := f.ioFailed || decide (f.bytes.length < f.pos + size) })

/-- Lines 66-79: the tag of the chunk and the player after the call.  The
block of a chunk holds the bytes read for it; `malloc` does not fail. -/
def loadNextChunk (p : Player) : Option (Nat × Player) :=
  match p._fd with
  | none => none
  | some f =>
    let r1 := f.readUint32BE
    let r2 := r1.2.readUint32BE
    let tag := r1.1
    let size := sub32 r2.1 8
    let p := { p with _fd := some r2.2 }
    let p := if p._currentChunkSize < size then
        { p with _currentChunkSize := 0, chunk := some [], _currentChunkData := 0 }.emit
          (Event.malloc size)
      else p
    match p.chunk with
    | none => some (tag, p)
    | some old =>
      let r3 := r2.2.read size
      some (tag, { p with
        _fd := some r3.2
        _currentChunkSize := size
        chunk := some (old.take p._currentChunkData ++ r3.1) })

/-- Lines 219-223. -/
def handleHEAD (bytes : List Nat) (data : Nat) (p : Player) : Option Player :=
  match READ_LE_UINT16 bytes data, READ_LE_UINT16 bytes (data + 2),
    READ_LE_UINT16 bytes (data + 4) with
  | some rate, some width, some height =>
    some { p with _playbackRate := rate, _width := width, _height := height }
  | _, _, _ => none

/-- Lines 225-239. -/
def handleSFXB (bytes : List Nat) (data : Nat) (dataSize : Nat) (p : Player) : Option Player :=
  if dataSize > 16 then
    match READ_BE_UINT32 bytes data with
    | none => none
    | some t =>
      if t = MKID_BE 'W' 'R' 'A' 'P' then
        let data := data + 8
        match READ_BE_UINT32 bytes data, READ_BE_UINT32 bytes (data + 4) with
        | some t, some n =>
          if t = MKID_BE 'O' 'F' 'F' 'S' then
            let _sfxCount := int32 (sub32 n 8 / 4)
            some ({ p with
              _sfxCount := _sfxCount
              _sfxBuffer := some ((bytes.drop (data + 8)).take (dataSize - 16))
              _sfxHandleTable := some _sfxCount }.emit (Event.malloc ((dataSize - 16 : Nat) : Int)))
          else some p
        | _, _ => none
      else some p
  else some p

/-- The loop of `parseHeaderTags` (lines 83-104).  A handler that is given a
null pointer reads from no bytes. -/
def headerLoop : Nat → Player → Option Player
  | 0, _ => none
  | fuel + 1, p =>
    if p._dataSize = 0 ∧ p._quit = false ∧ (p._fd.map File.ioFailed) ≠ some true then
      match loadNextChunk p with
      | none => none
      | some (tag, p) =>
        let bytes := p.chunk.getD []
        match (if tag = MKID_BE 'H' 'E' 'A' 'D' then handleHEAD bytes p._currentChunkData p
          else if tag = MKID_BE 'S' 'F' 'X' 'B' then
            handleSFXB bytes p._currentChunkData p._currentChunkSize p
          else if tag = MKID_BE 'R' 'G' 'B' 'S' then handleRGBS bytes p._currentChunkData p
          else if tag = MKID_BE 'D' 'A' 'T' 'A' then
            some { p with _dataSize := p._currentChunkSize }
          else some (p.emit Event.warning)) with
        | none => none
        | some p => headerLoop fuel p
    else some p

/-- A bound on the rounds of the loop of `parseHeaderTags`: every round reads
8 bytes of the file or raises the failure flag of the stream, which ends the
loop. -/
def headerRounds (p : Player) : Nat :=
  match p._fd with
  | none => 1
  | some f => if f.ioFailed then 1 else f.bytes.length - f.pos + 2

/-- Lines 81-105. -/
def parseHeaderTags (p : Player) : Option Player :=
  headerLoop (headerRounds p) { p with _dataSize := 0 }

/-- Lines 40-50 of `open`: the fields set before the header is parsed. -/
def openInit (p : Player) : Player :=
  { p with
    _playbackRate := 66
    _width := 640
    _height := 480
    _offscreenBuffer := fun _ => 0
    _paletteChanged := false
    _sfxCount := 0
    _sfxBuffer := none
    _sfxHandleTable := none
    _sfxQueue := fun _ => ⟨0, 0, 0⟩
    _sfxQueuePos := 0 }.emit (Event.malloc (640 * 480))

/-- Lines 33-57: the value returned and the player after the call, `file`
being the bytes of the file named, `none` when `_fd.open` fails. -/
def Player.open (file : Option (List Nat)) (p : Player) : Option (Bool × Player) :=
  match file with
  | none => some (false, p)
  | some bytes =>
    let r1 := File.readUint32BE ⟨bytes, 0, false⟩
    let r2 := r1.2.readUint32BE
    let tag := r1.1
    let p := { p with _fd := some r2.2 }
    if tag = MKID_BE 'B' 'E' 'A' 'N' then
      (parseHeaderTags (openInit p)).map (fun p => (true, p))
    else some (false, p)

/-! ### Notions of the specification and inputs of the examples -/

/-- A step of the life of the sound queue, as the specification has it: a
`SNDE` chunk handled, or a flush by `updateSfx`. -/
inductive SfxOp where
  | snde (bytes : List Nat) (data : Nat)
  | flush (isActive : Int → Bool)

/-- The player after a sequence of `SNDE` chunks and flushes. -/
def runSfx (ARRAYSIZE_sfxQueue : Nat) : List SfxOp → Player → Option Player
  | [], p => some p
  | SfxOp.snde bytes data :: ops, p =>
    (handleSNDE ARRAYSIZE_sfxQueue bytes data p).bind (runSfx ARRAYSIZE_sfxQueue ops)
  | SfxOp.flush isActive :: ops, p =>
    (updateSfx isActive p).bind (runSfx ARRAYSIZE_sfxQueue ops)

/-- The tag of the chunk whose handler a call of `parseNextTag` runs: the tag
at `data`, or for a `LZSS` chunk the tag of the chunk decoded from it (`none`
when `handleLZSS` returns 0 or has no result). -/
def handledTag (bytes : List Nat) (data : Nat) (p : Player) : Option Nat :=
  match READ_BE_UINT32 bytes data with
  | none => none
  | some tag =>
    if tag = MKID_BE 'L' 'Z' 'S' 'S' then
      match handleLZSS bytes (data + 8) p with
      | some (some out, _) => READ_BE_UINT32 out 0
      | _ => none
    else some tag

/-- The events of a kind that only the decoding of chunks produces. -/
def Event.isDecode : Event → Bool
  | Event.copyRectToScreen _ _ _ _ _ _ => true
  | Event.malloc _ => true
  | Event.warning => true
  | _ => false

/-- The events of a kind that only `updateSfx` produces. -/
def Event.isSfx : Event → Bool
  | Event.playRaw _ _ _ => true
  | Event.warning => true
  | _ => false

/-- The player `p'` comes from `p` by the handling of chunks alone: the calls
recorded are those of `p` followed by calls of decoding, the world has been
asked nothing, and the file and the cursor of `play` are where they were. -/
def Decoded (p p' : Player) : Prop :=
  (∃ evs, p'.trace = p.trace ++ evs ∧ ∀ e ∈ evs, e.isDecode = true) ∧
    p'.calls = p.calls ∧ p'.chunk = p.chunk ∧ p'._currentChunkData = p._currentChunkData ∧
    p'._currentChunkSize = p._currentChunkSize ∧ p'._fd = p._fd

/-- The four bytes of a tag. -/
def tagBytes (a b c d : Char) : List Nat := [a.toNat, b.toNat, c.toNat, d.toNat]

/-- The four bytes of a big-endian 32-bit number. -/
def uint32BE (n : Nat) : List Nat :=
  [n / 16777216 % 256, n / 65536 % 256, n / 256 % 256, n % 256]

/-- A player on which nothing has been opened yet. -/
def idlePlayer : Player :=
  { _fd := none, _playbackRate := 0, _width := 0, _height := 0, _offscreenBuffer := fun _ => 0
    _paletteData := fun _ => 0, _paletteChanged := false, _sfxCount := 0, _sfxBuffer := none
    _sfxHandleTable := none, _sfxQueue := fun _ => ⟨0, 0, 0⟩, _sfxQueuePos := 0, _dataSize := 0
    chunk := none, _currentChunkData := 0, _currentChunkSize := 0, _bufferLzssData := []
    _bufferLzssSize := 0, _tempLzssBuffer := fun _ => 0, _quit := false, calls := 0, trace := [] }

/-- A `DATA` payload of two frames: `BLOK`, `RATE` 3000, `BLOK`. -/
def exampleData : List Nat :=
  tagBytes 'B' 'L' 'O' 'K' ++ uint32BE 26 ++ tagBytes 'R' 'A' 'T' 'E' ++ uint32BE 10 ++
    [0xB8, 0x0B] ++ tagBytes 'B' 'L' 'O' 'K' ++ uint32BE 8

/-- A well-formed file: `HEAD` (rate 66, 640 x 480), `RGBS`, and the `DATA`
chunk of `exampleData`. -/
def exampleFile : List Nat :=
  tagBytes 'B' 'E' 'A' 'N' ++ uint32BE 0 ++
    tagBytes 'H' 'E' 'A' 'D' ++ uint32BE 14 ++ [66, 0, 0x80, 0x02, 0xE0, 0x01] ++
    tagBytes 'R' 'G' 'B' 'S' ++ uint32BE 776 ++ List.replicate 768 7 ++
    tagBytes 'D' 'A' 'T' 'A' ++ uint32BE 34 ++ exampleData

/-- A world whose clock advances by 10 from one question to the next, where
nobody asks to quit and no sound plays. -/
def exampleWorld : World :=
  ⟨fun k => 1000 + 10 * k, fun _ => false, fun _ _ => false⟩

/-- The entries that the loop of `handleTOIL` visits from `data` on, `n` of
them, each with its size and its code: `none` when a byte that the loop reads
lies outside `bytes`. -/
def toilEntries (bytes : List Nat) : Nat → Nat → Option (List (Nat × Nat))
  | 0, _ => some []
  | n + 1, data =>
    match readField bytes data with
    | none => none
    | some (codeSize, data) =>
      match readField bytes data with
      | none => none
      | some (code, data) =>
        if code = 7 ∧ READ_LE_UINT32 bytes data = none then none
        else (toilEntries bytes n (data + codeSize)).map (fun es => (codeSize, code) :: es)

/-- A sound blob with one sound: the offset table `[12]` and, at offset 4,
a `DATA` chunk of 10 bytes whose payload is `1, 2`. -/
def exampleSfx : List Nat :=
  [12, 0, 0, 0] ++ tagBytes 'D' 'A' 'T' 'A' ++ uint32BE 10 ++ [1, 2]

/-- A sound blob of one voice whose offset table points at the `DATA` tag
itself: the tag stands at the offset 8 and 4 zero bytes stand before it. -/
def exampleSfxTagAt : List Nat :=
  [8, 0, 0, 0] ++ [0, 0, 0, 0] ++ tagBytes 'D' 'A' 'T' 'A' ++ uint32BE 10 ++ [1, 2]

/-- A `TOIL` payload of two entries: a pause (size 4, code 7, sync 9) and a
quit (size 0 written in three bytes, code 1). -/
def exampleToil : List Nat := [2, 0, 4, 7, 9, 0, 0, 0, 0, 0, 0, 1]

/-! ### The chunks of a `DATA` payload -/

/-- What a round of `play` adds to the cursor for a chunk with the header
`tag`, `size`: the declared size, or 8 for a `BLOK` chunk. -/
def chunkAdvance (tag size : Nat) : Nat :=
  if tag = MKID_BE 'B' 'L' 'O' 'K' then 8 else size

/-- The sum of the cursor advances of the chunks `cs`. -/
def totalAdvance : List (Nat × Nat) → Nat
  | [] => 0
  | c :: cs => chunkAdvance c.1 c.2 + totalAdvance cs

end CUP

/-! # Theorems -/

namespace CUP

/-! ## LZSS: literal runs -/

theorem emitAll_out (lits : List Nat) (s : LzssState) :
    (emitAll s lits).out = s.out ++ lits := by
  induction lits generalizing s with
  | nil => simp [emitAll]
  | cons v lits ih => simp [emitAll, ih, LzssState.emit]

theorem emitAll_src (lits : List Nat) (s : LzssState) :
    (emitAll s lits).src2 = s.src2 ∧ (emitAll s lits).src3 = s.src3 := by
  induction lits generalizing s with
  | nil => simp [emitAll]
  | cons v lits ih => simp [emitAll, ih, LzssState.emit]

/-- Bits `b .. b + k - 1` of `code` set: the bit loop takes `k` literals. -/
theorem decodeBits_literals (code : Nat) (lits : List Nat) :
    ∀ (n b : Nat) (s : LzssState) (rest : List Nat),
      (∀ i, i < lits.length → code &&& (1 <<< (b + i)) ≠ 0) →
      s.src2 = lits ++ rest →
      decodeBits code (lits.length + n) b s =
        decodeBits code n (b + lits.length) (emitAll { s with src2 := rest } lits) := by
  induction lits with
  | nil =>
    intro n b s rest _ hs
    cases s
    simp_all [emitAll]
  | cons v lits ih =>
    intro n b s rest hbits hs
    have h0 : code &&& (1 <<< b) ≠ 0 := by simpa using hbits 0 (by simp)
    have hstep : decodeBits code (lits.length + n + 1) b s =
        decodeBits code (lits.length + n) (b + 1) ({ s with src2 := lits ++ rest }.emit v) := by
      rw [decodeBits]
      simp [h0, hs]
    have hlen : (v :: lits).length + n = lits.length + n + 1 := by simp; omega
    rw [hlen, hstep]
    rw [ih n (b + 1) _ rest (fun i hi => by
      have := hbits (i + 1) (by simpa using hi)
      rwa [show b + 1 + i = b + (i + 1) by omega]) (by simp [LzssState.emit])]
    simp [emitAll, LzssState.emit, Nat.add_assoc, Nat.add_comm 1]

theorem literalControl_bits :
    ∀ r, r < 8 → (∀ i, i < r → (2 ^ r - 1) &&& (1 <<< i) ≠ 0) ∧ (2 ^ r - 1) &&& (1 <<< r) = 0 := by
  decide

theorem full_byte_bits : ∀ i, i < 8 → 0xFF &&& (1 <<< i) ≠ 0 := by
  decide

theorem literalControl_lt (n : Nat) (h : n < 8) : literalControl n = [2 ^ n - 1] := by
  rw [literalControl]
  intro m hm
  omega

/-- The decoding loop on the literal-only encoding, from any state. -/
theorem decodeLoop_literal (lo hi : Nat) (rest3 : List Nat)
    (hcode : (lo + 256 * hi) &&& 0xFFF = 0) :
    ∀ (k : Nat) (B : List Nat) (s : LzssState), B.length ≤ k →
      s.src2 = B → s.src3 = lo :: hi :: rest3 →
      ∃ s', decodeLoop (literalControl B.length) s = some s' ∧ s'.out = s.out ++ B := by
  intro k
  induction k using Nat.strong_induction_on with
  | _ k ih =>
    intro B s hk hs2 hs3
    by_cases hlen : B.length < 8
    · -- last control byte: `B.length` literals, then the sentinel
      have hb := literalControl_bits B.length hlen
      rw [literalControl_lt _ hlen, decodeLoop]
      have h8 : 8 = B.length + (8 - B.length - 1 + 1) := by omega
      have hlit := decodeBits_literals (2 ^ B.length - 1) B (8 - B.length - 1 + 1) 0 s []
        (fun i hi => by simpa using hb.1 i hi) (by simpa using hs2)
      rw [← h8] at hlit
      rw [hlit, decodeBits]
      have hsrc := emitAll_src B { s with src2 := [] }
      simp only [Nat.zero_add, hb.2, ne_eq, not_true_eq_false, if_false]
      rw [hsrc.2]
      simp only [hs3, hcode, if_true]
      exact ⟨_, rfl, by simp [emitAll_out]⟩
    · -- a full control byte: eight literals, then the next byte
      have hsplit : B = B.take 8 ++ B.drop 8 := (List.take_append_drop 8 B).symm
      have htake : (B.take 8).length = 8 := by simp; omega
      have hdrop : (B.drop 8).length + 8 = B.length := by simp; omega
      rw [← hdrop, literalControl, decodeLoop]
      have hlit := decodeBits_literals 0xFF (B.take 8) 0 0 s (B.drop 8)
        (fun i hi => by simpa using full_byte_bits i (by omega)) (by rw [hs2]; exact hsplit)
      rw [htake] at hlit
      rw [hlit, decodeBits]
      simp only []
      obtain ⟨s', hs', hout⟩ := ih (B.length - 8) (by omega) (B.drop 8)
        (emitAll { s with src2 := B.drop 8 } (B.take 8)) (by simp)
        (by simp [emitAll_src]) (by simp [emitAll_src, hs3])
      refine ⟨s', hs', ?_⟩
      rw [hout, emitAll_out]
      simp [List.append_assoc]

/-- The literal-only reference encoding: for every byte sequence `B`, every
initial ring buffer `dst2` and every sentinel code `lo, hi` whose low 12 bits
are zero, decoding the control bytes `literalControl B.length` with literal
stream `B` returns exactly `B`. -/
theorem decodeLzssData_literal (B : List Nat) (dst2 : Nat → Nat) (lo hi : Nat)
    (rest3 : List Nat) (hcode : (lo + 256 * hi) &&& 0xFFF = 0) :
    decodeLzssData (literalControl B.length) B (lo :: hi :: rest3) dst2 = some B := by
  obtain ⟨s', hs', hout⟩ := decodeLoop_literal lo hi rest3 hcode B.length B
    { out := [], dst2 := dst2, index := 1, src2 := B, src3 := lo :: hi :: rest3 }
    (Nat.le_refl _) rfl rfl
  simp [decodeLzssData, hs', hout]

/-- The literal-only encoding of ten bytes, with the sentinel code `0x3000`. -/
theorem decodeLzssData_literal_example :
    (0 + 256 * 0x30) &&& 0xFFF = 0 ∧
    decodeLzssData (literalControl 10) [1, 2, 3, 4, 5, 6, 7, 8, 9, 10] [0, 0x30]
      (fun _ => 0xAB) = some [1, 2, 3, 4, 5, 6, 7, 8, 9, 10] :=
  ⟨by decide, decodeLzssData_literal [1, 2, 3, 4, 5, 6, 7, 8, 9, 10] (fun _ => 0xAB)
    0 0x30 [] (by decide)⟩

/-! ## LZSS: back-references -/

theorem and_fff (x : Nat) : x &&& 0xFFF = x % 4096 :=
  Nat.and_pow_two_sub_one_eq_mod x 12

theorem copyRun_src (count : Nat) : ∀ (offs : Nat) (s : LzssState),
    (copyRun count offs s).src2 = s.src2 ∧ (copyRun count offs s).src3 = s.src3 := by
  induction count with
  | zero => intro offs s; simp [copyRun]
  | succ n ih => intro offs s; rw [copyRun]; simp [ih, LzssState.emit]

theorem copyRun_out (count : Nat) : ∀ (offs : Nat) (s : LzssState),
    (copyRun count offs s).out = s.out ++ copyBytes count offs s := by
  induction count with
  | zero => intro offs s; simp [copyRun, copyBytes]
  | succ n ih => intro offs s; rw [copyRun, copyBytes, ih]; simp [LzssState.emit]

theorem copyBytes_length (count : Nat) : ∀ (offs : Nat) (s : LzssState),
    (copyBytes count offs s).length = count := by
  induction count with
  | zero => intro offs s; simp [copyBytes]
  | succ n ih => intro offs s; rw [copyBytes]; simp [ih]

/-- The `i`-th byte of a back-reference is the ring byte at `(offs + i) mod
4096` as the ring stands after the first `i` copies. -/
theorem copyBytes_get (count : Nat) : ∀ (offs : Nat) (s : LzssState) (i : Nat),
    offs < 4096 → i < count →
    (copyBytes count offs s)[i]? = some ((copyRun i offs s).dst2 ((offs + i) % 4096)) := by
  induction count with
  | zero => intro offs s i _ h; omega
  | succ n ih =>
    intro offs s i ho hi
    rw [copyBytes]
    cases i with
    | zero => simp [copyRun, Nat.mod_eq_of_lt ho]
    | succ j =>
      rw [List.getElem?_cons_succ, and_fff, ih _ _ j (Nat.mod_lt _ (by omega)) (by omega),
        copyRun, and_fff]
      congr 2
      omega

/-- A back-reference into a ring that holds, from `base` on, one period of a
sequence `p` of period `d`, the write index standing `d` places behind
`base`: the bytes copied are the next values of `p`. -/
theorem copyBytes_periodic (base d : Nat) (hd : 1 ≤ d) (hd' : d ≤ 4096) (p : Nat → Nat)
    (hp : ∀ t, p (t + d) = p t) :
    ∀ (count k : Nat) (s : LzssState), s.index = (base + d + k) % 4096 →
      (∀ t, k ≤ t → t < k + d → s.dst2 ((base + t) % 4096) = p t) →
      copyBytes count ((base + k) % 4096) s = (List.range' k count).map p := by
  intro count
  induction count with
  | zero => intro k s _ _; simp [copyBytes]
  | succ n ih =>
    intro k s hidx hring
    rw [copyBytes, List.range'_succ, List.map_cons, hring k (Nat.le_refl k) (by omega), and_fff]
    congr 1
    have hoffs : ((base + k) % 4096 + 1) % 4096 = (base + (k + 1)) % 4096 := by omega
    rw [hoffs]
    apply ih (k + 1)
    · simp only [LzssState.emit, and_fff, hidx]
      omega
    · intro t ht1 ht2
      simp only [LzssState.emit]
      by_cases h : t = k + d
      · have : (base + t) % 4096 = s.index := by rw [hidx, h]; congr 1; omega
        rw [if_pos this, h, hp]
      · have : (base + t) % 4096 ≠ s.index := by rw [hidx]; omega
        rw [if_neg this]
        exact hring t (by omega) (by omega)

theorem emitAll_append (l1 l2 : List Nat) : ∀ (s : LzssState),
    emitAll s (l1 ++ l2) = emitAll (emitAll s l1) l2 := by
  induction l1 with
  | nil => intro s; simp [emitAll]
  | cons v l ih => intro s; simp [emitAll, ih]

/-- After the bytes `l` have been written, the ring holds them from the old
write index on and the write index stands behind them. -/
theorem emitAll_ring (l : List Nat) : ∀ (s : LzssState), s.index < 4096 → l.length ≤ 4096 →
    (emitAll s l).index = (s.index + l.length) % 4096 ∧
      ∀ j, j < l.length → (emitAll s l).dst2 ((s.index + j) % 4096) = l.getD j 0 := by
  induction l using List.reverseRecOn with
  | nil => intro s hs _; simp [emitAll, Nat.mod_eq_of_lt hs]
  | append_singleton l v ih =>
    intro s hs hl
    rw [List.length_append, List.length_singleton] at hl
    obtain ⟨h1, h2⟩ := ih s hs (by omega)
    rw [emitAll_append]
    simp only [emitAll, LzssState.emit, and_fff, h1, List.length_append, List.length_singleton]
    refine ⟨by omega, ?_⟩
    intro j hj
    by_cases h : j = l.length
    · subst h
      simp
    · have hne : (s.index + j) % 4096 ≠ (s.index + l.length) % 4096 := by omega
      rw [if_neg hne, h2 j (by omega)]
      simp [List.getD_eq_getElem?_getD, List.getElem?_append_left (show j < l.length by omega)]

theorem decodeBits_set (code n b : Nat) (s : LzssState) (v : Nat) (rest2 : List Nat)
    (hbit : code &&& (1 <<< b) ≠ 0) (hsrc : s.src2 = v :: rest2) :
    decodeBits code (n + 1) b s = decodeBits code n (b + 1) ({ s with src2 := rest2 }.emit v) := by
  rw [decodeBits]
  simp [hbit, hsrc]

theorem decodeBits_clear (code n b : Nat) (s : LzssState) (lo hi : Nat) (rest : List Nat)
    (hbit : code &&& (1 <<< b) = 0) (hsrc : s.src3 = lo :: hi :: rest) :
    decodeBits code (n + 1) b s =
      if (lo + 256 * hi) &&& 0xFFF = 0 then some (true, { s with src3 := rest })
      else decodeBits code n (b + 1)
        (copyRun (((lo + 256 * hi) >>> 0xC) + 2) ((lo + 256 * hi) &&& 0xFFF)
          { s with src3 := rest }) := by
  rw [decodeBits]
  simp [hbit, hsrc]

/-- C16. One control bit of `decodeLzssData`.  Bit clear: one code
`c = lo + 256 * hi` is read from the back-reference stream and, when its low
12 bits `o` are not 0, exactly `(c >> 12) + 2` bytes, between 2 and 17, are
appended, the `i`-th being the ring byte at `(o + i) mod 4096` as the ring
stands after the `i` copies before it; no literal byte is consumed.  Bit set:
exactly the next literal byte is appended and no code is consumed.  The bits
of a control byte are handled from bit 0 upwards. -/
theorem decodeBits_one_bit (code n b : Nat) (s : LzssState) (lo hi v : Nat)
    (rest rest2 : List Nat) (hlo : lo < 256) (hhi : hi < 256)
    (hsrc3 : s.src3 = lo :: hi :: rest) (hsrc2 : s.src2 = v :: rest2) :
    (code &&& (1 <<< b) = 0 → (lo + 256 * hi) &&& 0xFFF ≠ 0 →
        ∃ s' copied, decodeBits code (n + 1) b s = decodeBits code n (b + 1) s' ∧
          s'.out = s.out ++ copied ∧
          copied.length = ((lo + 256 * hi) >>> 12) + 2 ∧
          2 ≤ copied.length ∧ copied.length ≤ 17 ∧
          (∀ i, i < copied.length → copied[i]? =
            some ((copyRun i ((lo + 256 * hi) &&& 0xFFF) { s with src3 := rest }).dst2
              ((((lo + 256 * hi) &&& 0xFFF) + i) % 4096))) ∧
          s'.src2 = s.src2 ∧ s'.src3 = rest) ∧
      (code &&& (1 <<< b) ≠ 0 →
        ∃ s', decodeBits code (n + 1) b s = decodeBits code n (b + 1) s' ∧
          s'.out = s.out ++ [v] ∧ s'.src2 = rest2 ∧ s'.src3 = s.src3) ∧
      (∀ src1, decodeLoop (code :: src1) s =
        match decodeBits code 8 0 s with
        | none => none
        | some (true, s') => some s'
        | some (false, s') => decodeLoop src1 s') := by
  refine ⟨?_, ?_, ?_⟩
  · intro hbit hoff
    refine ⟨copyRun (((lo + 256 * hi) >>> 0xC) + 2) ((lo + 256 * hi) &&& 0xFFF)
        { s with src3 := rest },
      copyBytes (((lo + 256 * hi) >>> 12) + 2) ((lo + 256 * hi) &&& 0xFFF)
        { s with src3 := rest }, ?_, ?_, ?_, ?_, ?_, ?_, ?_, ?_⟩
    · rw [decodeBits_clear code n b s lo hi rest hbit hsrc3, if_neg hoff]
    · rw [copyRun_out]
    · rw [copyBytes_length]
    · rw [copyBytes_length]; omega
    · rw [copyBytes_length]
      have : (lo + 256 * hi) >>> 12 ≤ 15 := by
        rw [Nat.shiftRight_eq_div_pow]
        omega
      omega
    · intro i hi'
      rw [copyBytes_length] at hi'
      exact copyBytes_get _ _ _ i (by rw [and_fff]; omega) hi'
    · exact (copyRun_src _ _ _).1
    · exact (copyRun_src _ _ _).2
  · intro hbit
    refine ⟨_, decodeBits_set code n b s v rest2 hbit hsrc2, ?_, ?_, ?_⟩ <;>
      simp [LzssState.emit]
  · intro src1
    cases h : decodeBits code 8 0 s with
    | none => simp [decodeLoop, h]
    | some r =>
      obtain ⟨fin, s'⟩ := r
      cases fin <;> simp [decodeLoop, h]

/-- C16 at a concrete input: control byte `0x01`, literal 7, then the code
`0x3001` (offset 1, count 5). -/
theorem decodeBits_one_bit_witness :
    (∃ s', decodeBits 0x01 8 0 ⟨[], fun _ => 0, 1, [7], [0x01, 0x30]⟩ =
        decodeBits 0x01 7 1 s' ∧
        s'.out = [] ++ [7] ∧ s'.src2 = [] ∧ s'.src3 = [0x01, 0x30]) ∧
      decodeLzssData [0x01, 0x00] [7] [0x01, 0x30, 0x00, 0x00] (fun _ => 0) =
        some [7, 7, 7, 7, 7, 7] :=
  ⟨(decodeBits_one_bit 0x01 7 0 ⟨[], fun _ => 0, 1, [7], [0x01, 0x30]⟩ 0x01 0x30 7 [] []
    (by decide) (by decide) rfl rfl).2.1 (by decide), by decide⟩

/-- A back-reference to the first of the `d` bytes `w` that the ring holds
right before the write index emits `w[i mod d]` as its `i`-th byte. -/
theorem copyRun_window (w : List Nat) (count : Nat) (hw1 : 1 ≤ w.length)
    (hw2 : w.length ≤ 4096) (s0 : LzssState) (base : Nat) (hb : base < 4096)
    (hi : s0.index = (base + w.length) % 4096)
    (hr : ∀ j, j < w.length → s0.dst2 ((base + j) % 4096) = w.getD j 0) :
    (copyRun count base s0).out =
      s0.out ++ (List.range count).map (fun i => w.getD (i % w.length) 0) := by
  have hper : ∀ t, (fun i => w.getD (i % w.length) 0) (t + w.length) =
      (fun i => w.getD (i % w.length) 0) t := by
    intro t
    simp only [Nat.add_mod_right]
  rw [copyRun_out]
  have := copyBytes_periodic base w.length hw1 hw2 (fun i => w.getD (i % w.length) 0) hper
    count 0 s0 (by simpa using hi)
    (by
      intro t _ ht
      rw [hr t (by omega)]
      simp only [Nat.mod_eq_of_lt (show t < w.length by omega)])
  simp only [Nat.add_zero, Nat.mod_eq_of_lt hb] at this
  rw [this, List.range_eq_range']

theorem copyRun_after_emitAll (w : List Nat) (count : Nat) (hw1 : 1 ≤ w.length)
    (hw2 : w.length ≤ 4096) (s : LzssState) (hidx : s.index < 4096) :
    (copyRun count s.index (emitAll s w)).out =
      s.out ++ w ++ (List.range count).map (fun i => w.getD (i % w.length) 0) := by
  obtain ⟨h1, h2⟩ := emitAll_ring w s hidx hw2
  rw [copyRun_window w count hw1 hw2 (emitAll s w) s.index hidx h1 h2, emitAll_out]

/-- C17. Overlapping copies are made byte by byte.  When the ring holds the
`d` bytes `w` right before the write index (`1 ≤ d ≤ 4096`), a
back-reference to the first of them emits `w` again and again: its `i`-th
byte is `w[i mod d]`, for every count, also above `d`.  Such is the ring
after the bytes `w` have been written, so that a back-reference at distance
`d` repeats the last `d` output bytes; at distance 1 it emits `count` copies
of the last byte written. -/
theorem copyRun_overlap (s : LzssState) (w : List Nat) (count : Nat)
    (hidx : s.index < 4096) (hw1 : 1 ≤ w.length) (hw2 : w.length ≤ 4096) :
    ((∀ j, j < w.length → s.dst2 ((s.index + 4096 - w.length + j) % 4096) = w.getD j 0) →
        (copyRun count ((s.index + 4096 - w.length) % 4096) s).out =
          s.out ++ (List.range count).map (fun i => w.getD (i % w.length) 0)) ∧
      (copyRun count s.index (emitAll s w)).out =
        s.out ++ w ++ (List.range count).map (fun i => w.getD (i % w.length) 0) ∧
      (∀ v, (copyRun count s.index (s.emit v)).out = s.out ++ [v] ++ List.replicate count v) := by
  refine ⟨?_, copyRun_after_emitAll w count hw1 hw2 s hidx, ?_⟩
  · intro hring
    apply copyRun_window w count hw1 hw2 s _ (Nat.mod_lt _ (by omega))
    · omega
    · intro j hj
      rw [← hring j hj]
      congr 1
      omega
  · intro v
    have h := copyRun_after_emitAll [v] count (by simp) (by simp) s hidx
    simp only [emitAll, List.length_singleton, Nat.mod_one, List.getD_cons_zero] at h
    rw [h]
    congr 1
    exact List.map_const' _ _ |>.trans (by simp)

/-- C17 at a concrete input: after the literals 1, 2, 3 a back-reference at
distance 3 with count 8 gives 1, 2, 3, 1, 2, 3, 1, 2. -/
theorem copyRun_overlap_witness :
    (copyRun 8 1 (emitAll ⟨[], fun _ => 0, 1, [], []⟩ [1, 2, 3])).out =
        [] ++ [1, 2, 3] ++ (List.range 8).map (fun i => [1, 2, 3].getD (i % 3) 0) ∧
      decodeLzssData [0x07, 0x00] [1, 2, 3] [0x01, 0x60, 0x00, 0x00] (fun _ => 0) =
        some [1, 2, 3, 1, 2, 3, 1, 2, 3, 1, 2] :=
  ⟨(copyRun_overlap ⟨[], fun _ => 0, 1, [], []⟩ [1, 2, 3] 8 (by decide) (by decide)
    (by decide)).2.1, by decide⟩

/-- The bit loop over `k + m` bits is the loop over the first `k` bits
followed, unless the sentinel was met, by the loop over the other `m`. -/
theorem decodeBits_add (code : Nat) (k m : Nat) : ∀ (b : Nat) (s : LzssState),
    decodeBits code (k + m) b s =
      match decodeBits code k b s with
      | none => none
      | some (true, s1) => some (true, s1)
      | some (false, s1) => decodeBits code m (b + k) s1 := by
  induction k with
  | zero => intro b s; simp [decodeBits]
  | succ k ih =>
    intro b s
    rw [show k + 1 + m = (k + m) + 1 by omega, decodeBits, decodeBits]
    have hb : b + (k + 1) = b + 1 + k := by omega
    split_ifs with h
    · cases s.src2 with
      | nil => rfl
      | cons v rest => simp only []; rw [ih, hb]
    · match s.src3 with
      | [] => rfl
      | [_] => rfl
      | lo :: hi :: rest =>
        simp only []
        split_ifs
        · rfl
        · rw [ih, hb]

/-- The bit loop reads only the bits it is run over. -/
theorem decodeBits_congr (code code' : Nat) (n : Nat) : ∀ (b : Nat) (s : LzssState),
    (∀ i, b ≤ i → i < b + n → (code' &&& (1 <<< i) ≠ 0 ↔ code &&& (1 <<< i) ≠ 0)) →
    decodeBits code' n b s = decodeBits code n b s := by
  induction n with
  | zero => intro b s _; simp [decodeBits]
  | succ n ih =>
    intro b s h
    have hb := h b (Nat.le_refl b) (by omega)
    have hrest : ∀ i, b + 1 ≤ i → i < b + 1 + n →
        (code' &&& (1 <<< i) ≠ 0 ↔ code &&& (1 <<< i) ≠ 0) :=
      fun i h1 h2 => h i (by omega) (by omega)
    rw [decodeBits, decodeBits]
    by_cases hc : code &&& (1 <<< b) ≠ 0
    · rw [if_pos hc, if_pos (hb.2 hc)]
      cases s.src2 with
      | nil => rfl
      | cons v rest => simp only []; rw [ih _ _ hrest]
    · rw [if_neg hc, if_neg (fun h' => hc (hb.1 h'))]
      match s.src3 with
      | [] => rfl
      | [_] => rfl
      | lo :: hi :: rest =>
        simp only []
        split_ifs
        · rfl
        · rw [ih _ _ hrest]

/-- What the bit loop consumes of the back-reference stream: when it ends on
the sentinel, the last code consumed has its low 12 bits at 0. -/
theorem decodeBits_src3 (code : Nat) (n : Nat) : ∀ (b : Nat) (s s' : LzssState) (fin : Bool),
    decodeBits code n b s = some (fin, s') →
    (fin = false → ∃ pre, s.src3 = pre ++ s'.src3) ∧
      (fin = true → ∃ pre lo hi, s.src3 = pre ++ lo :: hi :: s'.src3 ∧
        (lo + 256 * hi) &&& 0xFFF = 0) := by
  induction n with
  | zero =>
    intro b s s' fin h
    simp only [decodeBits, Option.some.injEq, Prod.mk.injEq] at h
    obtain ⟨rfl, rfl⟩ := h
    exact ⟨fun _ => ⟨[], rfl⟩, fun h => by simp at h⟩
  | succ n ih =>
    intro b s s' fin h
    rw [decodeBits] at h
    split_ifs at h with hc
    · match hs : s.src2 with
      | [] => rw [hs] at h; simp at h
      | v :: rest =>
        rw [hs] at h
        simp only [] at h
        have := ih _ _ _ _ h
        simpa [LzssState.emit] using this
    · match hs : s.src3 with
      | [] => rw [hs] at h; simp at h
      | [_] => rw [hs] at h; simp at h
      | lo :: hi :: rest =>
        rw [hs] at h
        simp only [] at h
        split_ifs at h with hoff
        · simp only [Option.some.injEq, Prod.mk.injEq] at h
          obtain ⟨rfl, rfl⟩ := h
          exact ⟨fun h => by simp at h, fun _ => ⟨[], lo, hi, rfl, hoff⟩⟩
        · obtain ⟨h1, h2⟩ := ih _ _ _ _ h
          rw [(copyRun_src _ _ _).2] at h1 h2
          constructor
          · intro hf
            obtain ⟨pre, hp⟩ := h1 hf
            exact ⟨lo :: hi :: pre, by simpa using hp⟩
          · intro hf
            obtain ⟨pre, lo', hi', hp, hz⟩ := h2 hf
            exact ⟨lo :: hi :: pre, lo', hi', by simpa using hp, hz⟩

/-- The decoding loop returns only through the sentinel. -/
theorem decodeLoop_src3 (src1 : List Nat) : ∀ (s s' : LzssState),
    decodeLoop src1 s = some s' →
    ∃ pre lo hi, s.src3 = pre ++ lo :: hi :: s'.src3 ∧ (lo + 256 * hi) &&& 0xFFF = 0 := by
  induction src1 with
  | nil => intro s s' h; simp [decodeLoop] at h
  | cons code src1 ih =>
    intro s s' h
    rw [decodeLoop] at h
    match hd : decodeBits code 8 0 s with
    | none => rw [hd] at h; simp at h
    | some (true, s1) =>
      rw [hd] at h
      simp only [Option.some.injEq] at h
      subst h
      exact (decodeBits_src3 code 8 0 s s1 true hd).2 rfl
    | some (false, s1) =>
      rw [hd] at h
      simp only [] at h
      obtain ⟨pre1, hp1⟩ := (decodeBits_src3 code 8 0 s s1 false hd).1 rfl
      obtain ⟨pre, lo, hi, hp, hz⟩ := ih s1 s' h
      exact ⟨pre1 ++ pre, lo, hi, by rw [hp1, hp]; simp, hz⟩

/-- C18. When the code read for a clear control bit `b` has its low 12 bits
at 0, decoding stops there, whatever its top nibble: the output is the output
`s1.out` produced before that code, whatever the bits above `b` of the
control byte, the control bytes that follow and the rest of the streams.
Decoding returns in no other way: whenever `decodeLzssData` returns, a code
with low 12 bits 0 was read from the back-reference stream. -/
theorem decodeLoop_sentinel (code b : Nat) (s s1 : LzssState) (lo hi : Nat) (rest : List Nat)
    (hb : b < 8) (hrun : decodeBits code b 0 s = some (false, s1))
    (hbit : code &&& (1 <<< b) = 0) (hsrc : s1.src3 = lo :: hi :: rest)
    (hoff : (lo + 256 * hi) &&& 0xFFF = 0) :
    (∀ code' src1, (∀ i, i ≤ b → (code' &&& (1 <<< i) ≠ 0 ↔ code &&& (1 <<< i) ≠ 0)) →
        ∃ s', decodeLoop (code' :: src1) s = some s' ∧ s'.out = s1.out ∧ s'.src3 = rest) ∧
      (∀ src1 src2 src3 dst2 out, decodeLzssData src1 src2 src3 dst2 = some out →
        ∃ pre lo' hi' post, src3 = pre ++ lo' :: hi' :: post ∧
          (lo' + 256 * hi') &&& 0xFFF = 0) := by
  constructor
  · intro code' src1 hagree
    have h1 : decodeBits code' b 0 s = some (false, s1) := by
      rw [decodeBits_congr code code' b 0 s (fun i _ hi' => hagree i (by omega))]
      exact hrun
    have hbit' : code' &&& (1 <<< b) = 0 := by
      by_contra hne
      exact ((hagree b (Nat.le_refl b)).1 hne) hbit
    have h2 : decodeBits code' 8 0 s = some (true, { s1 with src3 := rest }) := by
      rw [show 8 = b + ((7 - b) + 1) by omega, decodeBits_add, h1]
      simp only [Nat.zero_add]
      rw [decodeBits_clear code' (7 - b) b s1 lo hi rest hbit' hsrc, if_pos hoff]
    exact ⟨{ s1 with src3 := rest }, by simp [decodeLoop, h2], rfl, rfl⟩
  · intro src1 src2 src3 dst2 out h
    unfold decodeLzssData at h
    rw [Option.map_eq_some'] at h
    obtain ⟨s', hs', _⟩ := h
    obtain ⟨pre, lo', hi', hp, hz⟩ := decodeLoop_src3 src1 _ s' hs'
    exact ⟨pre, lo', hi', s'.src3, hp, hz⟩

/-- C18 at a concrete input: the control byte `0x05` (a literal, then the
sentinel `0x7000` at bit 1) and the control byte `0xFD`, which has the same
bits 0 and 1, both give the literal 9 as the whole output. -/
theorem decodeLoop_sentinel_witness :
    (∃ s', decodeLoop (0xFD :: [0xFF, 0xFF]) ⟨[], fun _ => 0, 1, [9, 8], [0x00, 0x70, 5]⟩ =
        some s' ∧ s'.out = [9] ∧ s'.src3 = [5]) ∧
      decodeLzssData [0x05] [9, 8] [0x00, 0x70, 5] (fun _ => 0) = some [9] :=
  ⟨(decodeLoop_sentinel 0x05 1 ⟨[], fun _ => 0, 1, [9, 8], [0x00, 0x70, 5]⟩
      ⟨[9], fun i => if i = 1 then 9 else 0, 2, [8], [0x00, 0x70, 5]⟩ 0x00 0x70 [5]
      (by decide) (by simp [decodeBits, LzssState.emit, and_fff]) (by decide) rfl (by decide)).1 0xFD
      [0xFF, 0xFF] (by decide),
    by decide⟩

/-! ## Delta raster decoder -/

theorem framRow_step (bytes : List Nat) (dstEnd : Int) (fuel : Nat) (s s' : FramState)
    (hdst : s.dst < dstEnd) (hop : framOp bytes dstEnd s = some s') :
    framRow bytes dstEnd (fuel + 1) s = framRow bytes dstEnd fuel s' := by
  rw [framRow, if_pos hdst, hop]

theorem framRow_done (bytes : List Nat) (dstEnd : Int) (fuel : Nat) (s : FramState)
    (hdst : ¬ s.dst < dstEnd) :
    framRow bytes dstEnd (fuel + 1) s = some s := by
  rw [framRow, if_neg hdst]

/-- C20 fails as stated: in a row that ends at offset 8, the skip opcode 15
(upper bits 7) at offset 7 moves the cursor by 7, not by 8, and to offset 14,
past the end of the row; the skip opcode 1 (upper bits 0) does not move it. -/
theorem framOp_skip_counterexample :
    (framOp [15] 8 ⟨7, 0, fun _ => 0⟩).map FramState.dst = some 14 ∧
      ¬ ((14 : Int) ≤ 8) ∧
      (framOp [1] 8 ⟨7, 0, fun _ => 0⟩).map FramState.dst = some 7 := by
  decide

/-- C20, amended. One opcode `code` of `decodeFRAM` (type 256) read while the
cursor `dst` is before the end `dstEnd` of the row.  Skip (bit 0 set): the
cursor moves by `code >> 1`, without bias and without clamp, and nothing is
written.  Fill (bit 0 clear, bit 1 set) and copy (both clear): the run length
is `(code >> 2) + 1` clamped to `dstEnd - dst`; the cursor moves by it,
forward and not past `dstEnd`, and the run is written with the next byte
(fill) or with the next bytes of the data (copy). -/
theorem framOp_runs (bytes : List Nat) (dstEnd : Int) (s : FramState) (code : Nat)
    (hdst : s.dst < dstEnd) (hcode : bytes[s.data]? = some code) :
    (code &&& 1 ≠ 0 →
        ∃ s', framOp bytes dstEnd s = some s' ∧ s'.dst = s.dst + ((code >>> 1 : Nat) : Int) ∧
          s'.data = s.data + 1 ∧ s'.buf = s.buf) ∧
      (code &&& 1 = 0 → code &&& 2 ≠ 0 → ∀ v, bytes[s.data + 1]? = some v →
        ∃ s', framOp bytes dstEnd s = some s' ∧
          s'.dst = s.dst + min (((code >>> 2) + 1 : Nat) : Int) (dstEnd - s.dst) ∧
          s.dst < s'.dst ∧ s'.dst ≤ dstEnd ∧ s'.data = s.data + 2 ∧
          ∀ i, s'.buf i = if s.dst ≤ i ∧ i < s'.dst then v else s.buf i) ∧
      (code &&& 1 = 0 → code &&& 2 = 0 →
        s.data + 1 + (min (((code >>> 2) + 1 : Nat) : Int) (dstEnd - s.dst)).toNat ≤
          bytes.length →
        ∃ s', framOp bytes dstEnd s = some s' ∧
          s'.dst = s.dst + min (((code >>> 2) + 1 : Nat) : Int) (dstEnd - s.dst) ∧
          s.dst < s'.dst ∧ s'.dst ≤ dstEnd ∧
          s'.data = s.data + 1 + (s'.dst - s.dst).toNat ∧
          ∀ i, s'.buf i =
            if s.dst ≤ i ∧ i < s'.dst then bytes.getD (s.data + 1 + (i - s.dst).toNat) 0
            else s.buf i) := by
  refine ⟨?_, ?_, ?_⟩
  · intro h1
    refine ⟨{ s with dst := s.dst + ((code >>> 1 : Nat) : Int), data := s.data + 1 }, ?_, rfl,
      rfl, rfl⟩
    rw [framOp, hcode]
    simp only [h1, ne_eq, not_false_eq_true, if_true]
  · intro h1 h2 v hv
    refine ⟨{ dst := s.dst + min (((code >>> 2) + 1 : Nat) : Int) (dstEnd - s.dst)
              data := s.data + 2
              buf := memset s.buf s.dst v (min (((code >>> 2) + 1 : Nat) : Int) (dstEnd - s.dst)) },
      ?_, rfl, ?_, ?_, rfl, fun i => rfl⟩
    · rw [framOp, hcode]
      simp only [h1, h2, hv, ne_eq, not_true_eq_false, not_false_eq_true, if_true, if_false]
    · simp only []; omega
    · simp only []; omega
  · intro h1 h2 hlen
    refine ⟨{ dst := s.dst + min (((code >>> 2) + 1 : Nat) : Int) (dstEnd - s.dst)
              data := s.data + 1 + (min (((code >>> 2) + 1 : Nat) : Int) (dstEnd - s.dst)).toNat
              buf := memcpy s.buf s.dst bytes (s.data + 1)
                (min (((code >>> 2) + 1 : Nat) : Int) (dstEnd - s.dst)) },
      ?_, rfl, ?_, ?_, ?_, fun i => rfl⟩
    · rw [framOp, hcode]
      simp only [h1, h2, ne_eq, not_true_eq_false, if_false, hlen, if_true]
    · simp only []; omega
    · simp only []; omega
    · simp only []; congr 2; omega

/-- C20, amended, at a concrete input: the fill opcode `0x0E` (upper bits 3)
at offset 6 of a row that ends at offset 8 writes 2 bytes, not 4. -/
theorem framOp_runs_witness :
    ∃ s', framOp [0x0E, 0xAA] 8 ⟨6, 0, fun _ => 0⟩ = some s' ∧
      s'.dst = 6 + min (((0x0E >>> 2) + 1 : Nat) : Int) (8 - 6) ∧
      (6 : Int) < s'.dst ∧ s'.dst ≤ 8 ∧ s'.data = 0 + 2 ∧
      ∀ i, s'.buf i = if 6 ≤ i ∧ i < s'.dst then 0xAA else (fun _ => 0) i :=
  (framOp_runs [0x0E, 0xAA] 8 ⟨6, 0, fun _ => 0⟩ 0x0E (by decide) (by decide)).2.1
    (by decide) (by decide) 0xAA (by decide)

/-! ## FRAM: one row -/

/-- The row of C19 completed by a skip: the four opcodes, from any state at
the start of the row. -/
theorem framRow_example (lo hi c : Nat) (rest : List Nat) (d : Int) (buf : Int → Nat)
    (hc1 : c &&& 1 ≠ 0) (hc2 : 1 ≤ c >>> 1) (fuel : Nat) :
    framRow ([lo, hi, 0x07, 0x06, 0xAA, 0x04, 0x01, 0x02, c] ++ rest) (d + 8) (fuel + 5)
        ⟨d, 2, buf⟩ =
      some ⟨d + 7 + ((c >>> 1 : Nat) : Int), 9,
        memcpy (memset buf (d + 3) 0xAA 2) (d + 5)
          ([lo, hi, 0x07, 0x06, 0xAA, 0x04, 0x01, 0x02, c] ++ rest) 6 2⟩ := by
  have e1 : framOp ([lo, hi, 0x07, 0x06, 0xAA, 0x04, 0x01, 0x02, c] ++ rest) (d + 8) ⟨d, 2, buf⟩ =
      some ⟨d + 3, 3, buf⟩ := by
    simp [framOp]
  have e2 : framOp ([lo, hi, 0x07, 0x06, 0xAA, 0x04, 0x01, 0x02, c] ++ rest) (d + 8)
      ⟨d + 3, 3, buf⟩ = some ⟨d + 5, 5, memset buf (d + 3) 0xAA 2⟩ := by
    have : min (2 : Int) (d + 8 - (d + 3)) = 2 := by omega
    simp [framOp, this]
    omega
  have e3 : framOp ([lo, hi, 0x07, 0x06, 0xAA, 0x04, 0x01, 0x02, c] ++ rest) (d + 8)
      ⟨d + 5, 5, memset buf (d + 3) 0xAA 2⟩ =
      some ⟨d + 7, 8, memcpy (memset buf (d + 3) 0xAA 2) (d + 5)
        ([lo, hi, 0x07, 0x06, 0xAA, 0x04, 0x01, 0x02, c] ++ rest) 6 2⟩ := by
    have : min (2 : Int) (d + 8 - (d + 5)) = 2 := by omega
    have h42 : (4 : Nat) &&& 2 = 0 := by decide
    simp [framOp, this, h42]
    omega
  have e4 : framOp ([lo, hi, 0x07, 0x06, 0xAA, 0x04, 0x01, 0x02, c] ++ rest) (d + 8)
      ⟨d + 7, 8, memcpy (memset buf (d + 3) 0xAA 2) (d + 5)
        ([lo, hi, 0x07, 0x06, 0xAA, 0x04, 0x01, 0x02, c] ++ rest) 6 2⟩ =
      some ⟨d + 7 + ((c >>> 1 : Nat) : Int), 9, memcpy (memset buf (d + 3) 0xAA 2) (d + 5)
        ([lo, hi, 0x07, 0x06, 0xAA, 0x04, 0x01, 0x02, c] ++ rest) 6 2⟩ := by
    have hc1' : c % 2 = 1 := by
      rw [Nat.and_one_is_mod] at hc1
      omega
    simp [framOp]
    intro h
    omega
  rw [show fuel + 5 = (fuel + 4) + 1 by omega, framRow_step _ _ _ _ _ (by simp) e1,
    show fuel + 4 = (fuel + 3) + 1 by omega, framRow_step _ _ _ _ _ (by simp) e2,
    show fuel + 3 = (fuel + 2) + 1 by omega, framRow_step _ _ _ _ _ (by simp) e3,
    show fuel + 2 = (fuel + 1) + 1 by omega, framRow_step _ _ _ _ _ (by simp) e4,
    framRow_done _ _ _ _ (by
      rw [Nat.shiftRight_eq_div_pow] at hc2
      simp only [Nat.shiftRight_eq_div_pow]
      omega)]

/-- C19 fails as stated: the three opcodes cover 7 of the 8 pixels, so the row
loop goes on with the bytes that follow the declared line size.  With the
continuation `0x02 0x55` (fill 1 with `0x55`) the row decoded over the prior
content `0xBB` ends with `0x55`, not with the prior content. -/
theorem decodeFRAM_row_counterexample :
    (decodeFRAM 8 (fun _ => 0xBB) ⟨0, 0, 7, 0⟩
        ([6, 0, 0x07, 0x06, 0xAA, 0x04, 0x01, 0x02] ++ [0x02, 0x55]) 0 256).map
      (fun b => (List.range 8).map (fun i => b (i : Int))) =
      some [0xBB, 0xBB, 0xBB, 0xAA, 0xAA, 0x01, 0x02, 0x55] := by
  decide

/-- C19, amended. One 8-pixel-wide row whose opcode stream is [skip 3]
[fill 2 with 0xAA] [copy 2 bytes 0x01 0x02] followed by a skip of at least one
pixel (an odd opcode `c` with `c >> 1 ≥ 1`, inside the declared line size or
right behind it) decodes to [bg, bg, bg, 0xAA, 0xAA, 0x01, 0x02, bg]: the
pixels 3 to 6 of the row are written and every other byte of the buffer keeps
its prior content, for every prior content, every non-zero declared line
size `lo + 256 * hi` and every continuation `rest` of the data. -/
theorem decodeFRAM_row (_width : Int) (buf : Int → Nat) (left top : Int) (lo hi c : Nat)
    (rest : List Nat) (hls : lo + 256 * hi ≠ 0) (hc1 : c &&& 1 ≠ 0) (hc2 : 1 ≤ c >>> 1) :
    ∃ buf', decodeFRAM _width buf ⟨left, top, left + 7, top⟩
        ([lo, hi, 0x07, 0x06, 0xAA, 0x04, 0x01, 0x02, c] ++ rest) 0 256 = some buf' ∧
      ∀ i, buf' i =
        if i = top * _width + left + 3 ∨ i = top * _width + left + 4 then 0xAA
        else if i = top * _width + left + 5 then 0x01
        else if i = top * _width + left + 6 then 0x02
        else buf i := by
  have hrow := framRow_example lo hi c rest (top * _width + left) buf hc1 hc2 (rest.length + 5)
  have hlen : ([lo, hi, 0x07, 0x06, 0xAA, 0x04, 0x01, 0x02, c] ++ rest).length + 1 =
      rest.length + 5 + 5 := by
    simp
  refine ⟨memcpy (memset buf (top * _width + left + 3) 0xAA 2) (top * _width + left + 5)
    ([lo, hi, 0x07, 0x06, 0xAA, 0x04, 0x01, 0x02, c] ++ rest) 6 2, ?_, ?_⟩
  · unfold decodeFRAM
    have h1 : top - top + 1 = 1 := by omega
    have h2 : left + 7 - left + 1 = 8 := by omega
    simp only [if_true, h1, h2, show ¬ ((1 : Int) < 0) by omega, if_false,
      show (1 : Int).toNat = 0 + 1 from rfl]
    rw [framLines]
    simp only [List.cons_append, List.nil_append, List.getElem?_cons_zero, Nat.zero_add,
      List.getElem?_cons_succ, ne_eq, hls, not_false_eq_true, if_true]
    simp only [List.cons_append, List.nil_append] at hlen hrow
    rw [hlen, hrow]
    simp [framLines]
  · intro i
    simp only [memcpy, memset]
    by_cases h5 : i = top * _width + left + 5
    · subst h5
      have hin : top * _width + left + 5 ≤ top * _width + left + 5 ∧
          top * _width + left + 5 < top * _width + left + 5 + 2 := by omega
      rw [if_pos hin]
      simp
    · by_cases h6 : i = top * _width + left + 6
      · subst h6
        have : (top * _width + left + 6 - (top * _width + left + 5)).toNat = 1 := by omega
        have hin : top * _width + left + 5 ≤ top * _width + left + 6 ∧
            top * _width + left + 6 < top * _width + left + 5 + 2 := by omega
        rw [if_pos hin, this]
        simp
      · have hn : ¬ (top * _width + left + 5 ≤ i ∧ i < top * _width + left + 5 + 2) := by omega
        rw [if_neg hn, if_neg h5, if_neg h6]
        by_cases h34 : i = top * _width + left + 3 ∨ i = top * _width + left + 4
        · rw [if_pos h34, if_pos (by omega)]
        · rw [if_neg h34, if_neg (by omega)]

/-- C19, amended, at a concrete input: the row at the top left of a buffer 8
bytes wide, declared line size 7, closing opcode `0x03` (skip 1). -/
theorem decodeFRAM_row_witness :
    ∃ buf', decodeFRAM 8 (fun _ => 0xBB) ⟨0, 0, 0 + 7, 0⟩
        ([7, 0, 0x07, 0x06, 0xAA, 0x04, 0x01, 0x02, 0x03] ++ [0x02, 0x55]) 0 256 = some buf' ∧
      ∀ i, buf' i =
        if i = 0 * 8 + 0 + 3 ∨ i = 0 * 8 + 0 + 4 then 0xAA
        else if i = 0 * 8 + 0 + 5 then 0x01
        else if i = 0 * 8 + 0 + 6 then 0x02
        else (fun _ => 0xBB) i :=
  decodeFRAM_row 8 (fun _ => 0xBB) 0 0 7 0 0x03 [0x02, 0x55] (by decide) (by decide) (by decide)

/-! ## Run-length decoder -/

/-- C21 fails as stated: the opcode `0x04` (bits 0 and 1 clear, upper bits 1)
moves the destination by 2 and takes 2 pixels off the unpacked size, not 1;
the opcode `0x00` (upper bits 0) moves it by 1, not by 0. -/
theorem srleOp_skip_counterexample :
    (srleOp [0x04] (fun _ => 0) ⟨0, 0, 10, fun _ => 0⟩).map
        (fun s => (s.dst, s.unpackedSize)) = some (2, 8) ∧
      0x04 >>> 2 = 1 ∧
      (srleOp [0x00] (fun _ => 0) ⟨0, 0, 10, fun _ => 0⟩).map
        (fun s => (s.dst, s.unpackedSize)) = some (1, 9) := by
  decide

/-- C21, amended. In `decodeSRLE` an opcode with bit 0 and bit 1 clear is a
skip run of exactly `(code >> 2) + 1` pixels: it writes nothing, reads no
further byte, moves the destination forward by `(code >> 2) + 1` and takes
`(code >> 2) + 1` off the remaining unpacked size. -/
theorem srleOp_skip (bytes : List Nat) (colorMap : Nat → Nat) (s : SrleState) (code : Nat)
    (hcode : bytes[s.data]? = some code) (h0 : code &&& 1 = 0) (h1 : code &&& 2 = 0) :
    srleOp bytes colorMap s =
      some { dst := s.dst + (((code >>> 2) + 1 : Nat) : Int), data := s.data + 1
             unpackedSize := s.unpackedSize - (((code >>> 2) + 1 : Nat) : Int)
             buf := s.buf } := by
  simp [srleOp, hcode, h0, h1]

/-- C21, amended, at a concrete input: the opcode `0x0C` skips 4 pixels. -/
theorem srleOp_skip_witness :
    srleOp [0x0C] (fun _ => 0) ⟨5, 0, 10, fun _ => 7⟩ =
      some { dst := 5 + (((0x0C >>> 2) + 1 : Nat) : Int), data := 0 + 1
             unpackedSize := 10 - (((0x0C >>> 2) + 1 : Nat) : Int)
             buf := fun _ => 7 } :=
  srleOp_skip [0x0C] (fun _ => 0) ⟨5, 0, 10, fun _ => 7⟩ 0x0C (by decide) (by decide) (by decide)

theorem shiftRight_three_lt (code : Nat) (h : code < 256) : code >>> 3 < 32 := by
  rw [Nat.shiftRight_eq_div_pow]
  omega

theorem srleLoop_done (bytes : List Nat) (colorMap : Nat → Nat) (fuel : Nat) (s : SrleState)
    (h : ¬ s.unpackedSize > 0) : srleLoop bytes colorMap (fuel + 1) s = some s := by
  simp [srleLoop, h]

theorem srleLoop_step (bytes : List Nat) (colorMap : Nat → Nat) (fuel : Nat) (s s' : SrleState)
    (h : s.unpackedSize > 0) (hop : srleOp bytes colorMap s = some s') :
    srleLoop bytes colorMap (fuel + 1) s = srleLoop bytes colorMap fuel s' := by
  simp [srleLoop, h, hop]

/-- C22. For every opcode byte with bit 0 clear, bit 1 set and bit 2 clear,
`decodeSRLE` writes exactly one pixel, `colorMap[code >> 3]`, at the
destination, the index `code >> 3` being below 32; the destination moves by
one and one pixel is taken off the unpacked size.  For the opcode `0x02` and
unpacked size 1 the whole call writes the single pixel `colorMap[0]`. -/
theorem srleOp_pixel (bytes : List Nat) (colorMap : Nat → Nat) (s : SrleState) (code : Nat)
    (hcode : bytes[s.data]? = some code) (hbyte : code < 256)
    (h0 : code &&& 1 = 0) (h1 : code &&& 2 ≠ 0) (h2 : code &&& 4 = 0) :
    (∃ s', srleOp bytes colorMap s = some s' ∧
        s'.buf s.dst = colorMap (code >>> 3) ∧ (∀ i, i ≠ s.dst → s'.buf i = s.buf i) ∧
        s'.dst = s.dst + 1 ∧ s'.unpackedSize = s.unpackedSize - 1 ∧ s'.data = s.data + 1) ∧
      code >>> 3 < 32 ∧
      (∀ (dst : Int → Nat) (rest : List Nat),
        decodeSRLE dst colorMap (0x02 :: rest) 0 1 = some (poke dst 0 (colorMap 0))) := by
  refine ⟨⟨{ dst := s.dst + 1, data := s.data + 1, unpackedSize := s.unpackedSize - 1
             buf := poke s.buf s.dst (colorMap (code >>> 3)) }, ?_, ?_, ?_, rfl, rfl, rfl⟩,
    shiftRight_three_lt code hbyte, ?_⟩
  · simp [srleOp, hcode, h0, h1, h2]
  · simp [poke]
  · intro i hi
    simp [poke, hi]
  · intro dst rest
    have hop : srleOp (0x02 :: rest) colorMap ⟨0, 0, 1, dst⟩ =
        some ⟨0 + 1, 0 + 1, 1 - 1, poke dst 0 (colorMap (0x02 >>> 3))⟩ := by
      have b0 : (2 : Nat) &&& 1 = 0 := by decide
      have b1 : (2 : Nat) &&& 2 = 2 := by decide
      have b2 : (2 : Nat) &&& 4 = 0 := by decide
      have b3 : (2 : Nat) >>> 3 = 0 := by decide
      simp [srleOp, b0, b1, b2, b3]
    have e1 : ((1 : Int).toNat + 1) = 1 + 1 := rfl
    rw [decodeSRLE, e1, srleLoop_step _ _ _ _ _ (by simp) hop, srleLoop_done _ _ _ _ (by simp)]
    rfl

/-- C22 at a concrete input: the opcode `0x1A` (index 3) in a stream, with
the colour table `i ↦ 0x40 + i`. -/
theorem srleOp_pixel_witness :
    (∃ s', srleOp [0x00, 0x1A] (fun i => 0x40 + i) ⟨9, 1, 4, fun _ => 0⟩ = some s' ∧
        s'.buf 9 = 0x40 + (0x1A >>> 3) ∧ (∀ i, i ≠ 9 → s'.buf i = 0) ∧
        s'.dst = 9 + 1 ∧ s'.unpackedSize = 4 - 1 ∧ s'.data = 1 + 1) ∧
      decodeSRLE (fun _ => 0xBB) (fun i => 0x40 + i) (0x02 :: []) 0 1 =
        some (poke (fun _ => 0xBB) 0 0x40) :=
  ⟨(srleOp_pixel [0x00, 0x1A] (fun i => 0x40 + i) ⟨9, 1, 4, fun _ => 0⟩ 0x1A (by decide)
      (by decide) (by decide) (by decide) (by decide)).1,
    (srleOp_pixel [0x00, 0x1A] (fun i => 0x40 + i) ⟨9, 1, 4, fun _ => 0⟩ 0x1A (by decide)
      (by decide) (by decide) (by decide) (by decide)).2.2 (fun _ => 0xBB) []⟩

/-- C23. For an opcode with bits 0 clear, 1 set and 2 set, the run length is
`code >> 3`, or the next data byte plus 1 when `code >> 3` is 0; the fill
value is the data byte after that, taken as it is; `min(unpackedSize, length)`
bytes from the destination on are set to it and no other byte changes; the
destination moves forward by the full length and the full length is taken off
the unpacked size. -/
theorem srleOp_fill (bytes : List Nat) (colorMap : Nat → Nat) (s : SrleState) (code : Nat)
    (hcode : bytes[s.data]? = some code)
    (h0 : code &&& 1 = 0) (h1 : code &&& 2 ≠ 0) (h2 : code &&& 4 ≠ 0) :
    (code >>> 3 ≠ 0 → ∀ v, bytes[s.data + 1]? = some v →
        ∃ s', srleOp bytes colorMap s = some s' ∧
          (∀ i, s'.buf i =
            if s.dst ≤ i ∧ i < s.dst + min s.unpackedSize ((code >>> 3 : Nat) : Int) then v
            else s.buf i) ∧
          s'.dst = s.dst + ((code >>> 3 : Nat) : Int) ∧
          s'.unpackedSize = s.unpackedSize - ((code >>> 3 : Nat) : Int) ∧
          s'.data = s.data + 2) ∧
      (code >>> 3 = 0 → ∀ n v, bytes[s.data + 1]? = some n → bytes[s.data + 2]? = some v →
        ∃ s', srleOp bytes colorMap s = some s' ∧
          (∀ i, s'.buf i =
            if s.dst ≤ i ∧ i < s.dst + min s.unpackedSize ((n + 1 : Nat) : Int) then v
            else s.buf i) ∧
          s'.dst = s.dst + ((n + 1 : Nat) : Int) ∧
          s'.unpackedSize = s.unpackedSize - ((n + 1 : Nat) : Int) ∧
          s'.data = s.data + 3) := by
  constructor
  · intro h3 v hv
    refine ⟨{ dst := s.dst + ((code >>> 3 : Nat) : Int), data := s.data + 2
              unpackedSize := s.unpackedSize - ((code >>> 3 : Nat) : Int)
              buf := memset s.buf s.dst v (min s.unpackedSize ((code >>> 3 : Nat) : Int)) },
      ?_, fun i => rfl, rfl, rfl, rfl⟩
    simp [srleOp, hcode, h0, h1, h2, h3, hv]
  · intro h3 n v hn hv
    refine ⟨{ dst := s.dst + ((n + 1 : Nat) : Int), data := s.data + 3
              unpackedSize := s.unpackedSize - ((n + 1 : Nat) : Int)
              buf := memset s.buf s.dst v (min s.unpackedSize ((n + 1 : Nat) : Int)) },
      ?_, fun i => rfl, rfl, rfl, rfl⟩
    simp [srleOp, hcode, h0, h1, h2, h3, hn, hv, Nat.add_comm]

/-- C23 at a concrete input: the opcode `0x1E` (length 3) with value `0xAA`
and 2 pixels left writes 2 bytes and moves the destination by 3. -/
theorem srleOp_fill_witness :
    ∃ s', srleOp [0x1E, 0xAA] (fun _ => 0) ⟨4, 0, 2, fun _ => 0⟩ = some s' ∧
      (∀ i, s'.buf i =
        if (4 : Int) ≤ i ∧ i < 4 + min (2 : Int) ((0x1E >>> 3 : Nat) : Int) then 0xAA
        else (fun _ => 0) i) ∧
      s'.dst = 4 + ((0x1E >>> 3 : Nat) : Int) ∧
      s'.unpackedSize = 2 - ((0x1E >>> 3 : Nat) : Int) ∧
      s'.data = 0 + 2 :=
  (srleOp_fill [0x1E, 0xAA] (fun _ => 0) ⟨4, 0, 2, fun _ => 0⟩ 0x1E (by decide) (by decide)
    (by decide) (by decide)).1 (by decide) 0xAA (by decide)

/-! ## What `decodeFRAM` writes -/

theorem memset_frame (buf : Int → Nat) (dst : Int) (v : Nat) (sz : Int) (i : Int)
    (h : memset buf dst v sz i ≠ buf i) : dst ≤ i ∧ i < dst + sz := by
  unfold memset at h
  by_contra hc
  rw [if_neg hc] at h
  exact h rfl

theorem memcpy_frame (buf : Int → Nat) (dst : Int) (bytes : List Nat) (data : Nat) (sz : Int)
    (i : Int) (h : memcpy buf dst bytes data sz i ≠ buf i) : dst ≤ i ∧ i < dst + sz := by
  unfold memcpy at h
  by_contra hc
  rw [if_neg hc] at h
  exact h rfl

/-- One opcode read before the end of the row does not move the cursor back
and writes only between the cursor and the end of the row. -/
theorem framOp_frame (bytes : List Nat) (dstEnd : Int) (s s' : FramState)
    (hdst : s.dst < dstEnd) (h : framOp bytes dstEnd s = some s') :
    s.dst ≤ s'.dst ∧ ∀ i, s'.buf i ≠ s.buf i → s.dst ≤ i ∧ i < dstEnd := by
  unfold framOp at h
  cases hc : bytes[s.data]? with
  | none => rw [hc] at h; simp at h
  | some code =>
    rw [hc] at h
    simp only at h
    by_cases h1 : code &&& 1 ≠ 0
    · rw [if_pos h1] at h
      simp only [Option.some.injEq] at h
      subst h
      exact ⟨by simp only; omega, fun i hi => absurd rfl hi⟩
    · rw [if_neg h1] at h
      by_cases h2 : code &&& 2 ≠ 0
      · rw [if_pos h2] at h
        cases hv : bytes[s.data + 1]? with
        | none => rw [hv] at h; simp at h
        | some v =>
          rw [hv] at h
          simp only [Option.some.injEq] at h
          subst h
          refine ⟨by simp only; omega, fun i hi => ?_⟩
          have := memset_frame _ _ _ _ _ hi
          omega
      · rw [if_neg h2] at h
        by_cases h3 : s.data + 1 + (min (((code >>> 2) + 1 : Nat) : Int) (dstEnd - s.dst)).toNat ≤
            bytes.length
        · rw [if_pos h3] at h
          simp only [Option.some.injEq] at h
          subst h
          refine ⟨by simp only; omega, fun i hi => ?_⟩
          have := memcpy_frame _ _ _ _ _ _ hi
          omega
        · rw [if_neg h3] at h
          simp at h

/-- The opcodes of one row do not move the cursor back and write only between
the cursor and the end of the row. -/
theorem framRow_frame (bytes : List Nat) (dstEnd : Int) :
    ∀ (fuel : Nat) (s s' : FramState), framRow bytes dstEnd fuel s = some s' →
      s.dst ≤ s'.dst ∧ ∀ i, s'.buf i ≠ s.buf i → s.dst ≤ i ∧ i < dstEnd := by
  intro fuel
  induction fuel with
  | zero => intro s s' h; simp [framRow] at h
  | succ fuel ih =>
    intro s s' h
    rw [framRow] at h
    by_cases hd : s.dst < dstEnd
    · rw [if_pos hd] at h
      cases hop : framOp bytes dstEnd s with
      | none => rw [hop] at h; simp at h
      | some s1 =>
        rw [hop] at h
        simp only at h
        obtain ⟨h1, h2⟩ := framOp_frame bytes dstEnd s s1 hd hop
        obtain ⟨h3, h4⟩ := ih s1 s' h
        refine ⟨by omega, fun i hi => ?_⟩
        by_cases hs : s'.buf i = s1.buf i
        · have := h2 i (by rw [← hs]; exact hi)
          exact this
        · have := h4 i hs
          omega
    · rw [if_neg hd] at h
      simp only [Option.some.injEq] at h
      subst h
      exact ⟨le_refl _, fun i hi => absurd rfl hi⟩

theorem lineSize_zero (bytes : List Nat) (data lo hi : Nat) (h1 : bytes[data]? = some lo)
    (h2 : bytes[data + 1]? = some hi) : lineSize bytes data 0 = some (lo + 256 * hi) := by
  simp [lineSize, lineData, h1, h2]

theorem lineSize_succ (bytes : List Nat) (data lo hi r : Nat) (h1 : bytes[data]? = some lo)
    (h2 : bytes[data + 1]? = some hi) :
    lineSize bytes data (r + 1) = lineSize bytes (data + 2 + (lo + 256 * hi)) r := by
  simp [lineSize, lineData, h1, h2]

/-- The lines of a frame write only into their own row of `w` bytes, and only
when their line size is not 0. -/
theorem framLines_frame (bytes : List Nat) (_width w : Int) :
    ∀ (h : Nat) (s s' : FramState), framLines bytes _width w h s = some s' →
      ∀ i, s'.buf i ≠ s.buf i →
        ∃ r : Nat, r < h ∧ (∃ n, lineSize bytes s.data r = some n ∧ n ≠ 0) ∧
          s.dst + (r : Int) * _width ≤ i ∧ i < s.dst + (r : Int) * _width + w := by
  intro h
  induction h with
  | zero =>
    intro s s' hs i hi
    simp only [framLines, Option.some.injEq] at hs
    subst hs
    exact absurd rfl hi
  | succ h ih =>
    intro s s' hs i hi
    rw [framLines] at hs
    cases h1 : bytes[s.data]? with
    | none => rw [h1] at hs; simp at hs
    | some lo =>
      cases h2 : bytes[s.data + 1]? with
      | none => rw [h1, h2] at hs; simp at hs
      | some hi0 =>
        rw [h1, h2] at hs
        simp only at hs
        have hsucc : ∀ r : Nat, s.dst + _width + (r : Int) * _width =
            s.dst + ((r + 1 : Nat) : Int) * _width := by
          intro r
          push_cast
          ring
        by_cases hz : lo + 256 * hi0 ≠ 0
        · rw [if_pos hz] at hs
          cases hrow : framRow bytes (s.dst + w) (bytes.length + 1)
              { s with data := s.data + 2 } with
          | none => rw [hrow] at hs; simp at hs
          | some s1 =>
            rw [hrow] at hs
            simp only at hs
            by_cases hc : s'.buf i = s1.buf i
            · have hch : s1.buf i ≠ s.buf i := by rw [← hc]; exact hi
              have := (framRow_frame bytes (s.dst + w) _ _ _ hrow).2 i hch
              simp only at this
              exact ⟨0, Nat.succ_pos _, ⟨_, lineSize_zero bytes s.data lo hi0 h1 h2, hz⟩,
                by simp only [Nat.cast_zero, zero_mul, add_zero]; exact this.1,
                by simp only [Nat.cast_zero, zero_mul, add_zero]; exact this.2⟩
            · obtain ⟨r, hr, hn, hlo, hup⟩ := ih _ _ hs i hc
              simp only at hn hlo hup
              rw [hsucc r] at hlo hup
              exact ⟨r + 1, Nat.succ_lt_succ hr,
                by rw [lineSize_succ bytes s.data lo hi0 r h1 h2]; exact hn, hlo, hup⟩
        · rw [if_neg hz] at hs
          obtain ⟨r, hr, hn, hlo, hup⟩ := ih _ _ hs i hi
          simp only at hn hlo hup
          rw [hsucc r] at hlo hup
          exact ⟨r + 1, Nat.succ_lt_succ hr,
            by rw [lineSize_succ bytes s.data lo hi0 r h1 h2]; exact hn, hlo, hup⟩

/-- C36. What `decodeFRAM` changes in the offscreen buffer.  With a type other
than 256 the buffer is unchanged.  With type 256 a changed byte stands at
`r * _width + c` for a row `r` in `[top, bottom]` and a column `c` in
`[left, right]`, and the line of the row `r` has a size prefix that is not 0.
When the columns of the rectangle lie within the width of the buffer, the row
and the column of a changed byte are inside the rectangle, so no byte of
another row and no byte of a row whose size prefix is 0 changes. -/
theorem decodeFRAM_frame (_width : Int) (dst : Int → Nat) (dstRect : Rect) (bytes : List Nat)
    (data : Nat) (type : Int) (dst' : Int → Nat)
    (h : decodeFRAM _width dst dstRect bytes data type = some dst') :
    (type ≠ 256 → dst' = dst) ∧
      (∀ i, dst' i ≠ dst i →
        ∃ r c : Int, (dstRect.top ≤ r ∧ r ≤ dstRect.bottom) ∧
          (dstRect.left ≤ c ∧ c ≤ dstRect.right) ∧ i = r * _width + c ∧
          ∃ n, lineSize bytes data (r - dstRect.top).toNat = some n ∧ n ≠ 0) ∧
      (0 ≤ dstRect.left → dstRect.right < _width →
        ∀ y x : Int, 0 ≤ x → x < _width → dst' (y * _width + x) ≠ dst (y * _width + x) →
          (dstRect.top ≤ y ∧ y ≤ dstRect.bottom) ∧ (dstRect.left ≤ x ∧ x ≤ dstRect.right) ∧
            ∃ n, lineSize bytes data (y - dstRect.top).toNat = some n ∧ n ≠ 0) := by
  have key : ∀ i, dst' i ≠ dst i →
      ∃ r c : Int, (dstRect.top ≤ r ∧ r ≤ dstRect.bottom) ∧
        (dstRect.left ≤ c ∧ c ≤ dstRect.right) ∧ i = r * _width + c ∧
        ∃ n, lineSize bytes data (r - dstRect.top).toNat = some n ∧ n ≠ 0 := by
    intro i hi
    unfold decodeFRAM at h
    by_cases ht : type = 256
    · rw [if_pos ht] at h
      simp only at h
      by_cases hneg : dstRect.bottom - dstRect.top + 1 < 0
      · rw [if_pos hneg] at h
        simp at h
      · rw [if_neg hneg] at h
        cases hl : framLines bytes _width (dstRect.right - dstRect.left + 1)
            (dstRect.bottom - dstRect.top + 1).toNat
            ⟨dstRect.top * _width + dstRect.left, data, dst⟩ with
        | none => rw [hl] at h; simp at h
        | some s' =>
          rw [hl] at h
          simp only [Option.map_some', Option.some.injEq] at h
          subst h
          obtain ⟨r, hr, hn, hlo, hup⟩ := framLines_frame bytes _width _ _ _ _ hl i hi
          simp only at hn hlo hup
          refine ⟨dstRect.top + r, i - (dstRect.top + r) * _width, ⟨by omega, by omega⟩, ?_,
            by ring, ?_⟩
          · have e : (dstRect.top + (r : Int)) * _width =
                dstRect.top * _width + (r : Int) * _width := by ring
            rw [e]
            constructor <;> omega
          · have e : (dstRect.top + (r : Int) - dstRect.top).toNat = r := by omega
            rw [e]
            exact hn
    · rw [if_neg ht] at h
      simp only [Option.some.injEq] at h
      subst h
      exact absurd rfl hi
  refine ⟨?_, key, ?_⟩
  · intro ht
    unfold decodeFRAM at h
    rw [if_neg ht] at h
    simp only [Option.some.injEq] at h
    exact h.symm
  · intro hl hr y x hx0 hx1 hch
    obtain ⟨r, c, hrow, hcol, heq, hn⟩ := key _ hch
    have hyr : y = r := by
      rcases lt_trichotomy y r with hlt | heq' | hgt
      · exfalso
        have : (r - y) * _width ≥ 1 * _width :=
          mul_le_mul_of_nonneg_right (by omega) (by omega)
        nlinarith
      · exact heq'
      · exfalso
        have : (y - r) * _width ≥ 1 * _width :=
          mul_le_mul_of_nonneg_right (by omega) (by omega)
        nlinarith
    subst hyr
    have hxc : x = c := by omega
    subst hxc
    exact ⟨hrow, hcol, hn⟩

/-- C36 at a concrete input: a rectangle of 2 rows and 2 columns in a buffer 4
bytes wide, the first line with the size prefix 0, the second one a fill of 2
bytes.  The byte at row 0, column 1 is unchanged and the byte at row 1,
column 1 is written. -/
theorem decodeFRAM_frame_witness :
    decodeFRAM 4 (fun _ => 0) ⟨1, 0, 2, 1⟩ [0, 0, 2, 0, 6, 0xAA] 0 256 =
        some (memset (fun _ => 0) 5 0xAA 2) ∧
      lineSize [0, 0, 2, 0, 6, 0xAA] 0 0 = some 0 ∧
      lineSize [0, 0, 2, 0, 6, 0xAA] 0 1 = some 2 ∧
      memset (fun _ => 0) 5 0xAA 2 (1 * 4 + 1) = 0xAA ∧
      (memset (fun _ => 0) 5 0xAA 2 (0 * 4 + 1) ≠ (fun _ => 0) (0 * 4 + 1) →
        ((0 : Int) ≤ 0 ∧ (0 : Int) ≤ 1) ∧ ((1 : Int) ≤ 1 ∧ (1 : Int) ≤ 2) ∧
          ∃ n, lineSize [0, 0, 2, 0, 6, 0xAA] 0 ((0 : Int) - 0).toNat = some n ∧ n ≠ 0) :=
  ⟨rfl, by decide, by decide, by decide,
    (decodeFRAM_frame 4 (fun _ => 0) ⟨1, 0, 2, 1⟩ [0, 0, 2, 0, 6, 0xAA] 0 256
      (memset (fun _ => 0) 5 0xAA 2) rfl).2.2 (by decide) (by decide) 0 1 (by decide)
      (by decide)⟩

/-! ## Termination and writes of `decodeSRLE` -/

theorem poke_frame (buf : Int → Nat) (dst : Int) (v : Nat) (i : Int)
    (h : poke buf dst v i ≠ buf i) : i = dst := by
  unfold poke at h
  by_contra hc
  rw [if_neg hc] at h
  exact h rfl

/-- One opcode takes at least one pixel off the unpacked size, moves the
destination by what it takes off, reads at most 3 bytes and writes only
within the pixels that remain. -/
theorem srleOp_frame (bytes : List Nat) (colorMap : Nat → Nat) (s s' : SrleState)
    (h : srleOp bytes colorMap s = some s') :
    s'.unpackedSize ≤ s.unpackedSize - 1 ∧
      s'.dst + s'.unpackedSize = s.dst + s.unpackedSize ∧
      s'.data ≤ s.data + 3 ∧
      (0 < s.unpackedSize → ∀ i, s'.buf i ≠ s.buf i → s.dst ≤ i ∧ i < s.dst + s.unpackedSize) := by
  unfold srleOp at h
  simp only at h
  repeat' split at h
  all_goals first
    | (simp at h; done)
    | (simp only [Option.some.injEq] at h
       subst h
       refine ⟨by simp only; omega, by simp only; omega, by simp only; omega, ?_⟩
       intro hpos i hi)
  all_goals first
    | exact absurd rfl hi
    | have hp := poke_frame _ _ _ _ hi
      omega
    | have hm := memset_frame _ _ _ _ _ hi
      omega

/-- With 3 bytes left in the data an opcode is read in full. -/
theorem srleOp_reads (bytes : List Nat) (colorMap : Nat → Nat) (s : SrleState)
    (h : s.data + 3 ≤ bytes.length) : ∃ s', srleOp bytes colorMap s = some s' := by
  have ha : bytes[s.data]? = some (bytes[s.data]) := List.getElem?_eq_getElem (by omega)
  have hb : bytes[s.data + 1]? = some (bytes[s.data + 1]) := List.getElem?_eq_getElem (by omega)
  have hc : bytes[s.data + 2]? = some (bytes[s.data + 2]) := List.getElem?_eq_getElem (by omega)
  simp only [srleOp, ha, hb, hc]
  split_ifs <;> exact ⟨_, rfl⟩

theorem srleLoop_frame (bytes : List Nat) (colorMap : Nat → Nat) :
    ∀ (fuel : Nat) (s s' : SrleState), srleLoop bytes colorMap fuel s = some s' →
      ∀ i, s'.buf i ≠ s.buf i → s.dst ≤ i ∧ i < s.dst + s.unpackedSize := by
  intro fuel
  induction fuel with
  | zero => intro s s' h; simp [srleLoop] at h
  | succ fuel ih =>
    intro s s' h i hi
    rw [srleLoop] at h
    by_cases hp : s.unpackedSize > 0
    · rw [if_pos hp] at h
      cases hop : srleOp bytes colorMap s with
      | none => rw [hop] at h; simp at h
      | some s1 =>
        rw [hop] at h
        simp only at h
        obtain ⟨h1, h2, _, h4⟩ := srleOp_frame bytes colorMap s s1 hop
        by_cases hs : s'.buf i = s1.buf i
        · exact h4 hp i (by rw [← hs]; exact hi)
        · have := ih s1 s' h i hs
          omega
    · rw [if_neg hp] at h
      simp only [Option.some.injEq] at h
      subst h
      exact absurd rfl hi

theorem srleRounds_le (bytes : List Nat) (colorMap : Nat → Nat) :
    ∀ (fuel : Nat) (s : SrleState), s.unpackedSize.toNat < fuel →
      ∃ n, srleRounds bytes colorMap fuel s = some n ∧ n ≤ s.unpackedSize.toNat := by
  intro fuel
  induction fuel with
  | zero => intro s h; omega
  | succ fuel ih =>
    intro s h
    rw [srleRounds]
    by_cases hp : s.unpackedSize > 0
    · rw [if_pos hp]
      cases hop : srleOp bytes colorMap s with
      | none => exact ⟨0, rfl, Nat.zero_le _⟩
      | some s1 =>
        simp only
        obtain ⟨h1, _, _, _⟩ := srleOp_frame bytes colorMap s s1 hop
        obtain ⟨n, hn, hle⟩ := ih s1 (by omega)
        exact ⟨n + 1, by rw [hn]; rfl, by omega⟩
    · rw [if_neg hp]
      exact ⟨0, rfl, Nat.zero_le _⟩

theorem srleLoop_fuel (bytes : List Nat) (colorMap : Nat → Nat) :
    ∀ (fuel1 fuel2 : Nat) (s : SrleState), s.unpackedSize.toNat < fuel1 →
      s.unpackedSize.toNat < fuel2 →
      srleLoop bytes colorMap fuel1 s = srleLoop bytes colorMap fuel2 s := by
  intro fuel1
  induction fuel1 with
  | zero => intro fuel2 s h; omega
  | succ fuel1 ih =>
    intro fuel2 s h1 h2
    cases fuel2 with
    | zero => omega
    | succ fuel2 =>
      rw [srleLoop, srleLoop]
      by_cases hp : s.unpackedSize > 0
      · rw [if_pos hp, if_pos hp]
        cases hop : srleOp bytes colorMap s with
        | none => rfl
        | some s1 =>
          simp only
          obtain ⟨h3, _, _, _⟩ := srleOp_frame bytes colorMap s s1 hop
          exact ih fuel2 s1 (by omega) (by omega)
      · rw [if_neg hp, if_neg hp]

theorem srleLoop_total (bytes : List Nat) (colorMap : Nat → Nat) :
    ∀ (fuel : Nat) (s : SrleState), s.unpackedSize.toNat < fuel →
      s.data + 3 * s.unpackedSize.toNat ≤ bytes.length →
      ∃ s', srleLoop bytes colorMap fuel s = some s' := by
  intro fuel
  induction fuel with
  | zero => intro s h; omega
  | succ fuel ih =>
    intro s h hlen
    rw [srleLoop]
    by_cases hp : s.unpackedSize > 0
    · rw [if_pos hp]
      obtain ⟨s1, hop⟩ := srleOp_reads bytes colorMap s (by omega)
      rw [hop]
      simp only
      obtain ⟨h1, _, h3, _⟩ := srleOp_frame bytes colorMap s s1 hop
      exact ih s1 (by omega) (by omega)
    · rw [if_neg hp]
      exact ⟨s, rfl⟩

/-- C37. `decodeSRLE` ends for every data and every unpacked size.  Each
opcode takes at least one pixel off the remaining unpacked size, so the loop
processes at most `unpackedSize` opcodes (none when the size is not
positive), more fuel than that changes nothing, and the call returns whenever
the data holds 3 bytes for each of them.  A byte the call changes stands in
the first `unpackedSize` bytes of the destination. -/
theorem decodeSRLE_terminates (dst : Int → Nat) (colorMap : Nat → Nat) (bytes : List Nat)
    (data : Nat) (unpackedSize : Int) :
    (∀ s s', srleOp bytes colorMap s = some s' → s'.unpackedSize ≤ s.unpackedSize - 1) ∧
      (∃ n, srleRounds bytes colorMap (unpackedSize.toNat + 1) ⟨0, data, unpackedSize, dst⟩ =
          some n ∧ n ≤ unpackedSize.toNat) ∧
      (∀ fuel, unpackedSize.toNat + 1 ≤ fuel →
        srleLoop bytes colorMap fuel ⟨0, data, unpackedSize, dst⟩ =
          srleLoop bytes colorMap (unpackedSize.toNat + 1) ⟨0, data, unpackedSize, dst⟩) ∧
      (data + 3 * unpackedSize.toNat ≤ bytes.length →
        ∃ dst', decodeSRLE dst colorMap bytes data unpackedSize = some dst') ∧
      (∀ dst', decodeSRLE dst colorMap bytes data unpackedSize = some dst' →
        ∀ i, dst' i ≠ dst i → 0 ≤ i ∧ i < unpackedSize) := by
  refine ⟨fun s s' h => (srleOp_frame bytes colorMap s s' h).1,
    srleRounds_le bytes colorMap _ ⟨0, data, unpackedSize, dst⟩ (Nat.lt_succ_self _),
    fun fuel hf => srleLoop_fuel bytes colorMap _ _ ⟨0, data, unpackedSize, dst⟩
      (Nat.lt_of_succ_le hf) (Nat.lt_succ_self _), ?_, ?_⟩
  · intro hlen
    obtain ⟨s', hs⟩ := srleLoop_total bytes colorMap (unpackedSize.toNat + 1)
      ⟨0, data, unpackedSize, dst⟩ (Nat.lt_succ_self _) hlen
    exact ⟨s'.buf, by rw [decodeSRLE, hs]; rfl⟩
  · intro dst' h i hi
    unfold decodeSRLE at h
    cases hl : srleLoop bytes colorMap (unpackedSize.toNat + 1) ⟨0, data, unpackedSize, dst⟩ with
    | none => rw [hl] at h; simp at h
    | some s' =>
      rw [hl] at h
      simp only [Option.map_some', Option.some.injEq] at h
      subst h
      have := srleLoop_frame bytes colorMap _ _ _ hl i hi
      simp only at this
      omega

/-! ## Ring invariant of `decodeLzssData` -/

theorem written_iff (s : LzssState) (offs : Nat) :
    written s offs = true ↔ ∃ k, k < s.out.length ∧ (1 + k) % 4096 = offs := by
  simp [written, List.any_eq_true]

theorem emit_inv (s : LzssState) (v : Nat) (h : RingInv s) : RingInv (s.emit v) := by
  obtain ⟨h1, h2⟩ := h
  unfold RingInv LzssState.emit
  simp only [and_fff, List.length_append, List.length_singleton]
  refine ⟨by omega, fun k hk1 hk2 => ?_⟩
  by_cases hk : k = s.out.length
  · subst hk
    rw [if_pos h1.symm]
    simp [List.getD_eq_getElem?_getD]
  · have hlt : k < s.out.length := by omega
    have hne : (1 + k) % 4096 ≠ s.index := by omega
    rw [if_neg hne, h2 k (by omega) hlt]
    simp [List.getD_eq_getElem?_getD, List.getElem?_append_left hlt]

theorem copyRun_inv (count : Nat) : ∀ (offs : Nat) (s : LzssState),
    RingInv s → RingInv (copyRun count offs s) := by
  induction count with
  | zero => intro offs s h; exact h
  | succ n ih => intro offs s h; rw [copyRun]; exact ih _ _ (emit_inv s _ h)

theorem decodeBits_inv (code : Nat) (n : Nat) : ∀ (b : Nat) (s s' : LzssState) (fin : Bool),
    decodeBits code n b s = some (fin, s') → RingInv s → RingInv s' := by
  induction n with
  | zero =>
    intro b s s' fin h hinv
    simp only [decodeBits, Option.some.injEq, Prod.mk.injEq] at h
    obtain ⟨_, rfl⟩ := h
    exact hinv
  | succ n ih =>
    intro b s s' fin h hinv
    rw [decodeBits] at h
    split_ifs at h with hc
    · cases hs : s.src2 with
      | nil => rw [hs] at h; simp at h
      | cons v rest =>
        rw [hs] at h
        exact ih _ _ _ _ h (emit_inv { s with src2 := rest } v hinv)
    · cases hs : s.src3 with
      | nil => rw [hs] at h; simp at h
      | cons lo t =>
        cases t with
        | nil => rw [hs] at h; simp at h
        | cons hi rest =>
          rw [hs] at h
          simp only at h
          split_ifs at h with hz
          · simp only [Option.some.injEq, Prod.mk.injEq] at h
            obtain ⟨_, rfl⟩ := h
            exact hinv
          · exact ih _ _ _ _ h (copyRun_inv _ _ { s with src3 := rest } hinv)

theorem decodeLoop_inv (src1 : List Nat) : ∀ (s s' : LzssState),
    decodeLoop src1 s = some s' → RingInv s → RingInv s' := by
  induction src1 with
  | nil => intro s s' h; simp [decodeLoop] at h
  | cons code src1 ih =>
    intro s s' h hinv
    rw [decodeLoop] at h
    cases hd : decodeBits code 8 0 s with
    | none => rw [hd] at h; simp at h
    | some r =>
      obtain ⟨fin, s1⟩ := r
      rw [hd] at h
      have h1 := decodeBits_inv code 8 0 s s1 fin hd hinv
      cases fin with
      | true =>
        simp only [Option.some.injEq] at h
        subst h
        exact h1
      | false => exact ih _ _ h h1

theorem emit_rel (s1 s2 : LzssState) (v : Nat) (h : RingRel s1 s2) :
    RingRel (s1.emit v) (s2.emit v) := by
  obtain ⟨ho, hi, h2, h3, hidx, hr⟩ := h
  refine ⟨?_, ?_, h2, h3, ?_, ?_⟩
  · simp [LzssState.emit, ho]
  · simp [LzssState.emit, hi]
  · simp only [LzssState.emit, and_fff, List.length_append, List.length_singleton]
    omega
  · intro offs hw
    rw [written_iff] at hw
    obtain ⟨k, hk, hoffs⟩ := hw
    simp only [LzssState.emit, List.length_append, List.length_singleton] at hk ⊢
    rw [← hi]
    by_cases hc : offs = s1.index
    · rw [if_pos hc, if_pos hc]
    · rw [if_neg hc, if_neg hc]
      apply hr
      rw [written_iff]
      exact ⟨k, by
        rcases Nat.lt_or_ge k s1.out.length with hlt | hge
        · exact hlt
        · exfalso
          have : k = s1.out.length := by omega
          subst this
          exact hc (by rw [hidx, hoffs]), hoffs⟩

theorem copyRun_rel (count : Nat) : ∀ (offs : Nat) (s1 s2 : LzssState),
    RingRel s1 s2 → copyRunFresh count offs s1 = true →
    RingRel (copyRun count offs s1) (copyRun count offs s2) := by
  induction count with
  | zero => intro offs s1 s2 h _; exact h
  | succ n ih =>
    intro offs s1 s2 h hf
    rw [copyRunFresh, Bool.and_eq_true] at hf
    rw [copyRun, copyRun, ← h.2.2.2.2.2 offs hf.1]
    exact ih _ _ _ (emit_rel s1 s2 _ h) hf.2

theorem decodeBits_rel (code : Nat) (n : Nat) : ∀ (b : Nat) (s1 s2 : LzssState),
    RingRel s1 s2 → decodeBitsFresh code n b s1 = true →
    (decodeBits code n b s1 = none ∧ decodeBits code n b s2 = none) ∨
      ∃ fin s1' s2', decodeBits code n b s1 = some (fin, s1') ∧
        decodeBits code n b s2 = some (fin, s2') ∧ RingRel s1' s2' := by
  induction n with
  | zero =>
    intro b s1 s2 h _
    exact Or.inr ⟨false, s1, s2, rfl, rfl, h⟩
  | succ n ih =>
    intro b s1 s2 h hf
    obtain ⟨ho, hi, h2, h3, hidx, hr⟩ := h
    rw [decodeBitsFresh] at hf
    rw [decodeBits, decodeBits, ← h2, ← h3]
    split_ifs at hf ⊢ with hc
    · cases hs : s1.src2 with
      | nil => exact Or.inl ⟨rfl, rfl⟩
      | cons v rest =>
        rw [hs] at hf
        exact ih _ _ _ (emit_rel _ _ v ⟨ho, hi, rfl, rfl, hidx, hr⟩) hf
    · cases hs : s1.src3 with
      | nil => exact Or.inl ⟨rfl, rfl⟩
      | cons lo t =>
        cases t with
        | nil => exact Or.inl ⟨rfl, rfl⟩
        | cons hi0 rest =>
          rw [hs] at hf
          simp only at hf ⊢
          split_ifs at hf ⊢ with hz
          · exact Or.inr ⟨true, _, _, rfl, rfl, ⟨ho, hi, rfl, rfl, hidx, hr⟩⟩
          · rw [Bool.and_eq_true] at hf
            exact ih _ _ _ (copyRun_rel _ _ _ _ ⟨ho, hi, rfl, rfl, hidx, hr⟩ hf.1) hf.2

theorem decodeLoop_rel (src1 : List Nat) : ∀ (s1 s2 : LzssState),
    RingRel s1 s2 → decodeLoopFresh src1 s1 = true →
    (decodeLoop src1 s1).map LzssState.out = (decodeLoop src1 s2).map LzssState.out := by
  induction src1 with
  | nil => intro s1 s2 _ _; rfl
  | cons code src1 ih =>
    intro s1 s2 h hf
    rw [decodeLoopFresh, Bool.and_eq_true] at hf
    rw [decodeLoop, decodeLoop]
    rcases decodeBits_rel code 8 0 s1 s2 h hf.1 with ⟨e1, e2⟩ | ⟨fin, s1', s2', e1, e2, hrel⟩
    · rw [e1, e2]
    · rw [e1] at hf
      rw [e1, e2]
      cases fin with
      | true => simp only [Option.map_some', hrel.1]
      | false => exact ih _ _ hrel hf.2

/-- C38. The ring invariant of `decodeLzssData`: with `n` bytes emitted the
write index is `(1 + n) mod 4096` and, for every `k` with `n - 4096 ≤ k < n`,
the ring byte at `(1 + k) mod 4096` is the output byte `k`.  It holds at the
start of a call, every emitted byte and every back-reference keeps it, and it
holds when the call returns.  When every back-reference of a call reads only
ring positions written earlier in the call, the output is the same for any
other initial contents of the ring. -/
theorem decodeLzssData_ring (src1 src2 src3 : List Nat) (dst2 : Nat → Nat) :
    RingInv ⟨[], dst2, 1, src2, src3⟩ ∧
      (∀ (s : LzssState) (v : Nat), RingInv s → RingInv (s.emit v)) ∧
      (∀ (count offs : Nat) (s : LzssState), RingInv s → RingInv (copyRun count offs s)) ∧
      (∀ s', decodeLoop src1 ⟨[], dst2, 1, src2, src3⟩ = some s' →
        s'.index = (1 + s'.out.length) % 4096 ∧
          ∀ k, s'.out.length ≤ k + 4096 → k < s'.out.length →
            s'.dst2 ((1 + k) % 4096) = s'.out.getD k 0) ∧
      (decodeLoopFresh src1 ⟨[], dst2, 1, src2, src3⟩ = true →
        ∀ dst2' : Nat → Nat,
          decodeLzssData src1 src2 src3 dst2' = decodeLzssData src1 src2 src3 dst2) := by
  have h0 : RingInv ⟨[], dst2, 1, src2, src3⟩ :=
    ⟨rfl, fun k _ hk => absurd hk (Nat.not_lt_zero k)⟩
  refine ⟨h0, emit_inv, fun count offs s => copyRun_inv count offs s,
    fun s' h => decodeLoop_inv src1 _ s' h h0, ?_⟩
  intro hf dst2'
  unfold decodeLzssData
  exact (decodeLoop_rel src1 ⟨[], dst2, 1, src2, src3⟩ ⟨[], dst2', 1, src2, src3⟩
    ⟨rfl, rfl, rfl, rfl, rfl, fun offs hw => by simp [written] at hw⟩ hf).symm

/-- C38 at a concrete input: a literal 9, a back-reference of 2 bytes to the
position 1 and the sentinel.  The back-reference reads the positions 1 and
2, both written in the call, and the output `[9, 9, 9]` is the same on a ring
of sevens and on a ring of zeros. -/
theorem decodeLzssData_ring_witness :
    decodeLoopFresh [0x01] ⟨[], fun _ => 0, 1, [9], [1, 0, 0, 0]⟩ = true ∧
      decodeLzssData [0x01] [9] [1, 0, 0, 0] (fun _ => 0) = some [9, 9, 9] ∧
      decodeLzssData [0x01] [9] [1, 0, 0, 0] (fun _ => 7) =
        decodeLzssData [0x01] [9] [1, 0, 0, 0] (fun _ => 0) :=
  ⟨by decide, by decide,
    (decodeLzssData_ring [0x01] [9] [1, 0, 0, 0] (fun _ => 0)).2.2.2.2 (by decide)
      (fun _ => 7)⟩

/-! ## LZSS: round trip -/

theorem copyBack_length (dist : Nat) : ∀ (count : Nat) (out : List Nat),
    (copyBack dist count out).length = out.length + count := by
  intro count
  induction count with
  | zero => intro out; rfl
  | succ n ih =>
    intro out
    rw [copyBack, ih]
    simp only [List.length_append, List.length_singleton]
    omega

/-- A back-reference that starts at the ring position of the byte `dist`
places before the end of the output copies the output byte by byte. -/
theorem copyRun_copyBack (dist : Nat) (hd1 : 1 ≤ dist) (hd2 : dist ≤ 4096) :
    ∀ (count : Nat) (s : LzssState), RingInv s → dist ≤ s.out.length →
      (copyRun count ((1 + s.out.length - dist) % 4096) s).out = copyBack dist count s.out := by
  intro count
  induction count with
  | zero => intro s _ _; rfl
  | succ n ih =>
    intro s hinv hlen
    have hread : s.dst2 ((1 + s.out.length - dist) % 4096) =
        s.out.getD (s.out.length - dist) 0 := by
      have := hinv.2 (s.out.length - dist) (by omega) (by omega)
      rw [← this]
      congr 2
      omega
    rw [copyRun, copyBack, hread, and_fff]
    have hout : (s.emit (s.out.getD (s.out.length - dist) 0)).out =
        s.out ++ [s.out.getD (s.out.length - dist) 0] := rfl
    have hoffs : ((1 + s.out.length - dist) % 4096 + 1) % 4096 =
        (1 + (s.emit (s.out.getD (s.out.length - dist) 0)).out.length - dist) % 4096 := by
      rw [hout]
      simp only [List.length_append, List.length_singleton]
      omega
    rw [hoffs, ih _ (emit_inv s _ hinv) (by
      rw [hout]
      simp only [List.length_append, List.length_singleton]
      omega), hout]

theorem bitsFrom_eq (code : Nat) : ∀ (n b : Nat),
    bitsFrom code b n = (List.range n).map (fun i => decide (code &&& (1 <<< (b + i)) ≠ 0)) := by
  intro n
  induction n with
  | zero => intro b; rfl
  | succ n ih =>
    intro b
    rw [bitsFrom, ih, List.range_succ_eq_map, List.map_cons, List.map_map]
    congr 1
    apply List.map_congr_left
    intro i _
    simp only [Function.comp, Nat.add_zero]
    rw [show b + 1 + i = b + (i + 1) by omega]

theorem packByte_bit : ∀ (b0 b1 b2 b3 b4 b5 b6 b7 : Bool) (i : Nat), i < 8 →
    decide (((if b0 then 1 else 0) + (if b1 then 2 else 0) + (if b2 then 4 else 0) +
        (if b3 then 8 else 0) + (if b4 then 16 else 0) + (if b5 then 32 else 0) +
        (if b6 then 64 else 0) + (if b7 then 128 else 0)) &&& (1 <<< i) ≠ 0) =
      [b0, b1, b2, b3, b4, b5, b6, b7].getD i false := by
  decide

theorem prefix_map_getD : ∀ (bits : List Bool) (n : Nat), bits.length ≤ n →
    bits <+: (List.range n).map (fun i => bits.getD i false) := by
  intro bits
  induction bits with
  | nil => intro n _; exact List.nil_prefix
  | cons b bits ih =>
    intro n hn
    cases n with
    | zero => simp at hn
    | succ n =>
      rw [List.range_succ_eq_map, List.map_cons, List.map_map]
      simp only [List.getD_cons_zero]
      rw [List.cons_prefix_cons]
      refine ⟨rfl, ?_⟩
      have := ih n (by simpa using hn)
      convert this using 2

/-- The control bits of a packed byte are the bits packed, followed by clear
bits. -/
theorem packByte_prefix (bits : List Bool) (h : bits.length ≤ 8) :
    bits <+: bitsFrom (packByte bits) 0 8 := by
  have hmap : bitsFrom (packByte bits) 0 8 =
      (List.range 8).map (fun i => bits.getD i false) := by
    rw [bitsFrom_eq]
    apply List.map_congr_left
    intro i hi
    rw [List.mem_range] at hi
    have := packByte_bit (bits.getD 0 false) (bits.getD 1 false) (bits.getD 2 false)
      (bits.getD 3 false) (bits.getD 4 false) (bits.getD 5 false) (bits.getD 6 false)
      (bits.getD 7 false) i hi
    rw [Nat.zero_add]
    unfold packByte
    rw [this]
    have h8 : i = 0 ∨ i = 1 ∨ i = 2 ∨ i = 3 ∨ i = 4 ∨ i = 5 ∨ i = 6 ∨ i = 7 := by omega
    rcases h8 with h | h | h | h | h | h | h | h <;> subst h <;> rfl
  rw [hmap]
  exact prefix_map_getD bits 8 h

theorem packBits_prefix : ∀ (fuel : Nat) (bits : List Bool), bits.length ≤ fuel →
    bits <+: bitsOf (packBits fuel bits) := by
  intro fuel
  induction fuel with
  | zero =>
    intro bits h
    have : bits = [] := List.length_eq_zero.mp (Nat.le_zero.mp h)
    subst this
    exact List.nil_prefix
  | succ fuel ih =>
    intro bits h
    cases hb : bits with
    | nil => exact List.nil_prefix
    | cons b rest =>
      rw [packBits]
      simp only [bitsOf]
      rw [← hb]
      have htake : (bits.take 8).length ≤ 8 := by simp
      have hp := packByte_prefix (bits.take 8) htake
      by_cases hlen : 8 ≤ bits.length
      · have heq : bitsFrom (packByte (bits.take 8)) 0 8 = bits.take 8 := by
          have hl : (bitsFrom (packByte (bits.take 8)) 0 8).length = (bits.take 8).length := by
            rw [bitsFrom_eq]
            simp
            omega
          exact (hp.eq_of_length hl.symm).symm
        rw [heq]
        conv_lhs => rw [← List.take_append_drop 8 bits]
        rw [List.prefix_append_right_inj]
        apply ih
        simp
        omega
      · have hd : bits.drop 8 = [] := by
          apply List.drop_eq_nil_of_le
          omega
        have ht : bits.take 8 = bits := by
          apply List.take_of_length_le
          omega
        rw [ht] at hp ⊢
        exact hp.trans (List.prefix_append _ _)

theorem decodeRest_zero (code b : Nat) (src1 : List Nat) (s : LzssState) :
    decodeRest code 0 b src1 s = decodeLoop src1 s := by
  simp [decodeRest, decodeBits]

theorem decodeLoop_cons (code : Nat) (src1 : List Nat) (s : LzssState) :
    decodeLoop (code :: src1) s = decodeRest code 8 0 src1 s := by
  rw [decodeLoop, decodeRest]

theorem decodeRest_lit (code n b : Nat) (src1 : List Nat) (s : LzssState) (v : Nat)
    (rest2 : List Nat) (hbit : code &&& (1 <<< b) ≠ 0) (hsrc : s.src2 = v :: rest2) :
    decodeRest code (n + 1) b src1 s =
      decodeRest code n (b + 1) src1 ({ s with src2 := rest2 }.emit v) := by
  rw [decodeRest, decodeRest, decodeBits_set code n b s v rest2 hbit hsrc]

theorem decodeRest_ref (code n b : Nat) (src1 : List Nat) (s : LzssState) (lo hi : Nat)
    (rest : List Nat) (hbit : code &&& (1 <<< b) = 0) (hsrc : s.src3 = lo :: hi :: rest)
    (hoffs : (lo + 256 * hi) &&& 0xFFF ≠ 0) :
    decodeRest code (n + 1) b src1 s =
      decodeRest code n (b + 1) src1
        (copyRun (((lo + 256 * hi) >>> 0xC) + 2) ((lo + 256 * hi) &&& 0xFFF)
          { s with src3 := rest }) := by
  rw [decodeRest, decodeRest, decodeBits_clear code n b s lo hi rest hbit hsrc, if_neg hoffs]

theorem decodeRest_end (code n b : Nat) (src1 : List Nat) (s : LzssState) (lo hi : Nat)
    (rest : List Nat) (hbit : code &&& (1 <<< b) = 0) (hsrc : s.src3 = lo :: hi :: rest)
    (hoffs : (lo + 256 * hi) &&& 0xFFF = 0) :
    decodeRest code (n + 1) b src1 s = some { s with src3 := rest } := by
  rw [decodeRest, decodeBits_clear code n b s lo hi rest hbit hsrc, if_pos hoffs]

/-- With a control bit left in the stream, the rest of the call stands before
a bit of a control byte. -/
theorem decodeRest_next (x : Bool) (l : List Bool) (code n b : Nat) (src1 : List Nat)
    (h : x :: l <+: bitsFrom code b n ++ bitsOf src1) :
    ∃ code' n' b' src1',
      (∀ s, decodeRest code n b src1 s = decodeRest code' (n' + 1) b' src1' s) ∧
        x = decide (code' &&& (1 <<< b') ≠ 0) ∧
        l <+: bitsFrom code' (b' + 1) n' ++ bitsOf src1' := by
  cases n with
  | zero =>
    cases src1 with
    | nil =>
      simp only [bitsFrom, bitsOf, List.append_nil, List.prefix_nil] at h
      exact absurd h (by simp)
    | cons c r =>
      refine ⟨c, 7, 0, r, fun s => by rw [decodeRest_zero, decodeLoop_cons], ?_, ?_⟩
      · simp only [bitsFrom, bitsOf, List.nil_append, List.cons_append,
          List.cons_prefix_cons] at h
        exact h.1
      · simp only [bitsFrom, bitsOf, List.nil_append, List.cons_append,
          List.cons_prefix_cons] at h
        simpa [bitsFrom] using h.2
  | succ n =>
    refine ⟨code, n, b, src1, fun s => rfl, ?_, ?_⟩
    · simp only [bitsFrom, List.cons_append, List.cons_prefix_cons] at h
      exact h.1
    · simp only [bitsFrom, List.cons_append, List.cons_prefix_cons] at h
      exact h.2

theorem code_split (count offs : Nat) (hc1 : 2 ≤ count) (hc2 : count ≤ 17) (ho : offs < 4096) :
    (((count - 2) * 4096 + offs) % 256 + 256 * (((count - 2) * 4096 + offs) / 256)) >>> 0xC + 2 =
        count ∧
      (((count - 2) * 4096 + offs) % 256 + 256 * (((count - 2) * 4096 + offs) / 256)) &&&
        0xFFF = offs := by
  have h : ((count - 2) * 4096 + offs) % 256 + 256 * (((count - 2) * 4096 + offs) / 256) =
      (count - 2) * 4096 + offs := Nat.mod_add_div _ _
  rw [h, and_fff, Nat.shiftRight_eq_div_pow]
  constructor <;> omega

/-- The decoder on the streams of a reference encoding, from any point of a
call at which the ring invariant holds: the bytes of the tokens are appended
to the output. -/
theorem decodeRest_tokens : ∀ (ts : List Token) (code n b : Nat) (src1 : List Nat)
    (s : LzssState) (rest2 rest3 : List Nat),
    tokenBits ts <+: bitsFrom code b n ++ bitsOf src1 →
    validTokens ts s.out.length = true → RingInv s →
    s.src2 = tokenLiterals ts ++ rest2 → s.src3 = tokenCodes ts s.out.length ++ rest3 →
    ∃ s', decodeRest code n b src1 s = some s' ∧ s'.out = expandTokens ts s.out := by
  intro ts
  induction ts with
  | nil =>
    intro code n b src1 s rest2 rest3 hbits _ _ _ h3
    obtain ⟨code', n', b', src1', hstep, hx, _⟩ := decodeRest_next _ _ _ _ _ _ hbits
    have hbit : code' &&& (1 <<< b') = 0 := by
      by_contra hc
      simp [hc] at hx
    rw [hstep, decodeRest_end code' n' b' src1' s 0 0 rest3 hbit (by simpa [tokenCodes] using h3)
      (by decide)]
    exact ⟨_, rfl, rfl⟩
  | cons t ts ih =>
    intro code n b src1 s rest2 rest3 hbits hvalid hinv h2 h3
    cases t with
    | lit v =>
      obtain ⟨code', n', b', src1', hstep, hx, hrest⟩ := decodeRest_next _ _ _ _ _ _ hbits
      have hbit : code' &&& (1 <<< b') ≠ 0 := by
        intro hc
        simp [hc] at hx
      rw [hstep, decodeRest_lit code' n' b' src1' s v (tokenLiterals ts ++ rest2) hbit
        (by simpa [tokenLiterals] using h2)]
      have hout : ({ s with src2 := tokenLiterals ts ++ rest2 }.emit v).out = s.out ++ [v] := rfl
      obtain ⟨s', hs', ho⟩ := ih code' n' (b' + 1) src1'
        ({ s with src2 := tokenLiterals ts ++ rest2 }.emit v) rest2 rest3 hrest
        (by
          rw [hout]
          simpa [validTokens] using hvalid)
        (emit_inv { s with src2 := tokenLiterals ts ++ rest2 } v hinv) rfl
        (by
          rw [hout]
          simpa [tokenCodes, LzssState.emit] using h3)
      exact ⟨s', hs', by rw [ho, hout]; rfl⟩
    | ref dist count =>
      obtain ⟨code', n', b', src1', hstep, hx, hrest⟩ := decodeRest_next _ _ _ _ _ _ hbits
      have hbit : code' &&& (1 <<< b') = 0 := by
        by_contra hc
        simp [hc] at hx
      simp only [validTokens, Bool.and_eq_true, decide_eq_true_eq] at hvalid
      obtain ⟨⟨hd1, hd2, hd3, hc1, hc2, hoff⟩, hv⟩ := hvalid
      obtain ⟨e1, e2⟩ := code_split count ((1 + s.out.length - dist) % 4096) hc1 hc2
        (Nat.mod_lt _ (by decide))
      rw [hstep, decodeRest_ref code' n' b' src1' s _ _ (tokenCodes ts (s.out.length + count) ++ rest3)
        hbit (by simpa [tokenCodes] using h3) (by rw [e2]; exact hoff), e1, e2]
      have hout : (copyRun count ((1 + s.out.length - dist) % 4096)
          { s with src3 := tokenCodes ts (s.out.length + count) ++ rest3 }).out =
          copyBack dist count s.out :=
        copyRun_copyBack dist hd1 hd3 count
          { s with src3 := tokenCodes ts (s.out.length + count) ++ rest3 } hinv hd2
      have hlen : (copyBack dist count s.out).length = s.out.length + count :=
        copyBack_length dist count s.out
      obtain ⟨s', hs', ho⟩ := ih code' n' (b' + 1) src1'
        (copyRun count ((1 + s.out.length - dist) % 4096)
          { s with src3 := tokenCodes ts (s.out.length + count) ++ rest3 }) rest2 rest3 hrest
        (by rw [hout, hlen]; exact hv)
        (copyRun_inv _ _ _ hinv)
        (by rw [(copyRun_src _ _ _).1]; simpa [tokenLiterals] using h2)
        (by rw [(copyRun_src _ _ _).2, hout, hlen])
      exact ⟨s', hs', by rw [ho, hout]; rfl⟩

/-- C1. LZSS round trip.  A reference encoding of the bytes `B` is a list of
tokens that stands for `B` (`expandTokens`), each a literal byte or a
back-reference of 2 to 17 bytes reaching 1 to 4096 bytes back in the output,
copied byte by byte so that it may overlap itself, written as control bits
packed 8 to a byte from bit 0 on, a literal stream and a stream of 16-bit
codes ended by the code 0.  `decodeLzssData` on these streams returns exactly
`B`, whatever the initial contents of the ring and whatever follows in the
literal and code streams.  Every byte sequence has such an encoding, its
bytes as literals; and on the literal-only encoding (one set control bit per
byte, least significant bit first, then a clear bit with a code whose low 12
bits are 0) the result is the literal stream. -/
theorem decodeLzssData_roundtrip (dst2 : Nat → Nat) :
    (∀ (ts : List Token) (B rest2 rest3 : List Nat), validTokens ts 0 = true →
        expandTokens ts [] = B →
        decodeLzssData (encodeControl ts) (tokenLiterals ts ++ rest2)
          (tokenCodes ts 0 ++ rest3) dst2 = some B) ∧
      (∀ B : List Nat, validTokens (B.map Token.lit) 0 = true ∧
        expandTokens (B.map Token.lit) [] = B) ∧
      (∀ (B : List Nat) (lo hi : Nat) (rest : List Nat), (lo + 256 * hi) &&& 0xFFF = 0 →
        decodeLzssData (literalControl B.length) B (lo :: hi :: rest) dst2 = some B) := by
  refine ⟨?_, ?_, fun B lo hi rest h => decodeLzssData_literal B dst2 lo hi rest h⟩
  · intro ts B rest2 rest3 hvalid hB
    obtain ⟨s', hs', ho⟩ := decodeRest_tokens ts 0 0 0 (encodeControl ts)
      ⟨[], dst2, 1, tokenLiterals ts ++ rest2, tokenCodes ts 0 ++ rest3⟩ rest2 rest3
      (by
        simp only [bitsFrom, List.nil_append]
        exact packBits_prefix _ _ (le_refl _))
      hvalid ⟨rfl, fun k _ hk => absurd hk (Nat.not_lt_zero k)⟩ rfl rfl
    rw [decodeRest_zero] at hs'
    rw [decodeLzssData, hs', Option.map_some', ho, ← hB]
  · intro A
    have key : ∀ (A out : List Nat), validTokens (A.map Token.lit) out.length = true ∧
        expandTokens (A.map Token.lit) out = out ++ A := by
      intro A
      induction A with
      | nil => intro out; simp [validTokens, expandTokens]
      | cons a A ih =>
        intro out
        have := ih (out ++ [a])
        simp only [List.length_append, List.length_singleton] at this
        simp only [List.map_cons, validTokens, expandTokens]
        exact ⟨this.1, by rw [this.2]; simp⟩
    simpa using key A []

/-- C1 at a concrete input: ten tokens, among them a back-reference of 5
bytes at distance 2 and one of 4 bytes at distance 1, which overlap
themselves, on a ring of `0xAB` bytes and with bytes behind the streams. -/
theorem decodeLzssData_roundtrip_witness :
    expandTokens [Token.lit 1, Token.lit 2, Token.ref 2 5, Token.lit 3, Token.ref 1 4,
        Token.lit 4, Token.lit 5, Token.lit 6, Token.lit 7, Token.ref 3 2] [] =
        [1, 2, 1, 2, 1, 2, 1, 3, 3, 3, 3, 3, 4, 5, 6, 7, 5, 6] ∧
      encodeControl [Token.lit 1, Token.lit 2, Token.ref 2 5, Token.lit 3, Token.ref 1 4,
        Token.lit 4, Token.lit 5, Token.lit 6, Token.lit 7, Token.ref 3 2] = [0xEB, 0x01] ∧
      tokenCodes [Token.lit 1, Token.lit 2, Token.ref 2 5, Token.lit 3, Token.ref 1 4,
        Token.lit 4, Token.lit 5, Token.lit 6, Token.lit 7, Token.ref 3 2] 0 =
        [0x01, 0x30, 0x08, 0x20, 0x0E, 0x00, 0, 0] ∧
      decodeLzssData
        (encodeControl [Token.lit 1, Token.lit 2, Token.ref 2 5, Token.lit 3, Token.ref 1 4,
          Token.lit 4, Token.lit 5, Token.lit 6, Token.lit 7, Token.ref 3 2])
        (tokenLiterals [Token.lit 1, Token.lit 2, Token.ref 2 5, Token.lit 3, Token.ref 1 4,
          Token.lit 4, Token.lit 5, Token.lit 6, Token.lit 7, Token.ref 3 2] ++ [9])
        (tokenCodes [Token.lit 1, Token.lit 2, Token.ref 2 5, Token.lit 3, Token.ref 1 4,
          Token.lit 4, Token.lit 5, Token.lit 6, Token.lit 7, Token.ref 3 2] 0 ++ [9, 9])
        (fun _ => 0xAB) = some [1, 2, 1, 2, 1, 2, 1, 3, 3, 3, 3, 3, 4, 5, 6, 7, 5, 6] :=
  ⟨by decide, by decide, by decide,
    (decodeLzssData_roundtrip (fun _ => 0xAB)).1
      [Token.lit 1, Token.lit 2, Token.ref 2 5, Token.lit 3, Token.ref 1 4, Token.lit 4,
        Token.lit 5, Token.lit 6, Token.lit 7, Token.ref 3 2]
      [1, 2, 1, 2, 1, 2, 1, 3, 3, 3, 3, 3, 4, 5, 6, 7, 5, 6] [9] [9, 9]
      (by decide) (by decide)⟩

end CUP

namespace Parallaction

/-! ## Integer conversions -/

theorem toInt16_range (v : Int) : -32768 ≤ toInt16 v ∧ toInt16 v ≤ 32767 := by
  unfold toInt16; omega

theorem toInt16_of_range (v : Int) (h1 : -32768 ≤ v) (h2 : v ≤ 32767) : toInt16 v = v := by
  unfold toInt16; omega

theorem toUint16_toInt16 (v : Int) : toUint16 (toInt16 v) = toUint16 v := by
  unfold toInt16 toUint16; omega

theorem toInt16_toUint16 (v : Int) : toInt16 (toUint16 v) = toInt16 v := by
  unfold toInt16 toUint16; omega

theorem toUint16_of_range (v : Int) (h1 : 0 ≤ v) (h2 : v < 65536) : toUint16 v = v := by
  unfold toUint16; omega

theorem queryPath_toInt16 (b : Nat → Nat) (x y : Int) :
    queryPath b (toInt16 x) (toInt16 y) = queryPath b x y := by
  simp [queryPath, toUint16_toInt16]

/-! ## The scans of the nearest-walkable snap -/

theorem scanRight_spec (e : Engine) (to_y : Int) (hW : e.SCREEN_WIDTH ≤ 32767) :
    ∀ (fuel : Nat) (right : Int), -32768 ≤ right → right < 32767 → 1 ≤ fuel →
      e.SCREEN_WIDTH - right ≤ fuel →
      ∃ r, scanRight e to_y fuel right = some r ∧ right < r ∧
        (r ≤ e.SCREEN_WIDTH ∨ r = right + 1) ∧
        (∀ c, right < c → c < r → queryPath e._buffer c to_y = 0) ∧
        (r < e.SCREEN_WIDTH → queryPath e._buffer r to_y ≠ 0) := by
  intro fuel
  induction fuel with
  | zero => intro right _ _ h; omega
  | succ fuel ih =>
    intro right h1 h2 _ hf
    have hstep : toInt16 (right + 1) = right + 1 := toInt16_of_range _ (by omega) (by omega)
    rw [scanRight]
    simp only [hstep]
    by_cases hc : queryPath e._buffer (right + 1) to_y = 0 ∧ right + 1 < e.SCREEN_WIDTH
    · rw [if_pos hc]
      obtain ⟨r, hr, hlt, hle, hall, hq⟩ := ih (right + 1) (by omega) (by omega) (by omega)
        (by omega)
      refine ⟨r, hr, by omega, ?_, ?_, hq⟩
      · rcases hle with h | h
        · exact Or.inl h
        · exact Or.inl (by omega)
      · intro c hc1 hc2
        by_cases hcr : c = right + 1
        · rw [hcr]; exact hc.1
        · exact hall c (by omega) hc2
    · rw [if_neg hc]
      refine ⟨right + 1, rfl, by omega, Or.inr rfl, fun c h3 h4 => by omega, ?_⟩
      intro hlt hq
      exact hc ⟨hq, hlt⟩

theorem scanLeft_spec (e : Engine) (to_y : Int) :
    ∀ (fuel : Nat) (left : Int), -32768 < left → left ≤ 32767 → 1 ≤ fuel → left ≤ fuel →
      ∃ l, scanLeft e to_y fuel left = some l ∧ l < left ∧ (0 ≤ l ∨ l = left - 1) ∧
        (∀ c, l < c → c < left → queryPath e._buffer c to_y = 0) ∧
        (0 < l → queryPath e._buffer l to_y ≠ 0) := by
  intro fuel
  induction fuel with
  | zero => intro left _ _ h; omega
  | succ fuel ih =>
    intro left h1 h2 _ hf
    have hstep : toInt16 (left - 1) = left - 1 := toInt16_of_range _ (by omega) (by omega)
    rw [scanLeft]
    simp only [hstep]
    by_cases hc : queryPath e._buffer (left - 1) to_y = 0 ∧ left - 1 > 0
    · rw [if_pos hc]
      obtain ⟨l, hl, hlt, hle, hall, hq⟩ := ih (left - 1) (by omega) (by omega) (by omega)
        (by omega)
      refine ⟨l, hl, by omega, ?_, ?_, hq⟩
      · rcases hle with h | h
        · exact Or.inl h
        · exact Or.inl (by omega)
      · intro c hc1 hc2
        by_cases hcr : c = left - 1
        · rw [hcr]; exact hc.1
        · exact hall c hc1 (by omega)
    · rw [if_neg hc]
      refine ⟨left - 1, rfl, by omega, Or.inr rfl, fun c h3 h4 => by omega, ?_⟩
      intro hlt hq
      exact hc ⟨hq, hlt⟩

theorem scanTop_spec (e : Engine) (to_x : Int) :
    ∀ (fuel : Nat) (top : Int), -32768 < top → top ≤ 32767 → 1 ≤ fuel → top ≤ fuel →
      ∃ t, scanTop e to_x fuel top = some t ∧ t < top ∧ (0 ≤ t ∨ t = top - 1) ∧
        (∀ c, t < c → c < top → queryPath e._buffer to_x c = 0) ∧
        (0 < t → queryPath e._buffer to_x t ≠ 0) := by
  intro fuel
  induction fuel with
  | zero => intro top _ _ h; omega
  | succ fuel ih =>
    intro top h1 h2 _ hf
    have hstep : toInt16 (top - 1) = top - 1 := toInt16_of_range _ (by omega) (by omega)
    rw [scanTop]
    simp only [hstep]
    by_cases hc : queryPath e._buffer to_x (top - 1) = 0 ∧ top - 1 > 0
    · rw [if_pos hc]
      obtain ⟨t, ht, hlt, hle, hall, hq⟩ := ih (top - 1) (by omega) (by omega) (by omega)
        (by omega)
      refine ⟨t, ht, by omega, ?_, ?_, hq⟩
      · rcases hle with h | h
        · exact Or.inl h
        · exact Or.inl (by omega)
      · intro c hc1 hc2
        by_cases hcr : c = top - 1
        · rw [hcr]; exact hc.1
        · exact hall c hc1 (by omega)
    · rw [if_neg hc]
      refine ⟨top - 1, rfl, by omega, Or.inr rfl, fun c h3 h4 => by omega, ?_⟩
      intro hlt hq
      exact hc ⟨hq, hlt⟩

theorem scanBottom_spec (e : Engine) (to_x : Int) (hH : e.SCREEN_HEIGHT ≤ 32767) :
    ∀ (fuel : Nat) (bottom : Int), -32768 ≤ bottom → bottom < 32767 → 1 ≤ fuel →
      e.SCREEN_HEIGHT - bottom ≤ fuel →
      ∃ r, scanBottom e to_x fuel bottom = some r ∧ bottom < r ∧
        (r ≤ e.SCREEN_HEIGHT ∨ r = bottom + 1) ∧
        (∀ c, bottom < c → c < r → queryPath e._buffer to_x c = 0) ∧
        (r < e.SCREEN_HEIGHT → queryPath e._buffer to_x r ≠ 0) := by
  intro fuel
  induction fuel with
  | zero => intro bottom _ _ h; omega
  | succ fuel ih =>
    intro bottom h1 h2 _ hf
    have hstep : toInt16 (bottom + 1) = bottom + 1 := toInt16_of_range _ (by omega) (by omega)
    rw [scanBottom]
    simp only [hstep]
    by_cases hc : queryPath e._buffer to_x (bottom + 1) = 0 ∧ bottom + 1 < e.SCREEN_HEIGHT
    · rw [if_pos hc]
      obtain ⟨r, hr, hlt, hle, hall, hq⟩ := ih (bottom + 1) (by omega) (by omega) (by omega)
        (by omega)
      refine ⟨r, hr, by omega, ?_, ?_, hq⟩
      · rcases hle with h | h
        · exact Or.inl h
        · exact Or.inl (by omega)
      · intro c hc1 hc2
        by_cases hcr : c = bottom + 1
        · rw [hcr]; exact hc.1
        · exact hall c (by omega) hc2
    · rw [if_neg hc]
      refine ⟨bottom + 1, rfl, by omega, Or.inr rfl, fun c h3 h4 => by omega, ?_⟩
      intro hlt hq
      exact hc ⟨hq, hlt⟩

/-- For a click inside the grid and off column 0 and row 0, the four scans
end and the distances are the ones the specification describes. -/
theorem scanDistances_spec (e : Engine) (x y : Int)
    (hW : e.SCREEN_WIDTH ≤ 1000) (hH : e.SCREEN_HEIGHT ≤ 1000)
    (hx1 : 1 ≤ x) (hx2 : x < e.SCREEN_WIDTH) (hy1 : 1 ≤ y) (hy2 : y < e.SCREEN_HEIGHT) :
    ∃ d, scanDistances e x y = some d ∧
      IsDistance (fun k => queryPath e._buffer (x + k) y ≠ 0) (e.SCREEN_WIDTH - x) d.right ∧
      IsDistance (fun k => queryPath e._buffer (x - k) y ≠ 0) x d.left ∧
      IsDistance (fun k => queryPath e._buffer x (y - k) ≠ 0) y d.top ∧
      IsDistance (fun k => queryPath e._buffer x (y + k) ≠ 0) (e.SCREEN_HEIGHT - y) d.bottom := by
  obtain ⟨r, hr, hr1, hr2, hr3, hr4⟩ :=
    scanRight_spec e y (by omega) 65536 x (by omega) (by omega) (by omega) (by omega)
  obtain ⟨l, hl, hl1, hl2, hl3, hl4⟩ :=
    scanLeft_spec e y 65536 x (by omega) (by omega) (by omega) (by omega)
  obtain ⟨t, ht, ht1, ht2, ht3, ht4⟩ :=
    scanTop_spec e x 65536 y (by omega) (by omega) (by omega) (by omega)
  obtain ⟨b, hb, hb1, hb2, hb3, hb4⟩ :=
    scanBottom_spec e x (by omega) 65536 y (by omega) (by omega) (by omega) (by omega)
  have hd : scanDistances e x y = some
      { right := if r = e.SCREEN_WIDTH then 1000 else toInt16 (r - x)
        left := if l = 0 then 1000 else toInt16 (x - l)
        top := if t = 0 then 1000 else toInt16 (y - t)
        bottom := if b = e.SCREEN_HEIGHT then 1000 else toInt16 (b - y) } := by
    simp only [scanDistances, hr, hl, ht, hb]
  refine ⟨_, hd, ?_, ?_, ?_, ?_⟩
  · by_cases h : r = e.SCREEN_WIDTH
    · left
      simp only [h, if_true, true_and]
      intro k hk1 hk2
      simpa using hr3 (x + k) (by omega) (by omega)
    · right
      have hrx : toInt16 (r - x) = r - x := toInt16_of_range _ (by omega) (by omega)
      simp only [h, if_false, hrx]
      refine ⟨by omega, by omega, ?_, ?_⟩
      · rw [show x + (r - x) = r by omega]; exact hr4 (by omega)
      · intro k hk1 hk2
        simpa using hr3 (x + k) (by omega) (by omega)
  · by_cases h : l = 0
    · left
      simp only [h, if_true, true_and]
      intro k hk1 hk2
      simpa using hl3 (x - k) (by omega) (by omega)
    · right
      have hlx : toInt16 (x - l) = x - l := toInt16_of_range _ (by omega) (by omega)
      simp only [h, if_false, hlx]
      refine ⟨by omega, by omega, ?_, ?_⟩
      · rw [show x - (x - l) = l by omega]; exact hl4 (by omega)
      · intro k hk1 hk2
        simpa using hl3 (x - k) (by omega) (by omega)
  · by_cases h : t = 0
    · left
      simp only [h, if_true, true_and]
      intro k hk1 hk2
      simpa using ht3 (y - k) (by omega) (by omega)
    · right
      have hty : toInt16 (y - t) = y - t := toInt16_of_range _ (by omega) (by omega)
      simp only [h, if_false, hty]
      refine ⟨by omega, by omega, ?_, ?_⟩
      · rw [show y - (y - t) = t by omega]; exact ht4 (by omega)
      · intro k hk1 hk2
        simpa using ht3 (y - k) (by omega) (by omega)
  · by_cases h : b = e.SCREEN_HEIGHT
    · left
      simp only [h, if_true, true_and]
      intro k hk1 hk2
      simpa using hb3 (y + k) (by omega) (by omega)
    · right
      have hby : toInt16 (b - y) = b - y := toInt16_of_range _ (by omega) (by omega)
      simp only [h, if_false, hby]
      refine ⟨by omega, by omega, ?_, ?_⟩
      · rw [show y + (b - y) = b by omega]; exact hb4 (by omega)
      · intro k hk1 hk2
        simpa using hb3 (y + k) (by omega) (by omega)

/-- The choice of lines 91-110: `close` is the least of the four distances and
the target moves by it in the first of the directions right, left, top,
bottom whose distance equals it. -/
theorem moveTarget_order (e : Engine) (wd to_x to_y : Int) (d : Distances) :
    ∃ close,
      close ≤ d.right ∧ close ≤ d.left ∧ close ≤ d.top ∧ close ≤ d.bottom ∧
      ((close = d.right ∧
          (moveTarget e wd to_x to_y d).to_x = toInt16 (to_x + close) ∧
          (moveTarget e wd to_x to_y d).to_y = to_y) ∨
        (close ≠ d.right ∧ close = d.left ∧
          (moveTarget e wd to_x to_y d).to_x = toInt16 (to_x - close) ∧
          (moveTarget e wd to_x to_y d).to_y = to_y) ∨
        (close ≠ d.right ∧ close ≠ d.left ∧ close = d.top ∧
          (moveTarget e wd to_x to_y d).to_x = to_x ∧
          (moveTarget e wd to_x to_y d).to_y = toInt16 (to_y - close)) ∨
        (close ≠ d.right ∧ close ≠ d.left ∧ close ≠ d.top ∧ close = d.bottom ∧
          (moveTarget e wd to_x to_y d).to_x = to_x ∧
          (moveTarget e wd to_x to_y d).to_y = toInt16 (to_y + close))) := by
  refine ⟨if (if d.right ≥ d.left then d.left else d.right) ≥
      (if d.top ≥ d.bottom then d.bottom else d.top)
    then (if d.top ≥ d.bottom then d.bottom else d.top)
    else (if d.right ≥ d.left then d.left else d.right), ?_⟩
  unfold moveTarget
  simp only []
  generalize hclose : (if (if d.right ≥ d.left then d.left else d.right) ≥
      (if d.top ≥ d.bottom then d.bottom else d.top)
    then (if d.top ≥ d.bottom then d.bottom else d.top)
    else (if d.right ≥ d.left then d.left else d.right)) = close
  have hb : close ≤ d.right ∧ close ≤ d.left ∧ close ≤ d.top ∧ close ≤ d.bottom ∧
      (close = d.right ∨ close = d.left ∨ close = d.top ∨ close = d.bottom) := by
    rw [← hclose]
    split_ifs <;> omega
  obtain ⟨b1, b2, b3, b4, b5⟩ := hb
  refine ⟨b1, b2, b3, b4, ?_⟩
  by_cases h1 : close = d.right
  · left
    rw [if_pos h1]
    exact ⟨h1, by rw [h1], rfl⟩
  · rw [if_neg h1]
    right
    by_cases h2 : close = d.left
    · left
      rw [if_pos h2]
      exact ⟨h1, h2, by rw [h2], rfl⟩
    · rw [if_neg h2]
      right
      by_cases h3 : close = d.top
      · left
        rw [if_pos h3]
        exact ⟨h1, h2, h3, rfl, by rw [h3]⟩
      · rw [if_neg h3]
        right
        have h4 : close = d.bottom := by
          rcases b5 with h | h | h | h
          · exact absurd h h1
          · exact absurd h h2
          · exact absurd h h3
          · exact h
        rw [if_pos h4]
        exact ⟨h1, h2, h3, h4, rfl, by rw [h4]⟩

/-- A distance below 1000 that satisfies the wording of the specification
leads to a walkable cell. -/
theorem IsDistance.walk_of_lt {walk : Int → Prop} {limit d : Int}
    (h : IsDistance walk limit d) (hd : d < 1000) : 0 < d ∧ d < limit ∧ walk d := by
  rcases h with ⟨h1, _⟩ | ⟨h1, h2, h3, _⟩
  · omega
  · exact ⟨h1, h2, h3⟩

theorem IsDistance.pos {walk : Int → Prop} {limit d : Int}
    (h : IsDistance walk limit d) : 0 < d := by
  rcases h with ⟨h1, _⟩ | ⟨h1, _⟩ <;> omega

theorem IsDistance.lt_of_walk {walk : Int → Prop} {limit d k : Int}
    (h : IsDistance walk limit d) (hl : limit ≤ 1000) (hk1 : 0 < k) (hk2 : k < limit)
    (hw : walk k) : d < 1000 := by
  rcases h with ⟨_, h2⟩ | ⟨_, h2, _, _⟩
  · exact absurd hw (h2 k hk1 hk2)
  · omega

/-- C2. A click `(x, y)` (two `uint16` values) on a walkable cell is left
unchanged by the nearest-walkable snap: the working target is the click
itself, `to_x` and `to_y` being the `int16` readings of `x` and `y` (the same
16-bit values, and the same numbers whenever `x, y < 32768`). -/
theorem snapTarget_walkable_unchanged (e : Engine) (walkData3 x y : Int)
    (hx : 0 ≤ x ∧ x < 65536) (hy : 0 ≤ y ∧ y < 65536)
    (hq : queryPath e._buffer x y ≠ 0) :
    snapTarget e walkData3 x y = some ⟨toInt16 x, toInt16 y, walkData3⟩ ∧
      toUint16 (toInt16 x) = x ∧ toUint16 (toInt16 y) = y ∧
      (x < 32768 → toInt16 x = x) ∧ (y < 32768 → toInt16 y = y) := by
  refine ⟨?_, ?_, ?_, ?_, ?_⟩
  · unfold snapTarget
    simp only [queryPath_toInt16, hq, if_false]
  · rw [toUint16_toInt16]; exact toUint16_of_range x hx.1 hx.2
  · rw [toUint16_toInt16]; exact toUint16_of_range y hy.1 hy.2
  · intro h; exact toInt16_of_range x (by omega) (by omega)
  · intro h; exact toInt16_of_range y (by omega) (by omega)

/-- C2 at a concrete input: the click `(6, 3)` on `engineThreeCells`. -/
theorem snapTarget_walkable_unchanged_witness :
    queryPath engineThreeCells._buffer 6 3 ≠ 0 ∧
      snapTarget engineThreeCells (-1000) 6 3 = some ⟨6, 3, -1000⟩ :=
  ⟨by decide,
    (snapTarget_walkable_unchanged engineThreeCells (-1000) 6 3 (by decide) (by decide)
      (by decide)).1⟩

set_option maxRecDepth 200000 in
/-- C3 fails as stated: on `engineColumnZero` the click `(1, 1)` is inside the
grid and unwalkable, the cell `(0, 1)` of its row is walkable, and the snap
yields `(1001, 1)`, where `queryPath` is 0. -/
theorem snapTarget_not_walkable_counterexample :
    queryPath engineColumnZero._buffer 1 1 = 0 ∧
      queryPath engineColumnZero._buffer 0 1 ≠ 0 ∧
      snapTarget engineColumnZero (-1000) 1 1 = some ⟨1001, 1, 7⟩ ∧
      queryPath engineColumnZero._buffer 1001 1 = 0 := by
  decide

/-- C3, amended. On a screen of at most 1000 x 1000 cells, for an unwalkable
click `(x, y)` inside the grid and off column 0 and row 0, if a cell of its
row in a column from 1 to `SCREEN_WIDTH - 1` or a cell of its column in a row
from 1 to `SCREEN_HEIGHT - 1` is walkable, the snap ends and its target is a
walkable cell inside the grid. -/
theorem snapTarget_walkable_of_axis (e : Engine) (walkData3 x y : Int)
    (hW : e.SCREEN_WIDTH ≤ 1000) (hH : e.SCREEN_HEIGHT ≤ 1000)
    (hx1 : 1 ≤ x) (hx2 : x < e.SCREEN_WIDTH) (hy1 : 1 ≤ y) (hy2 : y < e.SCREEN_HEIGHT)
    (hq : queryPath e._buffer x y = 0)
    (hax : (∃ c, 1 ≤ c ∧ c < e.SCREEN_WIDTH ∧ queryPath e._buffer c y ≠ 0) ∨
      (∃ r, 1 ≤ r ∧ r < e.SCREEN_HEIGHT ∧ queryPath e._buffer x r ≠ 0)) :
    ∃ t, snapTarget e walkData3 x y = some t ∧ queryPath e._buffer t.to_x t.to_y ≠ 0 ∧
      1 ≤ t.to_x ∧ t.to_x < e.SCREEN_WIDTH ∧ 1 ≤ t.to_y ∧ t.to_y < e.SCREEN_HEIGHT := by
  obtain ⟨d, hd, hR, hL, hT, hB⟩ := scanDistances_spec e x y hW hH hx1 hx2 hy1 hy2
  have hx16 : toInt16 x = x := toInt16_of_range x (by omega) (by omega)
  have hy16 : toInt16 y = y := toInt16_of_range y (by omega) (by omega)
  have hsnap : snapTarget e walkData3 x y = some (moveTarget e walkData3 x y d) := by
    unfold snapTarget
    simp only [hx16, hy16, hq, if_true, hd, Option.map_some']
  refine ⟨_, hsnap, ?_⟩
  -- one of the four distances is below 1000
  have hsmall : d.right < 1000 ∨ d.left < 1000 ∨ d.top < 1000 ∨ d.bottom < 1000 := by
    rcases hax with ⟨c, hc1, hc2, hc⟩ | ⟨r, hr1, hr2, hr⟩
    · have hne : c ≠ x := fun h => hc (h ▸ hq)
      rcases lt_or_gt_of_ne hne with h | h
      · right; left
        refine hL.lt_of_walk (by omega) (k := x - c) (by omega) (by omega) ?_
        simpa [show x - (x - c) = c by omega] using hc
      · left
        refine hR.lt_of_walk (by omega) (k := c - x) (by omega) (by omega) ?_
        simpa [show x + (c - x) = c by omega] using hc
    · have hne : r ≠ y := fun h => hr (h ▸ hq)
      rcases lt_or_gt_of_ne hne with h | h
      · right; right; left
        refine hT.lt_of_walk (by omega) (k := y - r) (by omega) (by omega) ?_
        simpa [show y - (y - r) = r by omega] using hr
      · right; right; right
        refine hB.lt_of_walk (by omega) (k := r - y) (by omega) (by omega) ?_
        simpa [show y + (r - y) = r by omega] using hr
  obtain ⟨close, c1, c2, c3, c4, hcase⟩ := moveTarget_order e walkData3 x y d
  have hclose : close < 1000 := by omega
  rcases hcase with ⟨h, hx', hy'⟩ | ⟨_, h, hx', hy'⟩ | ⟨_, _, h, hx', hy'⟩ | ⟨_, _, _, h, hx', hy'⟩
  · obtain ⟨p1, p2, p3⟩ := hR.walk_of_lt (by omega)
    rw [← h] at p1 p2 p3
    have : toInt16 (x + close) = x + close := toInt16_of_range _ (by omega) (by omega)
    rw [hx', hy', this]
    exact ⟨p3, by omega, by omega, by omega, by omega⟩
  · obtain ⟨p1, p2, p3⟩ := hL.walk_of_lt (by omega)
    rw [← h] at p1 p2 p3
    have : toInt16 (x - close) = x - close := toInt16_of_range _ (by omega) (by omega)
    rw [hx', hy', this]
    exact ⟨p3, by omega, by omega, by omega, by omega⟩
  · obtain ⟨p1, p2, p3⟩ := hT.walk_of_lt (by omega)
    rw [← h] at p1 p2 p3
    have : toInt16 (y - close) = y - close := toInt16_of_range _ (by omega) (by omega)
    rw [hx', hy', this]
    exact ⟨p3, by omega, by omega, by omega, by omega⟩
  · obtain ⟨p1, p2, p3⟩ := hB.walk_of_lt (by omega)
    rw [← h] at p1 p2 p3
    have : toInt16 (y + close) = y + close := toInt16_of_range _ (by omega) (by omega)
    rw [hx', hy', this]
    exact ⟨p3, by omega, by omega, by omega, by omega⟩

/-- C3, amended, at a concrete input: on `engineThreeCells` the unwalkable
click `(8, 3)` has the walkable cell `(6, 3)` in its row. -/
theorem snapTarget_walkable_of_axis_witness :
    ∃ t, snapTarget engineThreeCells (-1000) 8 3 = some t ∧
      queryPath engineThreeCells._buffer t.to_x t.to_y ≠ 0 ∧
      1 ≤ t.to_x ∧ t.to_x < 320 ∧ 1 ≤ t.to_y ∧ t.to_y < 200 :=
  snapTarget_walkable_of_axis engineThreeCells (-1000) 8 3 (by decide) (by decide) (by decide)
    (by decide) (by decide) (by decide) (by decide) (Or.inl ⟨6, by decide, by decide, by decide⟩)

/-! ## The direct trace `walkFunc1` -/

theorem stepForward_between (e : Engine) (x y : Int) (foot : Point) :
    Between foot._x (stepForward e x y foot)._x x ∧
      Between foot._y (stepForward e x y foot)._y y := by
  unfold stepForward Between
  simp only []
  constructor <;> split_ifs <;> omega

theorem stepProbe_between (e : Engine) (x y : Int) (foot : Point) :
    Between foot._x (stepProbe e x y foot)._x x ∧
      Between foot._y (stepProbe e x y foot)._y y := by
  unfold stepProbe Between
  simp only []
  constructor <;> split_ifs <;> omega

theorem stepsTo_lt_of_between (x y : Int) (foot foot' : Point)
    (hx : Between foot._x foot'._x x) (hy : Between foot._y foot'._y y)
    (hne : ¬ (foot'._x = foot._x ∧ foot'._y = foot._y)) :
    stepsTo x y foot' < stepsTo x y foot := by
  unfold stepsTo
  unfold Between at hx hy
  omega

theorem stepsTo_eq_zero (x y : Int) (foot : Point) (hx : foot._x = x) (hy : foot._y = y) :
    stepsTo x y foot = 0 := by
  unfold stepsTo; omega

/-- The obstruction probe ends: with fuel above the number of steps to the
target, and entered with `v8` equal to the foot, it returns. -/
theorem probeLoop_total (e : Engine) (x y : Int) :
    ∀ (fuel : Nat) (foot v8 : Point), v8._x = foot._x → v8._y = foot._y →
      stepsTo x y foot < fuel → ∃ r, probeLoop e x y fuel foot v8 = some r := by
  intro fuel
  induction fuel with
  | zero => intro foot v8 _ _ h; omega
  | succ fuel ih =>
    intro foot v8 h1 h2 hf
    rw [probeLoop]
    by_cases hc : foot._x ≠ x ∨ foot._y ≠ y
    · rw [if_pos hc]
      simp only []
      by_cases hs : (stepProbe e x y foot)._x = v8._x ∧ (stepProbe e x y foot)._y = v8._y ∧
          ((stepProbe e x y foot)._x ≠ x ∨ (stepProbe e x y foot)._y ≠ y)
      · rw [if_pos hs]; exact ⟨false, rfl⟩
      · rw [if_neg hs]
        have hb := stepProbe_between e x y foot
        apply ih _ _ rfl rfl
        by_cases hmove : (stepProbe e x y foot)._x = foot._x ∧ (stepProbe e x y foot)._y = foot._y
        · -- not moved, so the foot is on the target
          have : ¬ ((stepProbe e x y foot)._x ≠ x ∨ (stepProbe e x y foot)._y ≠ y) := by
            intro h; exact hs ⟨by omega, by omega, h⟩
          have := stepsTo_eq_zero x y (stepProbe e x y foot) (by omega) (by omega)
          omega
        · have := stepsTo_lt_of_between x y foot _ hb.1 hb.2 hmove
          omega
    · rw [if_neg hc]; exact ⟨true, rfl⟩

/-- The forward loop of `walkFunc1` ends: with fuel above the number of steps
to the target, and entered with `v8` equal to the foot, it returns. -/
theorem walkLoop_total (e : Engine) (x y : Int) (Node : WalkNode) :
    ∀ (fuel : Nat) (foot v8 : Point), v8._x = foot._x → v8._y = foot._y →
      stepsTo x y foot < fuel → ∃ r, walkLoop e x y Node fuel foot v8 = some r := by
  intro fuel
  induction fuel with
  | zero => intro foot v8 _ _ h; omega
  | succ fuel ih =>
    intro foot v8 h1 h2 hf
    rw [walkLoop]
    by_cases hc : foot._x ≠ x ∨ foot._y ≠ y
    · rw [if_pos hc]
      simp only []
      by_cases hs : (stepForward e x y foot)._x = v8._x ∧ (stepForward e x y foot)._y = v8._y ∧
          ((stepForward e x y foot)._x ≠ x ∨ (stepForward e x y foot)._y ≠ y)
      · rw [if_pos hs]
        obtain ⟨r, hr⟩ := probeLoop_total e x y (stepsTo x y (stepForward e x y foot) + 1)
          (stepForward e x y foot) v8 hs.1.symm hs.2.1.symm (by omega)
        rw [hr]
        cases r <;> simp
      · rw [if_neg hs]
        have hb := stepForward_between e x y foot
        apply ih _ _ rfl rfl
        by_cases hmove : (stepForward e x y foot)._x = foot._x ∧
            (stepForward e x y foot)._y = foot._y
        · have : ¬ ((stepForward e x y foot)._x ≠ x ∨ (stepForward e x y foot)._y ≠ y) := by
            intro h; exact hs ⟨by omega, by omega, h⟩
          have := stepsTo_eq_zero x y (stepForward e x y foot) (by omega) (by omega)
          omega
        · have := stepsTo_lt_of_between x y foot _ hb.1 hb.2 hmove
          omega
    · rw [if_neg hc]; exact ⟨_, rfl⟩

/-- `walkFunc1` returns for every mask, pose and target. -/
theorem walkFunc1_total (e : Engine) (x y : Int) (Node : WalkNode) :
    ∃ r, walkFunc1 e x y Node = some r := by
  unfold walkFunc1
  exact walkLoop_total e _ _ Node _ _ _ rfl rfl (by omega)

/-- What `walkFunc1` leaves in `*Node`: the node it was given when it returns
through `return 1` or `return 0`, the anchor of a stall point `v4` between
the starting foot and the target when it returns a distance. -/
theorem walkLoop_result (e : Engine) (x y : Int) (Node : WalkNode) :
    ∀ (fuel : Nat) (foot v8 : Point) (r : Int) (n : WalkNode),
      walkLoop e x y Node fuel foot v8 = some (r, n) →
      ((r = 1 ∨ r = 0) ∧ n = Node) ∨
        ∃ v4 : Point, Between foot._x v4._x x ∧ Between foot._y v4._y y ∧
          r = toUint16 ((x - v4._x) * (x - v4._x) + (y - v4._y) * (y - v4._y)) ∧
          n = ⟨v4._x - (e._width : Int) / 2, v4._y - (e._height : Int)⟩ := by
  intro fuel
  induction fuel with
  | zero => intro foot v8 r n h; simp [walkLoop] at h
  | succ fuel ih =>
    intro foot v8 r n h
    rw [walkLoop] at h
    by_cases hc : foot._x ≠ x ∨ foot._y ≠ y
    · rw [if_pos hc] at h
      simp only [] at h
      have hb := stepForward_between e x y foot
      by_cases hs : (stepForward e x y foot)._x = v8._x ∧ (stepForward e x y foot)._y = v8._y ∧
          ((stepForward e x y foot)._x ≠ x ∨ (stepForward e x y foot)._y ≠ y)
      · rw [if_pos hs] at h
        cases hp : probeLoop e x y (stepsTo x y (stepForward e x y foot) + 1)
            (stepForward e x y foot) v8 with
        | none => rw [hp] at h; simp at h
        | some b =>
          rw [hp] at h
          cases b with
          | false =>
            simp only [Option.some.injEq, Prod.mk.injEq] at h
            exact Or.inl ⟨Or.inr h.1.symm, h.2.symm⟩
          | true =>
            simp only [Option.some.injEq, Prod.mk.injEq] at h
            exact Or.inr ⟨stepForward e x y foot, hb.1, hb.2, h.1.symm, h.2.symm⟩
      · rw [if_neg hs] at h
        rcases ih _ _ r n h with h' | ⟨v4, b1, b2, h3, h4⟩
        · exact Or.inl h'
        · refine Or.inr ⟨v4, ?_, ?_, h3, h4⟩
          · have := hb.1; unfold Between at *; omega
          · have := hb.2; unfold Between at *; omega
    · rw [if_neg hc] at h
      simp only [Option.some.injEq, Prod.mk.injEq] at h
      exact Or.inl ⟨Or.inl h.1.symm, h.2.symm⟩

/-! ## The scan of the location nodes -/

theorem sqDist_nonneg (x1 y1 x2 y2 : Int) : 0 ≤ sqDist x1 y1 x2 y2 := by
  unfold sqDist
  exact add_nonneg (mul_self_nonneg _) (mul_self_nonneg _)

theorem toInt32_of_range (v : Int) (h1 : 0 ≤ v) (h2 : v < 2147483648) : toInt32 v = v := by
  unfold toInt32; omega

theorem sqTo_eq_toInt32 (p : Point) (n : WalkNode) :
    sqTo p n = toInt32 (sqDist n._x n._y p._x p._y) := by
  unfold sqTo dotProduct sqDist
  rfl

theorem sqTo_eq_sqDist (p : Point) (n : WalkNode)
    (h : sqDist n._x n._y p._x p._y < 2147483648) :
    sqTo p n = sqDist n._x n._y p._x p._y := by
  rw [sqTo_eq_toInt32]
  exact toInt32_of_range _ (sqDist_nonneg _ _ _ _) h

/-- The scan of lines 170-186 from an accumulator `(v30, c)`: either no node
passes the test and the accumulator is returned, or the node selected is the
first of the nodes that pass `v2C < v34` with the least `v28`, and that least
value is below the `v30` of the accumulator. -/
theorem scanNodes_spec (_si _di : Int) (v20 : Point) (v34 : Int) :
    ∀ (l : List WalkNode) (v30 : Int) (c : Option WalkNode),
      (scanNodes _si _di v20 v34 l (v30, c) = (v30, c) ∧
          ∀ M ∈ l, ¬ (sqTo ⟨_si, _di⟩ M < v34 ∧ sqTo v20 M < v30)) ∨
        ∃ pre N post, l = pre ++ N :: post ∧
          scanNodes _si _di v20 v34 l (v30, c) = (sqTo v20 N, some N) ∧
          sqTo ⟨_si, _di⟩ N < v34 ∧ sqTo v20 N < v30 ∧
          (∀ M ∈ pre, sqTo ⟨_si, _di⟩ M < v34 → sqTo v20 N < sqTo v20 M) ∧
          (∀ M ∈ post, sqTo ⟨_si, _di⟩ M < v34 → sqTo v20 N ≤ sqTo v20 M) := by
  intro l
  induction l with
  | nil => intro v30 c; left; simp [scanNodes]
  | cons M rest ih =>
    intro v30 c
    rw [scanNodes]
    change (if sqTo ⟨_si, _di⟩ M < v34 ∧ sqTo v20 M < v30 then _ else _) = _ ∧ _ ∨
      ∃ pre N post, _ ∧ (if sqTo ⟨_si, _di⟩ M < v34 ∧ sqTo v20 M < v30 then _ else _) = _ ∧ _
    by_cases hc : sqTo ⟨_si, _di⟩ M < v34 ∧ sqTo v20 M < v30
    · simp only [if_pos hc]
      right
      rcases ih (sqTo v20 M) (some M) with ⟨h1, h2⟩ | ⟨pre, N, post, h1, h2, h3, h4, h5, h6⟩
      · refine ⟨[], M, rest, rfl, h1, hc.1, hc.2, by simp, ?_⟩
        intro M' hM' hel
        have := h2 M' hM'
        by_contra hlt
        exact this ⟨hel, by omega⟩
      · refine ⟨M :: pre, N, post, by simp [h1], h2, h3, by omega, ?_, h6⟩
        intro M' hM' hel
        rcases List.mem_cons.1 hM' with h | h
        · subst h; exact h4
        · exact h5 M' h hel
    · simp only [if_neg hc]
      rcases ih v30 c with ⟨h1, h2⟩ | ⟨pre, N, post, h1, h2, h3, h4, h5, h6⟩
      · left
        refine ⟨h1, ?_⟩
        intro M' hM'
        rcases List.mem_cons.1 hM' with h | h
        · subst h; exact hc
        · exact h2 M' h
      · right
        refine ⟨M :: pre, N, post, by simp [h1], h2, h3, h4, ?_, h6⟩
        intro M' hM' hel
        rcases List.mem_cons.1 hM' with h | h
        · subst h
          by_contra hlt
          exact hc ⟨hel, by omega⟩
        · exact h5 M' h hel

/-! ## The stitching loop -/

theorem filter_length_lt {α : Type} (p q : α → Bool) :
    ∀ (l : List α), (∀ x ∈ l, p x = true → q x = true) →
      (∃ x ∈ l, q x = true ∧ p x = false) → (l.filter p).length < (l.filter q).length := by
  intro l
  induction l with
  | nil => intro _ h; obtain ⟨x, hx, _⟩ := h; simp at hx
  | cons a l ih =>
    intro hpq hex
    have hle : (l.filter p).length ≤ (l.filter q).length := by
      have h1 := List.countP_mono_left (l := l) (p := p) (q := q)
        (fun x hx hp => hpq x (List.mem_cons_of_mem a hx) hp)
      simpa [List.countP_eq_length_filter] using h1
    obtain ⟨x, hx, hqx, hpx⟩ := hex
    rcases List.mem_cons.1 hx with h | h
    · subst h
      simp [List.filter_cons, hqx, hpx]
      omega
    · have hlt := ih (fun x hx hp => hpq x (List.mem_cons_of_mem a hx) hp) ⟨x, h, hqx, hpx⟩
      by_cases hpa : p a = true
      · have hqa := hpq a (List.mem_cons_self a l) hpa
        simp [List.filter_cons, hpa, hqa]
        omega
      · by_cases hqa : q a = true
        · simp [List.filter_cons, hpa, hqa]
          omega
        · simp [List.filter_cons, hpa, hqa]
          omega

theorem stitch_v34 (_si _di : Int) (N : WalkNode) :
    toInt32 ((_si - N._x) * (_si - N._x) + (_di - N._y) * (_di - N._y)) = sqTo ⟨_si, _di⟩ N := by
  unfold sqTo dotProduct
  congr 1
  ring

theorem addNode_append (pre post : List WalkNode) (n : WalkNode) :
    addNode (pre ++ post) pre.length n = (pre ++ [n]) ++ post := by
  unfold addNode
  simp

/-- The loop of lines 162-202 ends within `fuel` rounds when fewer than `fuel`
location nodes are closer to the scan target than `v34`.  The nodes it adds
are location nodes, each closer to the scan target than the one before, the
first closer than `v34`; they stand in that order behind the node `v48`. -/
theorem stitch_spec (nodes : List WalkNode) (_si _di : Int) :
    ∀ (fuel : Nat) (v20 : Point) (v34 : Int) (pre post : List WalkNode),
      (nodes.filter (fun M => decide (sqTo ⟨_si, _di⟩ M < v34))).length < fuel →
      ∃ chain v34', stitch nodes _si _di fuel v20 v34 v34 (pre ++ post) pre.length =
          some (pre ++ chain ++ post, v34') ∧
        (∀ n ∈ chain, n ∈ nodes) ∧
        List.Chain (fun a b => b < a) v34 (chain.map (sqTo ⟨_si, _di⟩)) := by
  intro fuel
  induction fuel with
  | zero => intro _ _ _ _ h; omega
  | succ fuel ih =>
    intro v20 v34 pre post hf
    rw [stitch]
    rcases scanNodes_spec _si _di v20 v34 nodes v34 none with
      ⟨h1, _⟩ | ⟨pre', N, post', h1, h2, h3, _, _, _⟩
    · rw [h1]
      exact ⟨[], v34, by simp, by simp, by simp⟩
    · rw [h2]
      simp only [stitch_v34, addNode_append]
      have hmem : N ∈ nodes := by rw [h1]; simp
      have hcount : (nodes.filter (fun M => decide (sqTo ⟨_si, _di⟩ M < sqTo ⟨_si, _di⟩ N))).length <
          (nodes.filter (fun M => decide (sqTo ⟨_si, _di⟩ M < v34))).length := by
        apply filter_length_lt
        · intro x _ hx
          simp only [decide_eq_true_eq] at hx ⊢
          omega
        · exact ⟨N, hmem, by simpa using h3, by simp⟩
      obtain ⟨chain, v34', hs, hsub, hch⟩ := ih ⟨N._x, N._y⟩ (sqTo ⟨_si, _di⟩ N) (pre ++ [N]) post
        (by omega)
      have hlen : (pre ++ [N]).length = pre.length + 1 := by simp
      rw [hlen] at hs
      refine ⟨N :: chain, v34', by simpa using hs, ?_, ?_⟩
      · intro n hn
        rcases List.mem_cons.1 hn with h | h
        · rw [h]; exact hmem
        · exact hsub n h
      · simp only [List.map_cons, List.chain_cons]
        exact ⟨h3, hch⟩

/-- One round of the outer loop ends, for every scan target and list: the
nodes it adds stand in front of the list. -/
theorem stitchFrom_spec (e : Engine) (_si _di : Int) (v58 : List WalkNode) :
    ∃ chain v34, stitchFrom e _si _di v58 = some (chain ++ v58, v34) ∧
      (∀ n ∈ chain, n ∈ e._walkNodes) ∧
      List.Chain (fun a b => b < a) (toInt32 (sqDist e._left e._top _si _di))
        (chain.map (sqTo ⟨_si, _di⟩)) := by
  have h0 : dotProduct ⟨_si - e._left, _di - e._top⟩ ⟨_si - e._left, _di - e._top⟩ =
      toInt32 (sqDist e._left e._top _si _di) := by
    unfold dotProduct sqDist
    congr 1
    ring
  obtain ⟨chain, v34, hs, hsub, hch⟩ := stitch_spec e._walkNodes _si _di
    (e._walkNodes.length + 1) ⟨e._left, e._top⟩ (toInt32 (sqDist e._left e._top _si _di)) [] v58
    (Nat.lt_succ_of_le (List.length_filter_le _ _))
  refine ⟨chain, v34, ?_, hsub, hch⟩
  unfold stitchFrom
  simp only [h0]
  simpa using hs

/-! ## Totality of the snap -/

theorem toInt16_idem (v : Int) : toInt16 (toInt16 v) = toInt16 v := by
  unfold toInt16; omega

theorem scanRight_total (e : Engine) (to_y : Int) (hW : e.SCREEN_WIDTH ≤ 32767) (right : Int)
    (h1 : -32768 ≤ right) (h2 : right ≤ 32767) :
    ∃ r, scanRight e to_y 65536 right = some r := by
  by_cases h : right < 32767
  · obtain ⟨r, hr, _⟩ := scanRight_spec e to_y hW 65536 right h1 h (by omega) (by omega)
    exact ⟨r, hr⟩
  · have hr : right = 32767 := by omega
    subst hr
    rw [show (65536 : Nat) = 65535 + 1 from rfl, scanRight]
    have hw : toInt16 (32767 + 1) = -32768 := by decide
    simp only [hw]
    split_ifs
    · obtain ⟨r, hr, _⟩ := scanRight_spec e to_y hW 65535 (-32768) (by omega) (by omega)
        (by omega) (by omega)
      exact ⟨r, hr⟩
    · exact ⟨_, rfl⟩

theorem scanBottom_total (e : Engine) (to_x : Int) (hH : e.SCREEN_HEIGHT ≤ 32767) (bottom : Int)
    (h1 : -32768 ≤ bottom) (h2 : bottom ≤ 32767) :
    ∃ r, scanBottom e to_x 65536 bottom = some r := by
  by_cases h : bottom < 32767
  · obtain ⟨r, hr, _⟩ := scanBottom_spec e to_x hH 65536 bottom h1 h (by omega) (by omega)
    exact ⟨r, hr⟩
  · have hr : bottom = 32767 := by omega
    subst hr
    rw [show (65536 : Nat) = 65535 + 1 from rfl, scanBottom]
    have hw : toInt16 (32767 + 1) = -32768 := by decide
    simp only [hw]
    split_ifs
    · obtain ⟨r, hr, _⟩ := scanBottom_spec e to_x hH 65535 (-32768) (by omega) (by omega)
        (by omega) (by omega)
      exact ⟨r, hr⟩
    · exact ⟨_, rfl⟩

theorem scanLeft_total (e : Engine) (to_y : Int) (left : Int)
    (h1 : -32768 ≤ left) (h2 : left ≤ 32767) :
    ∃ r, scanLeft e to_y 65536 left = some r := by
  by_cases h : -32768 < left
  · obtain ⟨r, hr, _⟩ := scanLeft_spec e to_y 65536 left h h2 (by omega) (by omega)
    exact ⟨r, hr⟩
  · have hr : left = -32768 := by omega
    subst hr
    rw [show (65536 : Nat) = 65535 + 1 from rfl, scanLeft]
    have hw : toInt16 (-32768 - 1) = 32767 := by decide
    simp only [hw]
    split_ifs
    · obtain ⟨r, hr, _⟩ := scanLeft_spec e to_y 65535 32767 (by omega) (by omega)
        (by omega) (by omega)
      exact ⟨r, hr⟩
    · exact ⟨_, rfl⟩

theorem scanTop_total (e : Engine) (to_x : Int) (top : Int)
    (h1 : -32768 ≤ top) (h2 : top ≤ 32767) :
    ∃ r, scanTop e to_x 65536 top = some r := by
  by_cases h : -32768 < top
  · obtain ⟨r, hr, _⟩ := scanTop_spec e to_x 65536 top h h2 (by omega) (by omega)
    exact ⟨r, hr⟩
  · have hr : top = -32768 := by omega
    subst hr
    rw [show (65536 : Nat) = 65535 + 1 from rfl, scanTop]
    have hw : toInt16 (-32768 - 1) = 32767 := by decide
    simp only [hw]
    split_ifs
    · obtain ⟨r, hr, _⟩ := scanTop_spec e to_x 65535 32767 (by omega) (by omega)
        (by omega) (by omega)
      exact ⟨r, hr⟩
    · exact ⟨_, rfl⟩

/-- The snap ends for every click when the screen constants fit an `int16`. -/
theorem snapTarget_total (e : Engine) (walkData3 x y : Int)
    (hW : e.SCREEN_WIDTH ≤ 32767) (hH : e.SCREEN_HEIGHT ≤ 32767) :
    ∃ t, snapTarget e walkData3 x y = some t := by
  unfold snapTarget
  simp only []
  split_ifs
  · have hx := toInt16_range x
    have hy := toInt16_range y
    obtain ⟨r, hr⟩ := scanRight_total e (toInt16 y) hW (toInt16 x) hx.1 hx.2
    obtain ⟨l, hl⟩ := scanLeft_total e (toInt16 y) (toInt16 x) hx.1 hx.2
    obtain ⟨t, ht⟩ := scanTop_total e (toInt16 x) (toInt16 y) hy.1 hy.2
    obtain ⟨b, hb⟩ := scanBottom_total e (toInt16 x) hH (toInt16 y) hy.1 hy.2
    simp [scanDistances, hr, hl, ht, hb]
  · exact ⟨_, rfl⟩

/-- The working target of the snap is a pair of `int16` values. -/
theorem snapTarget_int16 (e : Engine) (walkData3 x y : Int) (t : Target)
    (h : snapTarget e walkData3 x y = some t) :
    toInt16 t.to_x = t.to_x ∧ toInt16 t.to_y = t.to_y := by
  unfold snapTarget at h
  simp only [] at h
  split_ifs at h
  · rw [Option.map_eq_some'] at h
    obtain ⟨d, _, hd⟩ := h
    rw [← hd]
    unfold moveTarget
    simp only []
    split_ifs <;> simp [toInt16_idem]
  · simp only [Option.some.injEq] at h
    rw [← h]
    simp [toInt16_idem]

/-! ## `buildWalkPath` -/

/-- C4, the code at the click `(0, 1)` of `engineLeftEdge`: the click is
unwalkable, nothing lies to its left, the nearest walkable cells are `(0, 2)`
one step below and `(2, 1)` two steps to the right; the left scan steps to
column -1, past the test `left == 0`, the distance `left` comes out as 1
instead of 1000, and the target moves left to column -1. -/
theorem snapTarget_left_edge :
    queryPath engineLeftEdge._buffer 0 1 = 0 ∧
      scanLeft engineLeftEdge 1 65536 0 = some (-1) ∧
      scanDistances engineLeftEdge 0 1 = some ⟨2, 1, 1000, 1⟩ ∧
      snapTarget engineLeftEdge (-1000) 0 1 = some ⟨-1, 1, 0⟩ ∧
      queryPath engineLeftEdge._buffer 0 2 ≠ 0 := by
  decide

theorem buildWalkPath_of_direct (e : Engine) (walkData3 x y : Int) (t : Target)
    (v44 : WalkNode)
    (hsnap : snapTarget e walkData3 (toUint16 x) (toUint16 y) = some t)
    (hwalk : walkFunc1 e t.to_x t.to_y (anchorOf e t.to_x t.to_y) = some (1, v44)) :
    buildWalkPath e walkData3 x y = some [anchorOf e t.to_x t.to_y] := by
  unfold buildWalkPath
  unfold anchorOf at hwalk
  simp only [hsnap, hwalk, if_true]
  rfl

/-- `buildWalkPath` past the direct trace: the rejection test of line 206 on
the result of the first round, then the second round aimed at the first node
of the list. -/
theorem buildWalkPath_of_obstructed (e : Engine) (walkData3 x y : Int) (t : Target)
    (v38 : Int) (v44 : WalkNode) (added1 : List WalkNode) (v34 : Int)
    (hsnap : snapTarget e walkData3 (toUint16 x) (toUint16 y) = some t)
    (hwalk : walkFunc1 e t.to_x t.to_y (anchorOf e t.to_x t.to_y) = some (v38, v44))
    (hne : v38 ≠ 1)
    (hst : stitchFrom e (toInt16 (anchorOf e t.to_x t.to_y)._x)
      (toInt16 (anchorOf e t.to_x t.to_y)._y) [anchorOf e t.to_x t.to_y] =
      some (added1 ++ [anchorOf e t.to_x t.to_y], v34)) :
    buildWalkPath e walkData3 x y =
      if v38 ≠ 0 ∧ v34 > v38 then some [v44]
      else
        (stitchFrom e (toInt16 (added1.headD (anchorOf e t.to_x t.to_y))._x)
          (toInt16 (added1.headD (anchorOf e t.to_x t.to_y))._y)
          (added1 ++ [anchorOf e t.to_x t.to_y])).map Prod.fst := by
  unfold buildWalkPath
  unfold anchorOf at hwalk hst ⊢
  have hadd : addNode [] 0 (⟨t.to_x - (e._width : Int) / 2, t.to_y - (e._height : Int)⟩ : WalkNode) =
      [⟨t.to_x - (e._width : Int) / 2, t.to_y - (e._height : Int)⟩] := rfl
  simp only [hsnap, hwalk, hne, if_false, hadd, hst]
  split_ifs
  · rfl
  · cases added1 with
    | nil =>
      simp only [List.nil_append, List.headD_nil]
      cases stitchFrom e _ _ _ with
      | none => rfl
      | some r => rfl
    | cons a as =>
      simp only [List.cons_append, List.headD_cons]
      cases stitchFrom e _ _ _ with
      | none => rfl
      | some r => rfl

/-- C5. If `walkFunc1` returns 1 for the snapped target `(to_x, to_y)`,
`buildWalkPath` returns the list of exactly one node, the top-left anchor
`(to_x - width/2, to_y - height)` (being the only element, its next link is
null), whatever the engine's location nodes are. -/
theorem buildWalkPath_direct_single_node (e : Engine) (walkData3 x y : Int) (t : Target)
    (v44 : WalkNode)
    (hsnap : snapTarget e walkData3 (toUint16 x) (toUint16 y) = some t)
    (hwalk : walkFunc1 e t.to_x t.to_y (anchorOf e t.to_x t.to_y) = some (1, v44)) :
    buildWalkPath e walkData3 x y =
      some [⟨t.to_x - (e._width : Int) / 2, t.to_y - (e._height : Int)⟩] :=
  buildWalkPath_of_direct e walkData3 x y t v44 hsnap hwalk

/-- C5 at a concrete input: the click `(6, 3)` on `engineThreeCells`, reached
from the foot `(5, 4)` through `(5, 3)`. -/
theorem buildWalkPath_direct_single_node_witness :
    snapTarget engineThreeCells (-1000) (toUint16 6) (toUint16 3) = some ⟨6, 3, -1000⟩ ∧
      walkFunc1 engineThreeCells 6 3 (anchorOf engineThreeCells 6 3) = some (1, ⟨4, -1⟩) ∧
      buildWalkPath engineThreeCells (-1000) 6 3 = some [⟨4, -1⟩] :=
  ⟨by decide, by decide,
    buildWalkPath_direct_single_node engineThreeCells (-1000) 6 3 ⟨6, 3, -1000⟩ ⟨4, -1⟩
      (by decide) (by decide)⟩

/-- C6 fails as stated: on `engineThreeCells` the click `(6, 3)` is reached
directly and the node returned is `(4, -1)`, above the grid. -/
theorem buildWalkPath_out_of_grid_counterexample :
    buildWalkPath engineThreeCells (-1000) 6 3 = some [⟨4, -1⟩] ∧
      ¬ InGrid engineThreeCells ⟨4, -1⟩ := by
  decide

theorem between_inGrid (lo hi a b c : Int) (h : Between a b c) (ha : lo ≤ a ∧ a < hi)
    (hc : lo ≤ c ∧ c < hi) : lo ≤ b ∧ b < hi := by
  unfold Between at h
  omega

/-- C6, amended. `buildWalkPath` returns for every click whose snap ends, and
every node of the list is the target anchor, the anchor `walkFunc1` left at
its stall point, or a copy of a location node: when the character's
position, the target anchor and every location node are inside the grid, so
is every node returned. -/
theorem buildWalkPath_inGrid (e : Engine) (walkData3 x y : Int) (t : Target)
    (hsnap : snapTarget e walkData3 (toUint16 x) (toUint16 y) = some t)
    (hpos : InGrid e ⟨e._left, e._top⟩)
    (hanchor : InGrid e (anchorOf e t.to_x t.to_y))
    (hnodes : ∀ n ∈ e._walkNodes, InGrid e n) :
    ∃ path, buildWalkPath e walkData3 x y = some path ∧ ∀ n ∈ path, InGrid e n := by
  obtain ⟨⟨v38, v44⟩, hwalk⟩ := walkFunc1_total e t.to_x t.to_y (anchorOf e t.to_x t.to_y)
  by_cases h1 : v38 = 1
  · subst h1
    refine ⟨_, buildWalkPath_of_direct e walkData3 x y t v44 hsnap hwalk, ?_⟩
    intro n hn
    rw [List.mem_singleton] at hn
    rw [hn]; exact hanchor
  · obtain ⟨added1, v34, hst, hsub1, _⟩ := stitchFrom_spec e
      (toInt16 (anchorOf e t.to_x t.to_y)._x) (toInt16 (anchorOf e t.to_x t.to_y)._y)
      [anchorOf e t.to_x t.to_y]
    rw [buildWalkPath_of_obstructed e walkData3 x y t v38 v44 added1 v34 hsnap hwalk h1 hst]
    split_ifs with hrej
    · refine ⟨_, rfl, ?_⟩
      intro n hn
      rw [List.mem_singleton] at hn
      rw [hn]
      have h16 := snapTarget_int16 e walkData3 _ _ t hsnap
      unfold walkFunc1 at hwalk
      simp only [h16.1, h16.2] at hwalk
      rcases walkLoop_result e _ _ _ _ _ _ _ _ hwalk with ⟨_, h⟩ | ⟨v4, b1, b2, _, h⟩
      · rw [h]; exact hanchor
      · rw [h]
        unfold InGrid anchorOf at *
        unfold Between at b1 b2
        simp only at *
        omega
    · obtain ⟨added2, v34', hst2, hsub2, _⟩ := stitchFrom_spec e
        (toInt16 (added1.headD (anchorOf e t.to_x t.to_y))._x)
        (toInt16 (added1.headD (anchorOf e t.to_x t.to_y))._y)
        (added1 ++ [anchorOf e t.to_x t.to_y])
      rw [hst2]
      refine ⟨_, rfl, ?_⟩
      intro n hn
      simp only [List.mem_append, List.mem_singleton] at hn
      rcases hn with h | h | h
      · exact hnodes n (hsub2 n h)
      · exact hnodes n (hsub1 n h)
      · rw [h]; exact hanchor

/-- C6, amended, at a concrete input: the click `(30, 30)` on `engineOpen`. -/
theorem buildWalkPath_inGrid_witness :
    ∃ path, buildWalkPath engineOpen (-1000) 30 30 = some path ∧
      ∀ n ∈ path, InGrid engineOpen n :=
  buildWalkPath_inGrid engineOpen (-1000) 30 30 ⟨30, 30, -1000⟩ (by decide) (by decide)
    (by decide) (by decide)

theorem mul_self_lt_of_small (u : Int) (h1 : -32768 < u) (h2 : u < 32768) :
    u * u < 1073741824 := by
  nlinarith

theorem sqDist_lt_of_small (x1 y1 x2 y2 : Int) (h1 : Small x1) (h2 : Small y1)
    (h3 : Small x2) (h4 : Small y2) : sqDist x1 y1 x2 y2 < 2147483648 := by
  unfold Small at *
  unfold sqDist
  have := mul_self_lt_of_small (x1 - x2) (by omega) (by omega)
  have := mul_self_lt_of_small (y1 - y2) (by omega) (by omega)
  omega

/-- One round of the outer loop with small coordinates, in exact squared
distances. -/
theorem stitchFrom_small (e : Engine) (T : WalkNode) (v58 : List WalkNode)
    (hpos : Small e._left ∧ Small e._top) (hT : Small T._x ∧ Small T._y)
    (hnodes : ∀ n ∈ e._walkNodes, Small n._x ∧ Small n._y) :
    ∃ chain v34, stitchFrom e (toInt16 T._x) (toInt16 T._y) v58 = some (chain ++ v58, v34) ∧
      (∀ n ∈ chain, n ∈ e._walkNodes) ∧
      List.Chain (fun a b => b < a) (sqDist e._left e._top T._x T._y)
        (chain.map (fun n => sqDist n._x n._y T._x T._y)) := by
  have hx : toInt16 T._x = T._x := by
    have := hT.1; unfold Small at this; exact toInt16_of_range _ (by omega) (by omega)
  have hy : toInt16 T._y = T._y := by
    have := hT.2; unfold Small at this; exact toInt16_of_range _ (by omega) (by omega)
  rw [hx, hy]
  obtain ⟨chain, v34, hs, hsub, hch⟩ := stitchFrom_spec e T._x T._y v58
  refine ⟨chain, v34, hs, hsub, ?_⟩
  rw [toInt32_of_range _ (sqDist_nonneg _ _ _ _)
    (sqDist_lt_of_small _ _ _ _ hpos.1 hpos.2 hT.1 hT.2)] at hch
  have hmap : chain.map (sqTo ⟨T._x, T._y⟩) =
      chain.map (fun n => sqDist n._x n._y T._x T._y) := by
    apply List.map_congr_left
    intro n hn
    have := hnodes n (hsub n hn)
    exact sqTo_eq_sqDist ⟨T._x, T._y⟩ n (sqDist_lt_of_small _ _ _ _ this.1 this.2 hT.1 hT.2)
  rw [← hmap]
  exact hch

/-- C7 fails as stated: on `engineDetour` the character stands at `(10, 0)`,
the target anchor is `(0, 0)` and the stitched path returned for the click
`(1, 1)` starts with the waypoint `(12, 5)`, which is farther from the target
anchor than the starting position. -/
theorem buildWalkPath_hop_counterexample :
    buildWalkPath engineDetour (-1000) 1 1 = some [⟨12, 5⟩, ⟨5, 8⟩, ⟨0, 0⟩] ∧
      (engineDetour._left, engineDetour._top) = (10, 0) ∧
      ¬ (sqDist 12 5 0 0 < sqDist 10 0 0 0) := by
  decide

/-- C7, amended. In a stitched path returned by `buildWalkPath` (coordinates
small), the waypoints come from two rounds.  Those of the first round stand
right before the target anchor: each is strictly closer (squared Euclidean
distance) to the target anchor than the one before, the first strictly
closer than the character's position.  Those of the second round stand in
front: each is strictly closer to the first node of the first round's list
than the one before, the first strictly closer than the character's
position. -/
theorem buildWalkPath_hops_decrease (e : Engine) (walkData3 x y : Int) (t : Target)
    (v38 : Int) (v44 : WalkNode) (added1 : List WalkNode) (v34 : Int)
    (hsnap : snapTarget e walkData3 (toUint16 x) (toUint16 y) = some t)
    (hwalk : walkFunc1 e t.to_x t.to_y (anchorOf e t.to_x t.to_y) = some (v38, v44))
    (hne : v38 ≠ 1)
    (hst : stitchFrom e (toInt16 (anchorOf e t.to_x t.to_y)._x)
      (toInt16 (anchorOf e t.to_x t.to_y)._y) [anchorOf e t.to_x t.to_y] =
      some (added1 ++ [anchorOf e t.to_x t.to_y], v34))
    (hrej : ¬ (v38 ≠ 0 ∧ v34 > v38))
    (hpos : Small e._left ∧ Small e._top)
    (hanchor : Small (anchorOf e t.to_x t.to_y)._x ∧ Small (anchorOf e t.to_x t.to_y)._y)
    (hnodes : ∀ n ∈ e._walkNodes, Small n._x ∧ Small n._y) :
    ∃ added2, buildWalkPath e walkData3 x y =
        some (added2 ++ added1 ++ [anchorOf e t.to_x t.to_y]) ∧
      List.Chain (fun a b => b < a)
        (sqDist e._left e._top (anchorOf e t.to_x t.to_y)._x (anchorOf e t.to_x t.to_y)._y)
        (added1.map (fun n => sqDist n._x n._y (anchorOf e t.to_x t.to_y)._x
          (anchorOf e t.to_x t.to_y)._y)) ∧
      List.Chain (fun a b => b < a)
        (sqDist e._left e._top (added1.headD (anchorOf e t.to_x t.to_y))._x
          (added1.headD (anchorOf e t.to_x t.to_y))._y)
        (added2.map (fun n => sqDist n._x n._y (added1.headD (anchorOf e t.to_x t.to_y))._x
          (added1.headD (anchorOf e t.to_x t.to_y))._y)) := by
  obtain ⟨chain1, v34', hs1, hsub1, hch1⟩ :=
    stitchFrom_small e (anchorOf e t.to_x t.to_y) [anchorOf e t.to_x t.to_y] hpos hanchor hnodes
  rw [hst] at hs1
  simp only [Option.some.injEq, Prod.mk.injEq, List.append_cancel_right_eq] at hs1
  obtain ⟨rfl, rfl⟩ := hs1
  have hfirst : Small (added1.headD (anchorOf e t.to_x t.to_y))._x ∧
      Small (added1.headD (anchorOf e t.to_x t.to_y))._y := by
    cases added1 with
    | nil => exact hanchor
    | cons a as => exact hnodes a (hsub1 a (List.mem_cons_self a as))
  obtain ⟨added2, v34'', hs2, _, hch2⟩ :=
    stitchFrom_small e (added1.headD (anchorOf e t.to_x t.to_y))
      (added1 ++ [anchorOf e t.to_x t.to_y]) hpos hfirst hnodes
  refine ⟨added2, ?_, hch1, hch2⟩
  rw [buildWalkPath_of_obstructed e walkData3 x y t v38 v44 added1 v34 hsnap hwalk hne hst,
    if_neg hrej, hs2]
  simp

/-- C7, amended, at a concrete input: the click `(1, 1)` on `engineDetour`. -/
theorem buildWalkPath_hops_decrease_witness :
    ∃ added2, buildWalkPath engineDetour (-1000) 1 1 =
        some (added2 ++ [⟨5, 8⟩] ++ [anchorOf engineDetour 1 1]) ∧
      List.Chain (fun a b => b < a) (sqDist 10 0 0 0)
        ([(⟨5, 8⟩ : WalkNode)].map (fun n => sqDist n._x n._y 0 0)) ∧
      List.Chain (fun a b => b < a) (sqDist 10 0 5 8)
        (added2.map (fun n => sqDist n._x n._y 5 8)) :=
  buildWalkPath_hops_decrease engineDetour (-1000) 1 1 ⟨1, 1, -1000⟩ 0 ⟨0, 0⟩ [⟨5, 8⟩] 89
    (by decide) (by decide) (by decide) (by decide) (by decide) (by decide) (by decide)
    (by decide)

/-- C8. One scan of the location nodes with 'from' point `F`, scan target `T`
and `v30 = v34 = D`, no squared distance overflowing an `int32`.  If no node
`M` has `|M - T|² < D` and `|M - F|² < D`, no node is selected, nothing is
appended and the loop ends with the list and `D` unchanged.  Otherwise a
node `N` is selected: it is a location node within both bounds, no node
within both bounds is nearer to `F`, the ones before it in the list are
strictly farther from `F`, and the loop goes on from `N` with `N` appended
and `D` replaced by `|N - T|²`. -/
theorem scanNodes_selects_nearest (nodes : List WalkNode) (T F : Point) (D : Int)
    (hr : ∀ M ∈ nodes, sqDist M._x M._y T._x T._y < 2147483648 ∧
      sqDist M._x M._y F._x F._y < 2147483648) :
    ((∀ M ∈ nodes, ¬ (sqDist M._x M._y T._x T._y < D ∧ sqDist M._x M._y F._x F._y < D)) →
        (scanNodes T._x T._y F D nodes (D, none)).2 = none ∧
        ∀ fuel v58 v48, stitch nodes T._x T._y (fuel + 1) F D D v58 v48 = some (v58, D)) ∧
      ((∃ M ∈ nodes, sqDist M._x M._y T._x T._y < D ∧ sqDist M._x M._y F._x F._y < D) →
        ∃ N pre post, (scanNodes T._x T._y F D nodes (D, none)).2 = some N ∧
          nodes = pre ++ N :: post ∧
          sqDist N._x N._y T._x T._y < D ∧ sqDist N._x N._y F._x F._y < D ∧
          (∀ M ∈ nodes, sqDist M._x M._y T._x T._y < D → sqDist M._x M._y F._x F._y < D →
            sqDist N._x N._y F._x F._y ≤ sqDist M._x M._y F._x F._y) ∧
          (∀ M ∈ pre, sqDist M._x M._y T._x T._y < D → sqDist M._x M._y F._x F._y < D →
            sqDist N._x N._y F._x F._y < sqDist M._x M._y F._x F._y) ∧
          ∀ fuel v58 v48, stitch nodes T._x T._y (fuel + 1) F D D v58 v48 =
            stitch nodes T._x T._y fuel ⟨N._x, N._y⟩ (sqDist N._x N._y T._x T._y)
              (sqDist N._x N._y T._x T._y) (addNode v58 v48 N) (v48 + 1)) := by
  have hT : ∀ M ∈ nodes, sqTo ⟨T._x, T._y⟩ M = sqDist M._x M._y T._x T._y :=
    fun M hM => sqTo_eq_sqDist ⟨T._x, T._y⟩ M (hr M hM).1
  have hF : ∀ M ∈ nodes, sqTo F M = sqDist M._x M._y F._x F._y :=
    fun M hM => sqTo_eq_sqDist F M (hr M hM).2
  rcases scanNodes_spec T._x T._y F D nodes D none with
    ⟨h1, h2⟩ | ⟨pre, N, post, h1, h2, h3, h4, h5, h6⟩
  · have hnone : (scanNodes T._x T._y F D nodes (D, none)).2 = none := by rw [h1]
    constructor
    · intro _
      refine ⟨hnone, ?_⟩
      intro fuel v58 v48
      rw [stitch, hnone]
    · rintro ⟨M, hM, hM1, hM2⟩
      exfalso
      apply h2 M hM
      rw [hT M hM, hF M hM]
      exact ⟨hM1, hM2⟩
  · have hmem : N ∈ nodes := by rw [h1]; simp
    have hpre : ∀ M ∈ pre, M ∈ nodes := fun M hM => by rw [h1]; simp [hM]
    have hpost : ∀ M ∈ post, M ∈ nodes := fun M hM => by rw [h1]; simp [hM]
    have hsome : (scanNodes T._x T._y F D nodes (D, none)).2 = some N := by rw [h2]
    constructor
    · intro hno
      exfalso
      apply hno N hmem
      rw [← hT N hmem, ← hF N hmem]
      exact ⟨h3, h4⟩
    · intro _
      refine ⟨N, pre, post, hsome, h1, ?_, ?_, ?_, ?_, ?_⟩
      · rw [← hT N hmem]; exact h3
      · rw [← hF N hmem]; exact h4
      · intro M hM hM1 _
        rw [← hF N hmem, ← hF M hM]
        rw [h1] at hM
        rcases List.mem_append.1 hM with h | h
        · exact le_of_lt (h5 M h (by rw [hT M (hpre M h)]; exact hM1))
        · rcases List.mem_cons.1 h with h | h
          · rw [h]
          · exact h6 M h (by rw [hT M (hpost M h)]; exact hM1)
      · intro M hM hM1 _
        rw [← hF N hmem, ← hF M (hpre M hM)]
        exact h5 M hM (by rw [hT M (hpre M hM)]; exact hM1)
      · intro fuel v58 v48
        rw [stitch, hsome]
        simp only [stitch_v34, hT N hmem]

/-- C8 at a concrete input: the nodes `(12, 5)` and `(5, 8)` scanned from
`F = (10, 0)` with target `T = (0, 0)` and `D = 100`; `(5, 8)` is selected. -/
theorem scanNodes_selects_nearest_witness :
    (scanNodes 0 0 ⟨10, 0⟩ 100 [⟨12, 5⟩, ⟨5, 8⟩] (100, none)).2 = some ⟨5, 8⟩ ∧
      ((∃ M ∈ [(⟨12, 5⟩ : WalkNode), ⟨5, 8⟩],
          sqDist M._x M._y 0 0 < 100 ∧ sqDist M._x M._y 10 0 < 100) →
        ∃ N pre post, (scanNodes 0 0 ⟨10, 0⟩ 100 [⟨12, 5⟩, ⟨5, 8⟩] (100, none)).2 = some N ∧
          [(⟨12, 5⟩ : WalkNode), ⟨5, 8⟩] = pre ++ N :: post ∧
          sqDist N._x N._y 0 0 < 100 ∧ sqDist N._x N._y 10 0 < 100 ∧
          (∀ M ∈ [(⟨12, 5⟩ : WalkNode), ⟨5, 8⟩], sqDist M._x M._y 0 0 < 100 →
            sqDist M._x M._y 10 0 < 100 → sqDist N._x N._y 10 0 ≤ sqDist M._x M._y 10 0) ∧
          (∀ M ∈ pre, sqDist M._x M._y 0 0 < 100 → sqDist M._x M._y 10 0 < 100 →
            sqDist N._x N._y 10 0 < sqDist M._x M._y 10 0) ∧
          ∀ fuel v58 v48, stitch [⟨12, 5⟩, ⟨5, 8⟩] 0 0 (fuel + 1) ⟨10, 0⟩ 100 100 v58 v48 =
            stitch [⟨12, 5⟩, ⟨5, 8⟩] 0 0 fuel ⟨N._x, N._y⟩ (sqDist N._x N._y 0 0)
              (sqDist N._x N._y 0 0) (addNode v58 v48 N) (v48 + 1)) :=
  ⟨by decide,
    (scanNodes_selects_nearest [⟨12, 5⟩, ⟨5, 8⟩] ⟨0, 0⟩ ⟨10, 0⟩ 100 (by decide)).2⟩

set_option maxRecDepth 1000000 in
/-- C9 fails as stated: on `engineIsland` the click `(5, 5)` has no walkable
cell on its row or column and is snapped to `(1005, 5)`, whose anchor is
`(1004, 4)`.  The direct trace stalls at `(11, 3)` and `walkFunc1` returns
5000 (the squared distance 988040 as a `uint16`) with the anchor `(10, 2)`;
the stitching loop adds no waypoint and the best stitched distance is
990029.  The direct-trace distance does not exceed it, yet the path is
rejected: the node `(10, 2)` is returned, not the stitched list `(1004, 4)`. -/
theorem buildWalkPath_reject_counterexample :
    snapTarget engineIsland (-1000) (toUint16 5) (toUint16 5) = some ⟨1005, 5, 7⟩ ∧
      walkFunc1 engineIsland 1005 5 (anchorOf engineIsland 1005 5) = some (5000, ⟨10, 2⟩) ∧
      stitchFrom engineIsland 1004 4 [⟨1004, 4⟩] = some ([⟨1004, 4⟩], 990029) ∧
      ¬ ((5000 : Int) > 990029) ∧ ¬ (sqDist 1005 5 11 3 > 990029) ∧
      buildWalkPath engineIsland (-1000) 5 5 = some [⟨10, 2⟩] ∧
      anchorOf engineIsland 1005 5 = ⟨1004, 4⟩ := by
  have hsnap : snapTarget engineIsland (-1000) (toUint16 5) (toUint16 5) =
      some ⟨1005, 5, 7⟩ := by decide
  have hwalk : walkFunc1 engineIsland 1005 5 (anchorOf engineIsland 1005 5) =
      some (5000, ⟨10, 2⟩) := by decide
  have hb := buildWalkPath_of_obstructed engineIsland (-1000) 5 5 ⟨1005, 5, 7⟩ 5000 ⟨10, 2⟩ []
    990029 hsnap hwalk (by decide) (by decide)
  rw [if_pos (by decide)] at hb
  exact ⟨hsnap, hwalk, by decide, by decide, by decide, hb, by decide⟩

/-- C9, amended. After a direct trace that did not return 1, the path is
rejected exactly when the result `v38` of `walkFunc1` is not 0 and the best
stitched distance `v34` after the first round is greater than `v38`,
whatever the number of waypoints that round added.  The list returned is
then the single node left by `walkFunc1`, the anchor of its stall point `v4`,
`v38` being the squared distance from `v4` to the target as a `uint16`.  In
every other case the stitched list is returned: the waypoints of the second
round, those of the first round, then the target anchor. -/
theorem buildWalkPath_reject_iff (e : Engine) (walkData3 x y : Int) (t : Target)
    (v38 : Int) (v44 : WalkNode) (added1 : List WalkNode) (v34 : Int)
    (hsnap : snapTarget e walkData3 (toUint16 x) (toUint16 y) = some t)
    (hwalk : walkFunc1 e t.to_x t.to_y (anchorOf e t.to_x t.to_y) = some (v38, v44))
    (hne : v38 ≠ 1)
    (hst : stitchFrom e (toInt16 (anchorOf e t.to_x t.to_y)._x)
      (toInt16 (anchorOf e t.to_x t.to_y)._y) [anchorOf e t.to_x t.to_y] =
      some (added1 ++ [anchorOf e t.to_x t.to_y], v34)) :
    ((v38 ≠ 0 ∧ v34 > v38) →
        buildWalkPath e walkData3 x y = some [v44] ∧
        ∃ v4 : Point, v44 = anchorOf e v4._x v4._y ∧
          v38 = toUint16 (sqDist t.to_x t.to_y v4._x v4._y)) ∧
      (¬ (v38 ≠ 0 ∧ v34 > v38) →
        ∃ added2, buildWalkPath e walkData3 x y =
            some (added2 ++ added1 ++ [anchorOf e t.to_x t.to_y]) ∧
          ∀ n ∈ added2, n ∈ e._walkNodes) := by
  have hb := buildWalkPath_of_obstructed e walkData3 x y t v38 v44 added1 v34 hsnap hwalk hne hst
  constructor
  · intro hrej
    rw [if_pos hrej] at hb
    refine ⟨hb, ?_⟩
    have h16 := snapTarget_int16 e walkData3 _ _ t hsnap
    unfold walkFunc1 at hwalk
    simp only [h16.1, h16.2] at hwalk
    rcases walkLoop_result e _ _ _ _ _ _ _ _ hwalk with ⟨h, _⟩ | ⟨v4, _, _, h1, h2⟩
    · exfalso
      rcases h with h | h
      · exact hne h
      · exact hrej.1 h
    · exact ⟨v4, h2, h1⟩
  · intro hrej
    rw [if_neg hrej] at hb
    obtain ⟨added2, v34', hs2, hsub2, _⟩ := stitchFrom_spec e
      (toInt16 (added1.headD (anchorOf e t.to_x t.to_y))._x)
      (toInt16 (added1.headD (anchorOf e t.to_x t.to_y))._y)
      (added1 ++ [anchorOf e t.to_x t.to_y])
    rw [hs2] at hb
    exact ⟨added2, by simpa using hb, hsub2⟩

/-- C9, amended, at a concrete input: the click `(0, 1)` on `engineLeftEdge`
is rejected, with `v38 = 9` and `v34 = 16`. -/
theorem buildWalkPath_reject_iff_witness :
    ((9 : Int) ≠ 0 ∧ (16 : Int) > 9) ∧
      buildWalkPath engineLeftEdge (-1000) 0 1 = some [⟨1, 0⟩] ∧
      ∃ v4 : Point, (⟨1, 0⟩ : WalkNode) = anchorOf engineLeftEdge v4._x v4._y ∧
        (9 : Int) = toUint16 (sqDist (-1) 1 v4._x v4._y) :=
  ⟨by decide,
    (buildWalkPath_reject_iff engineLeftEdge (-1000) 0 1 ⟨-1, 1, 0⟩ 9 ⟨1, 0⟩ [] 16
      (by decide) (by decide) (by decide) (by decide)).1 (by decide)⟩

/-- C10. Whenever `buildWalkPath` does not reject the path (the direct trace
returned 1, or the test of line 206 failed), the list returned ends with the
target anchor `(to_x - width/2, to_y - height)`, which has no successor in
it, and every node before it is a copy of a node of the location's list. -/
theorem buildWalkPath_last_is_target (e : Engine) (walkData3 x y : Int) (t : Target)
    (v38 : Int) (v44 : WalkNode) (added1 : List WalkNode) (v34 : Int)
    (hsnap : snapTarget e walkData3 (toUint16 x) (toUint16 y) = some t)
    (hwalk : walkFunc1 e t.to_x t.to_y (anchorOf e t.to_x t.to_y) = some (v38, v44))
    (hst : stitchFrom e (toInt16 (anchorOf e t.to_x t.to_y)._x)
      (toInt16 (anchorOf e t.to_x t.to_y)._y) [anchorOf e t.to_x t.to_y] =
      some (added1 ++ [anchorOf e t.to_x t.to_y], v34))
    (hkeep : v38 = 1 ∨ ¬ (v38 ≠ 0 ∧ v34 > v38)) :
    ∃ pre, buildWalkPath e walkData3 x y =
        some (pre ++ [⟨t.to_x - (e._width : Int) / 2, t.to_y - (e._height : Int)⟩]) ∧
      (∀ n ∈ pre, n ∈ e._walkNodes) ∧
      (pre ++ [(⟨t.to_x - (e._width : Int) / 2, t.to_y - (e._height : Int)⟩ : WalkNode)]).getLast?
        = some ⟨t.to_x - (e._width : Int) / 2, t.to_y - (e._height : Int)⟩ := by
  by_cases h1 : v38 = 1
  · subst h1
    exact ⟨[], buildWalkPath_of_direct e walkData3 x y t v44 hsnap hwalk, by simp, by simp⟩
  · have hrej : ¬ (v38 ≠ 0 ∧ v34 > v38) := by
      rcases hkeep with h | h
      · exact absurd h h1
      · exact h
    have hb := buildWalkPath_of_obstructed e walkData3 x y t v38 v44 added1 v34 hsnap hwalk h1 hst
    rw [if_neg hrej] at hb
    obtain ⟨added2, v34', hs2, hsub2, _⟩ := stitchFrom_spec e
      (toInt16 (added1.headD (anchorOf e t.to_x t.to_y))._x)
      (toInt16 (added1.headD (anchorOf e t.to_x t.to_y))._y)
      (added1 ++ [anchorOf e t.to_x t.to_y])
    obtain ⟨chain1, v34'', hs1, hsub1, _⟩ := stitchFrom_spec e
      (toInt16 (anchorOf e t.to_x t.to_y)._x) (toInt16 (anchorOf e t.to_x t.to_y)._y)
      [anchorOf e t.to_x t.to_y]
    rw [hst] at hs1
    simp only [Option.some.injEq, Prod.mk.injEq, List.append_cancel_right_eq] at hs1
    obtain ⟨rfl, rfl⟩ := hs1
    rw [hs2] at hb
    refine ⟨added2 ++ added1, ?_, ?_, by simp⟩
    · simpa [anchorOf] using hb
    · intro n hn
      rcases List.mem_append.1 hn with h | h
      · exact hsub2 n h
      · exact hsub1 n h

/-- C10 at a concrete input: the stitched path of the click `(1, 1)` on
`engineDetour`. -/
theorem buildWalkPath_last_is_target_witness :
    ∃ pre, buildWalkPath engineDetour (-1000) 1 1 = some (pre ++ [⟨0, 0⟩]) ∧
      (∀ n ∈ pre, n ∈ engineDetour._walkNodes) ∧
      (pre ++ [(⟨0, 0⟩ : WalkNode)]).getLast? = some ⟨0, 0⟩ :=
  buildWalkPath_last_is_target engineDetour (-1000) 1 1 ⟨1, 1, -1000⟩ 0 ⟨0, 0⟩ [⟨5, 8⟩] 89
    (by decide) (by decide) (by decide) (Or.inr (by decide))

/-! ## `queryPath` -/


theorem and_two_pow_ne_zero (v k : Nat) : v &&& 2 ^ k ≠ 0 ↔ v.testBit k = true := by
  constructor
  · intro h
    by_contra hb
    apply h
    apply Nat.eq_of_testBit_eq
    intro i
    simp only [Nat.testBit_and, Nat.testBit_two_pow, Nat.zero_testBit]
    by_cases hi : k = i
    · subst hi; simp [hb]
    · simp [hi]
  · intro h hz
    have : (v &&& 2 ^ k).testBit k = true := by
      simp [Nat.testBit_and, Nat.testBit_two_pow, h]
    rw [hz] at this
    simp at this



theorem queryPath_nat (b : Nat → Nat) (x y : Nat) (hx : x < 65536) (hy : y < 65536) :
    queryPath b (x : Int) (y : Int) = (b (y * 40 + x / 8) % 256) &&& 2 ^ (x % 8) := by
  have h1 : (toUint16 (x : Int)).toNat = x := by unfold toUint16; omega
  have h2 : (toUint16 (y : Int)).toNat = y := by unfold toUint16; omega
  unfold queryPath
  simp only [h1, h2, Nat.one_shiftLeft]
  congr 1
  apply Nat.mod_eq_of_lt
  have : x % 8 < 8 := Nat.mod_lt _ (by omega)
  calc 2 ^ (x % 8) ≤ 2 ^ 7 := Nat.pow_le_pow_right (by omega) (by omega)
    _ < 256 := by norm_num

/-- C15. For `uint16` arguments, `queryPath(x, y)` is not 0 exactly when bit
`x mod 8` of the mask byte at index `y * 40 + x / 8` is set, and it depends
on the mask through that byte alone. -/
theorem queryPath_bit (_buffer : Nat → Nat) (x y : Nat) (hx : x < 65536) (hy : y < 65536) :
    (queryPath _buffer (x : Int) (y : Int) ≠ 0 ↔
        (_buffer (y * 40 + x / 8)).testBit (x % 8) = true) ∧
      (∀ other : Nat → Nat, other (y * 40 + x / 8) = _buffer (y * 40 + x / 8) →
        queryPath other (x : Int) (y : Int) = queryPath _buffer (x : Int) (y : Int)) := by
  constructor
  · rw [queryPath_nat _buffer x y hx hy, and_two_pow_ne_zero,
      show (256 : Nat) = 2 ^ 8 by norm_num, Nat.testBit_mod_two_pow]
    have : x % 8 < 8 := Nat.mod_lt _ (by omega)
    simp [this]
  · intro other h
    rw [queryPath_nat _buffer x y hx hy, queryPath_nat other x y hx hy, h]

/-- C15 at a concrete input: the cell `(11, 3)` of a mask whose byte 121 is
`0x0C`. -/
theorem queryPath_bit_witness :
    (queryPath (fun i => if i = 121 then 0x0C else 0) 11 3 ≠ 0 ↔
      ((fun i => if i = 121 then 0x0C else 0) (3 * 40 + 11 / 8) : Nat).testBit (11 % 8) = true) :=
  (queryPath_bit (fun i => if i = 121 then 0x0C else 0) 11 3 (by decide) (by decide)).1


/-! ## The walk job `jobWalk` -/

/-- The move of lines 394-402: `_si` goes toward the node by at most 2, not
past it, and a move by 2 ends on the cell that was probed. -/
theorem stepX_spec (e : Engine) (node : WalkNode) (_si _di : Int)
    (h1 : -32768 ≤ _si ∧ _si ≤ 32767) (h2 : -32768 ≤ node._x ∧ node._x ≤ 32767) :
    Between _si (stepX e node _si _di) node._x ∧
      -2 ≤ stepX e node _si _di - _si ∧ stepX e node _si _di - _si ≤ 2 ∧
      (stepX e node _si _di = _si + 2 ∨ stepX e node _si _di = _si - 2 →
        queryPath e._buffer ((e._width : Int) / 2 + stepX e node _si _di)
          ((e._height : Int) + _di) ≠ 0) := by
  unfold stepX Between
  simp only []
  by_cases c1 : _si < node._x ∧ _si < e.SCREEN_WIDTH ∧
      queryPath e._buffer ((e._width : Int) / 2 + _si + 2) ((e._height : Int) + _di) ≠ 0
  · rw [if_pos c1]
    have hr : toInt16 (if _si + 2 < node._x then _si + 2 else node._x) =
        if _si + 2 < node._x then _si + 2 else node._x := by
      apply toInt16_of_range <;> split_ifs <;> omega
    rw [hr]
    have hle : (if _si + 2 < node._x then _si + 2 else node._x) ≤ node._x := by
      split_ifs <;> omega
    rw [if_neg (fun h => by omega)]
    refine ⟨?_, ?_, ?_, ?_⟩
    · split_ifs <;> omega
    · split_ifs <;> omega
    · split_ifs <;> omega
    · intro h
      have heq : (if _si + 2 < node._x then _si + 2 else node._x) = _si + 2 := by
        rcases h with h | h
        · exact h
        · split_ifs at h <;> omega
      rw [heq, ← Int.add_assoc]
      exact c1.2.2
  · rw [if_neg c1]
    by_cases c2 : _si > node._x ∧ _si > -20 ∧
        queryPath e._buffer ((e._width : Int) / 2 + _si - 2) ((e._height : Int) + _di) ≠ 0
    · rw [if_pos c2]
      have hr : toInt16 (if _si - 2 > node._x then _si - 2 else node._x) =
          if _si - 2 > node._x then _si - 2 else node._x := by
        apply toInt16_of_range <;> split_ifs <;> omega
      rw [hr]
      refine ⟨?_, ?_, ?_, ?_⟩
      · split_ifs <;> omega
      · split_ifs <;> omega
      · split_ifs <;> omega
      · intro h
        have heq : (if _si - 2 > node._x then _si - 2 else node._x) = _si - 2 := by
          rcases h with h | h
          · split_ifs at h <;> omega
          · exact h
        rw [heq, show (e._width : Int) / 2 + (_si - 2) = (e._width : Int) / 2 + _si - 2 by omega]
        exact c2.2.2
    · rw [if_neg c2]
      refine ⟨by omega, by omega, by omega, ?_⟩
      intro h
      omega

/-- The move of lines 404-412: `_di` goes toward the node by at most 2, not
past it, and a move by 2 ends on the cell that was probed. -/
theorem stepY_spec (e : Engine) (node : WalkNode) (_si _di : Int)
    (h1 : -32768 ≤ _di ∧ _di ≤ 32767) (h2 : -32768 ≤ node._y ∧ node._y ≤ 32767) :
    Between _di (stepY e node _si _di) node._y ∧
      -2 ≤ stepY e node _si _di - _di ∧ stepY e node _si _di - _di ≤ 2 ∧
      (stepY e node _si _di = _di + 2 ∨ stepY e node _si _di = _di - 2 →
        queryPath e._buffer ((e._width : Int) / 2 + _si)
          ((e._height : Int) + stepY e node _si _di) ≠ 0) := by
  unfold stepY Between
  simp only []
  by_cases c1 : _di < node._y ∧ _di < e.SCREEN_HEIGHT - (e._height : Int) ∧
      queryPath e._buffer ((e._width : Int) / 2 + _si) ((e._height : Int) + _di + 2) ≠ 0
  · rw [if_pos c1]
    have hr : toInt16 (if _di + 2 ≤ node._y then _di + 2 else node._y) =
        if _di + 2 ≤ node._y then _di + 2 else node._y := by
      apply toInt16_of_range <;> split_ifs <;> omega
    rw [hr]
    have hle : (if _di + 2 ≤ node._y then _di + 2 else node._y) ≤ node._y := by
      split_ifs <;> omega
    rw [if_neg (fun h => by omega)]
    refine ⟨?_, ?_, ?_, ?_⟩
    · split_ifs <;> omega
    · split_ifs <;> omega
    · split_ifs <;> omega
    · intro h
      have heq : (if _di + 2 ≤ node._y then _di + 2 else node._y) = _di + 2 := by
        rcases h with h | h
        · exact h
        · split_ifs at h <;> omega
      rw [heq, ← Int.add_assoc]
      exact c1.2.2
  · rw [if_neg c1]
    by_cases c2 : _di > node._y ∧ _di > -20 ∧
        queryPath e._buffer ((e._width : Int) / 2 + _si) ((e._height : Int) + _di - 2) ≠ 0
    · rw [if_pos c2]
      have hr : toInt16 (if _di - 2 ≥ node._y then _di - 2 else node._y) =
          if _di - 2 ≥ node._y then _di - 2 else node._y := by
        apply toInt16_of_range <;> split_ifs <;> omega
      rw [hr]
      refine ⟨?_, ?_, ?_, ?_⟩
      · split_ifs <;> omega
      · split_ifs <;> omega
      · split_ifs <;> omega
      · intro h
        have heq : (if _di - 2 ≥ node._y then _di - 2 else node._y) = _di - 2 := by
          rcases h with h | h
          · split_ifs at h <;> omega
          · exact h
        rw [heq, show (e._height : Int) + (_di - 2) = (e._height : Int) + _di - 2 by omega]
        exact c2.2.2
    · rw [if_neg c2]
      refine ⟨by omega, by omega, by omega, ?_⟩
      intro h
      omega


/-- `jobWalk` either ends on the last node or does the step of lines 348-430
toward `headNode`. -/
theorem jobWalk_cases (e : Engine) (walkData1 walkData2 : Int) (node : WalkNode)
    (next : List WalkNode) :
    ((node._x = toInt16 e._left ∧ node._y = toInt16 e._top) ∧ next = [] ∧
        jobWalk e walkData1 walkData2 node next =
          { _left := e._left, _top := e._top, _oldLeft := toInt16 e._left
            _oldTop := toInt16 e._top, walkData1 := walkData1, walkData2 := walkData2
            _frame := none, _finished := true, checkDoor := true, path := [] }) ∨
      (¬ ((node._x = toInt16 e._left ∧ node._y = toInt16 e._top) ∧ next = []) ∧
        headNode e node next ∈ node :: next ∧
        ∃ rest, jobWalk e walkData1 walkData2 node next =
          walkStep e walkData1 (headNode e node next) rest) := by
  unfold jobWalk headNode
  simp only []
  by_cases h : node._x = toInt16 e._left ∧ node._y = toInt16 e._top
  · rw [if_pos h, if_pos h]
    cases next with
    | nil => left; exact ⟨h, rfl, rfl⟩
    | cons tmp rest =>
      right
      exact ⟨by simp, by simp, rest, rfl⟩
  · rw [if_neg h, if_neg h]
    right
    exact ⟨fun h' => h h'.1, by simp, next, rfl⟩

theorem walkStep_pos (e : Engine) (walkData1 : Int) (node : WalkNode) (next : List WalkNode) :
    (walkStep e walkData1 node next)._left = stepX e node (toInt16 e._left) (toInt16 e._top) ∧
      (walkStep e walkData1 node next)._top =
        stepY e node (stepX e node (toInt16 e._left) (toInt16 e._top)) (toInt16 e._top) := by
  unfold walkStep
  simp only []
  split_ifs <;> exact ⟨rfl, rfl⟩

theorem walkStep_finished (e : Engine) (walkData1 : Int) (node : WalkNode)
    (next : List WalkNode) :
    ((walkStep e walkData1 node next)._left = toInt16 e._left ∧
        (walkStep e walkData1 node next)._top = toInt16 e._top →
      (walkStep e walkData1 node next)._finished = true ∧
        (walkStep e walkData1 node next).checkDoor = true ∧
        (walkStep e walkData1 node next).path = []) ∧
      (¬ ((walkStep e walkData1 node next)._left = toInt16 e._left ∧
          (walkStep e walkData1 node next)._top = toInt16 e._top) →
        (walkStep e walkData1 node next)._finished = false ∧
          (walkStep e walkData1 node next).checkDoor = false ∧
          (walkStep e walkData1 node next).path = node :: next) := by
  unfold walkStep
  simp only []
  split_ifs with h
  · exact ⟨fun _ => ⟨rfl, rfl, rfl⟩, fun h' => absurd h h'⟩
  · exact ⟨fun h' => absurd h' h, fun _ => ⟨rfl, rfl, rfl⟩⟩

/-- C12 fails as stated: on `engineStride` the character stands at `(9, 4)`,
one pixel from the node `(10, 4)`.  The cell probed is `(12, 5)`, two pixels
ahead of the foot, which is walkable; the tick moves the character to
`(10, 4)` and its foot to `(11, 5)`, where `queryPath` is 0. -/
theorem jobWalk_foot_counterexample :
    (jobWalk engineStride 0 0 ⟨10, 4⟩ [])._left = 10 ∧
      (jobWalk engineStride 0 0 ⟨10, 4⟩ [])._top = 4 ∧
      (engineStride._left, engineStride._top) = (9, 4) ∧
      queryPath engineStride._buffer ((engineStride._width : Int) / 2 + 10)
        ((engineStride._height : Int) + 4) = 0 ∧
      queryPath engineStride._buffer ((engineStride._width : Int) / 2 + 9 + 2)
        ((engineStride._height : Int) + 4) ≠ 0 := by
  decide

/-- C12, amended. In a `jobWalk` tick (coordinates within `int16`), what is
probed before an axis moves is the cell 2 pixels ahead.  Hence the new foot
point `(left + width/2, top + height)` is a walkable cell whenever `top`
moved by the full stride of 2 pixels, and whenever `top` did not move and
`left` moved by 2 pixels; a stride clamped to 1 pixel enters a cell that was
not probed. -/
theorem jobWalk_foot_walkable (e : Engine) (walkData1 walkData2 : Int) (node : WalkNode)
    (next : List WalkNode)
    (hl : -32768 ≤ e._left ∧ e._left ≤ 32767) (ht : -32768 ≤ e._top ∧ e._top ≤ 32767)
    (hn : ∀ n ∈ node :: next, (-32768 ≤ n._x ∧ n._x ≤ 32767) ∧ (-32768 ≤ n._y ∧ n._y ≤ 32767)) :
    ((jobWalk e walkData1 walkData2 node next)._top = e._top + 2 ∨
        (jobWalk e walkData1 walkData2 node next)._top = e._top - 2 →
      queryPath e._buffer
        ((e._width : Int) / 2 + (jobWalk e walkData1 walkData2 node next)._left)
        ((e._height : Int) + (jobWalk e walkData1 walkData2 node next)._top) ≠ 0) ∧
      ((jobWalk e walkData1 walkData2 node next)._top = e._top →
        ((jobWalk e walkData1 walkData2 node next)._left = e._left + 2 ∨
          (jobWalk e walkData1 walkData2 node next)._left = e._left - 2) →
        queryPath e._buffer
          ((e._width : Int) / 2 + (jobWalk e walkData1 walkData2 node next)._left)
          ((e._height : Int) + (jobWalk e walkData1 walkData2 node next)._top) ≠ 0) := by
  have hl16 : toInt16 e._left = e._left := toInt16_of_range _ hl.1 hl.2
  have ht16 : toInt16 e._top = e._top := toInt16_of_range _ ht.1 ht.2
  rcases jobWalk_cases e walkData1 walkData2 node next with ⟨_, _, h⟩ | ⟨_, hmem, rest, h⟩
  · rw [h]
    simp only []
    exact ⟨fun h' => by omega, fun _ h' => by omega⟩
  · rw [h]
    obtain ⟨px, py⟩ := walkStep_pos e walkData1 (headNode e node next) rest
    rw [px, py, hl16, ht16]
    have hx := stepX_spec e (headNode e node next) e._left e._top hl (hn _ hmem).1
    have hy := stepY_spec e (headNode e node next)
      (stepX e (headNode e node next) e._left e._top) e._top ht (hn _ hmem).2
    constructor
    · intro h'
      exact hy.2.2.2 h'
    · intro h1 h2
      rw [h1]
      exact hx.2.2.2 h2

/-- C12, amended, at a concrete input: on `engineStride`, toward the node
`(11, 4)`, the character moves by the full stride to `(11, 4)` and its foot
to the probed cell `(12, 5)`. -/
theorem jobWalk_foot_walkable_witness :
    (jobWalk engineStride 0 0 ⟨11, 4⟩ [])._left = 11 ∧
      queryPath engineStride._buffer
        ((engineStride._width : Int) / 2 + (jobWalk engineStride 0 0 ⟨11, 4⟩ [])._left)
        ((engineStride._height : Int) + (jobWalk engineStride 0 0 ⟨11, 4⟩ [])._top) ≠ 0 :=
  ⟨by decide,
    (jobWalk_foot_walkable engineStride 0 0 ⟨11, 4⟩ [] (by decide) (by decide)
      (by decide)).2 (by decide) (Or.inl (by decide))⟩

/-- C13. In one `jobWalk` tick (coordinates within `int16`) the `left` and
`top` of the character each change by at most 2 pixels and end between the
old value and the coordinate of the node moved toward, that one included. -/
theorem jobWalk_step_bounds (e : Engine) (walkData1 walkData2 : Int) (node : WalkNode)
    (next : List WalkNode)
    (hl : -32768 ≤ e._left ∧ e._left ≤ 32767) (ht : -32768 ≤ e._top ∧ e._top ≤ 32767)
    (hn : ∀ n ∈ node :: next, (-32768 ≤ n._x ∧ n._x ≤ 32767) ∧ (-32768 ≤ n._y ∧ n._y ≤ 32767)) :
    Between e._left (jobWalk e walkData1 walkData2 node next)._left (headNode e node next)._x ∧
      -2 ≤ (jobWalk e walkData1 walkData2 node next)._left - e._left ∧
      (jobWalk e walkData1 walkData2 node next)._left - e._left ≤ 2 ∧
      Between e._top (jobWalk e walkData1 walkData2 node next)._top (headNode e node next)._y ∧
      -2 ≤ (jobWalk e walkData1 walkData2 node next)._top - e._top ∧
      (jobWalk e walkData1 walkData2 node next)._top - e._top ≤ 2 := by
  have hl16 : toInt16 e._left = e._left := toInt16_of_range _ hl.1 hl.2
  have ht16 : toInt16 e._top = e._top := toInt16_of_range _ ht.1 ht.2
  rcases jobWalk_cases e walkData1 walkData2 node next with ⟨_, _, h⟩ | ⟨_, hmem, rest, h⟩
  · rw [h]
    simp only []
    unfold Between
    omega
  · rw [h]
    obtain ⟨px, py⟩ := walkStep_pos e walkData1 (headNode e node next) rest
    rw [px, py, hl16, ht16]
    have hx := stepX_spec e (headNode e node next) e._left e._top hl (hn _ hmem).1
    have hy := stepY_spec e (headNode e node next)
      (stepX e (headNode e node next) e._left e._top) e._top ht (hn _ hmem).2
    exact ⟨hx.1, hx.2.1, hx.2.2.1, hy.1, hy.2.1, hy.2.2.1⟩

/-- C13 at a concrete input: on `engineStride`, toward the node `(10, 4)`. -/
theorem jobWalk_step_bounds_witness :
    Between 9 (jobWalk engineStride 0 0 ⟨10, 4⟩ [])._left 10 ∧
      -2 ≤ (jobWalk engineStride 0 0 ⟨10, 4⟩ [])._left - 9 ∧
      (jobWalk engineStride 0 0 ⟨10, 4⟩ [])._left - 9 ≤ 2 :=
  have h := jobWalk_step_bounds engineStride 0 0 ⟨10, 4⟩ [] (by decide) (by decide) (by decide)
  ⟨h.1, h.2.1, h.2.2.1⟩

/-- C14. In a `jobWalk` tick that does not end by reaching the last node
(position within `int16`): if the position after the tick equals the position
before it, the job is marked finished, `checkDoor` is called and the whole
remaining path is freed; if the position changed, the job is not marked
finished and the path is kept. -/
theorem jobWalk_stuck (e : Engine) (walkData1 walkData2 : Int) (node : WalkNode)
    (next : List WalkNode)
    (hl : -32768 ≤ e._left ∧ e._left ≤ 32767) (ht : -32768 ≤ e._top ∧ e._top ≤ 32767)
    (hlast : ¬ ((node._x = e._left ∧ node._y = e._top) ∧ next = [])) :
    ((jobWalk e walkData1 walkData2 node next)._left = e._left ∧
        (jobWalk e walkData1 walkData2 node next)._top = e._top →
      (jobWalk e walkData1 walkData2 node next)._finished = true ∧
        (jobWalk e walkData1 walkData2 node next).checkDoor = true ∧
        (jobWalk e walkData1 walkData2 node next).path = []) ∧
      (¬ ((jobWalk e walkData1 walkData2 node next)._left = e._left ∧
          (jobWalk e walkData1 walkData2 node next)._top = e._top) →
        (jobWalk e walkData1 walkData2 node next)._finished = false ∧
          (jobWalk e walkData1 walkData2 node next).checkDoor = false ∧
          (jobWalk e walkData1 walkData2 node next).path ≠ []) := by
  have hl16 : toInt16 e._left = e._left := toInt16_of_range _ hl.1 hl.2
  have ht16 : toInt16 e._top = e._top := toInt16_of_range _ ht.1 ht.2
  rcases jobWalk_cases e walkData1 walkData2 node next with ⟨h1, h2, _⟩ | ⟨_, _, rest, h⟩
  · rw [hl16, ht16] at h1
    exact absurd ⟨h1, h2⟩ hlast
  · rw [h]
    have hf := walkStep_finished e walkData1 (headNode e node next) rest
    rw [hl16, ht16] at hf
    refine ⟨hf.1, fun h' => ?_⟩
    obtain ⟨f1, f2, f3⟩ := hf.2 h'
    exact ⟨f1, f2, by rw [f3]; simp⟩

/-- C14 at a concrete input: on `engineStride` the node `(8, 4)` lies to the
left, the cell probed is unwalkable, the character does not move and the job
is finished. -/
theorem jobWalk_stuck_witness :
    (jobWalk engineStride 0 0 ⟨8, 4⟩ [⟨0, 0⟩])._left = 9 ∧
      (jobWalk engineStride 0 0 ⟨8, 4⟩ [⟨0, 0⟩])._finished = true ∧
      (jobWalk engineStride 0 0 ⟨8, 4⟩ [⟨0, 0⟩]).checkDoor = true ∧
      (jobWalk engineStride 0 0 ⟨8, 4⟩ [⟨0, 0⟩]).path = [] :=
  ⟨by decide,
    (jobWalk_stuck engineStride 0 0 ⟨8, 4⟩ [⟨0, 0⟩] (by decide) (by decide) (by decide)).1
      (by decide)⟩

/-! ## The result of `walkFunc1` -/

set_option maxRecDepth 1000000 in
/-- C11: the distance result of `walkFunc1` collides with the sentinel 1.
On the 320 x 200 mask `engineStride` the foot stands on (10, 5) and cannot
move at all (`stepForward` leaves it in place for both targets). For the
unwalkable target (11, 5) the probe walks into the target and the function
returns the squared distance (11 - 10)² = 1; for the target (266, 6) the
squared distance 256² + 1² = 65537 is cut to the `uint16` return type and the
function returns 1 again. In both runs the foot never reaches the target and
`*Node` is set to the anchor (9, 4) of the stall point, yet the result is the
value that stands for "reachable". -/
theorem walkFunc1_sentinel_clash :
    queryPath engineStride._buffer 11 5 = 0 ∧
      stepForward engineStride 11 5 ⟨10, 5⟩ = ⟨10, 5⟩ ∧
      walkFunc1 engineStride 11 5 ⟨0, 0⟩ = some (1, ⟨9, 4⟩) ∧
      stepForward engineStride 266 6 ⟨10, 5⟩ = ⟨10, 5⟩ ∧
      sqDist 266 6 10 5 = 65537 ∧
      walkFunc1 engineStride 266 6 ⟨0, 0⟩ = some (1, ⟨9, 4⟩) := by
  decide

/-! ## The walk frame -/

theorem toUint16_range (v : Int) : 0 ≤ toUint16 v ∧ toUint16 v < 65536 := by
  unfold toUint16
  omega

theorem walkFrame_spec (e : Engine) (walkData1 : Int) (node : WalkNode) (_si _di : Int) :
    (e._count = 20 →
        ((if node._x - e._left < 0 then -(node._x - e._left) else node._x - e._left) >
            (if node._y - e._top < 0 then -(node._y - e._top) else node._y - e._top) →
          walkFrame e walkData1 node _si _di =
            (toUint16 (walkData1 + 1) % 12, if node._x > _si then 0 else 7,
              toUint16 (walkData1 + 1) % 12 / 2)) ∧
        (¬ (if node._x - e._left < 0 then -(node._x - e._left) else node._x - e._left) >
            (if node._y - e._top < 0 then -(node._y - e._top) else node._y - e._top) →
          walkFrame e walkData1 node _si _di =
            (toUint16 (walkData1 + 1) % 8, if node._y > _di then 14 else 17,
              toUint16 (walkData1 + 1) % 8 / 4))) ∧
      (e._count ≠ 20 →
        ((if node._x - e._left < 0 then -(node._x - e._left) else node._x - e._left) >
            (if node._y - e._top < 0 then -(node._y - e._top) else node._y - e._top) →
          walkFrame e walkData1 node _si _di =
            (toUint16 (walkData1 + 1) % 16, if node._x > _si then 0 else 9,
              toUint16 (walkData1 + 1) % 16 / 2)) ∧
        (¬ (if node._x - e._left < 0 then -(node._x - e._left) else node._x - e._left) >
            (if node._y - e._top < 0 then -(node._y - e._top) else node._y - e._top) →
          walkFrame e walkData1 node _si _di =
            (toUint16 (walkData1 + 1) % 8, if node._y > _di then 18 else 21,
              toUint16 (walkData1 + 1) % 8 / 4))) := by
  have hr := toUint16_range (walkData1 + 1)
  have h12 : toInt16 (toUint16 (walkData1 + 1) % 12 / 2) = toUint16 (walkData1 + 1) % 12 / 2 :=
    toInt16_of_range _ (by omega) (by omega)
  have h16 : toInt16 (toUint16 (walkData1 + 1) % 16 / 2) = toUint16 (walkData1 + 1) % 16 / 2 :=
    toInt16_of_range _ (by omega) (by omega)
  have h8 : toInt16 (toUint16 (walkData1 + 1) % 8 / 4) = toUint16 (walkData1 + 1) % 8 / 4 :=
    toInt16_of_range _ (by omega) (by omega)
  refine ⟨fun hc => ⟨fun hd => ?_, fun hd => ?_⟩, fun hc => ⟨fun hd => ?_, fun hd => ?_⟩⟩
  · simp only [walkFrame, hc, if_true, hd, h12]
  · simp only [walkFrame, hc, if_true, hd, if_false, h8]
  · simp only [walkFrame, hc, if_false, hd, if_true, h16]
  · simp only [walkFrame, hc, if_false, hd, h8]

theorem jobWalk_frame_eq (e : Engine) (walkData1 walkData2 : Int) (node : WalkNode)
    (next : List WalkNode) (f : Int)
    (hf : (jobWalk e walkData1 walkData2 node next)._frame = some f) :
    (jobWalk e walkData1 walkData2 node next).walkData1 =
        (walkFrame e walkData1 (headNode e node next) (toInt16 e._left) (toInt16 e._top)).1 ∧
      (jobWalk e walkData1 walkData2 node next).walkData2 =
        (walkFrame e walkData1 (headNode e node next) (toInt16 e._left) (toInt16 e._top)).2.1 ∧
      f = (walkFrame e walkData1 (headNode e node next) (toInt16 e._left) (toInt16 e._top)).2.2 +
        (walkFrame e walkData1 (headNode e node next) (toInt16 e._left) (toInt16 e._top)).2.1 + 1 := by
  have key : ∀ (n : WalkNode) (r : List WalkNode),
      (walkStep e walkData1 n r)._frame = some f →
      (walkStep e walkData1 n r).walkData1 =
          (walkFrame e walkData1 n (toInt16 e._left) (toInt16 e._top)).1 ∧
        (walkStep e walkData1 n r).walkData2 =
          (walkFrame e walkData1 n (toInt16 e._left) (toInt16 e._top)).2.1 ∧
        f = (walkFrame e walkData1 n (toInt16 e._left) (toInt16 e._top)).2.2 +
          (walkFrame e walkData1 n (toInt16 e._left) (toInt16 e._top)).2.1 + 1 := by
    intro n r h
    unfold walkStep at h ⊢
    simp only at h ⊢
    split_ifs at h ⊢
    simp only [Option.some.injEq] at h
    exact ⟨rfl, rfl, h.symm⟩
  unfold jobWalk at hf ⊢
  unfold headNode
  simp only at hf ⊢
  by_cases hc : node._x = toInt16 e._left ∧ node._y = toInt16 e._top
  · rw [if_pos hc] at hf ⊢
    rw [if_pos hc]
    cases next with
    | nil => simp at hf
    | cons tmp rest => exact key tmp rest hf
  · rw [if_neg hc] at hf ⊢
    rw [if_neg hc]
    exact key node next hf

/-- C34. Whenever `jobWalk` sets the animation frame `f`, the counter
`walkData1` has been incremented (in `uint16`) and reduced modulo the cycle
length, `walkData2` is the base and `f` is `walkData1 / 2 + base + 1` for a
horizontal majority of the distance to the node moved toward and
`walkData1 / 4 + base + 1` otherwise.  A sprite of 20 frames has the cycle 12
and the base 0 (node to the right) or 7, or the cycle 8 and the base 14 (node
below) or 17; another sprite has the cycle 16 and the base 0 or 9, or the
cycle 8 and the base 18 or 21.  Hence `f` is between 1 and 19 for a sprite of
20 frames and between 1 and 23 otherwise. -/
theorem jobWalk_frame (e : Engine) (walkData1 walkData2 : Int) (node : WalkNode)
    (next : List WalkNode) (f : Int)
    (hf : (jobWalk e walkData1 walkData2 node next)._frame = some f) :
    (e._count = 20 →
        (((if (headNode e node next)._x - e._left < 0 then -((headNode e node next)._x - e._left)
              else (headNode e node next)._x - e._left) >
            (if (headNode e node next)._y - e._top < 0 then -((headNode e node next)._y - e._top)
              else (headNode e node next)._y - e._top) →
          (jobWalk e walkData1 walkData2 node next).walkData1 = toUint16 (walkData1 + 1) % 12 ∧
            (jobWalk e walkData1 walkData2 node next).walkData2 =
              (if (headNode e node next)._x > toInt16 e._left then 0 else 7) ∧
            f = (jobWalk e walkData1 walkData2 node next).walkData1 / 2 +
              (jobWalk e walkData1 walkData2 node next).walkData2 + 1) ∧
          (¬ (if (headNode e node next)._x - e._left < 0 then
                -((headNode e node next)._x - e._left)
              else (headNode e node next)._x - e._left) >
            (if (headNode e node next)._y - e._top < 0 then -((headNode e node next)._y - e._top)
              else (headNode e node next)._y - e._top) →
          (jobWalk e walkData1 walkData2 node next).walkData1 = toUint16 (walkData1 + 1) % 8 ∧
            (jobWalk e walkData1 walkData2 node next).walkData2 =
              (if (headNode e node next)._y > toInt16 e._top then 14 else 17) ∧
            f = (jobWalk e walkData1 walkData2 node next).walkData1 / 4 +
              (jobWalk e walkData1 walkData2 node next).walkData2 + 1)) ∧
        1 ≤ f ∧ f ≤ 19) ∧
      (e._count ≠ 20 →
        (((if (headNode e node next)._x - e._left < 0 then -((headNode e node next)._x - e._left)
              else (headNode e node next)._x - e._left) >
            (if (headNode e node next)._y - e._top < 0 then -((headNode e node next)._y - e._top)
              else (headNode e node next)._y - e._top) →
          (jobWalk e walkData1 walkData2 node next).walkData1 = toUint16 (walkData1 + 1) % 16 ∧
            (jobWalk e walkData1 walkData2 node next).walkData2 =
              (if (headNode e node next)._x > toInt16 e._left then 0 else 9) ∧
            f = (jobWalk e walkData1 walkData2 node next).walkData1 / 2 +
              (jobWalk e walkData1 walkData2 node next).walkData2 + 1) ∧
          (¬ (if (headNode e node next)._x - e._left < 0 then
                -((headNode e node next)._x - e._left)
              else (headNode e node next)._x - e._left) >
            (if (headNode e node next)._y - e._top < 0 then -((headNode e node next)._y - e._top)
              else (headNode e node next)._y - e._top) →
          (jobWalk e walkData1 walkData2 node next).walkData1 = toUint16 (walkData1 + 1) % 8 ∧
            (jobWalk e walkData1 walkData2 node next).walkData2 =
              (if (headNode e node next)._y > toInt16 e._top then 18 else 21) ∧
            f = (jobWalk e walkData1 walkData2 node next).walkData1 / 4 +
              (jobWalk e walkData1 walkData2 node next).walkData2 + 1)) ∧
        1 ≤ f ∧ f ≤ 23) := by
  obtain ⟨h1, h2, h3⟩ := jobWalk_frame_eq e walkData1 walkData2 node next f hf
  have hr := toUint16_range (walkData1 + 1)
  obtain ⟨ha, hb⟩ := walkFrame_spec e walkData1 (headNode e node next) (toInt16 e._left)
    (toInt16 e._top)
  generalize (jobWalk e walkData1 walkData2 node next).walkData1 = w1 at h1 ⊢
  generalize (jobWalk e walkData1 walkData2 node next).walkData2 = w2 at h2 ⊢
  generalize hW : toUint16 (walkData1 + 1) = W at *
  generalize hdx : (if (headNode e node next)._x - e._left < 0 then
      -((headNode e node next)._x - e._left) else (headNode e node next)._x - e._left) = dx at *
  generalize hdy : (if (headNode e node next)._y - e._top < 0 then
      -((headNode e node next)._y - e._top) else (headNode e node next)._y - e._top) = dy at *
  constructor
  · intro hc
    obtain ⟨hx, hy⟩ := ha hc
    by_cases hd : dx > dy
    · rw [hx hd] at h1 h2 h3
      simp only at h1 h2 h3
      refine ⟨⟨fun _ => ⟨h1, h2, by rw [h3, h1, h2]⟩, fun hn => absurd hd hn⟩, ?_, ?_⟩ <;>
        (rw [h3]; split_ifs <;> omega)
    · rw [hy hd] at h1 h2 h3
      simp only at h1 h2 h3
      refine ⟨⟨fun hp => absurd hp hd, fun _ => ⟨h1, h2, by rw [h3, h1, h2]⟩⟩, ?_, ?_⟩ <;>
        (rw [h3]; split_ifs <;> omega)
  · intro hc
    obtain ⟨hx, hy⟩ := hb hc
    by_cases hd : dx > dy
    · rw [hx hd] at h1 h2 h3
      simp only at h1 h2 h3
      refine ⟨⟨fun _ => ⟨h1, h2, by rw [h3, h1, h2]⟩, fun hn => absurd hd hn⟩, ?_, ?_⟩ <;>
        (rw [h3]; split_ifs <;> omega)
    · rw [hy hd] at h1 h2 h3
      simp only at h1 h2 h3
      refine ⟨⟨fun hp => absurd hp hd, fun _ => ⟨h1, h2, by rw [h3, h1, h2]⟩⟩, ?_, ?_⟩ <;>
        (rw [h3]; split_ifs <;> omega)

/-- C34 at a concrete input: on `engineStride` (a sprite of 20 frames),
toward the node `(11, 4)` to the right, the first tick sets the frame 1. -/
theorem jobWalk_frame_witness :
    (jobWalk engineStride 0 0 ⟨11, 4⟩ [])._frame = some 1 ∧ engineStride._count = 20 ∧
      (1 : Int) ≤ 1 ∧ (1 : Int) ≤ 19 :=
  ⟨by decide, by decide,
    ((jobWalk_frame engineStride 0 0 ⟨11, 4⟩ [] 1 (by decide)).1 (by decide)).2⟩

/-! ## Progress of `jobWalk` -/

theorem jobWalk_path (e : Engine) (walkData1 walkData2 : Int) (node : WalkNode)
    (next : List WalkNode)
    (hf : (jobWalk e walkData1 walkData2 node next)._finished = false) :
    (¬ (node._x = toInt16 e._left ∧ node._y = toInt16 e._top) ∧
        headNode e node next = node ∧
        (jobWalk e walkData1 walkData2 node next).path = node :: next) ∨
      ((node._x = toInt16 e._left ∧ node._y = toInt16 e._top) ∧
        ∃ tmp rest, next = tmp :: rest ∧ headNode e node next = tmp ∧
          (jobWalk e walkData1 walkData2 node next).path = tmp :: rest) := by
  have key : ∀ n r, (walkStep e walkData1 n r)._finished = false →
      (walkStep e walkData1 n r).path = n :: r := by
    intro n r h
    by_cases hs : (walkStep e walkData1 n r)._left = toInt16 e._left ∧
        (walkStep e walkData1 n r)._top = toInt16 e._top
    · have := ((walkStep_finished e walkData1 n r).1 hs).1
      rw [this] at h
      exact absurd h (by decide)
    · exact ((walkStep_finished e walkData1 n r).2 hs).2.2
  unfold jobWalk headNode at *
  simp only [] at *
  by_cases h : node._x = toInt16 e._left ∧ node._y = toInt16 e._top
  · rw [if_pos h] at hf ⊢
    rw [if_pos h]
    right
    refine ⟨h, ?_⟩
    cases next with
    | nil => simp at hf
    | cons tmp rest => exact ⟨tmp, rest, rfl, rfl, key tmp rest hf⟩
  · rw [if_neg h] at hf ⊢
    rw [if_neg h]
    exact Or.inl ⟨h, rfl, key node next hf⟩

/-- The position after a tick lies between the old position and the node
moved toward, on each axis (coordinates within `int16`). -/
theorem jobWalk_between (e : Engine) (walkData1 walkData2 : Int) (node : WalkNode)
    (next : List WalkNode)
    (hl : -32768 ≤ e._left ∧ e._left ≤ 32767) (ht : -32768 ≤ e._top ∧ e._top ≤ 32767)
    (hn : ∀ n ∈ node :: next, (-32768 ≤ n._x ∧ n._x ≤ 32767) ∧ (-32768 ≤ n._y ∧ n._y ≤ 32767)) :
    Between e._left (jobWalk e walkData1 walkData2 node next)._left (headNode e node next)._x ∧
      Between e._top (jobWalk e walkData1 walkData2 node next)._top (headNode e node next)._y := by
  have hl16 : toInt16 e._left = e._left := toInt16_of_range _ hl.1 hl.2
  have ht16 : toInt16 e._top = e._top := toInt16_of_range _ ht.1 ht.2
  rcases jobWalk_cases e walkData1 walkData2 node next with ⟨_, _, h⟩ | ⟨_, hmem, rest, h⟩
  · rw [h]
    simp only []
    unfold Between
    omega
  · rw [h]
    obtain ⟨px, py⟩ := walkStep_pos e walkData1 (headNode e node next) rest
    rw [px, py, hl16, ht16]
    have hx := stepX_spec e (headNode e node next) e._left e._top hl (hn _ hmem).1
    have hy := stepY_spec e (headNode e node next)
      (stepX e (headNode e node next) e._left e._top) e._top ht (hn _ hmem).2
    exact ⟨hx.1, hy.1⟩

/-- A tick that leaves the position where it was marks the job finished, and
a tick that marks it finished has reached the last node or left the position
where it was (position within `int16`). -/
theorem jobWalk_finished_iff (e : Engine) (walkData1 walkData2 : Int) (node : WalkNode)
    (next : List WalkNode)
    (hl : -32768 ≤ e._left ∧ e._left ≤ 32767) (ht : -32768 ≤ e._top ∧ e._top ≤ 32767) :
    ((jobWalk e walkData1 walkData2 node next)._left = e._left ∧
        (jobWalk e walkData1 walkData2 node next)._top = e._top →
      (jobWalk e walkData1 walkData2 node next)._finished = true) ∧
      ((jobWalk e walkData1 walkData2 node next)._finished = true →
        ((node._x = e._left ∧ node._y = e._top) ∧ next = []) ∨
          ((jobWalk e walkData1 walkData2 node next)._left = e._left ∧
            (jobWalk e walkData1 walkData2 node next)._top = e._top)) := by
  have hl16 : toInt16 e._left = e._left := toInt16_of_range _ hl.1 hl.2
  have ht16 : toInt16 e._top = e._top := toInt16_of_range _ ht.1 ht.2
  rcases jobWalk_cases e walkData1 walkData2 node next with ⟨h1, h2, h⟩ | ⟨_, _, rest, h⟩
  · rw [hl16, ht16] at h1
    exact ⟨fun _ => by rw [h], fun _ => Or.inl ⟨h1, h2⟩⟩
  · rw [h]
    have hf := walkStep_finished e walkData1 (headNode e node next) rest
    rw [hl16, ht16] at hf
    refine ⟨fun hs => (hf.1 hs).1, fun hfin => ?_⟩
    right
    by_contra hs
    have := (hf.2 hs).1
    rw [this] at hfin
    exact absurd hfin (by decide)

theorem jobWalk_closer (e : Engine) (walkData1 walkData2 : Int) (node : WalkNode)
    (next : List WalkNode)
    (hl : -32768 ≤ e._left ∧ e._left ≤ 32767) (ht : -32768 ≤ e._top ∧ e._top ≤ 32767)
    (hn : ∀ n ∈ node :: next, (-32768 ≤ n._x ∧ n._x ≤ 32767) ∧ (-32768 ≤ n._y ∧ n._y ≤ 32767))
    (hf : (jobWalk e walkData1 walkData2 node next)._finished = false) :
    ((headNode e node next)._x - (jobWalk e walkData1 walkData2 node next)._left).natAbs +
        ((headNode e node next)._y - (jobWalk e walkData1 walkData2 node next)._top).natAbs <
      ((headNode e node next)._x - e._left).natAbs +
        ((headNode e node next)._y - e._top).natAbs := by
  have hb := jobWalk_between e walkData1 walkData2 node next hl ht hn
  have hne : ¬ ((jobWalk e walkData1 walkData2 node next)._left = e._left ∧
      (jobWalk e walkData1 walkData2 node next)._top = e._top) := by
    intro hs
    have := (jobWalk_finished_iff e walkData1 walkData2 node next hl ht).1 hs
    rw [this] at hf
    exact absurd hf (by decide)
  unfold Between at hb
  omega

theorem jobWalk_range (e : Engine) (walkData1 walkData2 : Int) (node : WalkNode)
    (next : List WalkNode)
    (hl : -32768 ≤ e._left ∧ e._left ≤ 32767) (ht : -32768 ≤ e._top ∧ e._top ≤ 32767)
    (hn : ∀ n ∈ node :: next, (-32768 ≤ n._x ∧ n._x ≤ 32767) ∧ (-32768 ≤ n._y ∧ n._y ≤ 32767)) :
    (-32768 ≤ (jobWalk e walkData1 walkData2 node next)._left ∧
        (jobWalk e walkData1 walkData2 node next)._left ≤ 32767) ∧
      (-32768 ≤ (jobWalk e walkData1 walkData2 node next)._top ∧
        (jobWalk e walkData1 walkData2 node next)._top ≤ 32767) := by
  have hb := jobWalk_between e walkData1 walkData2 node next hl ht hn
  have hmem : headNode e node next ∈ node :: next := by
    unfold headNode
    split_ifs
    · cases next with
      | nil => simp
      | cons tmp rest => simp
    · simp
  have := hn _ hmem
  unfold Between at hb
  omega

theorem jobWalk_pathSteps (e : Engine) (walkData1 walkData2 : Int) (node : WalkNode)
    (next : List WalkNode)
    (hl : -32768 ≤ e._left ∧ e._left ≤ 32767) (ht : -32768 ≤ e._top ∧ e._top ≤ 32767)
    (hn : ∀ n ∈ node :: next, (-32768 ≤ n._x ∧ n._x ≤ 32767) ∧ (-32768 ≤ n._y ∧ n._y ≤ 32767))
    (hf : (jobWalk e walkData1 walkData2 node next)._finished = false) :
    pathSteps (jobWalk e walkData1 walkData2 node next)._left
        (jobWalk e walkData1 walkData2 node next)._top
        (jobWalk e walkData1 walkData2 node next).path <
      pathSteps e._left e._top (node :: next) := by
  have hc := jobWalk_closer e walkData1 walkData2 node next hl ht hn hf
  rcases jobWalk_path e walkData1 walkData2 node next hf with ⟨_, hh, hp⟩ |
    ⟨_, tmp, rest, hnx, hh, hp⟩
  · rw [hp]
    rw [hh] at hc
    simp only [pathSteps]
    omega
  · subst hnx
    rw [hp]
    rw [hh] at hc
    have hhd : ((tmp._x - node._x).natAbs + (tmp._y - node._y).natAbs : Nat) =
        (tmp._x - e._left).natAbs + (tmp._y - e._top).natAbs := by
      rename_i h
      rw [toInt16_of_range _ hl.1 hl.2, toInt16_of_range _ ht.1 ht.2] at h
      rw [h.1, h.2]
    simp only [pathSteps]
    omega

theorem walkTicks_total : ∀ (fuel : Nat) (e : Engine) (walkData1 walkData2 : Int)
    (node : WalkNode) (next : List WalkNode),
    (-32768 ≤ e._left ∧ e._left ≤ 32767) → (-32768 ≤ e._top ∧ e._top ≤ 32767) →
    (∀ n ∈ node :: next, (-32768 ≤ n._x ∧ n._x ≤ 32767) ∧ (-32768 ≤ n._y ∧ n._y ≤ 32767)) →
    pathSteps e._left e._top (node :: next) ≤ fuel →
    ∃ k, walkTicks fuel e walkData1 walkData2 node next = some k ∧ 1 ≤ k ∧
      k ≤ pathSteps e._left e._top (node :: next) := by
  intro fuel
  induction fuel with
  | zero =>
    intro e walkData1 walkData2 node next _ _ _ h
    simp only [pathSteps] at h
    omega
  | succ fuel ih =>
    intro e walkData1 walkData2 node next hl ht hn h
    have hpos : 1 ≤ pathSteps e._left e._top (node :: next) := by
      simp only [pathSteps]
      omega
    unfold walkTicks
    by_cases hf : (jobWalk e walkData1 walkData2 node next)._finished = true
    · rw [if_pos hf]
      exact ⟨1, rfl, le_refl _, hpos⟩
    · rw [if_neg hf]
      have hf' : (jobWalk e walkData1 walkData2 node next)._finished = false := by
        simpa using hf
      have hdec := jobWalk_pathSteps e walkData1 walkData2 node next hl ht hn hf'
      have hr := jobWalk_range e walkData1 walkData2 node next hl ht hn
      have hsub : ∀ n ∈ (jobWalk e walkData1 walkData2 node next).path,
          (-32768 ≤ n._x ∧ n._x ≤ 32767) ∧ (-32768 ≤ n._y ∧ n._y ≤ 32767) := by
        rcases jobWalk_path e walkData1 walkData2 node next hf' with ⟨_, _, hp⟩ |
          ⟨_, tmp, rest, hnx, _, hp⟩
        · rw [hp]
          exact hn
        · rw [hp]
          intro n hmem
          exact hn n (by rw [hnx]; exact List.mem_cons_of_mem _ hmem)
      cases hp : (jobWalk e walkData1 walkData2 node next).path with
      | nil =>
        rcases jobWalk_path e walkData1 walkData2 node next hf' with ⟨_, _, hq⟩ |
          ⟨_, tmp, rest, _, _, hq⟩ <;> rw [hp] at hq <;> exact absurd hq (by simp)
      | cons n r =>
        rw [hp] at hdec hsub
        obtain ⟨k, hk, hk1, hk2⟩ := ih
          { e with _left := (jobWalk e walkData1 walkData2 node next)._left
                   _top := (jobWalk e walkData1 walkData2 node next)._top }
          (jobWalk e walkData1 walkData2 node next).walkData1
          (jobWalk e walkData1 walkData2 node next).walkData2 n r hr.1 hr.2 hsub
          (by simp only []; omega)
        simp only [] at hk hk2
        refine ⟨k + 1, ?_, by omega, by omega⟩
        simp only [hk, Option.map_some']

/-- C40. In a `jobWalk` tick (coordinates within `int16`) that does not mark
the job finished, the Manhattan distance between the character and the node
it moves toward (the head of the path after the pop of a reached node) is
strictly smaller after the tick than before it; a tick marks the job finished
only on arrival at the last node or when the position did not change.  Hence
the ticks of a job, each run on what the tick before left, end with a
finished tick after at most `pathSteps` ticks, the length of the polyline
through the nodes plus the number of nodes. -/
theorem jobWalk_terminates (e : Engine) (walkData1 walkData2 : Int) (node : WalkNode)
    (next : List WalkNode)
    (hl : -32768 ≤ e._left ∧ e._left ≤ 32767) (ht : -32768 ≤ e._top ∧ e._top ≤ 32767)
    (hn : ∀ n ∈ node :: next, (-32768 ≤ n._x ∧ n._x ≤ 32767) ∧ (-32768 ≤ n._y ∧ n._y ≤ 32767)) :
    ((jobWalk e walkData1 walkData2 node next)._finished = false →
        ((headNode e node next)._x - (jobWalk e walkData1 walkData2 node next)._left).natAbs +
            ((headNode e node next)._y - (jobWalk e walkData1 walkData2 node next)._top).natAbs <
          ((headNode e node next)._x - e._left).natAbs +
            ((headNode e node next)._y - e._top).natAbs ∧
        (jobWalk e walkData1 walkData2 node next).path ≠ [] ∧
        pathSteps (jobWalk e walkData1 walkData2 node next)._left
            (jobWalk e walkData1 walkData2 node next)._top
            (jobWalk e walkData1 walkData2 node next).path <
          pathSteps e._left e._top (node :: next)) ∧
      ((jobWalk e walkData1 walkData2 node next)._finished = true →
        ((node._x = e._left ∧ node._y = e._top) ∧ next = []) ∨
          ((jobWalk e walkData1 walkData2 node next)._left = e._left ∧
            (jobWalk e walkData1 walkData2 node next)._top = e._top)) ∧
      ∃ k, walkTicks (pathSteps e._left e._top (node :: next)) e walkData1 walkData2 node next =
          some k ∧ 1 ≤ k ∧ k ≤ pathSteps e._left e._top (node :: next) := by
  refine ⟨fun hf => ⟨jobWalk_closer e walkData1 walkData2 node next hl ht hn hf, ?_,
    jobWalk_pathSteps e walkData1 walkData2 node next hl ht hn hf⟩, ?_,
    walkTicks_total _ e walkData1 walkData2 node next hl ht hn (le_refl _)⟩
  · rcases jobWalk_path e walkData1 walkData2 node next hf with ⟨_, _, hp⟩ |
      ⟨_, tmp, rest, _, _, hp⟩ <;> rw [hp] <;> simp
  · exact (jobWalk_finished_iff e walkData1 walkData2 node next hl ht).2

/-- C40 at a concrete input: on `engineStride`, from `(9, 4)` toward the node
`(11, 4)`, the first tick moves the character and the job ends with its
second tick. -/
theorem jobWalk_terminates_witness :
    (jobWalk engineStride 0 0 ⟨11, 4⟩ [])._finished = false ∧
      pathSteps engineStride._left engineStride._top [⟨11, 4⟩] = 3 ∧
      ∃ k, walkTicks (pathSteps engineStride._left engineStride._top [⟨11, 4⟩]) engineStride 0 0
          ⟨11, 4⟩ [] = some k ∧ 1 ≤ k ∧
        k ≤ pathSteps engineStride._left engineStride._top [⟨11, 4⟩] :=
  ⟨by decide, by decide,
    (jobWalk_terminates engineStride 0 0 ⟨11, 4⟩ [] (by decide) (by decide)
      (by decide)).2.2⟩

/-! ## Termination of `walkFunc1` -/

/-- The round count follows the inner loop: it is defined exactly when the
loop returns. -/
theorem probeRounds_isSome (e : Engine) (x y : Int) :
    ∀ (fuel : Nat) (foot v8 : Point),
      (probeRounds e x y fuel foot v8).isSome = (probeLoop e x y fuel foot v8).isSome := by
  intro fuel
  induction fuel with
  | zero => intro foot v8; rfl
  | succ fuel ih =>
    intro foot v8
    rw [probeRounds, probeLoop]
    simp only []
    split_ifs
    · rfl
    · rw [Option.isSome_map', ih]
    · rfl

/-- The round count follows the outer loop: it is defined exactly when the
loop returns. -/
theorem walkRounds_isSome (e : Engine) (x y : Int) (Node : WalkNode) :
    ∀ (fuel : Nat) (foot v8 : Point),
      (walkRounds e x y fuel foot v8).isSome = (walkLoop e x y Node fuel foot v8).isSome := by
  intro fuel
  induction fuel with
  | zero => intro foot v8; rfl
  | succ fuel ih =>
    intro foot v8
    rw [walkRounds, walkLoop]
    simp only []
    split_ifs
    · rw [Option.isSome_map', probeRounds_isSome]
      cases h : probeLoop e x y (stepsTo x y (stepForward e x y foot) + 1)
          (stepForward e x y foot) v8 with
      | none => rfl
      | some b => cases b <;> rfl
    · rw [Option.isSome_map', ih]
    · rfl

theorem probeRounds_le (e : Engine) (x y : Int) :
    ∀ (fuel : Nat) (foot v8 : Point), v8._x = foot._x → v8._y = foot._y →
      stepsTo x y foot < fuel →
      ∃ n, probeRounds e x y fuel foot v8 = some n ∧ n ≤ stepsTo x y foot := by
  intro fuel
  induction fuel with
  | zero => intro foot v8 _ _ h; omega
  | succ fuel ih =>
    intro foot v8 h1 h2 hf
    rw [probeRounds]
    by_cases hc : foot._x ≠ x ∨ foot._y ≠ y
    · rw [if_pos hc]
      simp only []
      have hpos : 1 ≤ stepsTo x y foot := by
        unfold stepsTo
        omega
      by_cases hs : (stepProbe e x y foot)._x = v8._x ∧ (stepProbe e x y foot)._y = v8._y ∧
          ((stepProbe e x y foot)._x ≠ x ∨ (stepProbe e x y foot)._y ≠ y)
      · rw [if_pos hs]; exact ⟨1, rfl, hpos⟩
      · rw [if_neg hs]
        have hb := stepProbe_between e x y foot
        have hmove : ¬ ((stepProbe e x y foot)._x = foot._x ∧
            (stepProbe e x y foot)._y = foot._y) := by
          intro hm
          exact hs ⟨by omega, by omega, by omega⟩
        have hlt := stepsTo_lt_of_between x y foot _ hb.1 hb.2 hmove
        obtain ⟨n, hn, hle⟩ := ih (stepProbe e x y foot) (stepProbe e x y foot) rfl rfl
          (by omega)
        exact ⟨n + 1, by rw [hn]; rfl, by omega⟩
    · rw [if_neg hc]; exact ⟨0, rfl, Nat.zero_le _⟩

theorem walkRounds_le (e : Engine) (x y : Int) :
    ∀ (fuel : Nat) (foot v8 : Point), v8._x = foot._x → v8._y = foot._y →
      stepsTo x y foot < fuel →
      ∃ n, walkRounds e x y fuel foot v8 = some n ∧ n ≤ stepsTo x y foot + 1 := by
  intro fuel
  induction fuel with
  | zero => intro foot v8 _ _ h; omega
  | succ fuel ih =>
    intro foot v8 h1 h2 hf
    rw [walkRounds]
    by_cases hc : foot._x ≠ x ∨ foot._y ≠ y
    · rw [if_pos hc]
      simp only []
      by_cases hs : (stepForward e x y foot)._x = v8._x ∧ (stepForward e x y foot)._y = v8._y ∧
          ((stepForward e x y foot)._x ≠ x ∨ (stepForward e x y foot)._y ≠ y)
      · rw [if_pos hs]
        obtain ⟨n, hn, hle⟩ := probeRounds_le e x y (stepsTo x y (stepForward e x y foot) + 1)
          (stepForward e x y foot) v8 hs.1.symm hs.2.1.symm (by omega)
        have hsame : stepsTo x y (stepForward e x y foot) = stepsTo x y foot := by
          unfold stepsTo
          rw [hs.1, hs.2.1, h1, h2]
        exact ⟨n + 1, by rw [hn]; rfl, by omega⟩
      · rw [if_neg hs]
        have hb := stepForward_between e x y foot
        have hmove : ¬ ((stepForward e x y foot)._x = foot._x ∧
            (stepForward e x y foot)._y = foot._y) := by
          intro hm
          exact hs ⟨by omega, by omega, by omega⟩
        have hlt := stepsTo_lt_of_between x y foot _ hb.1 hb.2 hmove
        obtain ⟨n, hn, hle⟩ := ih (stepForward e x y foot) (stepForward e x y foot) rfl rfl
          (by omega)
        exact ⟨n + 1, by rw [hn]; rfl, by omega⟩
    · rw [if_neg hc]; exact ⟨0, rfl, Nat.zero_le _⟩

/-- C39. `walkFunc1` returns for every mask, pose and target.  A round of the
forward loop from a foot off the target that does not enter the obstruction
probe leaves the foot strictly closer to the target in Manhattan distance
(`stepsTo`), and a round of the probe that does not return 0 does the same;
the rounds of both loops together number at most the Manhattan distance
between the starting foot and the target plus 2. -/
theorem walkFunc1_terminates (e : Engine) (x y : Int) (Node : WalkNode) :
    (∃ r, walkFunc1 e x y Node = some r) ∧
      (∀ (tx ty : Int) (fuel : Nat) (foot : Point), foot._x ≠ tx ∨ foot._y ≠ ty →
        (((stepForward e tx ty foot)._x = foot._x ∧ (stepForward e tx ty foot)._y = foot._y) ∧
            walkLoop e tx ty Node (fuel + 1) foot foot =
              (match probeLoop e tx ty (stepsTo tx ty (stepForward e tx ty foot) + 1)
                  (stepForward e tx ty foot) foot with
                | none => none
                | some false => some (0, Node)
                | some true =>
                  some (toUint16 ((tx - (stepForward e tx ty foot)._x) *
                        (tx - (stepForward e tx ty foot)._x) +
                      (ty - (stepForward e tx ty foot)._y) *
                        (ty - (stepForward e tx ty foot)._y)),
                    ⟨(stepForward e tx ty foot)._x - (e._width : Int) / 2,
                      (stepForward e tx ty foot)._y - (e._height : Int)⟩))) ∨
          (stepsTo tx ty (stepForward e tx ty foot) < stepsTo tx ty foot ∧
            walkLoop e tx ty Node (fuel + 1) foot foot =
              walkLoop e tx ty Node fuel (stepForward e tx ty foot)
                (stepForward e tx ty foot))) ∧
      (∀ (tx ty : Int) (fuel : Nat) (foot : Point), foot._x ≠ tx ∨ foot._y ≠ ty →
        (((stepProbe e tx ty foot)._x = foot._x ∧ (stepProbe e tx ty foot)._y = foot._y) ∧
            probeLoop e tx ty (fuel + 1) foot foot = some false) ∨
          (stepsTo tx ty (stepProbe e tx ty foot) < stepsTo tx ty foot ∧
            probeLoop e tx ty (fuel + 1) foot foot =
              probeLoop e tx ty fuel (stepProbe e tx ty foot) (stepProbe e tx ty foot))) ∧
      (walkFunc1Rounds e x y).isSome = (walkFunc1 e x y Node).isSome ∧
      ∃ n, walkFunc1Rounds e x y = some n ∧
        n ≤ stepsTo (toInt16 x) (toInt16 y)
          ⟨e._left + (e._width : Int) / 2, e._top + (e._height : Int)⟩ + 2 := by
  refine ⟨walkFunc1_total e x y Node, ?_, ?_, ?_, ?_⟩
  · intro tx ty fuel foot hc
    rw [walkLoop, if_pos hc]
    simp only []
    have hb := stepForward_between e tx ty foot
    by_cases hm : (stepForward e tx ty foot)._x = foot._x ∧ (stepForward e tx ty foot)._y = foot._y
    · left
      refine ⟨hm, ?_⟩
      rw [if_pos ⟨hm.1, hm.2, by omega⟩]
    · right
      refine ⟨stepsTo_lt_of_between tx ty foot _ hb.1 hb.2 hm, ?_⟩
      rw [if_neg (fun h => hm ⟨h.1, h.2.1⟩)]
  · intro tx ty fuel foot hc
    rw [probeLoop, if_pos hc]
    simp only []
    have hb := stepProbe_between e tx ty foot
    by_cases hm : (stepProbe e tx ty foot)._x = foot._x ∧ (stepProbe e tx ty foot)._y = foot._y
    · left
      refine ⟨hm, ?_⟩
      rw [if_pos ⟨hm.1, hm.2, by omega⟩]
    · right
      refine ⟨stepsTo_lt_of_between tx ty foot _ hb.1 hb.2 hm, ?_⟩
      rw [if_neg (fun h => hm ⟨h.1, h.2.1⟩)]
  · unfold walkFunc1Rounds walkFunc1
    exact walkRounds_isSome e _ _ Node _ _ _
  · unfold walkFunc1Rounds
    obtain ⟨n, hn, hle⟩ := walkRounds_le e (toInt16 x) (toInt16 y)
      (stepsTo (toInt16 x) (toInt16 y)
        ⟨e._left + (e._width : Int) / 2, e._top + (e._height : Int)⟩ + 1)
      ⟨e._left + (e._width : Int) / 2, e._top + (e._height : Int)⟩
      ⟨e._left + (e._width : Int) / 2, e._top + (e._height : Int)⟩ rfl rfl (by omega)
    exact ⟨n, hn, by omega⟩

/-! ## Doors and traps -/

theorem doorHit_open (d : Doors) (e : Engine) (idx : Int) (s : DoorState) (z : Zone)
    (hz : d.hitZone d.kZoneDoor (e._left + (e._width : Int) / 2) (e._top + (e._height : Int)) =
      some z)
    (ho : z._flags &&& d.kFlagsClosed = 0) :
    doorHit d e idx s =
      { s with
        trace := s.trace ++ [DoorCall.hitZone d.kZoneDoor (e._left + (e._width : Int) / 2)
          (e._top + (e._height : Int))]
        _startPosition := ⟨z._startPos._x, z._startPos._y⟩
        _startFrame := z._startFrame
        _name := z._location
        _engineFlags := s._engineFlags ||| d.kEngineChangeLocation
        _zoneTrap := none } := by
  simp only [doorHit, hz, ho, if_true]

theorem doorHit_trap (d : Doors) (e : Engine) (idx : Int) (s : DoorState)
    (h : ∀ z, d.hitZone d.kZoneDoor (e._left + (e._width : Int) / 2)
        (e._top + (e._height : Int)) = some z → z._flags &&& d.kFlagsClosed ≠ 0) :
    (doorHit d e idx s)._zoneTrap = s._zoneTrap := by
  unfold doorHit
  simp only
  cases hz : d.hitZone d.kZoneDoor (e._left + (e._width : Int) / 2)
      (e._top + (e._height : Int)) with
  | none => rfl
  | some z =>
    simp only [if_neg (h z hz)]
    rfl

theorem trapHit_zoneTrap (d : Doors) (e : Engine) (idx : Int) (s : DoorState) :
    (trapHit d e idx s)._zoneTrap =
      d.hitZone d.kZoneTrap (e._left + (e._width : Int) / 2) (e._top + (e._height : Int)) := by
  unfold trapHit
  simp only
  cases hz : d.hitZone d.kZoneTrap (e._left + (e._width : Int) / 2)
      (e._top + (e._height : Int)) with
  | some z => rfl
  | none =>
    cases ht : s._zoneTrap with
    | none => simp only [ht]
    | some t => rfl

theorem trapHit_trace (d : Doors) (e : Engine) (idx : Int) (s : DoorState) :
    (trapHit d e idx s).trace =
      s.trace ++ DoorCall.hitZone d.kZoneTrap (e._left + (e._width : Int) / 2)
          (e._top + (e._height : Int)) ::
        (match d.hitZone d.kZoneTrap (e._left + (e._width : Int) / 2)
            (e._top + (e._height : Int)), s._zoneTrap with
          | some z, _ => [DoorCall.runCommands z._commands z (s._localFlags idx ||| d.kFlagsEnter)]
          | none, some t =>
            [DoorCall.runCommands t._commands t (s._localFlags idx ||| d.kFlagsExit)]
          | none, none => []) := by
  unfold trapHit
  simp only
  cases hz : d.hitZone d.kZoneTrap (e._left + (e._width : Int) / 2)
      (e._top + (e._height : Int)) with
  | some z => simp [DoorState.run]
  | none =>
    cases ht : s._zoneTrap with
    | none => simp
    | some t => simp [DoorState.run]

/-- C33. `checkDoor` by its three parts.  At the start the remembered trap is
forgotten when the location index differs from `_doorData1`, which every call
leaves at the index it saw (an index within `uint16`).  An open door under the foot clears
the remembered trap and sets `kEngineChangeLocation`; a closed door or no door
leaves the remembered trap alone.  Then a trap under the foot has its
commands run with `kFlagsEnter` set; without one, the commands of the trap
still remembered are run with `kFlagsExit` set, and when none is remembered
no commands are run.  After the call `_zoneTrap` is the trap hit in the call,
or null. -/
theorem checkDoor_trap (d : Doors) (e : Engine) (idx walkData2 : Int) (s : DoorState) :
    (checkDoor d e idx walkData2 s).2._zoneTrap =
        d.hitZone d.kZoneTrap (e._left + (e._width : Int) / 2) (e._top + (e._height : Int)) ∧
      (0 ≤ idx ∧ idx < 65536 → (checkDoor d e idx walkData2 s).2._doorData1 = idx) ∧
      (doorReset d idx s)._zoneTrap = (if idx ≠ s._doorData1 then none else s._zoneTrap) ∧
      (∀ (s0 : DoorState) (z : Zone),
        d.hitZone d.kZoneDoor (e._left + (e._width : Int) / 2) (e._top + (e._height : Int)) =
          some z →
        z._flags &&& d.kFlagsClosed = 0 →
        (doorHit d e idx s0)._zoneTrap = none ∧
          (doorHit d e idx s0)._engineFlags = s0._engineFlags ||| d.kEngineChangeLocation ∧
          (∀ i, d.kEngineChangeLocation.testBit i = true →
            (doorHit d e idx s0)._engineFlags.testBit i = true) ∧
          (doorHit d e idx s0).trace = s0.trace ++
            [DoorCall.hitZone d.kZoneDoor (e._left + (e._width : Int) / 2)
              (e._top + (e._height : Int))]) ∧
      (∀ s0 : DoorState,
        (∀ z, d.hitZone d.kZoneDoor (e._left + (e._width : Int) / 2)
            (e._top + (e._height : Int)) = some z → z._flags &&& d.kFlagsClosed ≠ 0) →
        (doorHit d e idx s0)._zoneTrap = s0._zoneTrap) ∧
      (∀ s0 : DoorState,
        (trapHit d e idx s0).trace =
          s0.trace ++ DoorCall.hitZone d.kZoneTrap (e._left + (e._width : Int) / 2)
              (e._top + (e._height : Int)) ::
            (match d.hitZone d.kZoneTrap (e._left + (e._width : Int) / 2)
                (e._top + (e._height : Int)), s0._zoneTrap with
              | some z, _ =>
                [DoorCall.runCommands z._commands z (s0._localFlags idx ||| d.kFlagsEnter)]
              | none, some t =>
                [DoorCall.runCommands t._commands t (s0._localFlags idx ||| d.kFlagsExit)]
              | none, none => [])) ∧
      (checkDoor d e idx walkData2 s).2 =
        { trapHit d e idx (doorHit d e idx (doorReset d idx s)) with _frame := walkData2 } := by
  refine ⟨trapHit_zoneTrap d e idx _, ?_, ?_, ?_, fun s0 h => doorHit_trap d e idx s0 h,
    fun s0 => trapHit_trace d e idx s0, rfl⟩
  · have h1 : ∀ s0 : DoorState, (trapHit d e idx s0)._doorData1 = s0._doorData1 := by
      intro s0
      unfold trapHit
      simp only
      cases d.hitZone d.kZoneTrap (e._left + (e._width : Int) / 2)
          (e._top + (e._height : Int)) with
      | some z => rfl
      | none =>
        cases ht : s0._zoneTrap with
        | none => simp only [ht]
        | some t => rfl
    have h2 : ∀ s0 : DoorState, (doorHit d e idx s0)._doorData1 = s0._doorData1 := by
      intro s0
      unfold doorHit
      simp only
      cases d.hitZone d.kZoneDoor (e._left + (e._width : Int) / 2)
          (e._top + (e._height : Int)) with
      | none => rfl
      | some z =>
        simp only
        split_ifs <;> rfl
    intro hr
    show (trapHit d e idx (doorHit d e idx (doorReset d idx s)))._doorData1 = idx
    rw [h1, h2]
    unfold doorReset
    simp only
    split_ifs with hc
    · exact toUint16_of_range idx hr.1 hr.2
    · simp only [ne_eq, not_not] at hc
      exact hc.symm
  · unfold doorReset
    simp only
    split_ifs <;> rfl
  · intro s0 z hz ho
    rw [doorHit_open d e idx s0 z hz ho]
    refine ⟨rfl, rfl, ?_, rfl⟩
    intro i hi
    simp only [Nat.testBit_or, hi, Bool.or_true]

/-- C33 on examples: at the location 3 with a trap remembered and nothing
under the foot, the commands 5 of the trap are run with `kFlagsExit` set and
the trap is forgotten; at another location the trap is forgotten at the start
and no commands are run; an open door sets `kEngineChangeLocation`, clears
`kEngineWalking` and forgets the trap without running its commands. -/
theorem checkDoor_trap_example :
    (checkDoor exampleNoZone engineStride 3 0 exampleTrapped).2.trace =
        [DoorCall.hitZone 1 10 5, DoorCall.hitZone 2 10 5,
          DoorCall.runCommands 5 ⟨0, 5, ⟨0, 0⟩, 0, 0⟩ 0x20000000] ∧
      (checkDoor exampleNoZone engineStride 3 0 exampleTrapped).2._zoneTrap = none ∧
      (checkDoor exampleNoZone engineStride 4 0 exampleTrapped).2.trace =
        [DoorCall.hitZone 1 10 5, DoorCall.hitZone 2 10 5] ∧
      (checkDoor exampleNoZone engineStride 4 0 exampleTrapped).2._doorData1 = 4 ∧
      (checkDoor exampleDoors engineStride 3 0 exampleTrapped).2.trace =
        [DoorCall.hitZone 1 10 5, DoorCall.hitZone 2 10 5] ∧
      (checkDoor exampleDoors engineStride 3 0 exampleTrapped).2._engineFlags = 8 ∧
      (checkDoor exampleDoors engineStride 3 0 exampleTrapped).2._zoneTrap = none ∧
      (checkDoor exampleDoors engineStride 3 0 exampleTrapped).2._name = 7 := by
  decide

end Parallaction

namespace CUP

open Parallaction (toInt32)

/-! ## `RATE` -/

theorem READ_LE_UINT16_eq (bytes : List Nat) (data lo hi : Nat) (hlo : bytes[data]? = some lo)
    (hhi : bytes[data + 1]? = some hi) : READ_LE_UINT16 bytes data = some (lo + 256 * hi) := by
  simp [READ_LE_UINT16, hlo, hhi]

theorem int16_eq (raw : Nat) (v : Int) (hrange : -32768 ≤ v ∧ v ≤ 32767)
    (hraw : (raw : Int) = if 0 ≤ v then v else v + 65536) : int16 raw = v := by
  unfold int16
  split_ifs at hraw ⊢ <;> omega

/-- C24. `handleRATE` reads the two bytes `lo`, `hi` at the start of the
payload as the signed little-endian 16-bit value `v` and sets the playback
rate to `v` clamped to [1, 4000]: `v` itself from 1 to 4000 (3000 gives
3000), 4000 above, 1 for zero and negative `v`.  The rate set is within
[1, 4000] and no other field of the player changes. -/
theorem handleRATE_clamp (bytes : List Nat) (data : Nat) (p : Player) (lo hi : Nat) (v : Int)
    (hlo : bytes[data]? = some lo) (hhi : bytes[data + 1]? = some hi)
    (hrange : -32768 ≤ v ∧ v ≤ 32767)
    (hraw : ((lo + 256 * hi : Nat) : Int) = if 0 ≤ v then v else v + 65536) :
    ∃ r : Int, handleRATE bytes data p = some { p with _playbackRate := r } ∧
      (1 ≤ v → v ≤ 4000 → r = v) ∧ (v = 3000 → r = 3000) ∧ (4000 < v → r = 4000) ∧
      (v ≤ 0 → r = 1) ∧ 1 ≤ r ∧ r ≤ 4000 := by
  have hv : int16 (lo + 256 * hi) = v := int16_eq _ v hrange hraw
  refine ⟨CLIP v 1 4000, ?_, ?_, ?_, ?_, ?_, ?_, ?_⟩
  · simp only [handleRATE, READ_LE_UINT16_eq bytes data lo hi hlo hhi, hv]
  all_goals (unfold CLIP; split_ifs <;> omega)

/-- C24 at a concrete input: the payload `B8 0B` is 3000. -/
theorem handleRATE_clamp_witness :
    ∃ r : Int, handleRATE [0xB8, 0x0B] 0 idlePlayer = some { idlePlayer with _playbackRate := r } ∧
      ((1 : Int) ≤ 3000 → (3000 : Int) ≤ 4000 → r = 3000) ∧ ((3000 : Int) = 3000 → r = 3000) ∧
      ((4000 : Int) < 3000 → r = 4000) ∧
      ((3000 : Int) ≤ 0 → r = 1) ∧ 1 ≤ r ∧ r ≤ 4000 :=
  handleRATE_clamp [0xB8, 0x0B] 0 idlePlayer 0xB8 0x0B 3000 (by decide) (by decide) (by decide)
    (by decide)

/-! ## The sound queue -/

theorem playCue_isSfx (_sfxCount : Int) (_sfxBuffer : Option (List Nat)) (isActive : Int → Bool)
    (sfx : CUP_Sfx) (r : (Int → Bool) × List Event)
    (hc : playCue _sfxCount _sfxBuffer isActive sfx = some r) : ∀ e ∈ r.2, e.isSfx = true := by
  unfold playCue at hc
  simp only at hc
  repeat' split at hc
  all_goals first
    | (simp only [Option.some.injEq] at hc
       subst hc
       simp [Event.isSfx])
    | simp at hc

theorem sfxLoop_isSfx (_sfxQueue : Nat → CUP_Sfx) (_sfxCount : Int)
    (_sfxBuffer : Option (List Nat)) (n : Nat) :
    ∀ (i : Nat) (isActive : Int → Bool) (evs : List Event),
      sfxLoop _sfxQueue _sfxCount _sfxBuffer n i isActive = some evs →
      ∀ e ∈ evs, e.isSfx = true := by
  induction n with
  | zero =>
    intro i isActive evs h
    simp [sfxLoop] at h
    subst h
    simp
  | succ n ih =>
    intro i isActive evs h
    rw [sfxLoop] at h
    cases hc : playCue _sfxCount _sfxBuffer isActive (_sfxQueue i) with
    | none => simp [hc] at h
    | some r =>
      obtain ⟨a, es⟩ := r
      simp only [hc] at h
      cases hr : sfxLoop _sfxQueue _sfxCount _sfxBuffer n (i + 1) a with
      | none => simp [hr] at h
      | some rest =>
        simp only [hr, Option.map_some', Option.some.injEq] at h
        subst h
        intro e he
        rcases List.mem_append.mp he with h1 | h1
        · exact playCue_isSfx _ _ _ _ _ hc e h1
        · exact ih (i + 1) a rest hr e h1

theorem updateSfx_pos (isActive : Int → Bool) (p p' : Player)
    (h : updateSfx isActive p = some p') : p'._sfxQueuePos = 0 := by
  unfold updateSfx at h
  cases hr : sfxLoop p._sfxQueue p._sfxCount p._sfxBuffer p._sfxQueuePos 0 isActive with
  | none => simp [hr] at h
  | some evs =>
    simp only [hr, Option.map_some', Option.some.injEq] at h
    rw [← h]

theorem handleSNDE_pos (cap : Nat) (bytes : List Nat) (data : Nat) (p p' : Player)
    (hp : p._sfxQueuePos ≤ cap) (h : handleSNDE cap bytes data p = some p') :
    p'._sfxQueuePos ≤ cap := by
  unfold handleSNDE at h
  split_ifs at h with hlt
  · split at h
    · simp only [Option.some.injEq] at h
      rw [← h]
      exact hlt
    · simp at h
  · simp only [Option.some.injEq] at h
    rw [← h]
    exact hp

theorem runSfx_pos (cap : Nat) (ops : List SfxOp) :
    ∀ p p' : Player, p._sfxQueuePos ≤ cap → runSfx cap ops p = some p' →
      p'._sfxQueuePos ≤ cap := by
  induction ops with
  | nil =>
    intro p p' hp h
    simp only [runSfx, Option.some.injEq] at h
    rw [← h]
    exact hp
  | cons op ops ih =>
    intro p p' hp h
    cases op with
    | snde bytes data =>
      rw [runSfx] at h
      cases hq : handleSNDE cap bytes data p with
      | none => simp [hq] at h
      | some q =>
        rw [hq, Option.some_bind] at h
        exact ih q p' (handleSNDE_pos cap bytes data p q hp hq) h
    | flush isActive =>
      rw [runSfx] at h
      cases hq : updateSfx isActive p with
      | none => simp [hq] at h
      | some q =>
        rw [hq, Option.some_bind] at h
        exact ih q p' (by rw [updateSfx_pos isActive p q hq]; exact Nat.zero_le _) h

/-- C29. With fewer cues queued than the capacity `ARRAYSIZE(_sfxQueue)`,
`handleSNDE` stores one cue at the end of the queue (mode: the little-endian
32-bit value at offset 0; voice number: the signed little-endian 16-bit value
`v` at offset 4; flags: the little-endian 16-bit value at offset 8), leaves the
cues before it and adds one to the length; with the queue full it changes
nothing.  Hence, from a length within the capacity, the length stays within
the capacity through every sequence of `SNDE` chunks and flushes. -/
theorem handleSNDE_bounded (cap : Nat) (bytes : List Nat) (data : Nat) (p : Player)
    (mode lo hi flags : Nat) (v : Int)
    (hmode : READ_LE_UINT32 bytes data = some mode)
    (hlo : bytes[data + 4]? = some lo) (hhi : bytes[data + 4 + 1]? = some hi)
    (hrange : -32768 ≤ v ∧ v ≤ 32767)
    (hraw : ((lo + 256 * hi : Nat) : Int) = if 0 ≤ v then v else v + 65536)
    (hflags : READ_LE_UINT16 bytes (data + 8) = some flags) :
    (p._sfxQueuePos < cap →
        ∃ p', handleSNDE cap bytes data p = some p' ∧
          p'._sfxQueuePos = p._sfxQueuePos + 1 ∧
          p'._sfxQueue p._sfxQueuePos = ⟨mode, v, flags⟩ ∧
          (∀ i, i ≠ p._sfxQueuePos → p'._sfxQueue i = p._sfxQueue i) ∧
          p' = { p with _sfxQueue := p'._sfxQueue, _sfxQueuePos := p'._sfxQueuePos }) ∧
      (cap ≤ p._sfxQueuePos → handleSNDE cap bytes data p = some p) ∧
      (∀ (ops : List SfxOp) (q q' : Player), q._sfxQueuePos ≤ cap →
        runSfx cap ops q = some q' → q'._sfxQueuePos ≤ cap) := by
  have hv : int16 (lo + 256 * hi) = v := int16_eq _ v hrange hraw
  refine ⟨fun hlt => ?_, fun hge => ?_, fun ops q q' => runSfx_pos cap ops q q'⟩
  · refine ⟨{ p with
        _sfxQueue := fun i =>
          if i = p._sfxQueuePos then ⟨mode, v, flags⟩ else p._sfxQueue i
        _sfxQueuePos := p._sfxQueuePos + 1 }, ?_, rfl, ?_, ?_, rfl⟩
    · simp only [handleSNDE, hlt, if_true, hmode, READ_LE_UINT16_eq bytes (data + 4) lo hi hlo hhi,
        hflags, hv]
    · simp
    · intro i hi
      simp [hi]
  · simp [handleSNDE, Nat.not_lt.mpr hge]

/-- C29 at a concrete input: a cue with mode 2, voice number -1 (`FF FF`) and
flags `0x8000` queued on a player with an empty queue of capacity 16. -/
theorem handleSNDE_bounded_witness :
    ∃ p', handleSNDE 16 [2, 0, 0, 0, 0xFF, 0xFF, 0, 0, 0x00, 0x80] 0 idlePlayer = some p' ∧
      p'._sfxQueuePos = idlePlayer._sfxQueuePos + 1 ∧
      p'._sfxQueue idlePlayer._sfxQueuePos = ⟨2, -1, 0x8000⟩ ∧
      (∀ i, i ≠ idlePlayer._sfxQueuePos → p'._sfxQueue i = idlePlayer._sfxQueue i) ∧
      p' = { idlePlayer with _sfxQueue := p'._sfxQueue, _sfxQueuePos := p'._sfxQueuePos } :=
  (handleSNDE_bounded 16 [2, 0, 0, 0, 0xFF, 0xFF, 0, 0, 0x00, 0x80] 0 idlePlayer 2 0xFF 0xFF
    0x8000 (-1) (by decide) (by decide) (by decide) (by decide) (by decide) (by decide)).1
    (by decide)

/-! ## The voice of a cue -/

theorem scanVoices_spec (isActive : Int → Bool) (_sfxCount : Int) (fuel : Nat) :
    ∀ index : Int, index + fuel = _sfxCount →
      index ≤ scanVoices isActive _sfxCount fuel index ∧
        scanVoices isActive _sfxCount fuel index ≤ _sfxCount ∧
        (∀ j, index ≤ j → j < scanVoices isActive _sfxCount fuel index → isActive j = false) ∧
        (scanVoices isActive _sfxCount fuel index < _sfxCount →
          isActive (scanVoices isActive _sfxCount fuel index) = true) := by
  induction fuel with
  | zero =>
    intro index h
    simp only [scanVoices]
    refine ⟨le_refl _, by omega, fun j h1 h2 => by omega, fun h1 => by omega⟩
  | succ fuel ih =>
    intro index h
    have hlt : index < _sfxCount := by omega
    rw [scanVoices, if_pos hlt]
    by_cases ha : isActive index = true
    · rw [if_pos ha]
      exact ⟨le_refl _, by omega, fun j h1 h2 => by omega, fun _ => ha⟩
    · rw [if_neg ha]
      obtain ⟨h1, h2, h3, h4⟩ := ih (index + 1) (by push_cast at h; omega)
      refine ⟨by omega, h2, fun j hj1 hj2 => ?_, h4⟩
      by_cases hj : j = index
      · subst hj
        simpa using ha
      · exact h3 j (by omega) hj2

/-- C30 fails as stated: with two voices of which only voice 1 plays, a cue
with voice number -1 resolves to voice 1, the first active one, not to the
inactive voice 0; and with no voice active the cue is dropped although
every voice is inactive. -/
theorem resolveVoice_counterexample :
    resolveVoice (fun i => decide (i = 1)) 2 ⟨0, -1, 0x8000⟩ = some 1 ∧
      resolveVoice (fun _ => false) 2 ⟨0, -1, 0x8000⟩ = none := by
  decide

/-- C30, amended. In `updateSfx` (with a voice count that is not negative) a
cue whose voice number is -1 resolves to the first voice, in index order,
that `isSoundHandleActive` reports active, and the cue is dropped when no
voice is active; a cue with another voice number `n` resolves to the voice of
index `n - 1`. -/
theorem resolveVoice_first_active (isActive : Int → Bool) (_sfxCount : Int) (sfx : CUP_Sfx)
    (hcount : 0 ≤ _sfxCount) :
    (sfx.num = -1 → ∀ k, 0 ≤ k → k < _sfxCount → isActive k = true →
        (∀ j, 0 ≤ j → j < k → isActive j = false) →
        resolveVoice isActive _sfxCount sfx = some k) ∧
      (sfx.num = -1 → (∀ j, 0 ≤ j → j < _sfxCount → isActive j = false) →
        resolveVoice isActive _sfxCount sfx = none) ∧
      (sfx.num ≠ -1 → resolveVoice isActive _sfxCount sfx = some (sfx.num - 1)) := by
  obtain ⟨h1, h2, h3, h4⟩ := scanVoices_spec isActive _sfxCount _sfxCount.toNat 0
    (by rw [Int.toNat_of_nonneg hcount]; omega)
  refine ⟨fun hn k hk0 hk1 hka hkj => ?_, fun hn hall => ?_, fun hn => ?_⟩
  · have hle : scanVoices isActive _sfxCount _sfxCount.toNat 0 ≤ k := by
      by_contra hgt
      have := h3 k hk0 (by omega)
      rw [hka] at this
      exact Bool.noConfusion this
    have hge : k ≤ scanVoices isActive _sfxCount _sfxCount.toNat 0 := by
      by_contra hlt
      have := hkj _ h1 (by omega)
      rw [h4 (by omega)] at this
      exact Bool.noConfusion this
    have heq : scanVoices isActive _sfxCount _sfxCount.toNat 0 = k := by omega
    simp only [resolveVoice, hn, if_true, heq]
    rw [if_neg (by omega)]
  · have heq : scanVoices isActive _sfxCount _sfxCount.toNat 0 = _sfxCount := by
      by_contra hne
      have hlt : scanVoices isActive _sfxCount _sfxCount.toNat 0 < _sfxCount := by omega
      have := hall _ h1 hlt
      rw [h4 hlt] at this
      exact Bool.noConfusion this
    simp only [resolveVoice, hn, if_true, heq]
  · simp only [resolveVoice, hn, if_false]

/-- C30, amended, at a concrete input: three voices of which voices 1 and 2
play; the cue of voice number -1 resolves to voice 1. -/
theorem resolveVoice_first_active_witness :
    resolveVoice (fun i => decide (1 ≤ i)) 3 ⟨0, -1, 0x8000⟩ = some 1 :=
  (resolveVoice_first_active (fun i => decide (1 ≤ i)) 3 ⟨0, -1, 0x8000⟩ (by decide)).1 rfl 1
    (by decide) (by decide) (by decide) (fun j h0 h1 => by
      have : j = 0 := by omega
      subst this
      decide)

/-! ## What the chunk handlers leave alone -/

theorem Decoded.refl (p : Player) : Decoded p p :=
  ⟨⟨[], by simp, by simp⟩, rfl, rfl, rfl, rfl, rfl⟩

theorem Decoded.trans {p q r : Player} (h1 : Decoded p q) (h2 : Decoded q r) : Decoded p r := by
  obtain ⟨⟨e1, t1, d1⟩, a1, b1, c1, s1, f1⟩ := h1
  obtain ⟨⟨e2, t2, d2⟩, a2, b2, c2, s2, f2⟩ := h2
  refine ⟨⟨e1 ++ e2, by rw [t2, t1, List.append_assoc], ?_⟩, a2.trans a1, b2.trans b1,
    c2.trans c1, s2.trans s1, f2.trans f1⟩
  intro e he
  rcases List.mem_append.mp he with h | h
  · exact d1 e h
  · exact d2 e h

theorem Decoded.of_eq (p p' : Player) (ht : p'.trace = p.trace) (hc : p'.calls = p.calls)
    (hk : p'.chunk = p.chunk) (hd : p'._currentChunkData = p._currentChunkData)
    (hs : p'._currentChunkSize = p._currentChunkSize) (hf : p'._fd = p._fd) : Decoded p p' :=
  ⟨⟨[], by simpa using ht, by simp⟩, hc, hk, hd, hs, hf⟩

theorem Decoded.of_emit (p p' : Player) (e : Event)
    (ht : p'.trace = p.trace ++ [e]) (hc : p'.calls = p.calls)
    (hk : p'.chunk = p.chunk) (hd : p'._currentChunkData = p._currentChunkData)
    (hs : p'._currentChunkSize = p._currentChunkSize) (hf : p'._fd = p._fd)
    (he : e.isDecode = true) : Decoded p p' :=
  ⟨⟨[e], ht, by simpa using he⟩, hc, hk, hd, hs, hf⟩

theorem Decoded.emit (p : Player) (e : Event) (he : e.isDecode = true) : Decoded p (p.emit e) :=
  Decoded.of_emit p _ e rfl rfl rfl rfl rfl rfl he

theorem handleRATE_decoded (bytes : List Nat) (data : Nat) (p p' : Player)
    (h : handleRATE bytes data p = some p') :
    Decoded p p' ∧ p'._paletteChanged = p._paletteChanged := by
  unfold handleRATE at h
  split at h
  · simp at h
  · simp only [Option.some.injEq] at h
    subst h
    exact ⟨Decoded.of_eq _ _ rfl rfl rfl rfl rfl rfl, rfl⟩

theorem handleRGBS_decoded (bytes : List Nat) (data : Nat) (p p' : Player)
    (h : handleRGBS bytes data p = some p') : Decoded p p' ∧ p'._paletteChanged = true := by
  unfold handleRGBS at h
  split_ifs at h
  simp only [Option.some.injEq] at h
  subst h
  exact ⟨Decoded.of_eq _ _ rfl rfl rfl rfl rfl rfl, rfl⟩

theorem handleSNDE_decoded (cap : Nat) (bytes : List Nat) (data : Nat) (p p' : Player)
    (h : handleSNDE cap bytes data p = some p') :
    Decoded p p' ∧ p'._paletteChanged = p._paletteChanged := by
  unfold handleSNDE at h
  split_ifs at h
  · split at h
    · simp only [Option.some.injEq] at h
      subst h
      exact ⟨Decoded.of_eq _ _ rfl rfl rfl rfl rfl rfl, rfl⟩
    · simp at h
  · simp only [Option.some.injEq] at h
    subst h
    exact ⟨Decoded.of_eq _ _ rfl rfl rfl rfl rfl rfl, rfl⟩

theorem setDirtyScreenRect_decoded (r : Rect) (p : Player) :
    Decoded p (setDirtyScreenRect r p) ∧
      (setDirtyScreenRect r p)._paletteChanged = p._paletteChanged :=
  ⟨Decoded.emit p _ rfl, rfl⟩

theorem handleFRAM_decoded (bytes : List Nat) (data : Nat) (p p' : Player)
    (h : handleFRAM bytes data p = some p') :
    Decoded p p' ∧ p'._paletteChanged = p._paletteChanged := by
  unfold handleFRAM at h
  simp only at h
  repeat' split at h
  all_goals first
    | (simp only [Option.some.injEq] at h
       subst h
       first
         | exact ⟨Decoded.of_eq _ _ rfl rfl rfl rfl rfl rfl, rfl⟩
         | exact ⟨Decoded.of_emit _ _ _ rfl rfl rfl rfl rfl rfl rfl, rfl⟩)
    | simp at h

theorem handleSRLE_decoded (bytes : List Nat) (data : Nat) (p p' : Player)
    (h : handleSRLE bytes data p = some p') :
    Decoded p p' ∧ p'._paletteChanged = p._paletteChanged := by
  unfold handleSRLE at h
  simp only at h
  repeat' split at h
  all_goals first
    | (simp only [Option.some.injEq] at h
       subst h
       first
         | exact ⟨Decoded.of_eq _ _ rfl rfl rfl rfl rfl rfl, rfl⟩
         | exact ⟨Decoded.of_emit _ _ _ rfl rfl rfl rfl rfl rfl rfl, rfl⟩)
    | simp at h

theorem toilLoop_decoded (bytes : List Nat) (n : Nat) :
    ∀ (data : Nat) (p p' : Player), toilLoop bytes n data p = some p' →
      Decoded p p' ∧ p'._paletteChanged = p._paletteChanged := by
  induction n with
  | zero =>
    intro data p p' h
    simp only [toilLoop, Option.some.injEq] at h
    subst h
    exact ⟨Decoded.of_eq _ _ rfl rfl rfl rfl rfl rfl, rfl⟩
  | succ n ih =>
    intro data p p' h
    rw [toilLoop] at h
    cases h1 : readField bytes data with
    | none => simp [h1] at h
    | some r1 =>
      obtain ⟨codeSize, data1⟩ := r1
      simp only [h1] at h
      cases h2 : readField bytes data1 with
      | none => simp [h2] at h
      | some r2 =>
        obtain ⟨code, data2⟩ := r2
        simp only [h2] at h
        by_cases c1 : code = 1
        · simp only [c1, if_true] at h
          have := ih _ _ _ h
          exact ⟨Decoded.trans (Decoded.refl _) this.1, this.2⟩
        · simp only [c1, if_false] at h
          by_cases c7 : code = 7
          · simp only [c7, if_true] at h
            cases h3 : READ_LE_UINT32 bytes data2 with
            | none => simp [h3] at h
            | some v =>
              simp only [h3, Option.map_some'] at h
              have := ih _ _ _ h
              exact ⟨Decoded.trans (Decoded.emit p Event.warning rfl) this.1, this.2⟩
          · simp only [c7, if_false] at h
            have := ih _ _ _ h
            exact ⟨Decoded.trans (Decoded.emit p Event.warning rfl) this.1, this.2⟩

theorem handleTOIL_decoded (bytes : List Nat) (data dataSize : Nat) (p p' : Player)
    (h : handleTOIL bytes data dataSize p = some p') :
    Decoded p p' ∧ p'._paletteChanged = p._paletteChanged := by
  unfold handleTOIL at h
  split at h
  · simp at h
  · split_ifs at h
    · exact toilLoop_decoded _ _ _ _ _ h
    · simp only [Option.some.injEq] at h
      subst h
      exact ⟨Decoded.of_eq _ _ rfl rfl rfl rfl rfl rfl, rfl⟩

theorem handleTag_decoded (cap : Nat) (bytes : List Nat) (data tag size : Nat) (p p' : Player)
    (h : handleTag cap bytes data tag size p = some p') :
    Decoded p p' ∧
      p'._paletteChanged = (p._paletteChanged || decide (tag = MKID_BE 'R' 'G' 'B' 'S')) := by
  unfold handleTag at h
  split_ifs at h with h1 h2 h3 h4 h5 h6 h7
  · have := handleFRAM_decoded _ _ _ _ h
    have hne : tag ≠ MKID_BE 'R' 'G' 'B' 'S' := by rw [h1]; decide
    simp [this, hne]
  · have := handleRATE_decoded _ _ _ _ h
    have hne : tag ≠ MKID_BE 'R' 'G' 'B' 'S' := by rw [h2]; decide
    simp [this, hne]
  · have := handleRGBS_decoded _ _ _ _ h
    simp [this, h3]
  · have := handleSNDE_decoded _ _ _ _ _ h
    simp [this, h3]
  · have := handleTOIL_decoded _ _ _ _ _ h
    simp [this, h3]
  · simp only [Option.some.injEq] at h
    subst h
    exact ⟨Decoded.of_eq _ _ rfl rfl rfl rfl rfl rfl, by simp [h3]⟩
  · have := handleSRLE_decoded _ _ _ _ h
    simp [this, h3]
  · simp only [Option.some.injEq] at h
    subst h
    exact ⟨Decoded.of_emit _ _ _ rfl rfl rfl rfl rfl rfl rfl, by simp [h3, Player.emit]⟩

theorem handleLZSS_decoded (bytes : List Nat) (data : Nat) (p p' : Player)
    (out : Option (List Nat)) (h : handleLZSS bytes data p = some (out, p')) :
    Decoded p p' ∧ p'._paletteChanged = p._paletteChanged := by
  unfold handleLZSS at h
  simp only at h
  repeat' split at h
  all_goals first
    | (simp only [Option.some.injEq, Prod.mk.injEq] at h
       obtain ⟨-, h⟩ := h
       subst h
       first
         | exact ⟨Decoded.of_eq _ _ rfl rfl rfl rfl rfl rfl, rfl⟩
         | exact ⟨Decoded.of_emit _ _ _ rfl rfl rfl rfl rfl rfl rfl, rfl⟩)
    | simp at h

theorem parseNextTag_decoded (cap : Nat) (bytes : List Nat) (data : Nat) (p p' : Player)
    (tag size : Nat) (h : parseNextTag cap bytes data p = some (tag, size, p')) :
    Decoded p p' ∧
      p'._paletteChanged =
        (p._paletteChanged || decide (handledTag bytes data p = some (MKID_BE 'R' 'G' 'B' 'S'))) ∧
      READ_BE_UINT32 bytes data = some tag ∧ READ_BE_UINT32 bytes (data + 4) = some size := by
  unfold parseNextTag at h
  cases ht : READ_BE_UINT32 bytes data with
  | none => simp [ht] at h
  | some t =>
    cases hs : READ_BE_UINT32 bytes (data + 4) with
    | none => simp [ht, hs] at h
    | some s =>
      simp only [ht, hs] at h
      by_cases hl : t = MKID_BE 'L' 'Z' 'S' 'S'
      · simp only [hl, if_true] at h
        cases hz : handleLZSS bytes (data + 8) p with
        | none => simp [hz] at h
        | some r =>
          obtain ⟨o, q⟩ := r
          have hq := handleLZSS_decoded _ _ _ _ _ hz
          cases o with
          | none =>
            simp only [hz, Option.some.injEq, Prod.mk.injEq] at h
            obtain ⟨rfl, rfl, rfl⟩ := h
            simp [handledTag, ht, hz, hq, hl]
          | some out =>
            simp only [hz] at h
            cases h0 : READ_BE_UINT32 out 0 with
            | none => simp [h0] at h
            | some t0 =>
              cases h4 : READ_BE_UINT32 out 4 with
              | none => simp [h0, h4] at h
              | some s0 =>
                simp only [h0, h4] at h
                split_ifs at h with hl0
                cases hh : handleTag cap out 8 t0 s0 q with
                | none => simp [hh] at h
                | some q' =>
                  simp only [hh, Option.map_some', Option.some.injEq, Prod.mk.injEq] at h
                  obtain ⟨rfl, rfl, rfl⟩ := h
                  have hq' := handleTag_decoded _ _ _ _ _ _ _ hh
                  refine ⟨Decoded.trans hq.1 hq'.1, ?_, hl.symm ▸ rfl, rfl⟩
                  rw [hq'.2, hq.2]
                  simp [handledTag, ht, hz, h0, hl]
      · simp only [hl, if_false] at h
        cases hh : handleTag cap bytes (data + 8) t s p with
        | none => simp [hh] at h
        | some q' =>
          simp only [hh, Option.map_some', Option.some.injEq, Prod.mk.injEq] at h
          obtain ⟨rfl, rfl, rfl⟩ := h
          have hq' := handleTag_decoded _ _ _ _ _ _ _ hh
          refine ⟨hq'.1, ?_, rfl, rfl⟩
          rw [hq'.2]
          simp [handledTag, ht, hl]

/-! ## One round of `play` -/

theorem parseNextTag_blok (cap : Nat) (bytes : List Nat) (data : Nat) (p : Player) (size : Nat)
    (htag : READ_BE_UINT32 bytes data = some (MKID_BE 'B' 'L' 'O' 'K'))
    (hsize : READ_BE_UINT32 bytes (data + 4) = some size) :
    parseNextTag cap bytes data p = some (MKID_BE 'B' 'L' 'O' 'K', size, p) := by
  have h1 : MKID_BE 'B' 'L' 'O' 'K' ≠ MKID_BE 'L' 'Z' 'S' 'S' := by decide
  have h2 : MKID_BE 'B' 'L' 'O' 'K' ≠ MKID_BE 'F' 'R' 'A' 'M' := by decide
  have h3 : MKID_BE 'B' 'L' 'O' 'K' ≠ MKID_BE 'R' 'A' 'T' 'E' := by decide
  have h4 : MKID_BE 'B' 'L' 'O' 'K' ≠ MKID_BE 'R' 'G' 'B' 'S' := by decide
  have h5 : MKID_BE 'B' 'L' 'O' 'K' ≠ MKID_BE 'S' 'N' 'D' 'E' := by decide
  have h6 : MKID_BE 'B' 'L' 'O' 'K' ≠ MKID_BE 'T' 'O' 'I' 'L' := by decide
  simp only [parseNextTag, htag, hsize, handleTag, if_neg h1, if_neg h2, if_neg h3, if_neg h4,
    if_neg h5, if_neg h6, if_true, Option.map_some']

theorem parseNextTag_other (cap : Nat) (bytes : List Nat) (data : Nat) (p : Player)
    (tag size : Nat) (htag : READ_BE_UINT32 bytes data = some tag)
    (hsize : READ_BE_UINT32 bytes (data + 4) = some size)
    (hunk : tag ∉ [MKID_BE 'F' 'R' 'A' 'M', MKID_BE 'L' 'Z' 'S' 'S', MKID_BE 'R' 'A' 'T' 'E',
      MKID_BE 'R' 'G' 'B' 'S', MKID_BE 'S' 'N' 'D' 'E', MKID_BE 'T' 'O' 'I' 'L',
      MKID_BE 'B' 'L' 'O' 'K', MKID_BE 'S' 'R' 'L' 'E']) :
    parseNextTag cap bytes data p = some (tag, size, p.emit Event.warning) := by
  simp only [List.mem_cons, List.mem_singleton, not_or, List.not_mem_nil, or_false] at hunk
  obtain ⟨h1, h2, h3, h4, h5, h6, h7, h8⟩ := hunk
  simp only [parseNextTag, htag, hsize, handleTag, if_neg h1, if_neg h2, if_neg h3, if_neg h4,
    if_neg h5, if_neg h6, if_neg h7, if_neg h8, Option.map_some']

theorem playBlok_eq (w : World) (ticks : Int) (p : Player) (evs : List Event)
    (hsfx : sfxLoop p._sfxQueue p._sfxCount p._sfxBuffer p._sfxQueuePos 0
      (w.isSoundHandleActive (p.calls + 1)) = some evs) :
    playBlok w ticks p = some (toInt32 (w.getMillis (p.calls + 3)),
      { p with
        calls := p.calls + 4
        _sfxQueuePos := 0
        _paletteChanged := false
        _quit := p._quit || w.parseEvents (p.calls + 2)
        trace := p.trace ++
          [Event.delayMillis (blokDelay p._playbackRate (toInt32 (w.getMillis p.calls - ticks)))]
          ++ evs ++ (if p._paletteChanged then [Event.setPalette] else [])
          ++ [Event.updateScreen, Event.parseEvents] }) := by
  cases hpal : p._paletteChanged <;>
    simp [playBlok, updateSfx, updateScreen, Player.emit, hsfx, hpal]

theorem playBody_blok (w : World) (cap : Nat) (ticks : Int) (p : Player) (bytes : List Nat)
    (size : Nat) (evs : List Event) (hchunk : p.chunk = some bytes)
    (htag : READ_BE_UINT32 bytes p._currentChunkData = some (MKID_BE 'B' 'L' 'O' 'K'))
    (hsize : READ_BE_UINT32 bytes (p._currentChunkData + 4) = some size)
    (hsfx : sfxLoop p._sfxQueue p._sfxCount p._sfxBuffer p._sfxQueuePos 0
      (w.isSoundHandleActive (p.calls + 1)) = some evs) :
    playBody w cap ticks p = some (toInt32 (w.getMillis (p.calls + 3)),
      { p with
        calls := p.calls + 4
        _sfxQueuePos := 0
        _paletteChanged := false
        _quit := p._quit || w.parseEvents (p.calls + 2)
        _currentChunkData := p._currentChunkData + 8
        _currentChunkSize := sub32 p._currentChunkSize 8
        trace := p.trace ++
          [Event.delayMillis (blokDelay p._playbackRate (toInt32 (w.getMillis p.calls - ticks)))]
          ++ evs ++ (if p._paletteChanged then [Event.setPalette] else [])
          ++ [Event.updateScreen, Event.parseEvents] }) := by
  simp only [playBody, hchunk, parseNextTag_blok cap bytes _ p size htag hsize, if_true,
    playBlok_eq w ticks p evs hsfx, advance]

theorem playBody_other (w : World) (cap : Nat) (ticks : Int) (p q : Player) (bytes : List Nat)
    (tag size : Nat) (hchunk : p.chunk = some bytes)
    (hparse : parseNextTag cap bytes p._currentChunkData p = some (tag, size, q))
    (htag : tag ≠ MKID_BE 'B' 'L' 'O' 'K') :
    playBody w cap ticks p = some (ticks, advance size q) := by
  simp only [playBody, hchunk, hparse, if_neg htag]

theorem isSfx_ne_present (e : Event) (h : e.isSfx = true) :
    (∀ m, e ≠ Event.delayMillis m) ∧ e ≠ Event.updateScreen ∧ e ≠ Event.setPalette := by
  cases e <;> simp [Event.isSfx] at h ⊢

theorem isDecode_ne_present (e : Event) (h : e.isDecode = true) :
    (∀ m, e ≠ Event.delayMillis m) ∧ e ≠ Event.updateScreen ∧ e ≠ Event.setPalette := by
  cases e <;> simp [Event.isDecode] at h ⊢

/-- C28. For a chunk at the cursor of `play` whose tag is none of `FRAM`,
`LZSS`, `RATE`, `RGBS`, `SNDE`, `TOIL`, `BLOK`, `SRLE`, `parseNextTag` calls
`warning` and changes no field of the player, and the round of `play` moves
the cursor forward by the size declared in the chunk header and takes that
size off the remaining size (in `uint32`), so that the next round parses the
chunk that follows. -/
theorem playBody_unknown_tag (w : World) (cap : Nat) (ticks : Int) (p : Player)
    (bytes : List Nat) (tag size : Nat) (hchunk : p.chunk = some bytes)
    (htag : READ_BE_UINT32 bytes p._currentChunkData = some tag)
    (hsize : READ_BE_UINT32 bytes (p._currentChunkData + 4) = some size)
    (hunk : tag ∉ [MKID_BE 'F' 'R' 'A' 'M', MKID_BE 'L' 'Z' 'S' 'S', MKID_BE 'R' 'A' 'T' 'E',
      MKID_BE 'R' 'G' 'B' 'S', MKID_BE 'S' 'N' 'D' 'E', MKID_BE 'T' 'O' 'I' 'L',
      MKID_BE 'B' 'L' 'O' 'K', MKID_BE 'S' 'R' 'L' 'E']) :
    parseNextTag cap bytes p._currentChunkData p =
        some (tag, size, { p with trace := p.trace ++ [Event.warning] }) ∧
      playBody w cap ticks p = some (ticks,
        { p with
          trace := p.trace ++ [Event.warning]
          _currentChunkData := p._currentChunkData + size
          _currentChunkSize := sub32 p._currentChunkSize size }) := by
  have hparse := parseNextTag_other cap bytes _ p tag size htag hsize hunk
  have hne : tag ≠ MKID_BE 'B' 'L' 'O' 'K' := by
    intro h
    apply hunk
    simp [h]
  exact ⟨hparse, by rw [playBody_other w cap ticks p _ bytes tag size hchunk hparse hne]; rfl⟩

/-- C28 at a concrete input: a chunk `JUNK` of 12 bytes in front of 8 more
bytes. -/
theorem playBody_unknown_tag_witness :
    parseNextTag 16 (tagBytes 'J' 'U' 'N' 'K' ++ uint32BE 12 ++ [1, 2, 3, 4]) 0
        { idlePlayer with
          chunk := some (tagBytes 'J' 'U' 'N' 'K' ++ uint32BE 12 ++ [1, 2, 3, 4])
          _currentChunkSize := 20 } =
        some (MKID_BE 'J' 'U' 'N' 'K', 12,
          { idlePlayer with
            chunk := some (tagBytes 'J' 'U' 'N' 'K' ++ uint32BE 12 ++ [1, 2, 3, 4])
            _currentChunkSize := 20
            trace := [] ++ [Event.warning] }) ∧
      playBody exampleWorld 16 0
        { idlePlayer with
          chunk := some (tagBytes 'J' 'U' 'N' 'K' ++ uint32BE 12 ++ [1, 2, 3, 4])
          _currentChunkSize := 20 } =
        some (0,
          { idlePlayer with
            chunk := some (tagBytes 'J' 'U' 'N' 'K' ++ uint32BE 12 ++ [1, 2, 3, 4])
            trace := [] ++ [Event.warning]
            _currentChunkData := 0 + 12
            _currentChunkSize := sub32 20 12 }) :=
  playBody_unknown_tag exampleWorld 16 0
    { idlePlayer with
      chunk := some (tagBytes 'J' 'U' 'N' 'K' ++ uint32BE 12 ++ [1, 2, 3, 4])
      _currentChunkSize := 20 }
    (tagBytes 'J' 'U' 'N' 'K' ++ uint32BE 12 ++ [1, 2, 3, 4]) (MKID_BE 'J' 'U' 'N' 'K') 12 rfl
    (by decide) (by decide) (by decide)

set_option maxRecDepth 100000 in
/-- C26. Playing `exampleFile` (header `HEAD`, `RGBS`; `DATA` of two frames
`BLOK`, `RATE`, `BLOK`; no quit) makes two `updateScreen` calls and one
`setPalette` call, at the first `BLOK`, after which `_paletteChanged` is
false.  In general a round of `play` on a `BLOK` chunk calls `updateScreen`
exactly once, calls `setPalette` (once, before it) exactly when
`_paletteChanged` is set and leaves the flag clear; a round on another chunk
calls neither, and leaves the flag set exactly when it was set or the chunk
handled is a `RGBS` chunk. -/
theorem play_presents (w : World) (cap : Nat) (ticks : Int) (p : Player) (bytes : List Nat)
    (hchunk : p.chunk = some bytes) :
    (((Player.open (some exampleFile) idlePlayer).bind
          (fun r => play exampleWorld 16 4 r.2)).map (fun q => q.trace) =
        some [Event.malloc 307200, Event.malloc 6, Event.malloc 768,
          Event.delayMillis 56, Event.setPalette, Event.updateScreen, Event.parseEvents,
          Event.delayMillis 2990, Event.updateScreen, Event.parseEvents] ∧
      ((Player.open (some exampleFile) idlePlayer).bind
          (fun r => playBody exampleWorld 16 1000 { r.2 with calls := 1 })).map
          (fun x => (x.2.trace, x.2._paletteChanged)) =
        some ([Event.malloc 307200, Event.malloc 6, Event.malloc 768,
          Event.delayMillis 56, Event.setPalette, Event.updateScreen, Event.parseEvents],
          false)) ∧
      (∀ size evs, READ_BE_UINT32 bytes p._currentChunkData = some (MKID_BE 'B' 'L' 'O' 'K') →
        READ_BE_UINT32 bytes (p._currentChunkData + 4) = some size →
        sfxLoop p._sfxQueue p._sfxCount p._sfxBuffer p._sfxQueuePos 0
          (w.isSoundHandleActive (p.calls + 1)) = some evs →
        ∃ t' p' d, playBody w cap ticks p = some (t', p') ∧
          p'.trace = p.trace ++ Event.delayMillis d :: evs ++
            (if p._paletteChanged = true then [Event.setPalette] else []) ++
            [Event.updateScreen, Event.parseEvents] ∧
          (∀ e ∈ evs, e ≠ Event.updateScreen ∧ e ≠ Event.setPalette) ∧
          p'._paletteChanged = false) ∧
      (∀ tag size q, parseNextTag cap bytes p._currentChunkData p = some (tag, size, q) →
        tag ≠ MKID_BE 'B' 'L' 'O' 'K' →
        ∃ p' evs, playBody w cap ticks p = some (ticks, p') ∧
          p'.trace = p.trace ++ evs ∧
          (∀ e ∈ evs, e ≠ Event.updateScreen ∧ e ≠ Event.setPalette) ∧
          p'._paletteChanged =
            (p._paletteChanged ||
              decide (handledTag bytes p._currentChunkData p = some (MKID_BE 'R' 'G' 'B' 'S')))) := by
  refine ⟨by decide, ?_, ?_⟩
  · intro size evs htag hsize hsfx
    refine ⟨_, _, blokDelay p._playbackRate (toInt32 (w.getMillis p.calls - ticks)),
      playBody_blok w cap ticks p bytes size evs hchunk htag hsize hsfx, ?_, ?_, rfl⟩
    · simp
    · intro e he
      exact (isSfx_ne_present e (sfxLoop_isSfx _ _ _ _ _ _ _ hsfx e he)).2
  · intro tag size q hparse hne
    obtain ⟨⟨⟨evs, htr, hev⟩, -⟩, hpal, -, -⟩ :=
      parseNextTag_decoded cap bytes _ p q tag size hparse
    refine ⟨advance size q, evs, playBody_other w cap ticks p q bytes tag size hchunk hparse hne,
      htr, fun e he => (isDecode_ne_present e (hev e he)).2, hpal⟩

/-- C26 at a concrete input: the first round of the play of `exampleFile`,
on its first `BLOK`, with the palette flag set by the `RGBS` of the header. -/
theorem play_presents_witness :
    ∃ t' p' d,
      playBody exampleWorld 16 1000
          { idlePlayer with
            chunk := some exampleData, _currentChunkSize := 26, _paletteChanged := true
            _playbackRate := 66, calls := 1 } = some (t', p') ∧
        p'.trace = [] ++ Event.delayMillis d :: [] ++
          (if true = true then [Event.setPalette] else []) ++
          [Event.updateScreen, Event.parseEvents] ∧
        (∀ e ∈ ([] : List Event), e ≠ Event.updateScreen ∧ e ≠ Event.setPalette) ∧
        p'._paletteChanged = false :=
  (play_presents exampleWorld 16 1000
    { idlePlayer with
      chunk := some exampleData, _currentChunkSize := 26, _paletteChanged := true
      _playbackRate := 66, calls := 1 } exampleData rfl).2.1 26 [] (by decide) (by decide) rfl

/-! ## Opening -/

theorem handleHEAD_fd (bytes : List Nat) (data : Nat) (p p' : Player)
    (h : handleHEAD bytes data p = some p') : p'._fd = p._fd := by
  unfold handleHEAD at h
  split at h
  · simp only [Option.some.injEq] at h
    rw [← h]
  · simp at h

theorem handleSFXB_fd (bytes : List Nat) (data dataSize : Nat) (p p' : Player)
    (h : handleSFXB bytes data dataSize p = some p') : p'._fd = p._fd := by
  unfold handleSFXB at h
  simp only at h
  repeat' split at h
  all_goals first
    | (simp only [Option.some.injEq] at h
       subst h
       rfl)
    | simp at h

theorem headerRounds_pos (p : Player) : 1 ≤ headerRounds p := by
  unfold headerRounds
  split
  · exact le_refl _
  · split_ifs <;> omega

theorem loadNextChunk_rounds (p p1 : Player) (tag : Nat)
    (hok : (p._fd.map File.ioFailed) ≠ some true)
    (h : loadNextChunk p = some (tag, p1)) : headerRounds p1 + 1 ≤ headerRounds p := by
  unfold loadNextChunk at h
  cases hf : p._fd with
  | none => simp [hf] at h
  | some f =>
    have hio : f.ioFailed = false := by
      cases hb : f.ioFailed with
      | false => rfl
      | true => simp [hf, hb] at hok
    simp only [hf] at h
    have hp : headerRounds p = f.bytes.length - f.pos + 2 := by
      simp [headerRounds, hf, hio]
    rw [hp]
    split at h
    · simp only [Option.some.injEq, Prod.mk.injEq] at h
      obtain ⟨-, h⟩ := h
      have h1 : p1._fd = some (f.readUint32BE.2.readUint32BE).2 := by
        rw [← h]
        split_ifs <;> rfl
      simp only [headerRounds, h1, File.readUint32BE, hio, Bool.false_or]
      split_ifs
      all_goals first | omega | (simp_all; done) | (simp_all; omega)
    · simp only [Option.some.injEq, Prod.mk.injEq] at h
      obtain ⟨-, h⟩ := h
      rw [← h]
      simp only [headerRounds, File.readUint32BE, File.read, hio, Bool.false_or]
      split_ifs
      all_goals first | omega | (simp_all; done) | (simp_all; omega)

theorem headerLoop_fuel (fuel : Nat) :
    ∀ p : Player, headerRounds p ≤ fuel → headerLoop (fuel + 1) p = headerLoop fuel p := by
  induction fuel with
  | zero =>
    intro p h
    have := headerRounds_pos p
    omega
  | succ fuel ih =>
    intro p h
    rw [headerLoop, headerLoop]
    split_ifs with hc
    · cases hl : loadNextChunk p with
      | none => rfl
      | some r =>
        obtain ⟨tag, p1⟩ := r
        have h1 := loadNextChunk_rounds p p1 tag hc.2.2 hl
        simp only
        generalize hd : (if tag = MKID_BE 'H' 'E' 'A' 'D' then
            handleHEAD (p1.chunk.getD []) p1._currentChunkData p1
          else if tag = MKID_BE 'S' 'F' 'X' 'B' then
            handleSFXB (p1.chunk.getD []) p1._currentChunkData p1._currentChunkSize p1
          else if tag = MKID_BE 'R' 'G' 'B' 'S' then
            handleRGBS (p1.chunk.getD []) p1._currentChunkData p1
          else if tag = MKID_BE 'D' 'A' 'T' 'A' then
            some { p1 with _dataSize := p1._currentChunkSize }
          else some (p1.emit Event.warning)) = d
        cases d with
        | none => rfl
        | some p2 =>
          have hfd : p2._fd = p1._fd := by
            split_ifs at hd
            · exact handleHEAD_fd _ _ _ _ hd
            · exact handleSFXB_fd _ _ _ _ _ hd
            · exact (handleRGBS_decoded _ _ _ _ hd).1.2.2.2.2.2
            · simp only [Option.some.injEq] at hd
              rw [← hd]
            · simp only [Option.some.injEq] at hd
              rw [← hd]
              rfl
          have h2 : headerRounds p2 = headerRounds p1 := by
            simp only [headerRounds, hfd]
          exact ih p2 (by omega)
    · rfl

theorem headerLoop_stable (extra : Nat) (p : Player) :
    headerLoop (headerRounds p + extra) p = headerLoop (headerRounds p) p := by
  induction extra with
  | zero => rfl
  | succ n ih =>
    rw [← ih, ← Nat.add_assoc]
    exact headerLoop_fuel _ p (by omega)

theorem tag_BEAN (bytes : List Nat) (hbytes : ∀ b ∈ bytes, b < 256) :
    (File.readUint32BE ⟨bytes, 0, false⟩).1 = MKID_BE 'B' 'E' 'A' 'N' ↔
      bytes.take 4 = tagBytes 'B' 'E' 'A' 'N' := by
  have hB : MKID_BE 'B' 'E' 'A' 'N' = 1111834958 := by decide
  have hT : tagBytes 'B' 'E' 'A' 'N' = [66, 69, 65, 78] := by decide
  rw [hB, hT]
  match bytes, hbytes with
  | [], _ => simp [File.readUint32BE]
  | [a], h =>
    have := h a (by simp)
    simp [File.readUint32BE]
    omega
  | [a, b], h =>
    have := h a (by simp)
    have := h b (by simp)
    simp [File.readUint32BE]
    omega
  | [a, b, c], h =>
    have := h a (by simp)
    have := h b (by simp)
    have := h c (by simp)
    simp [File.readUint32BE]
    omega
  | a :: b :: c :: d :: rest, h =>
    have := h a (by simp)
    have := h b (by simp)
    have := h c (by simp)
    have := h d (by simp)
    simp [File.readUint32BE]
    omega

set_option maxRecDepth 100000 in
/-- C27. `open` returns true exactly when the file opens, the first four
bytes read big-endian are the tag `BEAN` and the header scan that follows has
a result, which it has for `exampleFile`; the scan does not stop for lack of
rounds.  When the file does not open the player is left as it was; when the
tag is another one, `open` returns false and the player is left as it was but
for the stream `_fd`, which is open with the two words of the container header
read: no field of the decoder is set, nothing is allocated (no call is
recorded) and no chunk is loaded. -/
theorem open_tag (file : Option (List Nat)) (p : Player) :
    (∀ p', Player.open file p = some (true, p') ↔
        ∃ bytes, file = some bytes ∧
          (File.readUint32BE ⟨bytes, 0, false⟩).1 = MKID_BE 'B' 'E' 'A' 'N' ∧
          parseHeaderTags (openInit { p with
            _fd := some (File.readUint32BE (File.readUint32BE ⟨bytes, 0, false⟩).2).2 }) =
            some p') ∧
      (∀ bytes, (∀ b ∈ bytes, b < 256) →
        ((File.readUint32BE ⟨bytes, 0, false⟩).1 = MKID_BE 'B' 'E' 'A' 'N' ↔
          bytes.take 4 = tagBytes 'B' 'E' 'A' 'N')) ∧
      (file = none → Player.open file p = some (false, p)) ∧
      (∀ bytes, file = some bytes →
        (File.readUint32BE ⟨bytes, 0, false⟩).1 ≠ MKID_BE 'B' 'E' 'A' 'N' →
        Player.open file p = some (false, { p with
          _fd := some (File.readUint32BE (File.readUint32BE ⟨bytes, 0, false⟩).2).2 })) ∧
      (∀ (q : Player) (extra : Nat),
        headerLoop (headerRounds q + extra) q = headerLoop (headerRounds q) q) ∧
      (Player.open (some exampleFile) idlePlayer).map
          (fun r => (r.1, r.2._playbackRate, r.2._width, r.2._height, r.2._dataSize)) =
        some (true, 66, 640, 480, 26) := by
  refine ⟨fun p' => ?_, tag_BEAN, ?_, ?_, fun q extra => headerLoop_stable extra q, by decide⟩
  · cases file with
    | none => simp [Player.open]
    | some bytes =>
      by_cases ht : (File.readUint32BE ⟨bytes, 0, false⟩).1 = MKID_BE 'B' 'E' 'A' 'N'
      · simp only [Player.open, ht, if_true, Option.some.injEq, true_and, exists_eq_left']
        cases hh : parseHeaderTags (openInit { p with
            _fd := some (File.readUint32BE (File.readUint32BE ⟨bytes, 0, false⟩).2).2 }) with
        | none => simp
        | some q => simp
      · simp [Player.open, ht]
  · intro h
    rw [h]
    rfl
  · intro bytes h ht
    rw [h]
    simp only [Player.open, ht, if_false]

/-- C27 at a concrete input: a file that starts with `BEAM`. -/
theorem open_tag_witness :
    Player.open (some [0x42, 0x45, 0x41, 0x4D, 0, 0, 0, 8]) idlePlayer =
      some (false, { idlePlayer with
        _fd := some (File.readUint32BE
          (File.readUint32BE ⟨[0x42, 0x45, 0x41, 0x4D, 0, 0, 0, 8], 0, false⟩).2).2 }) :=
  (open_tag (some [0x42, 0x45, 0x41, 0x4D, 0, 0, 0, 8]) idlePlayer).2.2.2.1
    [0x42, 0x45, 0x41, 0x4D, 0, 0, 0, 8] rfl (by decide)

/-! ## Playback of a cue -/

/-- C31 fails as stated: with one voice, inactive, and a `DATA` chunk whose
payload stands at the offset of its sound, a cue for voice 1 whose flags have
bit `0x8000` clear starts nothing: `warning` is called and the round goes on
to the next cue.  With the bit set the payload is played; and with the bit
set and the `DATA` tag standing at the indexed offset itself, not 8 bytes
before it, nothing is played. -/
theorem playCue_counterexample :
    (playCue 1 (some exampleSfx) (fun _ => false) ⟨0, 1, 0⟩).map (fun r => r.2) =
        some [Event.warning] ∧
      (playCue 1 (some exampleSfx) (fun _ => false) ⟨0, 1, 0x8000⟩).map (fun r => r.2) =
        some [Event.playRaw 0 12 2] ∧
      READ_LE_UINT32 exampleSfxTagAt 0 = some 8 ∧
      READ_BE_UINT32 exampleSfxTagAt 8 = some (MKID_BE 'D' 'A' 'T' 'A') ∧
      (playCue 1 (some exampleSfxTagAt) (fun _ => false) ⟨0, 1, 0x8000⟩).map (fun r => r.2) =
        some [] := by
  decide

/-- C31, amended. For a cue resolved to the voice `index` (within the voice
count): when the voice is inactive or the mode has bit 2 set, and the flags
have bit `0x8000` set, the entry `o` of the voice in the offset table is read
and, with a `DATA` tag at `o - 8`, `playRaw` is called for that voice on the
bytes behind the 8-byte header of that chunk, `size - 8` of them, the voice
playing from then on; without a `DATA` tag nothing is played.  With bit
`0x8000` of the flags clear there is a `warning` and nothing is played.  When
the voice is active and bit 2 of the mode is clear nothing is played.  After
`updateSfx` the queue is empty. -/
theorem playCue_plays (_sfxCount : Int) (buf : List Nat) (isActive : Int → Bool)
    (sfx : CUP_Sfx) (index : Int)
    (hres : resolveVoice isActive _sfxCount sfx = some index)
    (hidx : 0 ≤ index ∧ index < _sfxCount) :
    (isActive index = false ∨ sfx.mode &&& 2 ≠ 0 → sfx.flags &&& 0x8000 ≠ 0 →
        ∀ o t, READ_LE_UINT32 buf (index.toNat * 4) = some o →
          READ_BE_UINT32 buf (sub32 o 8) = some t →
          (t = MKID_BE 'D' 'A' 'T' 'A' → ∀ soundSize,
            READ_BE_UINT32 buf (sub32 o 8 + 4) = some soundSize →
            playCue _sfxCount (some buf) isActive sfx =
              some (fun i => decide (i = index) || isActive i,
                [Event.playRaw index (sub32 o 8 + 8) (sub32 soundSize 8)])) ∧
          (t ≠ MKID_BE 'D' 'A' 'T' 'A' →
            playCue _sfxCount (some buf) isActive sfx = some (isActive, []))) ∧
      (isActive index = false ∨ sfx.mode &&& 2 ≠ 0 → sfx.flags &&& 0x8000 = 0 →
        playCue _sfxCount (some buf) isActive sfx = some (isActive, [Event.warning])) ∧
      (isActive index = true → sfx.mode &&& 2 = 0 →
        playCue _sfxCount (some buf) isActive sfx = some (isActive, [])) ∧
      (∀ (p p' : Player) (a : Int → Bool), updateSfx a p = some p' → p'._sfxQueuePos = 0) := by
  have hge : index ≥ 0 ∧ index < _sfxCount := hidx
  refine ⟨fun hplay hflag o t ho ht => ⟨fun hdata soundSize hs => ?_, fun hdata => ?_⟩,
    fun hplay hflag => ?_, fun hact hmode => ?_, fun p p' a h => updateSfx_pos a p p' h⟩
  · simp only [playCue, hres, hge, and_self, if_true, hplay, hflag, if_false, ho, ht, hdata, hs]
  · simp only [playCue, hres, hge, and_self, if_true, hplay, hflag, if_false, ho, ht, hdata]
  · simp only [playCue, hres, hge, and_self, if_true, hplay, hflag]
  · have hno : ¬ (isActive index = false ∨ sfx.mode &&& 2 ≠ 0) := by
      simp [hact, hmode]
    simp only [playCue, hres, hge, and_self, if_true, hno, if_false]

/-- C31, amended, at a concrete input: the cue for voice 1 with flags
`0x8000` on `exampleSfx`, the voice being inactive. -/
theorem playCue_plays_witness :
    playCue 1 (some exampleSfx) (fun _ => false) ⟨0, 1, 0x8000⟩ =
      some (fun i => decide (i = 0) || (fun _ => false) i,
        [Event.playRaw 0 (sub32 12 8 + 8) (sub32 10 8)]) :=
  ((playCue_plays 1 exampleSfx (fun _ => false) ⟨0, 1, 0x8000⟩ 0 (by decide) (by decide)).1
    (Or.inl rfl) (by decide) 12 (MKID_BE 'D' 'A' 'T' 'A') (by decide) (by decide)).1 rfl 10
    (by decide)

/-! ## `TOIL` -/

theorem toilLoop_entries (bytes : List Nat) (n : Nat) :
    ∀ (data : Nat) (p : Player),
      toilLoop bytes n data p =
        (toilEntries bytes n data).map (fun es =>
          { p with
            _quit := p._quit || es.any (fun en => decide (en.2 = 1))
            trace := p.trace ++
              List.replicate (es.countP (fun en => decide (en.2 ≠ 1))) Event.warning }) := by
  induction n with
  | zero =>
    intro data p
    simp [toilLoop, toilEntries]
  | succ n ih =>
    intro data p
    rw [toilLoop, toilEntries]
    cases h1 : readField bytes data with
    | none => simp
    | some r1 =>
      obtain ⟨codeSize, d1⟩ := r1
      cases h2 : readField bytes d1 with
      | none => simp [h2]
      | some r2 =>
        obtain ⟨code, d2⟩ := r2
        simp only [h2]
        by_cases c1 : code = 1
        · subst c1
          simp only [if_true, ih]
          have h7 : ¬ ((1 : Nat) = 7 ∧ READ_LE_UINT32 bytes d2 = none) := by simp
          rw [if_neg h7]
          cases toilEntries bytes n (d2 + codeSize) with
          | none => rfl
          | some es => simp
        · simp only [c1, if_false]
          by_cases c7 : code = 7
          · subst c7
            cases h3 : READ_LE_UINT32 bytes d2 with
            | none => simp
            | some v =>
              simp only [if_true, Option.map_some', ih, Player.emit]
              cases toilEntries bytes n (d2 + codeSize) with
              | none => simp
              | some es =>
                simp [List.replicate_succ, List.countP_cons]
          · simp only [c7, if_false, false_and, ih, Player.emit]
            cases toilEntries bytes n (d2 + codeSize) with
            | none => simp
            | some es =>
              simp [c1, List.replicate_succ, List.countP_cons]

theorem toilEntries_length (bytes : List Nat) (n : Nat) :
    ∀ (data : Nat) (es : List (Nat × Nat)), toilEntries bytes n data = some es →
      es.length = n := by
  induction n with
  | zero =>
    intro data es h
    simp [toilEntries] at h
    subst h
    rfl
  | succ n ih =>
    intro data es h
    rw [toilEntries] at h
    cases h1 : readField bytes data with
    | none => simp [h1] at h
    | some r1 =>
      obtain ⟨codeSize, d1⟩ := r1
      cases h2 : readField bytes d1 with
      | none => simp [h1, h2] at h
      | some r2 =>
        obtain ⟨code, d2⟩ := r2
        simp only [h1, h2] at h
        split_ifs at h
        cases h3 : toilEntries bytes n (d2 + codeSize) with
        | none => simp [h3] at h
        | some es' =>
          simp only [h3, Option.map_some', Option.some.injEq] at h
          subst h
          simp [ih _ _ h3]

/-- C32. `handleTOIL` with a chunk size that is not 0 visits the entries one
behind the other, each skipped by its declared size, exactly `codesCount` of
them; an entry of code 1 sets `_vm->_quit` and an entry of any other code,
the pause code 7 included, calls `warning` and changes no field of the
player.  After the call the quit flag is set exactly when it was set before
or one of the entries has code 1, and nothing else has changed.  The size and
the code of an entry are each one byte, or a zero byte followed by a
little-endian 16-bit value. -/
theorem handleTOIL_quit (bytes : List Nat) (data dataSize codesCount : Nat) (p : Player)
    (hcount : READ_LE_UINT16 bytes data = some codesCount) (hsize : 0 < dataSize) :
    handleTOIL bytes data dataSize p =
        (toilEntries bytes codesCount (data + 2)).map (fun es =>
          { p with
            _quit := p._quit || es.any (fun en => decide (en.2 = 1))
            trace := p.trace ++
              List.replicate (es.countP (fun en => decide (en.2 ≠ 1))) Event.warning }) ∧
      (∀ es, toilEntries bytes codesCount (data + 2) = some es → es.length = codesCount) ∧
      (∀ (n d codeSize d1 code d2 : Nat) (q : Player),
        readField bytes d = some (codeSize, d1) → readField bytes d1 = some (code, d2) →
        (code = 7 → READ_LE_UINT32 bytes d2 ≠ none) →
        toilLoop bytes (n + 1) d q =
          toilLoop bytes n (d2 + codeSize)
            (if code = 1 then { q with _quit := true }
              else { q with trace := q.trace ++ [Event.warning] })) ∧
      (∀ d b, bytes[d]? = some b →
        readField bytes d =
          if b = 0 then (READ_LE_UINT16 bytes (d + 1)).map (fun v => (v, d + 3))
          else some (b, d + 1)) := by
  refine ⟨?_, fun es h => toilEntries_length bytes codesCount _ es h, ?_, ?_⟩
  · simp only [handleTOIL, hcount, gt_iff_lt, hsize, if_true, toilLoop_entries]
  · intro n d codeSize d1 code d2 q h1 h2 h7
    rw [toilLoop]
    simp only [h1, h2]
    by_cases c1 : code = 1
    · simp only [c1, if_true]
    · simp only [c1, if_false]
      by_cases c7 : code = 7
      · simp only [c7, if_true]
        cases h3 : READ_LE_UINT32 bytes d2 with
        | none => exact absurd h3 (h7 c7)
        | some v => simp [Player.emit]
      · simp [c7, Player.emit]
  · intro d b hb
    simp only [readField, hb]

/-- C32 at a concrete input: `exampleToil`, a pause and a quit. -/
theorem handleTOIL_quit_witness :
    handleTOIL exampleToil 0 20 idlePlayer =
        (toilEntries exampleToil 2 (0 + 2)).map (fun es =>
          { idlePlayer with
            _quit := idlePlayer._quit || es.any (fun en => decide (en.2 = 1))
            trace := idlePlayer.trace ++
              List.replicate (es.countP (fun en => decide (en.2 ≠ 1))) Event.warning }) ∧
      toilEntries exampleToil 2 2 = some [(4, 7), (0, 1)] :=
  ⟨(handleTOIL_quit exampleToil 0 20 2 idlePlayer (by decide) (by decide)).1, by decide⟩

/-! ## The loop of `play` -/

theorem totalAdvance_take_drop (cs : List (Nat × Nat)) : ∀ k,
    totalAdvance (cs.take k) + totalAdvance (cs.drop k) = totalAdvance cs := by
  induction cs with
  | nil => intro k; simp [totalAdvance]
  | cons c cs ih =>
    intro k
    cases k with
    | zero => simp [totalAdvance]
    | succ k =>
      simp only [List.take_succ_cons, List.drop_succ_cons, totalAdvance]
      have := ih k
      omega

end CUP
